import Mathlib

/-!
Verification of the PandaChess UCI engine core against its specification.

This file gives a shallow embedding of the engine (board representation,
Zobrist hashing, FEN input and output, move generation, evaluation,
transposition table, search helpers, quiescence, negamax and the UCI
time management) as executable Lean definitions, translated from the
C++ sources, and proves or refutes the specification claims about them.

Machine integers are modelled as Nat (bitboards are 64-bit words, so
shifts are reduced modulo 2 to the 64) and as Int where the C++ code
uses signed int.  Division on Int uses Int.tdiv, which truncates toward
zero exactly as C++ division does.

The headers types.h, move.h and bitboard.h of the repository are not in
the source snapshot; the primitive definitions that would live there
(square and move encodings, popcount, lsb, pop-lsb, file and rank masks)
are modelled from the specification, section 3, and are marked as such.
-/

namespace Panda

/-! ## Bit utilities (modelled from the spec, section 2 and 3: bitboard.h is absent) -/

/-- Bitboards are 64-bit words, one bit per square. -/
abbrev Bitboard := Nat

/-- Squares are integers 0..63, A1 = 0, H8 = 63; 64 is the NoSquare sentinel. -/
abbrev Square := Nat

/-- Colors: White = 0, Black = 1. -/
abbrev Color := Nat

/-- Pieces 0..11 in the order P N B R Q K p n b r q k; 12 is the NoPiece sentinel. -/
abbrev Piece := Nat

/-- Modelled from the spec: the all-ones 64-bit word. -/
def MASK64 : Nat := 2 ^ 64 - 1

/-- Modelled from the spec: left shift of a 64-bit word, dropping overflowing bits
as the C++ shift on uint64_t does. -/
def shl64 (x n : Nat) : Nat := (x <<< n) % 2 ^ 64

/-- Modelled from the spec: bitwise complement of a 64-bit word. -/
def bnot64 (x : Nat) : Nat := MASK64 ^^^ x

/-- Modelled from the spec: file of a square is s mod 8. -/
def square_file (s : Square) : Nat := s % 8

/-- Modelled from the spec: rank of a square is s div 8. -/
def square_rank (s : Square) : Nat := s / 8

/-- Modelled from the spec: square from file and rank. -/
def make_square (f r : Nat) : Square := r * 8 + f

/-- Modelled from the spec: single-bit bitboard for a square (zero for the
sentinel square 64, where the C++ shift would be undefined). -/
def square_bb (s : Square) : Bitboard := shl64 1 s

/-- Modelled from the spec: rank mask r is 0xFF shifted by 8 r. -/
def RankMask (r : Nat) : Bitboard := shl64 0xFF (8 * r)

/-- Modelled from the spec: file mask f is 0x0101010101010101 shifted by f. -/
def FileMask (f : Nat) : Bitboard := shl64 0x0101010101010101 f

/-- Modelled from the spec: number of set bits of a word, computed by halving
with a fuel of 64 binary digits, enough for any 64-bit word. -/
def popcountAux : Nat → Nat → Nat
  | 0, _ => 0
  | fuel + 1, b => if b = 0 then 0 else b % 2 + popcountAux fuel (b / 2)

/-- Modelled from the spec: number of set bits of a 64-bit word. -/
def popcount (b : Nat) : Nat := popcountAux 64 b

/-- Modelled from the spec: index of the least significant set bit, computed
by halving with a fuel of binary digits. -/
def lsbAux : Nat → Nat → Nat
  | 0, _ => 64
  | fuel + 1, b => if b = 0 then 64 else if b % 2 = 1 then 0 else 1 + lsbAux fuel (b / 2)

/-- Modelled from the spec: index of the least significant set bit of a 64-bit
word, 64 when the word is empty. -/
def lsb (b : Nat) : Nat := lsbAux 64 b

/-- Modelled from the spec: the list of set-bit indices in increasing order,
exactly the sequence of squares the pop-lsb loops of the C++ code visit
(pop-lsb repeatedly extracts the least significant remaining bit, so the
squares come out in increasing order). -/
def bbList (b : Bitboard) : List Square :=
  (List.range 64).filter (fun i => b.testBit i)

/-! ## Move encoding (modelled from the spec, section 3: move.h is absent)

A move is 16-bit packed: bits 0-5 from-square, 6-11 to-square, 12-13 the
move type (Normal = 0, Promotion = 1, EnPassant = 2, Castling = 3),
14-15 the promotion piece index (Knight..Queen).  Zero is the null move. -/

abbrev Move := Nat

def NullMove : Move := 0

def MoveTypeNormal : Nat := 0
def MoveTypePromotion : Nat := 1
def MoveTypeEnPassant : Nat := 2
def MoveTypeCastling : Nat := 3

def move_from (m : Move) : Square := m % 64
def move_to (m : Move) : Square := (m / 64) % 64
def move_type (m : Move) : Nat := (m / 4096) % 4

/-- Piece type constants: Pawn 0, Knight 1, Bishop 2, Rook 3, Queen 4, King 5. -/
def Pawn : Nat := 0
def Knight : Nat := 1
def Bishop : Nat := 2
def Rook : Nat := 3
def Queen : Nat := 4
def King : Nat := 5

def promotion_type (m : Move) : Nat := Knight + (m / 16384) % 4

/-- Modelled from the spec: pack a move from from-square, to-square and type. -/
def mkMove (f t : Square) (mt : Nat := MoveTypeNormal) : Move := f + 64 * t + 4096 * mt

/-- Modelled from the spec: pack a promotion move carrying the promotion piece. -/
def make_promotion (f t : Square) (pt : Nat) : Move :=
  f + 64 * t + 4096 * MoveTypePromotion + 16384 * (pt - Knight)

/-! ## Pieces and colors (modelled from the spec, section 3: types.h is absent) -/

def White : Color := 0
def Black : Color := 1

/-- Modelled from the spec: color complement. -/
def compl (c : Color) : Color := 1 - c

def WhitePawn : Piece := 0
def WhiteKnight : Piece := 1
def WhiteBishop : Piece := 2
def WhiteRook : Piece := 3
def WhiteQueen : Piece := 4
def WhiteKing : Piece := 5
def BlackPawn : Piece := 6
def BlackKnight : Piece := 7
def BlackBishop : Piece := 8
def BlackRook : Piece := 9
def BlackQueen : Piece := 10
def BlackKing : Piece := 11
def NoPiece : Piece := 12
def PieceCount : Nat := 12

def make_piece (c : Color) (pt : Nat) : Piece := c * 6 + pt
def piece_color (p : Piece) : Color := p / 6
def piece_type (p : Piece) : Nat := p % 6

/-- Castling rights bits: WK = 1, WQ = 2, BK = 4, BQ = 8. -/
def WhiteKingSide : Nat := 1
def WhiteQueenSide : Nat := 2
def BlackKingSide : Nat := 4
def BlackQueenSide : Nat := 8
def NoCastling : Nat := 0
def AllCastling : Nat := 15

/-- Named squares used by the castling generator. -/
def A1 : Square := 0
def B1 : Square := 1
def C1 : Square := 2
def D1 : Square := 3
def E1 : Square := 4
def F1 : Square := 5
def G1 : Square := 6
def H1 : Square := 7
def A8 : Square := 56
def B8 : Square := 57
def C8 : Square := 58
def D8 : Square := 59
def E8 : Square := 60
def F8 : Square := 61
def G8 : Square := 62
def H8 : Square := 63
def NoSquare : Square := 64

/-! ## Zobrist keys (from zobrist.cpp)

The keys come from a xorshift64 generator with a fixed seed; the n-th call
to rand64 returns the state after n steps. -/

/-- One step of the xorshift64 generator of zobrist.cpp. -/
def rand64step (s : Nat) : Nat :=
  let a := s ^^^ shl64 s 13
  let b := a ^^^ (a >>> 7)
  b ^^^ shl64 b 17

/-- Generator state after n steps from the fixed seed. -/
def zobristState : Nat → Nat
  | 0 => 0x3A4F6C8E1B2D5A7C
  | n + 1 => rand64step (zobristState n)

namespace zobrist

/-- pieceKeys of zobrist.cpp: the keys are drawn in piece-major order. -/
def pieceKeys (p : Piece) (s : Square) : Nat := zobristState (64 * p + s + 1)

/-- castlingKeys of zobrist.cpp, drawn after the 768 piece keys. -/
def castlingKeys (i : Nat) : Nat := zobristState (768 + i + 1)

/-- enPassantKeys of zobrist.cpp, drawn after the castling keys. -/
def enPassantKeys (i : Nat) : Nat := zobristState (784 + i + 1)

/-- sideKey of zobrist.cpp, the last key drawn. -/
def sideKey : Nat := zobristState 793

end zobrist

/-! ## Transposition table (from tt.h and the TranspositionTable code in board.h) -/

/-- TT flags: TT_EXACT = 0, TT_ALPHA (upper bound) = 1, TT_BETA (lower bound) = 2. -/
def TT_EXACT : Nat := 0
def TT_ALPHA : Nat := 1
def TT_BETA : Nat := 2

/-- TTEntry of tt.h: key, score, depth, flag, best move and generation. -/
structure TTEntry where
  key : Nat
  score : Int
  depth : Int
  flag : Nat
  bestMove : Move
  generation : Nat
deriving DecidableEq

/-- TranspositionTable of tt.h: the table is a power-of-two array indexed by
key AND mask; generation is an 8-bit counter. -/
structure TranspositionTable where
  table : Nat → TTEntry
  mask : Nat
  currentGeneration : Nat

/-- Age of a stored entry, the uint8_t difference of the generations
(the generation counters live modulo 256). -/
def ageOf (cur gen : Nat) : Nat := (cur + 256 - gen % 256) % 256

/-- TranspositionTable::store of board.h / tt.cpp: replacement policy with the
empty-slot, same-key and collision rules, then write on replacement. -/
def TranspositionTable.store (tt : TranspositionTable) (key : Nat) (score : Int)
    (depth : Int) (flag : Nat) (bestMove : Move) : TranspositionTable :=
  let entry := tt.table (key &&& tt.mask)
  let replace :=
    if entry.key = 0 then
      true
    else if entry.key = key then
      decide (depth ≥ entry.depth) || decide (flag = TT_EXACT)
    else
      let age := ageOf tt.currentGeneration entry.generation
      decide (age ≥ 2) || decide (depth > entry.depth) ||
        (decide (depth = entry.depth) && decide (flag = TT_EXACT) && decide (entry.flag ≠ TT_EXACT))
  let newEntry : TTEntry :=
    { key := key, score := score, depth := depth, flag := flag,
      bestMove := bestMove, generation := tt.currentGeneration }
  if replace then
    { tt with table := Function.update tt.table (key &&& tt.mask) newEntry }
  else
    tt

/-- TranspositionTable::probe of board.h: an entry is returned only on a
full key match. -/
def TranspositionTable.probe (tt : TranspositionTable) (key : Nat) : Option TTEntry :=
  let stored := tt.table (key &&& tt.mask)
  if stored.key = key then some stored else none

/-- TranspositionTable::new_search of board.h: the generation counter is an
8-bit value incremented, skipping zero. -/
def TranspositionTable.new_search (tt : TranspositionTable) : TranspositionTable :=
  let g := (tt.currentGeneration + 1) % 256
  { tt with currentGeneration := if g = 0 then 1 else g }

/-! ## Search constants and mate score normalization (from search.h and search.cpp) -/

def MATE_SCORE : Int := 100000
def MAX_PLY : Int := 64

/-- scoreToTT of search.cpp: mate scores are shifted by the ply on store. -/
def scoreToTT (score : Int) (ply : Int) : Int :=
  if score ≥ MATE_SCORE - MAX_PLY then score + ply
  else if score ≤ -MATE_SCORE + MAX_PLY then score - ply
  else score

/-- scoreFromTT of search.cpp: mate scores are shifted back by the ply on probe. -/
def scoreFromTT (score : Int) (ply : Int) : Int :=
  if score ≥ MATE_SCORE - MAX_PLY then score - ply
  else if score ≤ -MATE_SCORE + MAX_PLY then score + ply
  else score

/-! ## UCI time management (from parseGoAndSearch in uci.cpp) -/

def MOVE_OVERHEAD_MS : Int := 20
def MIN_SEARCH_MS : Int := 1

/-- The time-limit computation of parseGoAndSearch in uci.cpp, as a pure
function of the parsed go parameters and the side to move.  Division is
C++ division (truncation toward zero). -/
def computeTimeLimit (wtime btime winc binc movetime movestogo : Int)
    (infinite : Bool) (stm : Color) : Int :=
  if movetime > 0 then
    let t := movetime - MOVE_OVERHEAD_MS
    if t < MIN_SEARCH_MS then MIN_SEARCH_MS else t
  else if !infinite && (wtime > 0 || btime > 0) then
    let myTime := if stm = White then wtime else btime
    let myInc := if stm = White then winc else binc
    let divisor := if movestogo > 0 then movestogo else 30
    let t0 := myTime.tdiv divisor + (myInc * 3).tdiv 4
    let maxTime0 := myTime - MOVE_OVERHEAD_MS
    let maxTime := if maxTime0 < MIN_SEARCH_MS then MIN_SEARCH_MS else maxTime0
    let t1 := if t0 > maxTime then maxTime else t0
    if t1 < MIN_SEARCH_MS then MIN_SEARCH_MS else t1
  else
    0

/-! ## Attack tables (from attacks.cpp)

The magic-bitboard tables of attacks.cpp are populated by ray casting with
sliding_attack over all relevant occupancy subsets; the table lookup for an
occupancy occ therefore returns sliding_attack at occ AND mask.  The lookup
functions below compute that value directly. -/

/-- One ray of sliding_attack of attacks.cpp: walk in direction d from s,
adding squares, stopping at the board edge, at a file or rank wrap, or just
after the first blocker.  A ray has at most seven steps; the fuel argument
(always started at 8) only bounds the recursion. -/
def slidingRay (occ : Bitboard) (d : Int) (s : Nat) (acc : Bitboard) : Nat → Bitboard
  | 0 => acc
  | fuel + 1 =>
    let s2 : Int := (s : Int) + d
    if s2 < 0 ∨ s2 > 63 then acc
    else
      let ns := s2.toNat
      let dr : Int := (ns / 8 : Nat) - (s / 8 : Nat)
      let df : Int := (ns % 8 : Nat) - (s % 8 : Nat)
      if dr < -1 ∨ dr > 1 ∨ df < -1 ∨ df > 1 then acc
      else
        let acc2 := acc ||| square_bb ns
        if occ &&& square_bb ns ≠ 0 then acc2
        else slidingRay occ d ns acc2 fuel

/-- sliding_attack of attacks.cpp: union of the four rays. -/
def sliding_attack (sq : Square) (occ : Bitboard) (deltas : List Int) : Bitboard :=
  deltas.foldl (fun acc d => slidingRay occ d sq acc 8) 0

def BishopDeltas : List Int := [9, 7, -9, -7]
def RookDeltas : List Int := [8, -8, 1, -1]

/-- bishop_mask of attacks.cpp: ray squares on the empty board, edges removed. -/
def bishop_mask (sq : Square) : Bitboard :=
  sliding_attack sq 0 BishopDeltas &&&
    bnot64 (RankMask 0 ||| RankMask 7 ||| FileMask 0 ||| FileMask 7)

/-- rook_mask of attacks.cpp: the four partial lines excluding the edges. -/
def rook_mask (sq : Square) : Bitboard :=
  let r := sq / 8
  let f := sq % 8
  let m1 := (List.range 8).foldl
    (fun m i => if r < i ∧ i < 7 then m ||| shl64 1 (i * 8 + f) else m) 0
  let m2 := (List.range 8).foldl
    (fun m i => if 0 < i ∧ i < r then m ||| shl64 1 (i * 8 + f) else m) m1
  let m3 := (List.range 8).foldl
    (fun m i => if f < i ∧ i < 7 then m ||| shl64 1 (r * 8 + i) else m) m2
  (List.range 8).foldl
    (fun m i => if 0 < i ∧ i < f then m ||| shl64 1 (r * 8 + i) else m) m3

namespace attacks

/-- pawn_attacks of attacks.cpp (PawnAttacks tables from init_pawn_attacks). -/
def pawn_attacks (c : Color) (s : Square) : Bitboard :=
  let bb := square_bb s
  if c = White then
    shl64 (bb &&& bnot64 (FileMask 0)) 7 ||| shl64 (bb &&& bnot64 (FileMask 7)) 9
  else
    ((bb &&& bnot64 (FileMask 7)) >>> 7) ||| ((bb &&& bnot64 (FileMask 0)) >>> 9)

/-- knight_attacks of attacks.cpp (KnightAttacks from init_knight_attacks). -/
def knight_attacks (s : Square) : Bitboard :=
  let bb := square_bb s
  shl64 (bb &&& bnot64 (FileMask 0) &&& bnot64 (FileMask 1)) 6 |||
  shl64 (bb &&& bnot64 (FileMask 0)) 15 |||
  shl64 (bb &&& bnot64 (FileMask 7)) 17 |||
  shl64 (bb &&& bnot64 (FileMask 6) &&& bnot64 (FileMask 7)) 10 |||
  ((bb &&& bnot64 (FileMask 6) &&& bnot64 (FileMask 7)) >>> 6) |||
  ((bb &&& bnot64 (FileMask 7)) >>> 15) |||
  ((bb &&& bnot64 (FileMask 0)) >>> 17) |||
  ((bb &&& bnot64 (FileMask 0) &&& bnot64 (FileMask 1)) >>> 10)

/-- king_attacks of attacks.cpp (KingAttacks from init_king_attacks). -/
def king_attacks (s : Square) : Bitboard :=
  let bb := square_bb s
  ((bb &&& bnot64 (FileMask 0)) >>> 1) |||
  shl64 (bb &&& bnot64 (FileMask 7)) 1 |||
  shl64 bb 8 |||
  (bb >>> 8) |||
  shl64 (bb &&& bnot64 (FileMask 0)) 7 |||
  shl64 (bb &&& bnot64 (FileMask 7)) 9 |||
  ((bb &&& bnot64 (FileMask 7)) >>> 7) |||
  ((bb &&& bnot64 (FileMask 0)) >>> 9)

/-- bishop_attacks of attacks.cpp via the magic-table semantics. -/
def bishop_attacks (s : Square) (occ : Bitboard) : Bitboard :=
  sliding_attack s (occ &&& bishop_mask s) BishopDeltas

/-- rook_attacks of attacks.cpp via the magic-table semantics. -/
def rook_attacks (s : Square) (occ : Bitboard) : Bitboard :=
  sliding_attack s (occ &&& rook_mask s) RookDeltas

/-- queen_attacks of attacks.h: bishop union rook. -/
def queen_attacks (s : Square) (occ : Bitboard) : Bitboard :=
  bishop_attacks s occ ||| rook_attacks s occ

end attacks

/-! ## Board (from board.h and board.cpp) -/

/-- The Board of board.h: 12 piece bitboards, occupancy for White, Black and
all, mailbox, and the scalar state. -/
structure Board where
  pieceBB : Piece → Bitboard
  occupancy : Nat → Bitboard
  mailbox : Square → Piece
  sideToMove : Color
  castling : Nat
  epSquare : Square
  halfmoveClock : Nat
  fullmoveNumber : Nat
  hash : Nat

/-- Board::clear of board.cpp: the empty board. -/
def Board.empty : Board :=
  { pieceBB := fun _ => 0
    occupancy := fun _ => 0
    mailbox := fun _ => NoPiece
    sideToMove := White
    castling := NoCastling
    epSquare := NoSquare
    halfmoveClock := 0
    fullmoveNumber := 1
    hash := 0 }

/-- Board::pieces(Piece) of board.h. -/
def Board.byPiece (b : Board) (p : Piece) : Bitboard := b.pieceBB p

/-- Board::pieces(Color) of board.h. -/
def Board.byColor (b : Board) (c : Color) : Bitboard := b.occupancy c

/-- Board::pieces(Color, PieceType) of board.h. -/
def Board.byColorType (b : Board) (c : Color) (pt : Nat) : Bitboard :=
  b.pieceBB (make_piece c pt)

/-- Board::all_pieces of board.h. -/
def Board.all_pieces (b : Board) : Bitboard := b.occupancy 2

/-- Board::piece_on of board.cpp. -/
def Board.piece_on (b : Board) (s : Square) : Piece := b.mailbox s

/-- Board::put_piece of board.cpp: sets the bit in the piece bitboard, the
color occupancy and the all occupancy, writes the mailbox and XORs the
piece-square Zobrist key into the hash. -/
def Board.put_piece (b : Board) (p : Piece) (s : Square) : Board :=
  let bb := square_bb s
  let occ1 := Function.update b.occupancy (piece_color p) (b.occupancy (piece_color p) ||| bb)
  let occ2 := Function.update occ1 2 (occ1 2 ||| bb)
  { b with
    pieceBB := Function.update b.pieceBB p (b.pieceBB p ||| bb)
    occupancy := occ2
    mailbox := Function.update b.mailbox s p
    hash := b.hash ^^^ zobrist.pieceKeys p s }

/-- Board::remove_piece of board.cpp: clears the same bits by XOR and XORs the
piece-square Zobrist key out of the hash. -/
def Board.remove_piece (b : Board) (s : Square) : Board :=
  let p := b.mailbox s
  let bb := square_bb s
  let occ1 := Function.update b.occupancy (piece_color p) (b.occupancy (piece_color p) ^^^ bb)
  let occ2 := Function.update occ1 2 (occ1 2 ^^^ bb)
  { b with
    pieceBB := Function.update b.pieceBB p (b.pieceBB p ^^^ bb)
    occupancy := occ2
    mailbox := Function.update b.mailbox s NoPiece
    hash := b.hash ^^^ zobrist.pieceKeys p s }

/-- Board::compute_hash of board.cpp: full recomputation of the Zobrist hash
from the piece bitboards (the inner pop-lsb loop XORs the piece-square key of
every set bit), the castling rights, the en-passant file and the side to
move. -/
def Board.compute_hash (b : Board) : Nat :=
  let h0 := (List.range 12).foldl
    (fun h p => (bbList (b.pieceBB p)).foldl (fun h2 s => h2 ^^^ zobrist.pieceKeys p s) h) 0
  let h1 := h0 ^^^ zobrist.castlingKeys b.castling
  let h2 := if b.epSquare ≠ NoSquare then
      h1 ^^^ zobrist.enPassantKeys (square_file b.epSquare) else h1
  if b.sideToMove = Black then h2 ^^^ zobrist.sideKey else h2

/-- Board::is_square_attacked of board.cpp: pawn, knight, king, diagonal and
orthogonal attackers are tried in order. -/
def Board.is_square_attacked (b : Board) (s : Square) (attacker : Color) : Bool :=
  let occ := b.all_pieces
  if attacks.pawn_attacks (compl attacker) s &&& b.byColorType attacker Pawn ≠ 0 then true
  else if attacks.knight_attacks s &&& b.byColorType attacker Knight ≠ 0 then true
  else if attacks.king_attacks s &&& b.byColorType attacker King ≠ 0 then true
  else if attacks.bishop_attacks s occ &&&
      (b.byColorType attacker Bishop ||| b.byColorType attacker Queen) ≠ 0 then true
  else if attacks.rook_attacks s occ &&&
      (b.byColorType attacker Rook ||| b.byColorType attacker Queen) ≠ 0 then true
  else false

/-- The CastlingUpdate table of board.cpp: the castling-rights mask kept when a
move touches the given square. -/
def CastlingUpdate (s : Square) : Nat :=
  if s = A1 then 13
  else if s = E1 then 12
  else if s = H1 then 14
  else if s = A8 then 7
  else if s = E8 then 3
  else if s = H8 then 11
  else AllCastling

/-- Board::make_move of board.cpp (the in-place variant): hash out the old
castling and en-passant keys, clear en passant, apply the per-move-type piece
updates and halfmove-clock rule, intersect the castling rights with the update
table at from and to, bump the fullmove number after Black, flip the side to
move and hash the side key, then hash in the new castling and en-passant keys. -/
def Board.make_move (b : Board) (m : Move) : Board :=
  let fromSq := move_from m
  let toSq := move_to m
  let mt := move_type m
  let moved := b.mailbox fromSq
  let captured := b.mailbox toSq
  let us := b.sideToMove
  let h1 := b.hash ^^^ zobrist.castlingKeys b.castling
  let h2 := if b.epSquare ≠ NoSquare then
      h1 ^^^ zobrist.enPassantKeys (square_file b.epSquare) else h1
  let b1 : Board := { b with hash := h2, epSquare := NoSquare }
  let b2 : Board :=
    if mt = MoveTypeEnPassant then
      let capSq := make_square (square_file toSq) (square_rank fromSq)
      let x := ((b1.remove_piece capSq).remove_piece fromSq).put_piece moved toSq
      { x with halfmoveClock := 0 }
    else if mt = MoveTypeCastling then
      let x := (b1.remove_piece fromSq).put_piece moved toSq
      let kingside := decide (fromSq < toSq)
      let rookFrom := if kingside then make_square 7 (square_rank fromSq)
        else make_square 0 (square_rank fromSq)
      let rookTo := if kingside then make_square 5 (square_rank fromSq)
        else make_square 3 (square_rank fromSq)
      let rook := x.mailbox rookFrom
      let y := (x.remove_piece rookFrom).put_piece rook rookTo
      { y with halfmoveClock := b.halfmoveClock + 1 }
    else if mt = MoveTypePromotion then
      let promoPiece := make_piece us (promotion_type m)
      let x := if captured ≠ NoPiece then b1.remove_piece toSq else b1
      let y := (x.remove_piece fromSq).put_piece promoPiece toSq
      { y with halfmoveClock := 0 }
    else
      if captured ≠ NoPiece then
        let x := ((b1.remove_piece toSq).remove_piece fromSq).put_piece moved toSq
        { x with halfmoveClock := 0 }
      else if piece_type moved = Pawn then
        let ep := if toSq = fromSq + 16 ∨ fromSq = toSq + 16 then (fromSq + toSq) / 2
          else NoSquare
        let x := (b1.remove_piece fromSq).put_piece moved toSq
        { x with halfmoveClock := 0, epSquare := ep }
      else
        let x := (b1.remove_piece fromSq).put_piece moved toSq
        { x with halfmoveClock := b.halfmoveClock + 1 }
  let newCastling := b.castling &&& CastlingUpdate fromSq &&& CastlingUpdate toSq
  let h3 := b2.hash ^^^ zobrist.sideKey
  let h4 := h3 ^^^ zobrist.castlingKeys newCastling
  let h5 := if b2.epSquare ≠ NoSquare then
      h4 ^^^ zobrist.enPassantKeys (square_file b2.epSquare) else h4
  { b2 with
    castling := newCastling
    fullmoveNumber := if us = Black then b.fullmoveNumber + 1 else b.fullmoveNumber
    sideToMove := compl us
    hash := h5 }

/-- Board::UndoInfo of board.h. -/
structure UndoInfo where
  moved : Piece := NoPiece
  captured : Piece := NoPiece
  capturedSquare : Square := NoSquare
  sideToMove : Color := White
  castling : Nat := NoCastling
  epSquare : Square := NoSquare
  halfmoveClock : Nat := 0
  fullmoveNumber : Nat := 1
  hash : Nat := 0

/-- Modelled from the spec: Board::make_move(m, undo) is not in the source
snapshot (only its declaration in board.h and its tests are); per section 4.2
it fills the undo record with the pre-move state (the moved piece, the
captured piece and its square, side to move, castling rights, en-passant
square, halfmove clock, fullmove number and hash) and then makes the move. -/
def Board.make_move_undo (b : Board) (m : Move) : Board × UndoInfo :=
  let fromSq := move_from m
  let toSq := move_to m
  let mt := move_type m
  let moved := b.mailbox fromSq
  let capInfo : Piece × Square :=
    if mt = MoveTypeEnPassant then
      let capSq := make_square (square_file toSq) (square_rank fromSq)
      (b.mailbox capSq, capSq)
    else (b.mailbox toSq, toSq)
  let undo : UndoInfo :=
    { moved := moved
      captured := capInfo.1
      capturedSquare := capInfo.2
      sideToMove := b.sideToMove
      castling := b.castling
      epSquare := b.epSquare
      halfmoveClock := b.halfmoveClock
      fullmoveNumber := b.fullmoveNumber
      hash := b.hash }
  (b.make_move m, undo)

/-- Modelled from the spec: Board::unmake_move is not in the source snapshot
(only its declaration in board.h and its tests are); per section 4.2 it
reverses the piece updates strictly from the undo record (moving the moved
piece back, re-adding any captured piece on its square, and moving the rook
back for castling) and restores side to move, castling rights, en-passant
square, halfmove clock, fullmove number and hash from the record. -/
def Board.unmake_move (b : Board) (m : Move) (undo : UndoInfo) : Board :=
  let fromSq := move_from m
  let toSq := move_to m
  let mt := move_type m
  let b1 : Board :=
    if mt = MoveTypeCastling then
      let kingside := decide (fromSq < toSq)
      let rookFrom := if kingside then make_square 7 (square_rank fromSq)
        else make_square 0 (square_rank fromSq)
      let rookTo := if kingside then make_square 5 (square_rank fromSq)
        else make_square 3 (square_rank fromSq)
      let rook := b.mailbox rookTo
      let x := (b.remove_piece rookTo).put_piece rook rookFrom
      (x.remove_piece toSq).put_piece undo.moved fromSq
    else
      let x := (b.remove_piece toSq).put_piece undo.moved fromSq
      if undo.captured ≠ NoPiece then x.put_piece undo.captured undo.capturedSquare else x
  { b1 with
    sideToMove := undo.sideToMove
    castling := undo.castling
    epSquare := undo.epSquare
    halfmoveClock := undo.halfmoveClock
    fullmoveNumber := undo.fullmoveNumber
    hash := undo.hash }

/-- Board::make_null_move of board.h: flip the side to move and clear en
passant, maintaining the hash. -/
def Board.make_null_move (b : Board) : Board :=
  let h1 := if b.epSquare ≠ NoSquare then
      b.hash ^^^ zobrist.enPassantKeys (square_file b.epSquare) else b.hash
  { b with
    epSquare := NoSquare
    sideToMove := compl b.sideToMove
    hash := h1 ^^^ zobrist.sideKey }

/-! ## FEN input and output (from board.cpp)

Tokens are whitespace-separated as extracted by istringstream; a failed
extraction yields the empty token, as the C++ stream leaves an empty string. -/

/-- char_to_piece of board.cpp. -/
def char_to_piece (c : Char) : Piece :=
  if c = 'P' then WhitePawn else if c = 'N' then WhiteKnight
  else if c = 'B' then WhiteBishop else if c = 'R' then WhiteRook
  else if c = 'Q' then WhiteQueen else if c = 'K' then WhiteKing
  else if c = 'p' then BlackPawn else if c = 'n' then BlackKnight
  else if c = 'b' then BlackBishop else if c = 'r' then BlackRook
  else if c = 'q' then BlackQueen else if c = 'k' then BlackKing
  else NoPiece

/-- piece_to_char of board.cpp. -/
def piece_to_char (p : Piece) : Char :=
  if p < PieceCount then
    (['P', 'N', 'B', 'R', 'Q', 'K', 'p', 'n', 'b', 'r', 'q', 'k']).getD p '.'
  else '.'

/-- Whitespace as skipped by istringstream extraction. -/
def isWS (c : Char) : Bool := c = ' ' ∨ c = '\t' ∨ c = '\n' ∨ c = '\r'

/-- Split a character list into maximal nonempty runs of non-whitespace,
the token sequence an istringstream delivers. -/
def splitWS : List Char → List Char → List (List Char)
  | [], acc => if acc.isEmpty then [] else [acc.reverse]
  | c :: rest, acc =>
    if isWS c then
      if acc.isEmpty then splitWS rest [] else acc.reverse :: splitWS rest []
    else splitWS rest (c :: acc)

/-- Read one token from the remaining stream; a failed extraction produces the
empty token, as C++ stream extraction empties the string on failure. -/
def readTok : List (List Char) → List Char × List (List Char)
  | [] => ([], [])
  | t :: rest => (t, rest)

/-- The piece-placement loop of Board::set_fen: ranks and files are C++ ints;
on canonical input they stay in range (the square index is clamped at zero
where the C++ computation would be undefined). -/
def parsePlacementChars : List Char → Int → Int → Board → Board
  | [], _, _, b => b
  | c :: rest, rank, file, b =>
    if c = '/' then parsePlacementChars rest (rank - 1) 0 b
    else if '1' ≤ c ∧ c ≤ '8' then
      parsePlacementChars rest rank (file + ((c.toNat : Int) - 48)) b
    else
      let p := char_to_piece c
      if p ≠ NoPiece then
        parsePlacementChars rest rank (file + 1) (b.put_piece p (rank * 8 + file).toNat)
      else parsePlacementChars rest rank file b

/-- The leading-digits value of a token, the value std::stoi returns on the
canonical numeric tokens of a FEN. -/
def parseDigits : List Char → Nat → Nat
  | [], acc => acc
  | c :: rest, acc =>
    if '0' ≤ c ∧ c ≤ '9' then parseDigits rest (acc * 10 + (c.toNat - 48)) else acc

/-- Board::set_fen of board.cpp: clear, parse the six fields, then rebuild the
hash from the accumulated piece keys plus castling, en passant and side. -/
def Board.set_fen (_b : Board) (fen : String) : Board :=
  let toks := splitWS fen.data []
  let r1 := readTok toks
  let b0 := parsePlacementChars r1.1 7 0 Board.empty
  let r2 := readTok r1.2
  let stm := if r2.1 = ['b'] then Black else White
  let r3 := readTok r2.2
  let castling := r3.1.foldl
    (fun cr c =>
      if c = 'K' then cr ||| WhiteKingSide
      else if c = 'Q' then cr ||| WhiteQueenSide
      else if c = 'k' then cr ||| BlackKingSide
      else if c = 'q' then cr ||| BlackQueenSide
      else cr) NoCastling
  let r4 := readTok r3.2
  let ep :=
    if r4.1 ≠ ['-'] ∧ r4.1.length = 2 then
      let f : Int := (r4.1.getD 0 'a').toNat - 97
      let r : Int := (r4.1.getD 1 '1').toNat - 49
      (r * 8 + f).toNat
    else NoSquare
  let r5 := readTok r4.2
  let hm := if r5.1 ≠ [] then parseDigits r5.1 0 else 0
  let r6 := readTok r5.2
  let fm := if r6.1 ≠ [] then parseDigits r6.1 0 else 1
  let h1 := b0.hash ^^^ zobrist.castlingKeys castling
  let h2 := if ep ≠ NoSquare then h1 ^^^ zobrist.enPassantKeys (square_file ep) else h1
  let h3 := if stm = Black then h2 ^^^ zobrist.sideKey else h2
  { b0 with
    sideToMove := stm
    castling := castling
    epSquare := ep
    halfmoveClock := hm
    fullmoveNumber := fm
    hash := h3 }

/-- One rank of the placement field of Board::to_fen; the first argument
counts the files left to visit (the loop runs files 0..7, so it starts at 8),
then the current file and the count of pending empty squares. -/
def fenRankGo (b : Board) (rank : Nat) : Nat → Nat → Nat → List Char
  | 0, _, empty => if empty > 0 then (Nat.repr empty).data else []
  | left + 1, file, empty =>
    let p := b.mailbox (make_square file rank)
    if p = NoPiece then fenRankGo b rank left (file + 1) (empty + 1)
    else
      (if empty > 0 then (Nat.repr empty).data else []) ++
        piece_to_char p :: fenRankGo b rank left (file + 1) 0

/-- The placement field of Board::to_fen: ranks 7 down to 0 joined by slashes. -/
def fenPlacementGo (b : Board) : Nat → List Char
  | 0 => fenRankGo b 0 8 0 0
  | r + 1 => fenRankGo b (r + 1) 8 0 0 ++ '/' :: fenPlacementGo b r

/-- Board::to_fen of board.cpp: the six space-separated fields. -/
def Board.to_fen (b : Board) : String :=
  let placement := fenPlacementGo b 7
  let sideC := if b.sideToMove = White then 'w' else 'b'
  let castleCs :=
    if b.castling = NoCastling then ['-']
    else
      (if b.castling &&& WhiteKingSide ≠ 0 then ['K'] else []) ++
      (if b.castling &&& WhiteQueenSide ≠ 0 then ['Q'] else []) ++
      (if b.castling &&& BlackKingSide ≠ 0 then ['k'] else []) ++
      (if b.castling &&& BlackQueenSide ≠ 0 then ['q'] else [])
  let epCs :=
    if b.epSquare = NoSquare then ['-']
    else [Char.ofNat (97 + square_file b.epSquare), Char.ofNat (49 + square_rank b.epSquare)]
  String.mk (placement ++ ' ' :: sideC :: ' ' :: castleCs ++ ' ' :: epCs ++
    ' ' :: (Nat.repr b.halfmoveClock).data ++ ' ' :: (Nat.repr b.fullmoveNumber).data)

/-- The StartFEN constant of board.h. -/
def StartFEN : String := "rnbqkbnr/pppppppp/8/8/8/8/PPPPPPPP/RNBQKBNR w KQkq - 0 1"

/-! ## Move generation (from movegen.cpp) -/

/-- generate_pawn_moves of movegen.cpp: pushes, double pushes, captures (all
with promotions on the back rank, in Q R B N order) and en passant, emitted in
the same order as the C++ code. -/
def generate_pawn_moves (b : Board) : List Move :=
  let us := b.sideToMove
  let them := compl us
  let occ := b.all_pieces
  let pawns := b.byColorType us Pawn
  let promoRank := if us = White then RankMask 7 else RankMask 0
  let singlePush := (if us = White then shl64 pawns 8 else pawns >>> 8) &&& bnot64 occ
  let doublePush :=
    (if us = White then shl64 (singlePush &&& RankMask 2) 8
     else (singlePush &&& RankMask 5) >>> 8) &&& bnot64 occ
  let l1 := (bbList (singlePush &&& bnot64 promoRank)).map
    (fun t => mkMove (if us = White then t - 8 else t + 8) t)
  let l2 := (bbList (singlePush &&& promoRank)).foldr
    (fun t acc =>
      let f := if us = White then t - 8 else t + 8
      make_promotion f t Queen :: make_promotion f t Rook ::
        make_promotion f t Bishop :: make_promotion f t Knight :: acc) []
  let l3 := (bbList doublePush).map
    (fun t => mkMove (if us = White then t - 16 else t + 16) t)
  let leftCap :=
    if us = White then shl64 (pawns &&& bnot64 (FileMask 0)) 7
    else (pawns &&& bnot64 (FileMask 7)) >>> 7
  let rightCap :=
    if us = White then shl64 (pawns &&& bnot64 (FileMask 7)) 9
    else (pawns &&& bnot64 (FileMask 0)) >>> 9
  let targets := b.byColor them
  let l4 := (bbList (leftCap &&& targets &&& bnot64 promoRank)).map
    (fun t => mkMove (if us = White then t - 7 else t + 7) t)
  let l5 := (bbList (leftCap &&& targets &&& promoRank)).foldr
    (fun t acc =>
      let f := if us = White then t - 7 else t + 7
      make_promotion f t Queen :: make_promotion f t Rook ::
        make_promotion f t Bishop :: make_promotion f t Knight :: acc) []
  let l6 := (bbList (rightCap &&& targets &&& bnot64 promoRank)).map
    (fun t => mkMove (if us = White then t - 9 else t + 9) t)
  let l7 := (bbList (rightCap &&& targets &&& promoRank)).foldr
    (fun t acc =>
      let f := if us = White then t - 9 else t + 9
      make_promotion f t Queen :: make_promotion f t Rook ::
        make_promotion f t Bishop :: make_promotion f t Knight :: acc) []
  let l8 :=
    if b.epSquare ≠ NoSquare then
      (bbList (attacks.pawn_attacks them b.epSquare &&& pawns)).map
        (fun f => mkMove f b.epSquare MoveTypeEnPassant)
    else []
  l1 ++ l2 ++ l3 ++ l4 ++ l5 ++ l6 ++ l7 ++ l8

/-- generate_piece_moves of movegen.cpp: knights, bishops, rooks, queens, the
king, then castling, in the emission order of the C++ code. -/
def generate_piece_moves (b : Board) : List Move :=
  let us := b.sideToMove
  let them := compl us
  let own := b.byColor us
  let occ := b.all_pieces
  let knights := (bbList (b.byColorType us Knight)).foldr
    (fun f acc => (bbList (attacks.knight_attacks f &&& bnot64 own)).map (mkMove f) ++ acc) []
  let bishops := (bbList (b.byColorType us Bishop)).foldr
    (fun f acc => (bbList (attacks.bishop_attacks f occ &&& bnot64 own)).map (mkMove f) ++ acc) []
  let rooks := (bbList (b.byColorType us Rook)).foldr
    (fun f acc => (bbList (attacks.rook_attacks f occ &&& bnot64 own)).map (mkMove f) ++ acc) []
  let queens := (bbList (b.byColorType us Queen)).foldr
    (fun f acc => (bbList (attacks.queen_attacks f occ &&& bnot64 own)).map (mkMove f) ++ acc) []
  let kingSq := lsb (b.byColorType us King)
  let kingMoves := (bbList (attacks.king_attacks kingSq &&& bnot64 own)).map (mkMove kingSq)
  let castles :=
    if us = White then
      (if b.castling &&& WhiteKingSide ≠ 0 ∧ occ &&& (square_bb F1 ||| square_bb G1) = 0 ∧
          ¬b.is_square_attacked E1 them ∧ ¬b.is_square_attacked F1 them ∧
          ¬b.is_square_attacked G1 them
       then [mkMove E1 G1 MoveTypeCastling] else []) ++
      (if b.castling &&& WhiteQueenSide ≠ 0 ∧
          occ &&& (square_bb B1 ||| square_bb C1 ||| square_bb D1) = 0 ∧
          ¬b.is_square_attacked E1 them ∧ ¬b.is_square_attacked D1 them ∧
          ¬b.is_square_attacked C1 them
       then [mkMove E1 C1 MoveTypeCastling] else [])
    else
      (if b.castling &&& BlackKingSide ≠ 0 ∧ occ &&& (square_bb F8 ||| square_bb G8) = 0 ∧
          ¬b.is_square_attacked E8 them ∧ ¬b.is_square_attacked F8 them ∧
          ¬b.is_square_attacked G8 them
       then [mkMove E8 G8 MoveTypeCastling] else []) ++
      (if b.castling &&& BlackQueenSide ≠ 0 ∧
          occ &&& (square_bb B8 ||| square_bb C8 ||| square_bb D8) = 0 ∧
          ¬b.is_square_attacked E8 them ∧ ¬b.is_square_attacked D8 them ∧
          ¬b.is_square_attacked C8 them
       then [mkMove E8 C8 MoveTypeCastling] else [])
  knights ++ bishops ++ rooks ++ queens ++ kingMoves ++ castles

/-- generate_legal of movegen.cpp: pseudo-legal moves filtered by making each
on a copy and rejecting it when the moving side's king is attacked. -/
def generate_legal (b : Board) : List Move :=
  let pseudo := generate_pawn_moves b ++ generate_piece_moves b
  let us := b.sideToMove
  pseudo.filter (fun m =>
    let copy := b.make_move m
    let kingSq := lsb (copy.byColorType us King)
    !(copy.is_square_attacked kingSq (compl us)))

/-- in_check of movegen.cpp. -/
def in_check (b : Board) : Bool :=
  let us := b.sideToMove
  let kingSq := lsb (b.byColorType us King)
  b.is_square_attacked kingSq (compl us)

/-- is_checkmate of movegen.cpp. -/
def is_checkmate (b : Board) : Bool :=
  if !in_check b then false else decide ((generate_legal b).length = 0)

/-- is_stalemate of movegen.cpp. -/
def is_stalemate (b : Board) : Bool :=
  if in_check b then false else decide ((generate_legal b).length = 0)

/-- is_draw_by_fifty_move_rule of movegen.cpp. -/
def is_draw_by_fifty_move_rule (b : Board) : Bool :=
  decide (b.halfmoveClock ≥ 100)

/-! ## Handcrafted evaluation (from the PeSTO tapered evaluator source, eval.cpp)

The PST tables are in visual format, index 0 = a8; a White piece on square s
reads entry s XOR 56, a Black piece reads entry s. -/

def PHASE_WEIGHT : List Int := [0, 1, 1, 2, 4, 0]
def TOTAL_PHASE : Int := 24

def MG_PIECE_VALUE : List Int := [82, 337, 365, 477, 1025, 0]
def EG_PIECE_VALUE : List Int := [94, 281, 297, 512, 936, 0]

def MG_PAWN_TABLE : List Int := [
  0, 0, 0, 0, 0, 0, 0, 0, 98, 134,
  61, 95, 68, 126, 34, -11, -6, 7, 26, 31,
  65, 56, 25, -20, -14, 13, 6, 21, 23, 12,
  17, -23, -27, -2, -5, 12, 17, 6, 10, -25,
  -26, -4, -4, -10, 3, 3, 33, -12, -35, -1,
  -20, -23, -15, 24, 38, -22, 0, 0, 0, 0,
  0, 0, 0, 0]

def MG_KNIGHT_TABLE : List Int := [
  -167, -89, -34, -49, 61, -97, -15, -107, -73, -41,
  72, 36, 23, 62, 7, -17, -47, 60, 37, 65,
  84, 129, 73, 44, -9, 17, 19, 53, 37, 69,
  18, 22, -13, 4, 16, 13, 28, 19, 21, -8,
  -23, -9, 12, 10, 19, 17, 25, -16, -29, -53,
  -12, -3, -1, 18, -14, -19, -105, -21, -58, -33,
  -17, -28, -19, -23]

def MG_BISHOP_TABLE : List Int := [
  -29, 4, -82, -37, -25, -42, 7, -8, -26, 16,
  -18, -13, 30, 59, 18, -47, -16, 37, 43, 40,
  35, 50, 37, -2, -4, 5, 19, 50, 37, 37,
  7, -2, -6, 13, 13, 26, 34, 12, 10, 4,
  0, 15, 15, 15, 14, 27, 18, 10, 4, 15,
  16, 0, 7, 21, 33, 1, -33, -3, -14, -21,
  -13, -12, -39, -21]

def MG_ROOK_TABLE : List Int := [
  32, 42, 32, 51, 63, 9, 31, 43, 27, 32,
  58, 62, 80, 67, 26, 44, -5, 19, 26, 36,
  17, 45, 61, 16, -24, -11, 7, 26, 24, 35,
  -8, -20, -36, -26, -12, -1, 9, -7, 6, -23,
  -45, -25, -16, -17, 3, 0, -5, -33, -44, -16,
  -20, -9, -1, 11, -6, -71, -19, -13, 1, 17,
  16, 7, -37, -26]

def MG_QUEEN_TABLE : List Int := [
  -28, 0, 29, 12, 59, 44, 43, 45, -24, -39,
  -5, 1, -16, 57, 28, 54, -13, -17, 7, 8,
  29, 56, 47, 57, -27, -27, -16, -16, -1, 17,
  -2, 1, -9, -26, -9, -10, -2, -4, 3, -3,
  -14, 2, -11, -2, -5, 2, 14, 5, -35, -8,
  11, 2, 8, 15, -3, 1, -1, -18, -9, 10,
  -15, -25, -31, -50]

def MG_KING_TABLE : List Int := [
  -65, 23, 16, -15, -56, -34, 2, 13, 29, -1,
  -20, -7, -8, -4, -38, -29, -9, 24, 2, -16,
  -20, 6, 22, -22, -17, -20, -12, -27, -30, -25,
  -14, -36, -49, -1, -27, -39, -46, -44, -33, -51,
  -14, -14, -22, -46, -44, -30, -15, -27, 1, 7,
  -8, -64, -43, -16, 9, 8, -15, 36, 12, -54,
  8, -28, 24, 14]

def EG_PAWN_TABLE : List Int := [
  0, 0, 0, 0, 0, 0, 0, 0, 178, 173,
  158, 134, 147, 132, 165, 187, 94, 100, 85, 67,
  56, 53, 82, 84, 32, 24, 13, 5, -2, 4,
  17, 17, 13, 9, -3, -7, -7, -8, 3, -1,
  4, 7, -6, 1, 0, -5, -1, -8, 13, 8,
  8, -10, 13, 0, 2, -7, 0, 0, 0, 0,
  0, 0, 0, 0]

def EG_KNIGHT_TABLE : List Int := [
  -58, -38, -13, -28, -31, -27, -63, -99, -25, -8,
  -25, -2, -9, -25, -24, -52, -24, -20, 10, 9,
  -1, -9, -19, -41, -17, 3, 22, 22, 22, 11,
  8, -18, -18, -6, 16, 25, 16, 17, 4, -18,
  -23, -3, -1, 15, 10, -3, -20, -22, -42, -20,
  -10, -5, -2, -20, -23, -44, -29, -51, -23, -15,
  -22, -18, -50, -64]

def EG_BISHOP_TABLE : List Int := [
  -14, -21, -11, -8, -7, -9, -17, -24, -8, -4,
  7, -12, -3, -13, -4, -14, 2, -8, 0, -1,
  -2, 6, 0, 4, -3, 9, 12, 9, 14, 10,
  3, 2, -6, 3, 13, 19, 7, 10, -3, -9,
  -12, -3, 8, 10, 13, 3, -7, -15, -14, -18,
  -7, -1, 4, -9, -15, -27, -23, -9, -23, -5,
  -9, -16, -5, -17]

def EG_ROOK_TABLE : List Int := [
  13, 10, 18, 15, 12, 12, 8, 5, 11, 13,
  13, 11, -3, 3, 8, 3, 7, 7, 7, 5,
  4, -3, -5, -3, 4, 3, 13, 1, 2, 1,
  -1, 2, 3, 5, 8, 4, -5, -6, -8, -11,
  -4, 0, -5, -1, -7, -12, -8, -16, -6, -6,
  0, 2, -9, -9, -11, -3, -9, 2, 3, -1,
  -5, -13, 4, -20]

def EG_QUEEN_TABLE : List Int := [
  -9, 22, 22, 27, 27, 19, 10, 20, -17, 20,
  32, 41, 58, 25, 30, 0, -20, 6, 9, 49,
  47, 35, 19, 9, 3, 22, 24, 45, 57, 40,
  57, 36, -18, 28, 19, 47, 31, 34, 39, 23,
  -16, -27, 15, 6, 9, 17, 10, 5, -22, -23,
  -30, -16, -16, -23, -36, -32, -33, -28, -22, -43,
  -5, -32, -20, -41]

def EG_KING_TABLE : List Int := [
  -74, -35, -18, -18, -11, 15, 4, -17, -12, 17,
  14, 17, 17, 38, 23, 11, 10, 17, 23, 15,
  20, 45, 44, 13, -8, 22, 24, 27, 26, 33,
  26, 3, -18, -4, 21, 24, 27, 23, 9, -11,
  -19, -3, 11, 21, 23, 16, 7, -9, -27, -11,
  4, 13, 14, 4, -5, -17, -53, -34, -21, -11,
  -28, -14, -24, -43]

def PassedPawnMG : List Int := [
  0, 5, 10, 15, 25, 40, 65, 0]

def PassedPawnEG : List Int := [
  0, 10, 15, 25, 45, 75, 120, 0]

def KingAttackerWeight : List Int := [
  0, 2, 2, 3, 5]

def KingDangerTable : List Int := [
  0, 0, 1, 2, 3, 5, 7, 9, 12, 15,
  18, 22, 26, 30, 35, 39, 44, 50, 56, 62,
  68, 75, 82, 85, 89, 97, 105, 113, 122, 131,
  140, 150, 169, 180, 191, 202, 213, 225, 237, 248,
  260, 272, 283, 295, 307, 319, 330, 342, 354, 366,
  377, 389, 401, 412, 424, 436, 448, 459, 471, 483,
  494, 500, 500, 500, 500, 500, 500, 500, 500, 500,
  500, 500, 500, 500, 500, 500, 500, 500, 500, 500,
  500, 500, 500, 500, 500, 500, 500, 500, 500, 500,
  500, 500, 500, 500, 500, 500, 500, 500, 500, 500]

def KnightMobilityMG : List Int := [
  -15, -5, 0, 5, 10, 15, 18, 20, 22]

def KnightMobilityEG : List Int := [
  -20, -8, -2, 3, 8, 13, 17, 20, 22]

def BishopMobilityMG : List Int := [
  -15, -8, -2, 2, 6, 10, 14, 17, 19, 21,
  23, 25, 27, 28]

def BishopMobilityEG : List Int := [
  -20, -10, -4, 0, 5, 10, 14, 17, 20, 22,
  24, 26, 27, 28]

def RookMobilityMG : List Int := [
  -15, -10, -5, -2, 0, 2, 5, 7, 9, 11,
  13, 14, 15, 16, 17]

def RookMobilityEG : List Int := [
  -25, -15, -8, -3, 0, 5, 9, 13, 16, 19,
  21, 23, 25, 26, 27]

def QueenMobilityMG : List Int := [
  -10, -7, -4, -2, 0, 1, 2, 3, 4, 5,
  5, 6, 6, 7, 7, 7, 8, 8, 8, 8,
  9, 9, 9, 9, 9, 9, 10, 10]

def QueenMobilityEG : List Int := [
  -20, -14, -8, -4, -1, 1, 3, 5, 7, 9,
  11, 12, 14, 15, 16, 17, 18, 19, 20, 20,
  21, 21, 22, 22, 22, 23, 23, 23]

def IsolatedPawnMG : Int := -10
def IsolatedPawnEG : Int := -15
def DoubledPawnMG : Int := -10
def DoubledPawnEG : Int := -15
def BishopPairMG : Int := 30
def BishopPairEG : Int := 50
def RookOpenFileMG : Int := 20
def RookOpenFileEG : Int := 10
def RookSemiOpenFileMG : Int := 10
def RookSemiOpenFileEG : Int := 5
def PawnShieldPenaltyMG : Int := -10

/-- The AdjacentFileMask table of eval.cpp. -/
def AdjacentFileMask (f : Nat) : Bitboard :=
  if f = 0 then FileMask 1
  else if f = 7 then FileMask 6
  else FileMask (f - 1) ||| FileMask (f + 1)

/-- The ForwardRanks table of eval.cpp: all ranks ahead of a rank, per color. -/
def ForwardRanks (c : Color) (r : Nat) : Bitboard :=
  if c = White then
    [0xFFFFFFFFFFFFFF00, 0xFFFFFFFFFFFF0000, 0xFFFFFFFFFF000000,
     0xFFFFFFFF00000000, 0xFFFFFF0000000000, 0xFFFF000000000000,
     0xFF00000000000000, 0x0000000000000000].getD r 0
  else
    [0x0000000000000000, 0x00000000000000FF, 0x000000000000FFFF,
     0x0000000000FFFFFF, 0x00000000FFFFFFFF, 0x000000FFFFFFFFFF,
     0x0000FFFFFFFFFFFF, 0x00FFFFFFFFFFFFFF].getD r 0

/-- The MG_PST pointer table of eval.cpp. -/
def MG_PST (pt : Nat) : List Int :=
  if pt = 0 then MG_PAWN_TABLE else if pt = 1 then MG_KNIGHT_TABLE
  else if pt = 2 then MG_BISHOP_TABLE else if pt = 3 then MG_ROOK_TABLE
  else if pt = 4 then MG_QUEEN_TABLE else MG_KING_TABLE

/-- The EG_PST pointer table of eval.cpp. -/
def EG_PST (pt : Nat) : List Int :=
  if pt = 0 then EG_PAWN_TABLE else if pt = 1 then EG_KNIGHT_TABLE
  else if pt = 2 then EG_BISHOP_TABLE else if pt = 3 then EG_ROOK_TABLE
  else if pt = 4 then EG_QUEEN_TABLE else EG_KING_TABLE

/-- mirror of eval.cpp: flip the rank of a square. -/
def mirror (s : Square) : Square := s ^^^ 56

/-- evalPawns of eval.cpp: doubled, passed and isolated pawn terms for one
color, returned as the signed (middlegame, endgame) contribution. -/
def evalPawns (b : Board) (us : Color) (sign : Int) : Int × Int :=
  let them := compl us
  let ourPawns := b.byColorType us Pawn
  let theirPawns := b.byColorType them Pawn
  let acc1 := (List.range 8).foldl
    (fun (a : Int × Int) f =>
      let cnt : Int := popcount (ourPawns &&& FileMask f)
      if cnt > 1 then
        (a.1 + sign * DoubledPawnMG * (cnt - 1), a.2 + sign * DoubledPawnEG * (cnt - 1))
      else a) (0, 0)
  (bbList ourPawns).foldl
    (fun (a : Int × Int) s =>
      let file := square_file s
      let rank := square_rank s
      let relRank := if us = White then rank else 7 - rank
      let frontSpan := (FileMask file ||| AdjacentFileMask file) &&& ForwardRanks us rank
      let a2 :=
        if theirPawns &&& frontSpan = 0 then
          (a.1 + sign * PassedPawnMG.getD relRank 0, a.2 + sign * PassedPawnEG.getD relRank 0)
        else a
      if ourPawns &&& AdjacentFileMask file = 0 then
        (a2.1 + sign * IsolatedPawnMG, a2.2 + sign * IsolatedPawnEG)
      else a2) acc1

/-- evalMobility of eval.cpp: per-piece mobility table lookups for one color. -/
def evalMobility (b : Board) (us : Color) (sign : Int) : Int × Int :=
  let occ := b.all_pieces
  let own := b.byColor us
  let a1 := (bbList (b.byColorType us Knight)).foldl
    (fun (a : Int × Int) s =>
      let mob0 := popcount (attacks.knight_attacks s &&& bnot64 own)
      let mob := if mob0 > 8 then 8 else mob0
      (a.1 + sign * KnightMobilityMG.getD mob 0, a.2 + sign * KnightMobilityEG.getD mob 0))
    (0, 0)
  let a2 := (bbList (b.byColorType us Bishop)).foldl
    (fun (a : Int × Int) s =>
      let mob0 := popcount (attacks.bishop_attacks s occ &&& bnot64 own)
      let mob := if mob0 > 13 then 13 else mob0
      (a.1 + sign * BishopMobilityMG.getD mob 0, a.2 + sign * BishopMobilityEG.getD mob 0)) a1
  let a3 := (bbList (b.byColorType us Rook)).foldl
    (fun (a : Int × Int) s =>
      let mob0 := popcount (attacks.rook_attacks s occ &&& bnot64 own)
      let mob := if mob0 > 14 then 14 else mob0
      (a.1 + sign * RookMobilityMG.getD mob 0, a.2 + sign * RookMobilityEG.getD mob 0)) a2
  (bbList (b.byColorType us Queen)).foldl
    (fun (a : Int × Int) s =>
      let mob0 := popcount (attacks.queen_attacks s occ &&& bnot64 own)
      let mob := if mob0 > 27 then 27 else mob0
      (a.1 + sign * QueenMobilityMG.getD mob 0, a.2 + sign * QueenMobilityEG.getD mob 0)) a3

/-- evalPieces of eval.cpp: bishop pair and rook-file terms for one color. -/
def evalPieces (b : Board) (us : Color) (sign : Int) : Int × Int :=
  let ourPawns := b.byColorType us Pawn
  let theirPawns := b.byColorType (compl us) Pawn
  let allPawns := ourPawns ||| theirPawns
  let a0 : Int × Int :=
    if popcount (b.byColorType us Bishop) ≥ 2 then (sign * BishopPairMG, sign * BishopPairEG)
    else (0, 0)
  (bbList (b.byColorType us Rook)).foldl
    (fun (a : Int × Int) s =>
      let fileBB := FileMask (square_file s)
      if allPawns &&& fileBB = 0 then
        (a.1 + sign * RookOpenFileMG, a.2 + sign * RookOpenFileEG)
      else if ourPawns &&& fileBB = 0 then
        (a.1 + sign * RookSemiOpenFileMG, a.2 + sign * RookSemiOpenFileEG)
      else a) a0

/-- evalKingSafety of eval.cpp: pawn-shield penalty plus the nonlinear
attacker-weight king-danger penalty, middlegame only, for one color. -/
def evalKingSafety (b : Board) (us : Color) (sign : Int) : Int :=
  let them := compl us
  let kingSq := lsb (b.byColorType us King)
  let kingFile := square_file kingSq
  let kingRank := square_rank kingSq
  let occ := b.all_pieces
  let ourPawns := b.byColorType us Pawn
  let onBackRanks := if us = White then kingRank ≤ 1 else kingRank ≥ 6
  let shield : Int :=
    if onBackRanks then
      let shieldRank : Int := if us = White then (kingRank : Int) + 1 else (kingRank : Int) - 1
      if 0 ≤ shieldRank ∧ shieldRank ≤ 7 then
        let minFile := if kingFile > 0 then kingFile - 1 else 0
        let maxFile := if kingFile < 7 then kingFile + 1 else 7
        let missing : Nat := (List.range 8).foldl
          (fun n f =>
            if minFile ≤ f ∧ f ≤ maxFile then
              (if ourPawns &&& square_bb (make_square f shieldRank.toNat) = 0 then n + 1 else n)
            else n) 0
        sign * PawnShieldPenaltyMG * missing
      else 0
    else 0
  let kingZone := attacks.king_attacks kingSq ||| square_bb kingSq
  let aw1 := (bbList (b.byColorType them Knight)).foldl
    (fun (aw : Int × Nat) s =>
      if attacks.knight_attacks s &&& kingZone ≠ 0 then
        (aw.1 + KingAttackerWeight.getD Knight 0, aw.2 + 1)
      else aw) (0, 0)
  let aw2 := (bbList (b.byColorType them Bishop)).foldl
    (fun (aw : Int × Nat) s =>
      if attacks.bishop_attacks s occ &&& kingZone ≠ 0 then
        (aw.1 + KingAttackerWeight.getD Bishop 0, aw.2 + 1)
      else aw) aw1
  let aw3 := (bbList (b.byColorType them Rook)).foldl
    (fun (aw : Int × Nat) s =>
      if attacks.rook_attacks s occ &&& kingZone ≠ 0 then
        (aw.1 + KingAttackerWeight.getD Rook 0, aw.2 + 1)
      else aw) aw2
  let aw4 := (bbList (b.byColorType them Queen)).foldl
    (fun (aw : Int × Nat) s =>
      if attacks.queen_attacks s occ &&& kingZone ≠ 0 then
        (aw.1 + KingAttackerWeight.getD Queen 0, aw.2 + 1)
      else aw) aw3
  if aw4.2 ≥ 2 then
    let idx := if aw4.1 > 99 then (99 : Int) else aw4.1
    shield - sign * KingDangerTable.getD idx.toNat 0
  else shield

/-- evaluate_handcrafted of eval.cpp: tapered PeSTO evaluation — material and
piece-square tables with phase accumulation, pawn structure, piece terms, king
safety (middlegame only) and mobility, interpolated by phase and finally
negated for Black to move. -/
def evaluate_handcrafted (b : Board) : Int :=
  let acc := (List.range 6).foldl
    (fun (a : Int × Int × Int) pt =>
      let aW := (bbList (b.byColorType White pt)).foldl
        (fun (a : Int × Int × Int) s =>
          let idx := mirror s
          (a.1 + MG_PIECE_VALUE.getD pt 0 + (MG_PST pt).getD idx 0,
           a.2.1 + EG_PIECE_VALUE.getD pt 0 + (EG_PST pt).getD idx 0,
           a.2.2 + PHASE_WEIGHT.getD pt 0)) a
      (bbList (b.byColorType Black pt)).foldl
        (fun (a : Int × Int × Int) s =>
          let idx := s
          (a.1 - (MG_PIECE_VALUE.getD pt 0 + (MG_PST pt).getD idx 0),
           a.2.1 - (EG_PIECE_VALUE.getD pt 0 + (EG_PST pt).getD idx 0),
           a.2.2 + PHASE_WEIGHT.getD pt 0)) aW) (0, 0, 0)
  let pw := evalPawns b White 1
  let pb := evalPawns b Black (-1)
  let cw := evalPieces b White 1
  let cb := evalPieces b Black (-1)
  let kw := evalKingSafety b White 1
  let kb := evalKingSafety b Black (-1)
  let mw := evalMobility b White 1
  let mb := evalMobility b Black (-1)
  let mg := acc.1 + pw.1 + pb.1 + cw.1 + cb.1 + kw + kb + mw.1 + mb.1
  let eg := acc.2.1 + pw.2 + pb.2 + cw.2 + cb.2 + mw.2 + mb.2
  let phase0 := acc.2.2
  let phase := if phase0 > TOTAL_PHASE then TOTAL_PHASE else phase0
  let score := (mg * phase + eg * (TOTAL_PHASE - phase)).tdiv TOTAL_PHASE
  if b.sideToMove = White then score else -score

/-- evaluate of eval.cpp in Handcrafted mode; the NNUE backend is out of the
scope of the specification and falls back to the handcrafted evaluator when
unavailable, so the search below evaluates with evaluate_handcrafted. -/
def evaluate (b : Board) : Int := evaluate_handcrafted b

/-- The PieceValue table of eval.h, used by the search heuristics. -/
def PieceValue : List Int := [100, 320, 330, 500, 900, 0]

/-! ## Search (from search.cpp)

The search is embedded as pure state-passing functions over SearchState.
Real time does not exist in the embedding, so checkTime never fires (the
search is modelled with no time limit and no external stop flag) and the
stopped flag, which only checkTime and the external flag can set, stays
false.  The possibly unbounded recursion (quiescence has no depth bound in
the C++ code) is made total with a fuel argument: every nested call consumes
one unit of fuel, and running out of fuel returns like a stopped search.
The LMR reduction table is initialized in C++ from floating-point logarithms;
it enters here as an explicit function argument, since none of the verified
properties depend on its entries. -/

structure SearchState where
  tt : TranspositionTable
  killers : Nat → Nat → Move
  history : Color → Square → Square → Int
  repetitionHistory : List Nat
  rootRepIndex : Nat
  stopped : Bool
  nodes : Nat

def TT_MOVE_SCORE : Int := 10000000
def CAPTURE_BASE : Int := 1000000
def KILLER1_SCORE : Int := 900000
def KILLER2_SCORE : Int := 800000
def DELTA_MARGIN : Int := 200
def LMR_MIN_DEPTH : Int := 3
def LMR_FULL_SEARCH_MOVES : Nat := 3
def FUTILITY_MARGIN : List Int := [0, 200, 350, 500]
def RFP_MARGIN : List Int := [0, 100, 250, 400]
def FUTILITY_MAX_DEPTH : Int := 3
def NMP_MIN_DEPTH : Int := 3
def NMP_REDUCTION : Int := 2
def NMP_VERIFY_DEPTH : Int := 6
def NMP_MIN_MATERIAL : Int := 400

/-- The backward scan of isThreefoldRepetition of search.cpp, stepping two
plies at a time; the fuel argument (started at the scan index, which bounds
the number of two-ply steps) only makes the countdown structural. -/
def threefoldGo (hist : List Nat) (key : Nat) (repIndex maxBack : Nat) :
    Nat → Nat → Nat → Bool
  | 0, _, _ => false
  | fuel + 1, i, count =>
    if repIndex - i > maxBack then false
    else
      let count2 := if hist.getD i 0 = key then count + 1 else count
      if hist.getD i 0 = key ∧ count2 ≥ 3 then true
      else if i < 2 then false
      else threefoldGo hist key repIndex maxBack fuel (i - 2) count2

/-- isThreefoldRepetition of search.cpp: the current hash must appear at least
twice more among same-side entries of the repetition stack, scanning back at
most min(halfmove clock, repIndex) plies, and only when the halfmove clock is
at least 4. -/
def isThreefoldRepetition (b : Board) (st : SearchState) (repIndex : Nat) : Bool :=
  if repIndex ≥ st.repetitionHistory.length then false
  else if b.halfmoveClock < 4 then false
  else if repIndex < 2 then false
  else threefoldGo st.repetitionHistory b.hash repIndex
    (min b.halfmoveClock repIndex) repIndex (repIndex - 2) 1

/-- isCapture of search.cpp. -/
def isCapture (b : Board) (m : Move) : Bool :=
  decide (b.piece_on (move_to m) ≠ NoPiece) || decide (move_type m = MoveTypeEnPassant)

/-- mvvLvaScore of search.cpp. -/
def mvvLvaScore (b : Board) (m : Move) : Int :=
  let victimVal :=
    if move_type m = MoveTypeEnPassant then PieceValue.getD Pawn 0
    else PieceValue.getD (piece_type (b.piece_on (move_to m))) 0
  let attackerVal := PieceValue.getD (piece_type (b.piece_on (move_from m))) 0
  CAPTURE_BASE + victimVal * 10 - attackerVal

/-- scoreMoves of search.cpp: TT move, captures by MVV-LVA, killers, history. -/
def scoreMoves (b : Board) (moves : List Move) (ttMove : Move) (st : SearchState)
    (ply : Nat) : List Int :=
  moves.map (fun m =>
    if m = ttMove ∧ ttMove ≠ NullMove then TT_MOVE_SCORE
    else if isCapture b m then mvvLvaScore b m
    else if ply < 64 ∧ m = st.killers ply 0 then KILLER1_SCORE
    else if ply < 64 ∧ m = st.killers ply 1 then KILLER2_SCORE
    else st.history b.sideToMove (move_from m) (move_to m))

/-- pickBest of search.cpp: swap the best-scored pending entry into place idx
of the parallel move and score arrays, modelled as a list of pairs. -/
def pickBest (ms : List (Move × Int)) (idx : Nat) : List (Move × Int) :=
  let bestIdx := (List.range ms.length).foldl
    (fun bi i =>
      if idx < i ∧ (ms.getD i (0, 0)).2 > (ms.getD bi (0, 0)).2 then i else bi) idx
  if bestIdx = idx then ms
  else (ms.set idx (ms.getD bestIdx (0, 0))).set bestIdx (ms.getD idx (0, 0))

/-- captureValue of search.cpp: victim value plus promotion gain. -/
def captureValue (b : Board) (m : Move) : Int :=
  let value :=
    if move_type m = MoveTypeEnPassant then PieceValue.getD Pawn 0
    else
      let victim := b.piece_on (move_to m)
      if victim ≠ NoPiece then PieceValue.getD (piece_type victim) 0 else 0
  if move_type m = MoveTypePromotion then
    value + PieceValue.getD (promotion_type m) 0 - PieceValue.getD Pawn 0
  else value

/-- nonPawnMaterial of search.cpp. -/
def nonPawnMaterial (b : Board) (c : Color) : Int :=
  (popcount (b.byColorType c Knight) : Int) * PieceValue.getD Knight 0 +
  (popcount (b.byColorType c Bishop) : Int) * PieceValue.getD Bishop 0 +
  (popcount (b.byColorType c Rook) : Int) * PieceValue.getD Rook 0 +
  (popcount (b.byColorType c Queen) : Int) * PieceValue.getD Queen 0

/-- The repetition-stack write of search.cpp on entering a child: push when the
index reaches the end, overwrite otherwise. -/
def writeRep (st : SearchState) (idx : Nat) (h : Nat) : SearchState :=
  if idx ≥ st.repetitionHistory.length then
    { st with repetitionHistory := st.repetitionHistory ++ [h] }
  else
    { st with repetitionHistory := st.repetitionHistory.set idx h }

mutual

/-- quiescence of search.cpp: stop and repetition checks, then in check search
all legal evasions with no stand-pat, otherwise stand-pat with beta cutoff and
a capture-only move list. -/
def quiescence (fuel : Nat) (b : Board) (alpha beta : Int) (st : SearchState)
    (ply repIndex : Nat) : Int × SearchState :=
  match fuel with
  | 0 => (0, st)
  | fuel + 1 =>
    if st.stopped then (0, st)
    else
      let st := { st with nodes := st.nodes + 1 }
      if isThreefoldRepetition b st repIndex then (0, st)
      else
        let inCheck := in_check b
        let allMoves := generate_legal b
        if inCheck then
          qStep fuel b allMoves alpha beta st ply repIndex inCheck
        else
          let standPat := evaluate b
          if standPat ≥ beta then (beta, st)
          else
            let alpha2 := if standPat > alpha then standPat else alpha
            let qmoves := allMoves.filter (fun m => isCapture b m)
            qStep fuel b qmoves alpha2 beta st ply repIndex inCheck

/-- The terminal check, MVV-LVA scoring and loop entry of quiescence. -/
def qStep (fuel : Nat) (b : Board) (qmoves : List Move) (alpha beta : Int)
    (st : SearchState) (ply repIndex : Nat) (inCheck : Bool) : Int × SearchState :=
  match fuel with
  | 0 => (alpha, st)
  | fuel + 1 =>
    if qmoves.length = 0 then
      if inCheck then (-MATE_SCORE + ply, st) else (alpha, st)
    else
      let ms := qmoves.map (fun m => (m, mvvLvaScore b m))
      qLoop fuel b ms 0 alpha beta st ply repIndex inCheck

/-- The capture loop of quiescence: selection-pick, delta pruning, recursive
search with the negated window, beta cutoff and alpha raise. -/
def qLoop (fuel : Nat) (b : Board) (ms : List (Move × Int)) (i : Nat)
    (alpha beta : Int) (st : SearchState) (ply repIndex : Nat) (inCheck : Bool) :
    Int × SearchState :=
  match fuel with
  | 0 => (alpha, st)
  | fuel + 1 =>
    if i ≥ ms.length then (alpha, st)
    else
      let ms := pickBest ms i
      let m := (ms.getD i (0, 0)).1
      if (!inCheck) && decide (evaluate b + captureValue b m + DELTA_MARGIN < alpha) then
        qLoop fuel b ms (i + 1) alpha beta st ply repIndex inCheck
      else
        let child := b.make_move m
        let childRepIndex := repIndex + 1
        let st := writeRep st childRepIndex child.hash
        let r := quiescence fuel child (-beta) (-alpha) st (ply + 1) childRepIndex
        let score := -r.1
        let st := r.2
        if st.stopped then (0, st)
        else if score ≥ beta then (beta, st)
        else
          let alpha2 := if score > alpha then score else alpha
          qLoop fuel b ms (i + 1) alpha2 beta st ply repIndex inCheck

/-- negamax of search.cpp: stop and repetition checks, terminal detection,
50-move draw, TT probe with depth and flag conditions, quiescence at depth 0,
then reverse futility and the null-move and move-loop phases. -/
def negamax (fuel : Nat) (lmr : Nat → Nat → Int) (b : Board)
    (depth alpha beta : Int) (st : SearchState) (ply repIndex : Nat)
    (allowNullMove : Bool) : Int × SearchState :=
  match fuel with
  | 0 => (0, st)
  | fuel + 1 =>
    if st.stopped then (0, st)
    else
      let st := { st with nodes := st.nodes + 1 }
      if isThreefoldRepetition b st repIndex then (0, st)
      else
        let moves := generate_legal b
        if moves.length = 0 then
          if in_check b then (-MATE_SCORE + ply, st) else (0, st)
        else if is_draw_by_fifty_move_rule b then (0, st)
        else
          let probeRes := st.tt.probe b.hash
          let ttMove := match probeRes with
            | some e => e.bestMove
            | none => NullMove
          let ttHit : Option Int :=
            match probeRes with
            | some e =>
              if e.depth ≥ depth then
                let ttScore := scoreFromTT e.score ply
                if e.flag = TT_EXACT then some ttScore
                else if e.flag = TT_BETA ∧ ttScore ≥ beta then some ttScore
                else if e.flag = TT_ALPHA ∧ ttScore ≤ alpha then some ttScore
                else none
              else none
            | none => none
          match ttHit with
          | some v => (v, st)
          | none =>
            if depth = 0 then quiescence fuel b alpha beta st ply repIndex
            else
              let inCheck := in_check b
              let pvNode : Bool := decide (beta - alpha > 1)
              let staticEval := evaluate b
              if (!pvNode) && (!inCheck) && decide (depth ≤ FUTILITY_MAX_DEPTH) &&
                  decide (|beta| < MATE_SCORE - MAX_PLY) &&
                  decide (staticEval - RFP_MARGIN.getD depth.toNat 0 ≥ beta) then
                (staticEval - RFP_MARGIN.getD depth.toNat 0, st)
              else
                negamaxNMP fuel lmr b depth alpha beta st ply repIndex allowNullMove
                  moves ttMove inCheck pvNode staticEval

/-- The null-move-pruning phase of negamax, with verification at high depth. -/
def negamaxNMP (fuel : Nat) (lmr : Nat → Nat → Int) (b : Board)
    (depth alpha beta : Int) (st : SearchState) (ply repIndex : Nat)
    (allowNullMove : Bool) (moves : List Move) (ttMove : Move)
    (inCheck pvNode : Bool) (staticEval : Int) : Int × SearchState :=
  match fuel with
  | 0 => (0, st)
  | fuel + 1 =>
    if allowNullMove && (!inCheck) && decide (depth ≥ NMP_MIN_DEPTH) &&
        decide (nonPawnMaterial b b.sideToMove ≥ NMP_MIN_MATERIAL) then
      let nullChild := b.make_null_move
      let reduction := NMP_REDUCTION + (if depth > 6 then 1 else 0)
      let nullDepth0 := depth - 1 - reduction
      let nullDepth := if nullDepth0 < 0 then 0 else nullDepth0
      let nullRepIndex := repIndex + 1
      let st := writeRep st nullRepIndex nullChild.hash
      let r := negamax fuel lmr nullChild nullDepth (-beta) (-beta + 1) st (ply + 1)
        nullRepIndex false
      let nullScore := -r.1
      let st := r.2
      if st.stopped then (0, st)
      else if nullScore ≥ beta then
        if depth ≥ NMP_VERIFY_DEPTH then
          let r2 := negamax fuel lmr b (depth - 1) (beta - 1) beta st ply repIndex false
          let st := r2.2
          if st.stopped then (0, st)
          else if r2.1 ≥ beta then (beta, st)
          else negamaxMoves fuel lmr b depth alpha beta st ply repIndex moves ttMove
            inCheck pvNode staticEval
        else (beta, st)
      else negamaxMoves fuel lmr b depth alpha beta st ply repIndex moves ttMove
        inCheck pvNode staticEval
    else negamaxMoves fuel lmr b depth alpha beta st ply repIndex moves ttMove
      inCheck pvNode staticEval

/-- The move scoring and loop entry of negamax. -/
def negamaxMoves (fuel : Nat) (lmr : Nat → Nat → Int) (b : Board)
    (depth alpha beta : Int) (st : SearchState) (ply repIndex : Nat)
    (moves : List Move) (ttMove : Move) (inCheck pvNode : Bool)
    (staticEval : Int) : Int × SearchState :=
  match fuel with
  | 0 => (0, st)
  | fuel + 1 =>
    let ms := moves.zip (scoreMoves b moves ttMove st ply)
    negamaxLoop fuel lmr b depth beta st ply repIndex inCheck pvNode staticEval ms 0
      alpha ((ms.getD 0 (0, 0)).1) TT_ALPHA

/-- The move loop of negamax: selection-pick, futility pruning, late move
reductions with the re-search ladder, beta cutoff with TT store and killer and
history updates, alpha raise, and the final TT store. -/
def negamaxLoop (fuel : Nat) (lmr : Nat → Nat → Int) (b : Board)
    (depth beta : Int) (st : SearchState) (ply repIndex : Nat)
    (inCheck pvNode : Bool) (staticEval : Int) (ms : List (Move × Int)) (i : Nat)
    (alpha : Int) (bestMove : Move) (flag : Nat) : Int × SearchState :=
  match fuel with
  | 0 => (alpha, st)
  | fuel + 1 =>
    if i ≥ ms.length then
      let st2 := { st with tt := st.tt.store b.hash (scoreToTT alpha ply) depth flag bestMove }
      (alpha, st2)
    else
      let ms := pickBest ms i
      let m := (ms.getD i (0, 0)).1
      let capture := isCapture b m
      let isPromo : Bool := decide (move_type m = MoveTypePromotion)
      if (!pvNode) && (!inCheck) && decide (depth ≤ FUTILITY_MAX_DEPTH) &&
          decide (i > 0) && (!capture) && (!isPromo) &&
          decide (|alpha| < MATE_SCORE - MAX_PLY) &&
          decide (staticEval + FUTILITY_MARGIN.getD depth.toNat 0 ≤ alpha) then
        negamaxLoop fuel lmr b depth beta st ply repIndex inCheck pvNode staticEval
          ms (i + 1) alpha bestMove flag
      else
        let child := b.make_move m
        let childRepIndex := repIndex + 1
        let st := writeRep st childRepIndex child.hash
        let doLMR := (!inCheck) && decide (depth ≥ LMR_MIN_DEPTH) &&
          decide (i ≥ LMR_FULL_SEARCH_MOVES) && (!capture) && (!isPromo)
        let rs :=
          if doLMR then
            let d := depth - 1
            let mi := if i < 64 then i else 63
            let reduction0 := lmr (if d < 64 then d.toNat else 63) mi
            let reduction := if reduction0 < 1 then 1 else reduction0
            let reducedDepth0 := depth - 1 - reduction
            let reducedDepth := if reducedDepth0 < 0 then 0 else reducedDepth0
            let r1 := negamax fuel lmr child reducedDepth (-alpha - 1) (-alpha) st
              (ply + 1) childRepIndex true
            let score1 := -r1.1
            let st1 := r1.2
            if (!st1.stopped) && decide (score1 > alpha) then
              let r2 := negamax fuel lmr child (depth - 1) (-alpha - 1) (-alpha) st1
                (ply + 1) childRepIndex true
              let score2 := -r2.1
              let st2 := r2.2
              if (!st2.stopped) && decide (score2 > alpha) && decide (score2 < beta) then
                let r3 := negamax fuel lmr child (depth - 1) (-beta) (-alpha) st2
                  (ply + 1) childRepIndex true
                (-r3.1, r3.2)
              else (score2, st2)
            else (score1, st1)
          else
            let r := negamax fuel lmr child (depth - 1) (-beta) (-alpha) st
              (ply + 1) childRepIndex true
            (-r.1, r.2)
        let score := rs.1
        let st := rs.2
        if st.stopped then (0, st)
        else if score ≥ beta then
          let st2 := { st with tt := st.tt.store b.hash (scoreToTT score ply) depth TT_BETA m }
          let st3 :=
            if !capture then
              let stK :=
                if ply < 64 then
                  { st2 with killers := fun p sidx =>
                      if p = ply ∧ sidx = 0 then m
                      else if p = ply ∧ sidx = 1 then st2.killers ply 0
                      else st2.killers p sidx }
                else st2
              { stK with history := fun c f t =>
                  if c = b.sideToMove ∧ f = move_from m ∧ t = move_to m then
                    stK.history c f t + depth * depth
                  else stK.history c f t }
            else st2
          (beta, st3)
        else
          if score > alpha then
            negamaxLoop fuel lmr b depth beta st ply repIndex inCheck pvNode staticEval
              ms (i + 1) score m TT_EXACT
          else
            negamaxLoop fuel lmr b depth beta st ply repIndex inCheck pvNode staticEval
              ms (i + 1) alpha bestMove flag

end

/-! ## UCI position parsing (from uci.cpp) -/

/-- parseUCIMove of uci.cpp: decode the coordinate move text and match it
against the legal move list; an unmatched or malformed text yields NullMove. -/
def parseUCIMove (b : Board) (str : List Char) : Move :=
  if str.length < 4 then NullMove
  else
    let fromFile : Int := (str.getD 0 ' ').toNat - 97
    let fromRank : Int := (str.getD 1 ' ').toNat - 49
    let toFile : Int := (str.getD 2 ' ').toNat - 97
    let toRank : Int := (str.getD 3 ' ').toNat - 49
    if fromFile < 0 ∨ fromFile > 7 ∨ fromRank < 0 ∨ fromRank > 7 ∨
        toFile < 0 ∨ toFile > 7 ∨ toRank < 0 ∨ toRank > 7 then NullMove
    else
      let fromSq := (fromRank * 8 + fromFile).toNat
      let toSq := (toRank * 8 + toFile).toNat
      let promoPiece :=
        if str.length ≥ 5 then
          let c := str.getD 4 ' '
          if c = 'n' then Knight else if c = 'b' then Bishop
          else if c = 'r' then Rook else Queen
        else Queen
      let legal := generate_legal b
      let found := legal.find? (fun m =>
        decide (move_from m = fromSq) && decide (move_to m = toSq) &&
          (decide (move_type m ≠ MoveTypePromotion) ||
            decide (promotion_type m = promoPiece)))
      match found with
      | some m => m
      | none => NullMove

/-- The moves loop of parsePosition of uci.cpp: each token that parses to a
legal move is made; a token that does not parse is skipped and the loop
continues with the following tokens. -/
def applyMoves (b : Board) : List (List Char) → Board
  | [] => b
  | t :: rest =>
    let m := parseUCIMove b t
    if m ≠ NullMove then applyMoves (b.make_move m) rest else applyMoves b rest

/-- The FEN-collection loop of parsePosition of uci.cpp: read up to six
tokens, stopping early at a moves token; returns the collected FEN text, the
last token value and the remaining tokens.  A failed extraction leaves the
empty token, as the C++ stream does. -/
def fenCollect : List (List Char) → Nat → List Char → List Char →
    List Char × List Char × List (List Char)
  | toks, i, fen, lastTok =>
    match toks with
    | [] => if i ≥ 6 then (fen, lastTok, []) else (fen, [], [])
    | t :: rest =>
      if i ≥ 6 then (fen, lastTok, t :: rest)
      else if t = "moves".data then (fen, t, rest)
      else fenCollect rest (i + 1) (if i > 0 then fen ++ ' ' :: t else fen ++ t) t

/-- parsePosition of uci.cpp, over the token list following the position
command word: set the board from startpos or from the collected FEN text (in
both cases unconditionally), then apply the listed moves, skipping tokens that
do not parse to legal moves. -/
def parsePosition (b : Board) (toks : List (List Char)) : Board :=
  let r1 := readTok toks
  let tok := r1.1
  let rest := r1.2
  if tok = "startpos".data then
    let b2 := b.set_fen StartFEN
    let r2 := readTok rest
    if r2.1 = "moves".data then applyMoves b2 r2.2 else b2
  else if tok = "fen".data then
    let fc := fenCollect rest 0 [] []
    let b2 := b.set_fen (String.mk fc.1)
    if fc.2.1 = "moves".data then applyMoves b2 fc.2.2
    else
      let r2 := readTok fc.2.2
      if r2.1 = "moves".data then applyMoves b2 r2.2 else b2
  else
    if tok = "moves".data then applyMoves b rest else b

/-- A cleared TT entry, as written by TranspositionTable::clear. -/
def TTEntry.cleared : TTEntry :=
  { key := 0, score := 0, depth := 0, flag := TT_EXACT, bestMove := NullMove, generation := 0 }

/-- TranspositionTable::clear of board.h: zero every slot, generation 1. -/
def TranspositionTable.clear (tt : TranspositionTable) : TranspositionTable :=
  { tt with table := fun _ => TTEntry.cleared, currentGeneration := 1 }

/-- A freshly constructed transposition table with the given mask, as built by
the TranspositionTable constructor followed by clear. -/
def TranspositionTable.fresh (mask : Nat) : TranspositionTable :=
  { table := fun _ => TTEntry.cleared, mask := mask, currentGeneration := 1 }

/-- A fresh SearchState over a table, as built by the SearchState constructor
of search.cpp (clear zeroes killers, history, nodes and the stop flag). -/
def SearchState.initial (tt : TranspositionTable) : SearchState :=
  { tt := tt
    killers := fun _ _ => NullMove
    history := fun _ _ _ => 0
    repetitionHistory := []
    rootRepIndex := 0
    stopped := false
    nodes := 0 }

/-- Space-joined concatenation of tokens, the FEN text parsePosition rebuilds. -/
def joinSpace : List (List Char) → List Char
  | [] => []
  | [t] => t
  | t :: rest => t ++ ' ' :: joinSpace rest

/-! ## Board-validity invariants and move preconditions (for claim C1)

The predicates below state the consistency facts the C++ engine maintains
implicitly across make_move: the bitboards, occupancies and mailbox describe
the same position, the scalar fields are in range, the en-passant and
castling state match the piece placement, and the incremental hash equals a
full recomputation. -/

/-- Agreement of the redundant board representations of board.h: piece
bitboards against the mailbox, occupancies against the mailbox, and 64-bit
range bounds on all of them. -/
def DataInv (b : Board) : Prop :=
  (∀ (q t : Nat), q < 12 → t < 64 → ((b.pieceBB q).testBit t = true ↔ b.mailbox t = q)) ∧
  (∀ q : Nat, q < 12 → b.pieceBB q < 2 ^ 64) ∧
  (∀ t : Nat, t < 64 → b.mailbox t < 13) ∧
  (∀ (c t : Nat), c < 2 → t < 64 →
    ((b.occupancy c).testBit t = true ↔
      (b.mailbox t ≠ NoPiece ∧ piece_color (b.mailbox t) = c))) ∧
  (∀ t : Nat, t < 64 → ((b.occupancy 2).testBit t = true ↔ b.mailbox t ≠ NoPiece)) ∧
  (∀ c : Nat, c ≤ 2 → b.occupancy c < 2 ^ 64)

/-- The en-passant invariant make_move maintains: a set en-passant square
sits directly behind a pawn of the side that just double-pushed, on an empty
square of the correct rank. -/
def EpOK (b : Board) : Prop :=
  b.epSquare ≠ NoSquare →
    (b.sideToMove = White →
      square_rank b.epSquare = 5 ∧ b.mailbox b.epSquare = NoPiece ∧
        b.mailbox (b.epSquare - 8) = BlackPawn) ∧
    (b.sideToMove = Black →
      square_rank b.epSquare = 2 ∧ b.mailbox b.epSquare = NoPiece ∧
        b.mailbox (b.epSquare + 8) = WhitePawn)

/-- The castling-rights invariant the CastlingUpdate table maintains: a live
castling bit implies king and rook still stand on their home squares. -/
def CrOK (b : Board) : Prop :=
  (b.castling &&& WhiteKingSide ≠ 0 → b.mailbox E1 = WhiteKing ∧ b.mailbox H1 = WhiteRook) ∧
  (b.castling &&& WhiteQueenSide ≠ 0 → b.mailbox E1 = WhiteKing ∧ b.mailbox A1 = WhiteRook) ∧
  (b.castling &&& BlackKingSide ≠ 0 → b.mailbox E8 = BlackKing ∧ b.mailbox H8 = BlackRook) ∧
  (b.castling &&& BlackQueenSide ≠ 0 → b.mailbox E8 = BlackKing ∧ b.mailbox A8 = BlackRook)

/-- A well-formed board state: representation agreement, side to move in
range, the en-passant and castling invariants, and the incrementally
maintained hash equal to a full recomputation. -/
def BoardOK (b : Board) : Prop :=
  DataInv b ∧ b.sideToMove < 2 ∧ EpOK b ∧ CrOK b ∧ b.hash = b.compute_hash

/-- The per-move preconditions under which make_move's piece updates are
consistent: the moved piece exists, the target and capture squares hold what
the move type expects, and the touched squares are distinct.  Every move
produced by generate_legal on a well-formed board satisfies them. -/
def MovePre (b : Board) (m : Move) : Prop :=
  let f := move_from m
  let t := move_to m
  if move_type m = MoveTypeEnPassant then
    b.epSquare < 64 ∧ t = b.epSquare ∧ b.mailbox t = NoPiece ∧
    b.mailbox f = make_piece b.sideToMove Pawn ∧
    b.mailbox (make_square (square_file t) (square_rank f))
      = make_piece (compl b.sideToMove) Pawn ∧
    f ≠ make_square (square_file t) (square_rank f)
  else if move_type m = MoveTypeCastling then
    (f = E1 ∧ t = G1 ∧ b.mailbox E1 = WhiteKing ∧ b.mailbox H1 = WhiteRook ∧
      b.mailbox F1 = NoPiece ∧ b.mailbox G1 = NoPiece) ∨
    (f = E1 ∧ t = C1 ∧ b.mailbox E1 = WhiteKing ∧ b.mailbox A1 = WhiteRook ∧
      b.mailbox C1 = NoPiece ∧ b.mailbox D1 = NoPiece) ∨
    (f = E8 ∧ t = G8 ∧ b.mailbox E8 = BlackKing ∧ b.mailbox H8 = BlackRook ∧
      b.mailbox F8 = NoPiece ∧ b.mailbox G8 = NoPiece) ∨
    (f = E8 ∧ t = C8 ∧ b.mailbox E8 = BlackKing ∧ b.mailbox A8 = BlackRook ∧
      b.mailbox C8 = NoPiece ∧ b.mailbox D8 = NoPiece)
  else
    b.mailbox f < 12 ∧ f ≠ t ∧
    (move_type m = MoveTypeNormal →
      piece_type (b.mailbox f) = Pawn → (t = f + 16 ∨ f = t + 16) →
        b.mailbox f = make_piece b.sideToMove Pawn ∧
        b.mailbox ((f + t) / 2) = NoPiece ∧
        (b.sideToMove = White → t = f + 16 ∧ square_rank f = 1) ∧
        (b.sideToMove = Black → f = t + 16 ∧ square_rank f = 6))

/-- A sequence of moves each legal (generated by generate_legal) in the
running position. -/
def LegalSeq : Board → List Move → Prop
  | _, [] => True
  | b, m :: ms => m ∈ generate_legal b ∧ LegalSeq (b.make_move m) ms

/-- Playing out a move sequence with make_move. -/
def playMoves (b : Board) (ms : List Move) : Board :=
  ms.foldl Board.make_move b

/-- A chess-valid source position behind a FEN string: piece codes in range,
side to move White or Black, castling rights within the four bits and
matching the king and rook placement, and a well-formed en-passant state.  A
valid FEN in the sense of claim C1 is a string printed from such a
position. -/
def GoodBoard (g : Board) : Prop :=
  (∀ sq : Nat, sq < 64 → g.mailbox sq < 13) ∧
  g.sideToMove < 2 ∧ g.castling < 16 ∧
  (g.epSquare = NoSquare ∨ g.epSquare < 64) ∧
  EpOK g ∧ CrOK g

/-- The piece-placement part of compute_hash: the XOR of the piece-square
keys of every set bit of every piece bitboard. -/
def pieceHash (b : Board) : Nat :=
  (List.range 12).foldl
    (fun h p => (bbList (b.pieceBB p)).foldl (fun h2 s => h2 ^^^ zobrist.pieceKeys p s) h) 0

/-- The head section of make_move: hash out the castling and en-passant keys
and clear the en-passant square. -/
def hashOutCE (b : Board) : Board :=
  { b with
    epSquare := NoSquare
    hash := if b.epSquare ≠ NoSquare then
        b.hash ^^^ zobrist.castlingKeys b.castling
          ^^^ zobrist.enPassantKeys (square_file b.epSquare)
      else b.hash ^^^ zobrist.castlingKeys b.castling }

/-- Overwriting the halfmove clock. -/
def setClock (b : Board) (n : Nat) : Board := { b with halfmoveClock := n }

/-- Overwriting the halfmove clock and the en-passant square. -/
def setClockEp (b : Board) (n : Nat) (e : Square) : Board :=
  { b with halfmoveClock := n, epSquare := e }

/-- The tail section of make_move: intersect the castling rights with the
update table, bump the fullmove number after Black, flip the side to move and
hash the side, castling and en-passant keys in. -/
def finishMove (b0 b2 : Board) (m : Move) : Board :=
  { b2 with
    castling := b0.castling &&& CastlingUpdate (move_from m) &&& CastlingUpdate (move_to m)
    fullmoveNumber :=
      if b0.sideToMove = Black then b0.fullmoveNumber + 1 else b0.fullmoveNumber
    sideToMove := compl b0.sideToMove
    hash :=
      if b2.epSquare ≠ NoSquare then
        b2.hash ^^^ zobrist.sideKey
          ^^^ zobrist.castlingKeys
            (b0.castling &&& CastlingUpdate (move_from m) &&& CastlingUpdate (move_to m))
          ^^^ zobrist.enPassantKeys (square_file b2.epSquare)
      else
        b2.hash ^^^ zobrist.sideKey
          ^^^ zobrist.castlingKeys
            (b0.castling &&& CastlingUpdate (move_from m) &&& CastlingUpdate (move_to m)) }

/-- Agreement of the three piece-placement fields of two boards. -/
def DataEq (x y : Board) : Prop :=
  x.pieceBB = y.pieceBB ∧ x.occupancy = y.occupancy ∧ x.mailbox = y.mailbox

/-- The tail of unmake_move: restore the scalar state from the undo record. -/
def restoreMeta (x : Board) (u : UndoInfo) : Board :=
  { x with
    sideToMove := u.sideToMove
    castling := u.castling
    epSquare := u.epSquare
    halfmoveClock := u.halfmoveClock
    fullmoveNumber := u.fullmoveNumber
    hash := u.hash }

/-! # Theorems

The remainder of the file proves the specification claims about the
definitions above, together with the supporting lemmas. -/

/-! ## Bit-level lemmas -/

/-- Specification of the fueled least-significant-bit computation: on a
nonzero word within the fuel range, the returned index carries a set bit and
everything below it is clear. -/
theorem lsbAux_spec : ∀ fuel b, b ≠ 0 → b < 2 ^ fuel →
    (b.testBit (lsbAux fuel b) = true ∧ ∀ i, i < lsbAux fuel b → b.testBit i = false) := by
  intro fuel
  induction fuel with
  | zero => intro b hb hlt; omega
  | succ fuel ih =>
    intro b hb hlt
    rw [lsbAux]
    simp only [hb, if_false]
    by_cases h2 : b % 2 = 1
    · simp [h2, Nat.testBit_zero]
    · have hhalf : b / 2 ≠ 0 := by omega
      have hhlt : b / 2 < 2 ^ fuel := by
        rw [pow_succ] at hlt
        omega
      obtain ⟨hset, hbelow⟩ := ih (b / 2) hhalf hhlt
      rw [if_neg h2]
      constructor
      · rw [Nat.add_comm]
        exact (Nat.testBit_succ b (lsbAux fuel (b / 2))).trans hset
      · intro i hi
        match i with
        | 0 => simpa [Nat.testBit_zero] using (by omega : ¬ b % 2 = 1)
        | i + 1 =>
          rw [Nat.testBit_succ]
          exact hbelow i (by omega)

/-- The least significant set bit of a nonzero 64-bit word is set. -/
theorem testBit_lsb {b : Nat} (hb : b ≠ 0) (hlt : b < 2 ^ 64) :
    b.testBit (lsb b) = true :=
  (lsbAux_spec 64 b hb hlt).1

/-- Bits below the least significant set bit of a 64-bit word are clear. -/
theorem testBit_lt_lsb {b i : Nat} (hlt : b < 2 ^ 64) (hi : i < lsb b) :
    b.testBit i = false := by
  by_cases hb : b = 0
  · simp [hb]
  · exact (lsbAux_spec 64 b hb hlt).2 i hi

/-- The least significant set bit of a nonzero 64-bit word is a valid index. -/
theorem lsb_lt_64 {b : Nat} (hb : b ≠ 0) (hlt : b < 2 ^ 64) : lsb b < 64 := by
  by_contra h
  have hset := testBit_lsb hb hlt
  have : b.testBit (lsb b) = false := by
    apply Nat.testBit_eq_false_of_lt
    exact lt_of_lt_of_le hlt (Nat.pow_le_pow_right (by omega) (by omega))
  rw [hset] at this
  exact Bool.noConfusion this

/-- Membership in the set-bit list is exactly having the bit set. -/
theorem mem_bbList {b : Bitboard} {a : Nat} :
    a ∈ bbList b ↔ (a < 64 ∧ b.testBit a = true) := by
  simp [bbList, List.mem_filter, List.mem_range, and_comm]


/-! ## Claim C3: the transposition-table replacement policy -/

/-- C3.  Every TranspositionTable.store call behaves as specified: writing the
slot indexed by the key exactly when the slot is empty, or holds the same key
with the new depth at least the stored depth or the new flag Exact, or holds a
different key and the stored generation is at least two older (modulo 256, the
generations being 8-bit counters), or the new depth is strictly greater, or the
depths are equal and the new flag is Exact while the stored one is not; in every
other case the table is left unchanged, and the mask and generation fields are
never altered. -/
theorem C3_tt_store_replacement_policy (tt : TranspositionTable) (key : Nat)
    (score : Int) (depth : Int) (flag : Nat) (bestMove : Move) :
    (tt.store key score depth flag bestMove).table =
      (if (tt.table (key &&& tt.mask)).key = 0 ∨
          ((tt.table (key &&& tt.mask)).key = key ∧ (tt.table (key &&& tt.mask)).key ≠ 0 ∧
            (depth ≥ (tt.table (key &&& tt.mask)).depth ∨ flag = TT_EXACT)) ∨
          ((tt.table (key &&& tt.mask)).key ≠ key ∧ (tt.table (key &&& tt.mask)).key ≠ 0 ∧
            (ageOf tt.currentGeneration (tt.table (key &&& tt.mask)).generation ≥ 2 ∨
             depth > (tt.table (key &&& tt.mask)).depth ∨
             (depth = (tt.table (key &&& tt.mask)).depth ∧ flag = TT_EXACT ∧
              (tt.table (key &&& tt.mask)).flag ≠ TT_EXACT)))
       then Function.update tt.table (key &&& tt.mask)
         { key := key, score := score, depth := depth, flag := flag,
           bestMove := bestMove, generation := tt.currentGeneration }
       else tt.table) ∧
    (tt.store key score depth flag bestMove).mask = tt.mask ∧
    (tt.store key score depth flag bestMove).currentGeneration = tt.currentGeneration := by
  simp only [TranspositionTable.store]
  by_cases h0 : (tt.table (key &&& tt.mask)).key = 0
  · rw [if_pos h0, if_pos (Or.inl h0)]
    exact ⟨rfl, rfl, rfl⟩
  · rw [if_neg h0]
    by_cases hk : (tt.table (key &&& tt.mask)).key = key
    · rw [if_pos hk]
      by_cases hcond : depth ≥ (tt.table (key &&& tt.mask)).depth ∨ flag = TT_EXACT
      · have hb : (decide (depth ≥ (tt.table (key &&& tt.mask)).depth) ||
            decide (flag = TT_EXACT)) = true := by
          rcases hcond with h | h
          · simp [h]
          · simp [h]
        rw [hb, if_pos rfl, if_pos (Or.inr (Or.inl ⟨hk, h0, hcond⟩))]
        exact ⟨rfl, rfl, rfl⟩
      · have hb : (decide (depth ≥ (tt.table (key &&& tt.mask)).depth) ||
            decide (flag = TT_EXACT)) = false := by
          push_neg at hcond
          simp [hcond.1, hcond.2]
        rw [hb, if_neg Bool.false_ne_true]
        have hD : ¬((tt.table (key &&& tt.mask)).key = 0 ∨
            ((tt.table (key &&& tt.mask)).key = key ∧ (tt.table (key &&& tt.mask)).key ≠ 0 ∧
              (depth ≥ (tt.table (key &&& tt.mask)).depth ∨ flag = TT_EXACT)) ∨
            ((tt.table (key &&& tt.mask)).key ≠ key ∧ (tt.table (key &&& tt.mask)).key ≠ 0 ∧
              (ageOf tt.currentGeneration (tt.table (key &&& tt.mask)).generation ≥ 2 ∨
               depth > (tt.table (key &&& tt.mask)).depth ∨
               (depth = (tt.table (key &&& tt.mask)).depth ∧ flag = TT_EXACT ∧
                (tt.table (key &&& tt.mask)).flag ≠ TT_EXACT)))) := by
          rintro (h | ⟨_, _, hcase⟩ | ⟨hne, _, _⟩)
          · exact h0 h
          · exact hcond hcase
          · exact hne hk
        rw [if_neg hD]
        exact ⟨rfl, rfl, rfl⟩
    · rw [if_neg hk]
      by_cases hcond : ageOf tt.currentGeneration (tt.table (key &&& tt.mask)).generation ≥ 2 ∨
          depth > (tt.table (key &&& tt.mask)).depth ∨
          (depth = (tt.table (key &&& tt.mask)).depth ∧ flag = TT_EXACT ∧
            (tt.table (key &&& tt.mask)).flag ≠ TT_EXACT)
      · have hb : (decide (ageOf tt.currentGeneration
              (tt.table (key &&& tt.mask)).generation ≥ 2) ||
            decide (depth > (tt.table (key &&& tt.mask)).depth) ||
            (decide (depth = (tt.table (key &&& tt.mask)).depth) && decide (flag = TT_EXACT) &&
              decide ((tt.table (key &&& tt.mask)).flag ≠ TT_EXACT))) = true := by
          rcases hcond with h | h | ⟨h1, h2, h3⟩
          · simp [h]
          · simp [h]
          · simp [h1, h2, h3]
        rw [hb, if_pos rfl, if_pos (Or.inr (Or.inr ⟨hk, h0, hcond⟩))]
        exact ⟨rfl, rfl, rfl⟩
      · have hb : (decide (ageOf tt.currentGeneration
              (tt.table (key &&& tt.mask)).generation ≥ 2) ||
            decide (depth > (tt.table (key &&& tt.mask)).depth) ||
            (decide (depth = (tt.table (key &&& tt.mask)).depth) && decide (flag = TT_EXACT) &&
              decide ((tt.table (key &&& tt.mask)).flag ≠ TT_EXACT))) = false := by
          push_neg at hcond
          have h1 := hcond.1
          have h2 := hcond.2.1
          have h3 := hcond.2.2
          simp only [Bool.or_eq_false_iff, Bool.and_eq_false_iff, decide_eq_false_iff_not]
          refine ⟨⟨by omega, by omega⟩, ?_⟩
          by_cases hd : depth = (tt.table (key &&& tt.mask)).depth
          · by_cases hf : flag = TT_EXACT
            · right
              simpa using h3 hd hf
            · left
              right
              simpa using hf
          · left
            left
            simpa using hd
        rw [hb, if_neg Bool.false_ne_true]
        have hD : ¬((tt.table (key &&& tt.mask)).key = 0 ∨
            ((tt.table (key &&& tt.mask)).key = key ∧ (tt.table (key &&& tt.mask)).key ≠ 0 ∧
              (depth ≥ (tt.table (key &&& tt.mask)).depth ∨ flag = TT_EXACT)) ∨
            ((tt.table (key &&& tt.mask)).key ≠ key ∧ (tt.table (key &&& tt.mask)).key ≠ 0 ∧
              (ageOf tt.currentGeneration (tt.table (key &&& tt.mask)).generation ≥ 2 ∨
               depth > (tt.table (key &&& tt.mask)).depth ∨
               (depth = (tt.table (key &&& tt.mask)).depth ∧ flag = TT_EXACT ∧
                (tt.table (key &&& tt.mask)).flag ≠ TT_EXACT)))) := by
          rintro (h | ⟨hke, _, _⟩ | ⟨_, _, hcase⟩)
          · exact h0 h
          · exact hk hke
          · exact hcond hcase
        rw [if_neg hD]
        exact ⟨rfl, rfl, rfl⟩

/-! ## Claim C4: mate-distance normalization round-trips -/

/-- C4.  For every integer score and every ply between 0 and MAX_PLY,
converting a score for TT storage and converting the stored value back at the
same ply is the identity. -/
theorem C4_mate_normalization_roundtrip (s p : Int) (h0 : 0 ≤ p) (h1 : p ≤ MAX_PLY) :
    scoreFromTT (scoreToTT s p) p = s := by
  unfold scoreFromTT scoreToTT MATE_SCORE MAX_PLY at *
  split_ifs <;> omega

/-- Witness for C4 at score 99990 (a mate score) and ply 3. -/
theorem C4_mate_normalization_roundtrip_witness :
    (0 : Int) ≤ 3 ∧ (3 : Int) ≤ MAX_PLY ∧ scoreFromTT (scoreToTT 99990 3) 3 = 99990 :=
  ⟨by decide, by decide, C4_mate_normalization_roundtrip 99990 3 (by decide) (by decide)⟩

/-! ## Claim C8: the go-command time calculation

The code additionally clamps the limit from below at MIN_SEARCH_MS (1 ms), both
for the cap and for the final value, which the claim omits: with a very small
remaining clock the claimed value (formula capped at myTime minus overhead) is
negative while the code returns 1 ms. -/

/-- C8 counterexample: with wtime 10 ms (no increment, no movestogo, no
movetime, not infinite, White to move) the code computes 1 ms, while the
claimed formula capped at myTime minus the overhead gives -10 ms. -/
theorem C8_time_management_counterexample :
    computeTimeLimit 10 0 0 0 0 0 false White = 1 ∧
    min ((10 : Int).tdiv 30 + (0 * 3 : Int).tdiv 4) (10 - MOVE_OVERHEAD_MS) = -10 ∧
    (1 : Int) ≠ -10 := by
  refine ⟨?_, by decide, by decide⟩
  decide

/-- C8 amended.  For every go command carrying a clock (wtime or btime
positive), not infinite and without movetime, the computed limit is the
claimed share myTime/divisor + 3*myInc/4 capped at myTime minus the overhead,
except that both the cap and the final result are additionally clamped from
below at MIN_SEARCH_MS (1 ms). -/
theorem C8_time_management_amended (wtime btime winc binc movestogo : Int)
    (stm : Color) (hin : (wtime > 0 ∨ btime > 0)) :
    computeTimeLimit wtime btime winc binc 0 movestogo false stm =
      (let myTime := if stm = White then wtime else btime
       let myInc := if stm = White then winc else binc
       let divisor := if movestogo > 0 then movestogo else 30
       max (min (myTime.tdiv divisor + (myInc * 3).tdiv 4)
             (max (myTime - MOVE_OVERHEAD_MS) MIN_SEARCH_MS))
           MIN_SEARCH_MS) := by
  unfold computeTimeLimit MOVE_OVERHEAD_MS MIN_SEARCH_MS
  have hmt : ¬((0 : Int) > 0) := by decide
  rw [if_neg hmt]
  have hcl : (!false && (decide (wtime > 0) || decide (btime > 0))) = true := by
    rcases hin with h | h
    · simp [h]
    · simp [h]
  rw [if_pos hcl]
  simp only [max_def, min_def]
  split_ifs <;> omega

/-! ## FEN round-trip infrastructure (for claims C7 and C1) -/

/-- Nat.repr's character data is Nat.toDigits at base 10. -/
theorem repr_data (n : Nat) : (Nat.repr n).data = Nat.toDigits 10 n := rfl

/-- toDigitsCore emits its accumulator unchanged at the end. -/
theorem toDigitsCore_acc (b : Nat) :
    ∀ (f n : Nat) (ds : List Char),
      Nat.toDigitsCore b f n ds = Nat.toDigitsCore b f n [] ++ ds := by
  intro f
  induction f with
  | zero => intro n ds; simp [Nat.toDigitsCore]
  | succ f ih =>
    intro n ds
    simp only [Nat.toDigitsCore]
    by_cases h : n / b = 0
    · simp [h]
    · simp only [h, if_false]
      rw [ih (n / b) (Nat.digitChar (n % b) :: ds), ih (n / b) [Nat.digitChar (n % b)]]
      simp

/-- toDigitsCore does not depend on the fuel once the fuel exceeds the value. -/
theorem toDigitsCore_fuel {b : Nat} (hb : 2 ≤ b) :
    ∀ (n f1 f2 : Nat) (ds : List Char), n < f1 → n < f2 →
      Nat.toDigitsCore b f1 n ds = Nat.toDigitsCore b f2 n ds := by
  intro n
  induction n using Nat.strong_induction_on with
  | _ n ih =>
    intro f1 f2 ds h1 h2
    match f1, f2 with
    | a + 1, c + 1 =>
      simp only [Nat.toDigitsCore]
      by_cases h : n / b = 0
      · simp [h]
      · simp only [h, if_false]
        have hbn : b ≤ n := by
          rcases Nat.lt_or_ge n b with hlt | hge
          · exact absurd (Nat.div_eq_of_lt hlt) h
          · exact hge
        have hdiv : n / b < n := Nat.div_lt_self (by omega) (by omega)
        exact ih (n / b) hdiv a c _ (by omega) (by omega)

/-- One unfolding of Nat.toDigits at base 10. -/
theorem toDigits_eq (n : Nat) :
    Nat.toDigits 10 n =
      (if n / 10 = 0 then [] else Nat.toDigits 10 (n / 10)) ++ [Nat.digitChar (n % 10)] := by
  show Nat.toDigitsCore 10 (n + 1) n [] = _
  simp only [Nat.toDigitsCore]
  by_cases h : n / 10 = 0
  · simp [h]
  · simp only [h, if_false]
    rw [toDigitsCore_acc 10 n (n / 10) [Nat.digitChar (n % 10)]]
    have hdiv : n / 10 < n := Nat.div_lt_self (by omega) (by omega)
    rw [toDigitsCore_fuel (by omega) (n / 10) n (n / 10 + 1) [] hdiv (Nat.lt_succ_self _)]
    simp [Nat.toDigits, h]

/-- The digit characters 0..9 and their parsed values. -/
theorem digitChar_digit (n : Nat) (h : n < 10) :
    ('0' ≤ Nat.digitChar n ∧ Nat.digitChar n ≤ '9') ∧ (Nat.digitChar n).toNat - 48 = n := by
  interval_cases n <;> decide

/-- Every character Nat.toDigits 10 produces is a decimal digit. -/
theorem toDigits_digits (n : Nat) :
    ∀ c ∈ Nat.toDigits 10 n, '0' ≤ c ∧ c ≤ '9' := by
  induction n using Nat.strong_induction_on with
  | _ n ih =>
    intro c hc
    rw [toDigits_eq] at hc
    rcases List.mem_append.mp hc with hl | hr
    · by_cases h : n / 10 = 0
      · simp [h] at hl
      · have hdiv : n / 10 < n := Nat.div_lt_self (by
          rcases Nat.eq_zero_or_pos n with rfl | hp
          · simp at h
          · exact hp) (by omega)
        exact ih (n / 10) hdiv c (by simpa [h] using hl)
    · have : c = Nat.digitChar (n % 10) := by simpa using hr
      subst this
      exact (digitChar_digit (n % 10) (Nat.mod_lt _ (by omega))).1

/-- Nat.toDigits never produces the empty list. -/
theorem toDigits_ne_nil (n : Nat) : Nat.toDigits 10 n ≠ [] := by
  rw [toDigits_eq]
  simp

/-- parseDigits over a digits-only prefix continues into the suffix. -/
theorem parseDigits_append (A : List Char) (hA : ∀ c ∈ A, '0' ≤ c ∧ c ≤ '9') :
    ∀ (B : List Char) (acc : Nat),
      parseDigits (A ++ B) acc = parseDigits B (parseDigits A acc) := by
  induction A with
  | nil => intro B acc; simp [parseDigits]
  | cons c A ih =>
    intro B acc
    have hc := hA c (List.mem_cons_self c A)
    simp only [List.cons_append, parseDigits, hc, and_self, if_true, if_pos hc]
    exact ih (fun d hd => hA d (List.mem_cons_of_mem c hd)) B _

/-- parseDigits inverts Nat.toDigits at base 10. -/
theorem parseDigits_toDigits (n : Nat) : parseDigits (Nat.toDigits 10 n) 0 = n := by
  induction n using Nat.strong_induction_on with
  | _ n ih =>
    rw [toDigits_eq]
    by_cases h : n / 10 = 0
    · have hn : n < 10 := by omega
      have hd := digitChar_digit n (by omega)
      have : n % 10 = n := Nat.mod_eq_of_lt hn
      rw [this]
      simp [h, parseDigits, hd.1, hd.2]
    · have hdiv : n / 10 < n := Nat.div_lt_self (by
        rcases Nat.eq_zero_or_pos n with rfl | hp
        · simp at h
        · exact hp) (by omega)
      rw [if_neg h, parseDigits_append _ (toDigits_digits (n / 10))]
      rw [ih (n / 10) hdiv]
      have hd := digitChar_digit (n % 10) (Nat.mod_lt _ (by omega))
      show parseDigits [Nat.digitChar (n % 10)] (n / 10) = n
      simp only [parseDigits, if_pos hd.1]
      rw [hd.2]
      omega

/-- parseDigits inverts Nat.repr. -/
theorem parseDigits_repr (n : Nat) : parseDigits (Nat.repr n).data 0 = n := by
  rw [repr_data]; exact parseDigits_toDigits n

/-- The decimal representation of a number below ten is its single digit. -/
theorem repr_single (n : Nat) (h : n < 10) : (Nat.repr n).data = [Nat.digitChar n] := by
  rw [repr_data, toDigits_eq]
  have h0 : n / 10 = 0 := Nat.div_eq_of_lt h
  simp [h0, Nat.mod_eq_of_lt h]

/-- splitWS walks over a whitespace-free prefix accumulating it reversed. -/
theorem splitWS_go (t : List Char) (ht : ∀ c ∈ t, isWS c = false) :
    ∀ (acc rest : List Char), splitWS (t ++ rest) acc = splitWS rest (t.reverse ++ acc) := by
  induction t with
  | nil => intro acc rest; simp
  | cons c t ih =>
    intro acc rest
    have hc : isWS c = false := ht c (List.mem_cons_self c t)
    simp only [List.cons_append, splitWS, hc, Bool.false_eq_true, if_false, List.append_eq]
    rw [ih (fun d hd => ht d (List.mem_cons_of_mem c hd)) (c :: acc) rest]
    simp

/-- A whitespace-free nonempty token followed by a space splits off. -/
theorem splitWS_token (t : List Char) (ht : ∀ c ∈ t, isWS c = false) (hne : t ≠ [])
    (rest : List Char) : splitWS (t ++ ' ' :: rest) [] = t :: splitWS rest [] := by
  rw [splitWS_go t ht [] (' ' :: rest)]
  have : isWS ' ' = true := by decide
  simp only [splitWS, this, if_true, List.append_nil]
  have hrev : t.reverse.isEmpty = false := by
    simp [List.isEmpty_iff, hne]
  simp [hrev]

/-- A trailing whitespace-free nonempty token is the last token. -/
theorem splitWS_last (t : List Char) (ht : ∀ c ∈ t, isWS c = false) (hne : t ≠ []) :
    splitWS t [] = [t] := by
  have := splitWS_go t ht [] []
  rw [List.append_nil] at this
  rw [this]
  have hrev : t.reverse.isEmpty = false := by simp [List.isEmpty_iff, hne]
  simp [splitWS, hrev]

/-- piece_to_char never yields whitespace. -/
theorem piece_to_char_noWS (p : Nat) : isWS (piece_to_char p) = false := by
  unfold piece_to_char
  by_cases h : p < PieceCount
  · have h12 : p < 12 := h
    interval_cases p <;> decide
  · simp only [h, if_false]
    decide

/-- The behavior of piece characters of actual pieces under the FEN parser. -/
theorem piece_char_facts (p : Nat) (h : p < 12) :
    char_to_piece (piece_to_char p) = p ∧ ¬(piece_to_char p = '/') ∧
      ¬('1' ≤ piece_to_char p ∧ piece_to_char p ≤ '8') := by
  interval_cases p <;> exact ⟨by decide, by decide, by decide⟩

/-- The digit characters 1..8 under the FEN placement parser. -/
theorem placement_digit_facts (e : Nat) (h1 : 1 ≤ e) (h8 : e ≤ 8) :
    ¬(Nat.digitChar e = '/') ∧ ('1' ≤ Nat.digitChar e ∧ Nat.digitChar e ≤ '8') ∧
      ((Nat.digitChar e).toNat : Int) - 48 = (e : Int) ∧ isWS (Nat.digitChar e) = false := by
  interval_cases e <;> exact ⟨by decide, by decide, by decide, by decide⟩

theorem make_square_lt64 (f r : Nat) (hf : f < 8) (hr : r < 8) : make_square f r < 64 := by
  show r * 8 + f < 64
  omega

/-- Parsing the text fenRankGo prints for the files [file, 8) of a rank, with
`empty` pending empty squares, continues into `cs` at file 8 having performed
exactly the put_piece calls for the occupied squares of those files. -/
theorem parse_rank (g : Board) (rank : Nat) (hr : rank < 8)
    (hmail : ∀ s, s < 64 → g.mailbox s < 13) :
    ∀ (left file empty : Nat) (b' : Board) (cs : List Char),
      file + left = 8 → empty ≤ file →
      parsePlacementChars (fenRankGo g rank left file empty ++ cs) (rank : Int)
          ((file : Int) - (empty : Int)) b'
        = parsePlacementChars cs (rank : Int) 8
            ((List.range' file left).foldl
              (fun bb f =>
                if g.mailbox (make_square f rank) ≠ NoPiece then
                  bb.put_piece (g.mailbox (make_square f rank)) (make_square f rank)
                else bb) b') := by
  intro left
  induction left with
  | zero =>
    intro file empty b' cs hfl hef
    have hfile : file = 8 := by omega
    subst hfile
    by_cases he : 0 < empty
    · have hsingle : (Nat.repr empty).data = [Nat.digitChar empty] :=
        repr_single empty (by omega)
      have hd := placement_digit_facts empty he (by omega)
      simp only [fenRankGo]
      rw [if_pos he, hsingle]
      simp only [List.cons_append, List.nil_append, parsePlacementChars,
        if_neg hd.1, if_pos hd.2.1]
      have harith : ((8 : Nat) : Int) - (empty : Int) +
          (((Nat.digitChar empty).toNat : Int) - 48) = 8 := by
        rw [hd.2.2.1]; push_cast; ring
      rw [harith]
      simp
    · have hempty : empty = 0 := by omega
      subst hempty
      simp only [fenRankGo]
      norm_num
  | succ left ih =>
    intro file empty b' cs hfl hef
    have hfile7 : file ≤ 7 := by omega
    have hsq : make_square file rank < 64 := make_square_lt64 file rank (by omega) hr
    by_cases hnp : g.mailbox (make_square file rank) = NoPiece
    · have hprint : fenRankGo g rank (left + 1) file empty
          = fenRankGo g rank left (file + 1) (empty + 1) := by
        simp only [fenRankGo]
        rw [if_pos hnp]
      rw [hprint]
      have harith : ((file : Nat) : Int) - ((empty : Nat) : Int)
          = (((file + 1 : Nat) : Int) - ((empty + 1 : Nat) : Int)) := by push_cast; ring
      rw [harith, ih (file + 1) (empty + 1) b' cs (by omega) (by omega)]
      rw [List.range'_succ]
      simp only [List.foldl_cons, hnp, ne_eq, not_true_eq_false, if_false, ite_self,
        not_false_eq_true]
    · have hp13 : g.mailbox (make_square file rank) < 13 := hmail _ hsq
      have hp12 : g.mailbox (make_square file rank) < 12 := by
        have harith : ∀ x : Nat, x < 13 → ¬(x = 12) → x < 12 := by omega
        exact harith _ hp13 hnp
      have hpc := piece_char_facts _ hp12
      have hprint : fenRankGo g rank (left + 1) file empty
          = (if 0 < empty then (Nat.repr empty).data else []) ++
              piece_to_char (g.mailbox (make_square file rank)) ::
                fenRankGo g rank left (file + 1) 0 := by
        simp only [fenRankGo]
        rw [if_neg hnp]
      rw [hprint]
      have hstep : parsePlacementChars
          (((if 0 < empty then (Nat.repr empty).data else []) ++
              piece_to_char (g.mailbox (make_square file rank)) ::
                fenRankGo g rank left (file + 1) 0) ++ cs)
            (rank : Int) ((file : Int) - (empty : Int)) b'
          = parsePlacementChars
              (piece_to_char (g.mailbox (make_square file rank)) ::
                (fenRankGo g rank left (file + 1) 0 ++ cs))
            (rank : Int) (file : Int) b' := by
        by_cases he : 0 < empty
        · have hsingle : (Nat.repr empty).data = [Nat.digitChar empty] :=
            repr_single empty (by omega)
          have hd := placement_digit_facts empty he (by omega)
          rw [if_pos he, hsingle]
          simp only [List.cons_append, List.append_assoc, List.nil_append,
            parsePlacementChars, if_neg hd.1, if_pos hd.2.1]
          have harith : (file : Int) - (empty : Int) +
              (((Nat.digitChar empty).toNat : Int) - 48) = (file : Int) := by
            rw [hd.2.2.1]; ring
          rw [harith]
          simp only [List.append_eq]
        · have hempty : empty = 0 := by omega
          subst hempty
          simp
      rw [hstep]
      simp only [parsePlacementChars, if_neg hpc.2.1, if_neg hpc.2.2, hpc.1]
      rw [if_pos hnp]
      have hsq' : ((rank : Int) * 8 + (file : Int)).toNat = make_square file rank := by
        have hcast : ((rank : Int) * 8 + (file : Int)) = ((make_square file rank : Nat) : Int) := by
          unfold make_square; push_cast; ring
        rw [hcast, Int.toNat_natCast]
      rw [hsq']
      have harith2 : (file : Int) + 1 = (((file + 1 : Nat) : Int) - ((0 : Nat) : Int)) := by
        push_cast; ring
      rw [harith2, ih (file + 1) 0 _ cs (by omega) (by omega)]
      rw [List.range'_succ]
      simp only [List.foldl_cons, if_pos hnp, ne_eq, hnp, not_false_eq_true, if_true]

/-- The rank-separator step of the placement parser. -/
theorem parse_slash (rest : List Char) (rk f : Int) (b : Board) :
    parsePlacementChars ('/' :: rest) rk f b = parsePlacementChars rest (rk - 1) 0 b := by
  simp [parsePlacementChars]

/-- Parsing the full placement text of ranks r..0 performs the put_piece calls
of all squares of those ranks, finishing at rank 0 file 8. -/
theorem parse_placement (g : Board) (hmail : ∀ s, s < 64 → g.mailbox s < 13) :
    ∀ (r : Nat), r < 8 → ∀ (b' : Board) (cs : List Char),
      parsePlacementChars (fenPlacementGo g r ++ cs) (r : Int) 0 b'
        = parsePlacementChars cs 0 8
            (((List.range (r + 1)).reverse).foldl
              (fun bb rk => (List.range' 0 8).foldl
                (fun cc f =>
                  if g.mailbox (make_square f rk) ≠ NoPiece then
                    cc.put_piece (g.mailbox (make_square f rk)) (make_square f rk)
                  else cc) bb) b') := by
  intro r
  induction r with
  | zero =>
    intro _ b' cs
    simp only [fenPlacementGo]
    have h := parse_rank g 0 (by omega) hmail 8 0 0 b' cs (by omega) (by omega)
    simpa using h
  | succ r ihr =>
    intro hr8 b' cs
    simp only [fenPlacementGo, List.append_assoc, List.cons_append]
    have h := parse_rank g (r + 1) (by omega) hmail 8 0 0 b'
      ('/' :: (fenPlacementGo g r ++ cs)) (by omega) (by omega)
    rw [show ((0 : Nat) : Int) - ((0 : Nat) : Int) = 0 by simp] at h
    rw [h, parse_slash]
    have hr1 : ((r + 1 : Nat) : Int) - 1 = (r : Int) := by push_cast; ring
    rw [hr1, ihr (by omega) _ cs]
    rw [show (List.range (r + 1 + 1)).reverse = (r + 1) :: (List.range (r + 1)).reverse from by
      rw [List.range_succ]; simp]
    rw [List.foldl_cons]

/-- The mailbox written by put_piece. -/
theorem put_piece_mailbox (b : Board) (p : Piece) (sq s : Square) :
    (b.put_piece p sq).mailbox s = if s = sq then p else b.mailbox s := by
  simp [Board.put_piece, Function.update_apply]

/-- The mailbox written by the per-rank placement fold. -/
theorem fold_files_mailbox (g : Board) (rk : Nat) :
    ∀ (n f0 : Nat) (b' : Board) (s : Nat),
      ((List.range' f0 n).foldl
        (fun cc f =>
          if g.mailbox (make_square f rk) ≠ NoPiece then
            cc.put_piece (g.mailbox (make_square f rk)) (make_square f rk)
          else cc) b').mailbox s =
      if rk * 8 + f0 ≤ s ∧ s < rk * 8 + f0 + n ∧ g.mailbox s ≠ NoPiece then g.mailbox s
      else b'.mailbox s := by
  intro n
  induction n with
  | zero =>
    intro f0 b' s
    rw [show List.range' f0 0 = [] from rfl, List.foldl_nil]
    have hF : ¬(rk * 8 + f0 ≤ s ∧ s < rk * 8 + f0 + 0 ∧ g.mailbox s ≠ NoPiece) := by
      rintro ⟨hA, hB, -⟩; omega
    rw [if_neg hF]
  | succ n ihn =>
    intro f0 b' s
    rw [List.range'_succ, List.foldl_cons, ihn (f0 + 1)]
    by_cases hin : rk * 8 + (f0 + 1) ≤ s ∧ s < rk * 8 + (f0 + 1) + n ∧ g.mailbox s ≠ NoPiece
    · rw [if_pos hin, if_pos ⟨by omega, by omega, hin.2.2⟩]
    · rw [if_neg hin]
      by_cases hm : g.mailbox (make_square f0 rk) = NoPiece
      · rw [if_neg (by simpa using hm)]
        by_cases hc : rk * 8 + f0 ≤ s ∧ s < rk * 8 + f0 + (n + 1) ∧ g.mailbox s ≠ NoPiece
        · exfalso
          have hs : s = rk * 8 + f0 := by
            rcases hc with ⟨hA, hB, hC⟩
            by_contra hne
            exact hin ⟨by omega, by omega, hC⟩
          rw [hs] at hc
          exact hc.2.2 (by simpa [make_square] using hm)
        · rw [if_neg hc]
      · rw [if_pos hm, put_piece_mailbox]
        by_cases hs : s = make_square f0 rk
        · have hs' : s = rk * 8 + f0 := by simpa [make_square] using hs
          rw [if_pos hs]
          rw [if_pos ⟨by omega, by omega, by rw [hs]; exact hm⟩]
          rw [hs]
        · rw [if_neg hs]
          by_cases hc : rk * 8 + f0 ≤ s ∧ s < rk * 8 + f0 + (n + 1) ∧ g.mailbox s ≠ NoPiece
          · exfalso
            have hs' : s = rk * 8 + f0 := by
              rcases hc with ⟨hA, hB, hC⟩
              by_contra hne
              exact hin ⟨by omega, by omega, hC⟩
            exact hs (by simp [make_square, hs'])
          · rw [if_neg hc]

/-- The mailbox written by the whole placement fold over ranks r..0. -/
theorem fold_ranks_mailbox (g : Board) :
    ∀ (r : Nat), r < 8 → ∀ (b' : Board) (s : Nat),
      (((List.range (r + 1)).reverse).foldl
        (fun bb rk => (List.range' 0 8).foldl
          (fun cc f =>
            if g.mailbox (make_square f rk) ≠ NoPiece then
              cc.put_piece (g.mailbox (make_square f rk)) (make_square f rk)
            else cc) bb) b').mailbox s =
      if s < (r + 1) * 8 ∧ g.mailbox s ≠ NoPiece then g.mailbox s else b'.mailbox s := by
  intro r
  induction r with
  | zero =>
    intro _ b' s
    rw [show (List.range 1).reverse = [0] from rfl]
    simp only [List.foldl_cons, List.foldl_nil]
    rw [fold_files_mailbox]
    by_cases h : s < 1 * 8 ∧ g.mailbox s ≠ NoPiece
    · rw [if_pos ⟨by omega, by omega, h.2⟩, if_pos h]
    · rw [if_neg (fun hc => h ⟨by omega, hc.2.2⟩), if_neg h]
  | succ r ihr =>
    intro hr8 b' s
    rw [List.range_succ, List.reverse_append, List.reverse_singleton]
    simp only [List.singleton_append, List.foldl_cons]
    rw [ihr (by omega)]
    by_cases h1 : s < (r + 1) * 8 ∧ g.mailbox s ≠ NoPiece
    · rw [if_pos h1, if_pos ⟨by omega, h1.2⟩]
    · rw [if_neg h1, fold_files_mailbox]
      by_cases h3 : s < (r + 1 + 1) * 8 ∧ g.mailbox s ≠ NoPiece
      · have hge : ¬(s < (r + 1) * 8) := fun hlt => h1 ⟨hlt, h3.2⟩
        rw [if_pos ⟨by omega, by omega, h3.2⟩, if_pos h3]
      · rw [if_neg (fun h2 => h3 ⟨by omega, h2.2.2⟩), if_neg h3]

/-- fenRankGo reads only the mailbox on board squares. -/
theorem fenRankGo_congr (b1 b2 : Board) (h : ∀ s, s < 64 → b1.mailbox s = b2.mailbox s)
    (rank : Nat) (hr : rank < 8) :
    ∀ (left file empty : Nat), file + left = 8 →
      fenRankGo b1 rank left file empty = fenRankGo b2 rank left file empty := by
  intro left
  induction left with
  | zero => intro file empty _; rfl
  | succ left ih =>
    intro file empty hfl
    have hsq : make_square file rank < 64 := make_square_lt64 file rank (by omega) hr
    simp only [fenRankGo, h _ hsq]
    by_cases hp : b2.mailbox (make_square file rank) = NoPiece
    · simp only [hp, if_pos rfl]
      exact ih (file + 1) (empty + 1) (by omega)
    · rw [if_neg hp, if_neg hp, ih (file + 1) 0 (by omega)]

/-- fenPlacementGo reads only the mailbox on board squares. -/
theorem fenPlacementGo_congr (b1 b2 : Board)
    (h : ∀ s, s < 64 → b1.mailbox s = b2.mailbox s) :
    ∀ (r : Nat), r < 8 → fenPlacementGo b1 r = fenPlacementGo b2 r := by
  intro r
  induction r with
  | zero =>
    intro _
    simp only [fenPlacementGo]
    exact fenRankGo_congr b1 b2 h 0 (by omega) 8 0 0 (by omega)
  | succ r ih =>
    intro hr
    simp only [fenPlacementGo]
    rw [fenRankGo_congr b1 b2 h (r + 1) (by omega) 8 0 0 (by omega), ih (by omega)]

theorem digit_noWS (c : Char) (h : '0' ≤ c ∧ c ≤ '9') : isWS c = false := by
  have h1 : 48 ≤ c.toNat := h.1
  have h2 : c.toNat ≤ 57 := h.2
  simp only [isWS, decide_eq_false_iff_not]
  rintro (rfl | rfl | rfl | rfl) <;> simp_all

theorem repr_noWS (n : Nat) : ∀ c ∈ (Nat.repr n).data, isWS c = false := by
  intro c hc
  rw [repr_data] at hc
  exact digit_noWS c (toDigits_digits n c hc)

theorem repr_ne_nil (n : Nat) : (Nat.repr n).data ≠ [] := by
  rw [repr_data]; exact toDigits_ne_nil n

theorem fenRankGo_noWS (g : Board) (rank : Nat) :
    ∀ (left file empty : Nat), file + left = 8 → empty ≤ file →
      ∀ c ∈ fenRankGo g rank left file empty, isWS c = false := by
  intro left
  induction left with
  | zero =>
    intro file empty hfl hef c hc
    simp only [fenRankGo] at hc
    by_cases he : 0 < empty
    · rw [if_pos he, repr_single empty (by omega)] at hc
      have hd := (placement_digit_facts empty he (by omega)).2.2.2
      have hce : c = Nat.digitChar empty := by simpa using hc
      rw [hce]; exact hd
    · rw [if_neg he] at hc; simp at hc
  | succ left ih =>
    intro file empty hfl hef c hc
    simp only [fenRankGo] at hc
    by_cases hnp : g.mailbox (make_square file rank) = NoPiece
    · rw [if_pos hnp] at hc
      exact ih (file + 1) (empty + 1) (by omega) (by omega) c hc
    · rw [if_neg hnp] at hc
      rcases List.mem_append.mp hc with h1 | h2
      · by_cases he : 0 < empty
        · rw [if_pos he, repr_single empty (by omega)] at h1
          have hd := (placement_digit_facts empty he (by omega)).2.2.2
          have hce : c = Nat.digitChar empty := by simpa using h1
          rw [hce]; exact hd
        · rw [if_neg he] at h1; simp at h1
      · rcases List.mem_cons.mp h2 with hceq | hrest
        · rw [hceq]; exact piece_to_char_noWS _
        · exact ih (file + 1) 0 (by omega) (by omega) c hrest

theorem fenPlacementGo_noWS (g : Board) :
    ∀ (r : Nat), r < 8 → ∀ c ∈ fenPlacementGo g r, isWS c = false := by
  intro r
  induction r with
  | zero =>
    intro _ c hc
    simp only [fenPlacementGo] at hc
    exact fenRankGo_noWS g 0 8 0 0 (by omega) (by omega) c hc
  | succ r ih =>
    intro hr c hc
    simp only [fenPlacementGo] at hc
    rcases List.mem_append.mp hc with h1 | h2
    · exact fenRankGo_noWS g (r + 1) 8 0 0 (by omega) (by omega) c h1
    · rcases List.mem_cons.mp h2 with hceq | hrest
      · rw [hceq]; decide
      · exact ih (by omega) c hrest

theorem fenPlacementGo_ne_nil (g : Board) (r : Nat) (hr : 0 < r) :
    fenPlacementGo g r ≠ [] := by
  match r, hr with
  | r + 1, _ =>
    simp only [fenPlacementGo]
    simp

theorem castle_facts : ∀ cr : Nat, cr < 16 →
    ((if cr = NoCastling then ['-']
      else (if cr &&& WhiteKingSide ≠ 0 then ['K'] else []) ++
           (if cr &&& WhiteQueenSide ≠ 0 then ['Q'] else []) ++
           (if cr &&& BlackKingSide ≠ 0 then ['k'] else []) ++
           (if cr &&& BlackQueenSide ≠ 0 then ['q'] else [])) ≠ [] ∧
     (∀ c ∈ (if cr = NoCastling then ['-']
      else (if cr &&& WhiteKingSide ≠ 0 then ['K'] else []) ++
           (if cr &&& WhiteQueenSide ≠ 0 then ['Q'] else []) ++
           (if cr &&& BlackKingSide ≠ 0 then ['k'] else []) ++
           (if cr &&& BlackQueenSide ≠ 0 then ['q'] else [])), isWS c = false) ∧
     ((if cr = NoCastling then ['-']
      else (if cr &&& WhiteKingSide ≠ 0 then ['K'] else []) ++
           (if cr &&& WhiteQueenSide ≠ 0 then ['Q'] else []) ++
           (if cr &&& BlackKingSide ≠ 0 then ['k'] else []) ++
           (if cr &&& BlackQueenSide ≠ 0 then ['q'] else [])).foldl
        (fun cr2 c =>
          if c = 'K' then cr2 ||| WhiteKingSide
          else if c = 'Q' then cr2 ||| WhiteQueenSide
          else if c = 'k' then cr2 ||| BlackKingSide
          else if c = 'q' then cr2 ||| BlackQueenSide
          else cr2) NoCastling) = cr) := by decide

theorem ep_facts : ∀ e : Nat, e < 64 →
    ((∀ c ∈ [Char.ofNat (97 + square_file e), Char.ofNat (49 + square_rank e)],
        isWS c = false) ∧
     ¬([Char.ofNat (97 + square_file e), Char.ofNat (49 + square_rank e)] = ['-']) ∧
     (((([Char.ofNat (97 + square_file e), Char.ofNat (49 + square_rank e)].getD 1 '1').toNat
          : Int) - 49) * 8 +
       ((([Char.ofNat (97 + square_file e), Char.ofNat (49 + square_rank e)].getD 0 'a').toNat
          : Int) - 97)).toNat = e) := by decide

theorem to_fen_tokens (g : Board)
    (hplWS : ∀ c ∈ fenPlacementGo g 7, isWS c = false)
    (hplne : fenPlacementGo g 7 ≠ [])
    (hccWS : ∀ c ∈ (if g.castling = NoCastling then ['-']
      else (if g.castling &&& WhiteKingSide ≠ 0 then ['K'] else []) ++
           (if g.castling &&& WhiteQueenSide ≠ 0 then ['Q'] else []) ++
           (if g.castling &&& BlackKingSide ≠ 0 then ['k'] else []) ++
           (if g.castling &&& BlackQueenSide ≠ 0 then ['q'] else [])), isWS c = false)
    (hccne : (if g.castling = NoCastling then ['-']
      else (if g.castling &&& WhiteKingSide ≠ 0 then ['K'] else []) ++
           (if g.castling &&& WhiteQueenSide ≠ 0 then ['Q'] else []) ++
           (if g.castling &&& BlackKingSide ≠ 0 then ['k'] else []) ++
           (if g.castling &&& BlackQueenSide ≠ 0 then ['q'] else [])) ≠ [])
    (hepWS : ∀ c ∈ (if g.epSquare = NoSquare then ['-']
      else [Char.ofNat (97 + square_file g.epSquare),
            Char.ofNat (49 + square_rank g.epSquare)]), isWS c = false) :
    splitWS (g.to_fen).data [] =
      [fenPlacementGo g 7,
       [if g.sideToMove = White then 'w' else 'b'],
       (if g.castling = NoCastling then ['-']
        else (if g.castling &&& WhiteKingSide ≠ 0 then ['K'] else []) ++
             (if g.castling &&& WhiteQueenSide ≠ 0 then ['Q'] else []) ++
             (if g.castling &&& BlackKingSide ≠ 0 then ['k'] else []) ++
             (if g.castling &&& BlackQueenSide ≠ 0 then ['q'] else [])),
       (if g.epSquare = NoSquare then ['-']
        else [Char.ofNat (97 + square_file g.epSquare),
              Char.ofNat (49 + square_rank g.epSquare)]),
       (Nat.repr g.halfmoveClock).data,
       (Nat.repr g.fullmoveNumber).data] := by
  set pl := fenPlacementGo g 7 with hpl
  set sc : Char := if g.sideToMove = White then 'w' else 'b' with hsc
  set cc : List Char := if g.castling = NoCastling then ['-']
      else (if g.castling &&& WhiteKingSide ≠ 0 then ['K'] else []) ++
           (if g.castling &&& WhiteQueenSide ≠ 0 then ['Q'] else []) ++
           (if g.castling &&& BlackKingSide ≠ 0 then ['k'] else []) ++
           (if g.castling &&& BlackQueenSide ≠ 0 then ['q'] else []) with hcc
  set ep : List Char := if g.epSquare = NoSquare then ['-']
      else [Char.ofNat (97 + square_file g.epSquare),
            Char.ofNat (49 + square_rank g.epSquare)] with hep
  have hscWS : ∀ c ∈ [sc], isWS c = false := by
    intro c hc
    have hcs : c = sc := by simpa using hc
    rw [hcs, hsc]
    by_cases hw : g.sideToMove = White
    · rw [if_pos hw]; decide
    · rw [if_neg hw]; decide
  have hepne : ep ≠ [] := by
    rw [hep]
    by_cases hns : g.epSquare = NoSquare
    · rw [if_pos hns]; simp
    · rw [if_neg hns]; simp
  have hdata : (g.to_fen).data =
      pl ++ ' ' :: sc :: ' ' :: (cc ++ ' ' :: (ep ++ ' ' ::
        ((Nat.repr g.halfmoveClock).data ++ ' ' :: (Nat.repr g.fullmoveNumber).data))) := by
    show (pl ++ ' ' :: sc :: ' ' :: cc ++ ' ' :: ep ++
        ' ' :: (Nat.repr g.halfmoveClock).data ++ ' ' :: (Nat.repr g.fullmoveNumber).data) = _
    simp only [List.append_assoc, List.cons_append]
  rw [hdata]
  rw [splitWS_token pl hplWS hplne]
  rw [show (sc :: ' ' :: (cc ++ ' ' :: (ep ++ ' ' ::
        ((Nat.repr g.halfmoveClock).data ++ ' ' :: (Nat.repr g.fullmoveNumber).data))))
      = [sc] ++ ' ' :: (cc ++ ' ' :: (ep ++ ' ' ::
        ((Nat.repr g.halfmoveClock).data ++ ' ' :: (Nat.repr g.fullmoveNumber).data)))
      from rfl]
  rw [splitWS_token [sc] hscWS (by simp)]
  rw [splitWS_token cc hccWS hccne]
  rw [splitWS_token ep hepWS hepne]
  rw [splitWS_token _ (repr_noWS g.halfmoveClock) (repr_ne_nil g.halfmoveClock)]
  rw [splitWS_last _ (repr_noWS g.fullmoveNumber) (repr_ne_nil g.fullmoveNumber)]

/-- to_fen reads only the mailbox (board squares), the White-or-not side, the
castling rights, the en-passant square and the two clocks. -/
theorem to_fen_congr (b1 b2 : Board)
    (hm : ∀ s, s < 64 → b1.mailbox s = b2.mailbox s)
    (h2 : b1.sideToMove = White ↔ b2.sideToMove = White)
    (h3 : b1.castling = b2.castling)
    (h4 : b1.epSquare = b2.epSquare) (h5 : b1.halfmoveClock = b2.halfmoveClock)
    (h6 : b1.fullmoveNumber = b2.fullmoveNumber) : b1.to_fen = b2.to_fen := by
  have hside : (if b1.sideToMove = White then 'w' else 'b')
      = (if b2.sideToMove = White then 'w' else 'b') := by
    by_cases hw : b2.sideToMove = White
    · rw [if_pos hw, if_pos (h2.mpr hw)]
    · rw [if_neg hw, if_neg (fun hc => hw (h2.mp hc))]
  simp only [Board.to_fen, hside, h3, h4, h5, h6,
    fenPlacementGo_congr b1 b2 hm 7 (by omega)]

set_option maxHeartbeats 1000000 in
/-- C7: FEN round-trip.  A canonical FEN string is one printed by to_fen from
a board whose mailbox holds pieces 0..12, whose castling rights fit the four
bits, and whose en-passant square is on the board or NoSquare; loading such a
string with set_fen and serializing with to_fen returns exactly the string. -/
theorem C7_fen_roundtrip (s : String) (b : Board)
    (h : ∃ g : Board, (∀ sq, sq < 64 → g.mailbox sq < 13) ∧ g.castling < 16 ∧
      (g.epSquare = NoSquare ∨ g.epSquare < 64) ∧ g.to_fen = s) :
    (b.set_fen s).to_fen = s := by
  obtain ⟨g, hmail, hcast, hepOK, rfl⟩ := h
  have hcf := castle_facts g.castling hcast
  have hepWS : ∀ c ∈ (if g.epSquare = NoSquare then ['-']
      else [Char.ofNat (97 + square_file g.epSquare),
            Char.ofNat (49 + square_rank g.epSquare)]), isWS c = false := by
    rcases hepOK with hns | hlt
    · rw [if_pos hns]; intro c hc; have : c = '-' := by simpa using hc
      rw [this]; decide
    · have hne : ¬(g.epSquare = NoSquare) := by
        intro hh; rw [hh] at hlt; exact absurd hlt (by decide)
      rw [if_neg hne]
      exact (ep_facts g.epSquare hlt).1
  have htoks := to_fen_tokens g (fenPlacementGo_noWS g 7 (by omega))
    (fenPlacementGo_ne_nil g 7 (by omega)) hcf.2.1 hcf.1 hepWS
  -- the parsed board and its scalar fields
  have hmb : (b.set_fen g.to_fen).mailbox
      = (parsePlacementChars (fenPlacementGo g 7) 7 0 Board.empty).mailbox := by
    simp only [Board.set_fen, htoks, readTok]
  have hstm : (b.set_fen g.to_fen).sideToMove
      = (if [if g.sideToMove = White then 'w' else 'b'] = ['b'] then Black else White) := by
    simp only [Board.set_fen, htoks, readTok]
  have hcastl : (b.set_fen g.to_fen).castling = g.castling := by
    simp only [Board.set_fen, htoks, readTok]
    exact hcf.2.2
  have hepEq : (b.set_fen g.to_fen).epSquare = g.epSquare := by
    simp only [Board.set_fen, htoks, readTok]
    rcases hepOK with hns | hlt
    · rw [if_pos hns]
      rw [if_neg (by simp)]
      exact hns.symm
    · have hne : ¬(g.epSquare = NoSquare) := by
        intro hh; rw [hh] at hlt; exact absurd hlt (by decide)
      rw [if_neg hne]
      rw [if_pos ⟨(ep_facts g.epSquare hlt).2.1, by simp⟩]
      exact (ep_facts g.epSquare hlt).2.2
  have hhm : (b.set_fen g.to_fen).halfmoveClock = g.halfmoveClock := by
    simp only [Board.set_fen, htoks, readTok]
    rw [if_pos (repr_ne_nil g.halfmoveClock)]
    exact parseDigits_repr g.halfmoveClock
  have hfm : (b.set_fen g.to_fen).fullmoveNumber = g.fullmoveNumber := by
    simp only [Board.set_fen, htoks, readTok]
    rw [if_pos (repr_ne_nil g.fullmoveNumber)]
    exact parseDigits_repr g.fullmoveNumber
  -- mailbox agreement on board squares
  have hb0 : parsePlacementChars (fenPlacementGo g 7) 7 0 Board.empty
      = ((List.range 8).reverse).foldl
          (fun bb rk => (List.range' 0 8).foldl
            (fun cc f =>
              if g.mailbox (make_square f rk) ≠ NoPiece then
                cc.put_piece (g.mailbox (make_square f rk)) (make_square f rk)
              else cc) bb) Board.empty := by
    have h := parse_placement g hmail 7 (by omega) Board.empty []
    rw [List.append_nil, Nat.cast_ofNat] at h
    rw [h]
    rfl
  have hmail64 : ∀ sq : Nat, sq < 64 → (b.set_fen g.to_fen).mailbox sq = g.mailbox sq := by
    intro sq hsq
    rw [hmb, hb0]
    have h := fold_ranks_mailbox g 7 (by omega) Board.empty sq
    rw [h]
    by_cases hnp : g.mailbox sq = NoPiece
    · rw [if_neg (fun hc => hc.2 hnp)]
      exact hnp.symm
    · rw [if_pos ⟨by omega, hnp⟩]
  -- side-to-move agreement up to the printed character
  have hstm2 : (b.set_fen g.to_fen).sideToMove = White ↔ g.sideToMove = White := by
    rw [hstm]
    by_cases hw : g.sideToMove = White
    · rw [if_pos hw, if_neg (by decide)]
      simp [hw]
    · rw [if_neg hw, if_pos rfl]
      constructor
      · intro hB; exact absurd hB (by decide)
      · intro hc; exact absurd hc hw
  exact to_fen_congr (b.set_fen g.to_fen) g hmail64 hstm2 hcastl hepEq hhm hfm

/-- Witness for C7 at the start position FEN. -/
theorem C7_fen_roundtrip_witness :
    (∃ g : Board, (∀ sq, sq < 64 → g.mailbox sq < 13) ∧ g.castling < 16 ∧
      (g.epSquare = NoSquare ∨ g.epSquare < 64) ∧ g.to_fen = StartFEN) ∧
    (Board.empty.set_fen StartFEN).to_fen = StartFEN :=
  ⟨⟨Board.empty.set_fen StartFEN, by decide, by decide, by decide, by decide⟩,
    C7_fen_roundtrip StartFEN Board.empty
      ⟨Board.empty.set_fen StartFEN, by decide, by decide, by decide, by decide⟩⟩


/-! ## Zobrist XOR-fold infrastructure (for claim C1) -/
/-- XOR is left-commutative. -/
theorem xor_left_comm (a b c : Nat) : a ^^^ (b ^^^ c) = b ^^^ (a ^^^ c) := by
  rw [← Nat.xor_assoc, Nat.xor_comm a b, Nat.xor_assoc]

/-- An XOR fold factors out its accumulator. -/
theorem xorFold_acc (G : Nat → Nat) :
    ∀ (l : List Nat) (h : Nat),
      l.foldl (fun a j => a ^^^ G j) h = h ^^^ l.foldl (fun a j => a ^^^ G j) 0 := by
  intro l
  induction l with
  | nil => intro h; simp
  | cons x t ih =>
    intro h
    simp only [List.foldl_cons]
    rw [ih (h ^^^ G x), ih (0 ^^^ G x)]
    simp [Nat.xor_assoc]

/-- Pointwise-equal step functions give equal folds. -/
theorem xorFold_congr (G G' : Nat → Nat) :
    ∀ (l : List Nat) (h : Nat), (∀ j ∈ l, G j = G' j) →
      l.foldl (fun a j => a ^^^ G j) h = l.foldl (fun a j => a ^^^ G' j) h := by
  intro l
  induction l with
  | nil => intro h _; rfl
  | cons x t ih =>
    intro h hj
    simp only [List.foldl_cons]
    rw [hj x (List.mem_cons_self x t), ih _ (fun j hjt => hj j (List.mem_cons_of_mem x hjt))]

/-- Changing an XOR fold's step function at one point of a duplicate-free list
XORs the difference into the result. -/
theorem xorFold_point (G G' : Nat → Nat) (p D : Nat) :
    ∀ (l : List Nat), l.Nodup → p ∈ l → G' p = G p ^^^ D →
      (∀ j ∈ l, j ≠ p → G' j = G j) →
      l.foldl (fun a j => a ^^^ G' j) 0 = l.foldl (fun a j => a ^^^ G j) 0 ^^^ D := by
  intro l
  induction l with
  | nil => intro _ hp; simp at hp
  | cons x t ih =>
    intro hnd hp hGp hGother
    rcases List.mem_cons.mp hp with hxp | hpt
    · subst hxp
      have hxnott : p ∉ t := (List.nodup_cons.mp hnd).1
      simp only [List.foldl_cons]
      rw [xorFold_acc _ t (0 ^^^ G' p), xorFold_acc _ t (0 ^^^ G p)]
      rw [xorFold_congr G' G t _ (fun j hj => hGother j (List.mem_cons_of_mem p hj)
        (fun hje => hxnott (hje ▸ hj)))]
      rw [hGp]
      simp [Nat.xor_assoc, Nat.xor_comm, xor_left_comm]
    · have hxp : x ≠ p := fun hxe => (List.nodup_cons.mp hnd).1 (hxe ▸ hpt)
      simp only [List.foldl_cons]
      rw [xorFold_acc _ t (0 ^^^ G' x), xorFold_acc _ t (0 ^^^ G x)]
      rw [ih (List.nodup_cons.mp hnd).2 hpt hGp
        (fun j hj hjp => hGother j (List.mem_cons_of_mem x hj) hjp)]
      rw [hGother x (List.mem_cons_self x t) hxp]
      simp [Nat.xor_assoc, Nat.xor_comm, xor_left_comm]

/-- A fold over a filtered list as an XOR fold with a conditional step. -/
theorem filter_xorFold (K : Nat → Nat) (q : Nat → Bool) :
    ∀ (l : List Nat) (h : Nat),
      ((l.filter q).foldl (fun a s => a ^^^ K s) h)
        = l.foldl (fun a j => a ^^^ (if q j then K j else 0)) h := by
  intro l
  induction l with
  | nil => intro h; rfl
  | cons x t ih =>
    intro h
    by_cases hq : q x
    · simp only [List.filter_cons, hq, if_pos hq, List.foldl_cons]
      exact ih (h ^^^ K x)
    · simp only [List.filter_cons, hq, Bool.false_eq_true, if_false, List.foldl_cons]
      rw [ih h]
      simp [hq]

/-- The per-piece XOR of piece-square keys over a bitboard, as a conditional
XOR fold over the 64 squares. -/
theorem bbList_keyFold (K : Nat → Nat) (bb : Nat) (h : Nat) :
    (bbList bb).foldl (fun a s => a ^^^ K s) h
      = (List.range 64).foldl (fun a j => a ^^^ (if bb.testBit j then K j else 0)) h := by
  rw [bbList]
  exact filter_xorFold K (fun i => bb.testBit i) (List.range 64) h

/-- Toggling one square's bit of a bitboard XORs that square's key into the
per-piece key fold. -/
theorem keyFold_toggle (K : Nat → Nat) (bb : Nat) (s : Nat) (hs : s < 64) :
    (bbList (bb ^^^ 2 ^ s)).foldl (fun a t => a ^^^ K t) 0
      = (bbList bb).foldl (fun a t => a ^^^ K t) 0 ^^^ K s := by
  rw [bbList_keyFold, bbList_keyFold]
  refine xorFold_point (fun j => if bb.testBit j then K j else 0)
    (fun j => if (bb ^^^ 2 ^ s).testBit j then K j else 0) s (K s) (List.range 64)
    (List.nodup_range 64) (List.mem_range.mpr hs) ?_ ?_
  · simp only [Nat.testBit_xor, Nat.testBit_two_pow]
    by_cases hb : bb.testBit s
    · simp [hb]
    · simp [hb]
  · intro j _ hj
    simp only [Nat.testBit_xor, Nat.testBit_two_pow]
    simp [Ne.symm hj]

/-- Setting a clear bit is the same as toggling it. -/
theorem lor_eq_xor_of_clear (bb : Nat) (s : Nat) (h : bb.testBit s = false) :
    bb ||| 2 ^ s = bb ^^^ 2 ^ s := by
  apply Nat.eq_of_testBit_eq
  intro j
  rw [Nat.testBit_lor, Nat.testBit_xor, Nat.testBit_two_pow]
  by_cases hj : s = j
  · subst hj; simp [h]
  · simp [hj]

/-- square_bb is the single-bit word of a board square. -/
theorem square_bb_eq (s : Nat) (hs : s < 64) : square_bb s = 2 ^ s := by
  show shl64 1 s = 2 ^ s
  unfold shl64
  rw [Nat.shiftLeft_eq, one_mul]
  exact Nat.mod_eq_of_lt (Nat.pow_lt_pow_right (by omega) hs)

/-- The key fold of an untouched piece is unchanged; folds with equal
bitboards agree. -/
theorem keyFold_congr_bb (K : Nat → Nat) (bb1 bb2 : Nat) (h : bb1 = bb2) (a : Nat) :
    (bbList bb1).foldl (fun x t => x ^^^ K t) a = (bbList bb2).foldl (fun x t => x ^^^ K t) a := by
  rw [h]

/-- The outer fold of compute_hash as a plain XOR fold of per-piece values. -/
theorem pieceFold_eq (BB : Nat → Nat) :
    ∀ (l : List Nat) (h : Nat),
      l.foldl (fun a q => (bbList (BB q)).foldl (fun x t => x ^^^ zobrist.pieceKeys q t) a) h
        = l.foldl (fun a q =>
            a ^^^ (bbList (BB q)).foldl (fun x t => x ^^^ zobrist.pieceKeys q t) 0) h := by
  intro l
  induction l with
  | nil => intro h; rfl
  | cons x t ih =>
    intro h
    simp only [List.foldl_cons]
    rw [ih]
    congr 1
    exact xorFold_acc (fun u => zobrist.pieceKeys x u) (bbList (BB x)) h

/-- The piece-part of compute_hash changes by exactly one key when one piece
bitboard toggles one square's bit. -/
theorem pieceHash_toggle (BB : Nat → Nat) (p s : Nat) (hp : p < 12) (hs : s < 64) :
    (List.range 12).foldl
        (fun a q => (bbList (Function.update BB p (BB p ^^^ 2 ^ s) q)).foldl
          (fun x t => x ^^^ zobrist.pieceKeys q t) a) 0
      = (List.range 12).foldl
          (fun a q => (bbList (BB q)).foldl (fun x t => x ^^^ zobrist.pieceKeys q t) a) 0
        ^^^ zobrist.pieceKeys p s := by
  rw [pieceFold_eq, pieceFold_eq]
  refine xorFold_point
    (fun q => (bbList (BB q)).foldl (fun x t => x ^^^ zobrist.pieceKeys q t) 0)
    (fun q => (bbList (Function.update BB p (BB p ^^^ 2 ^ s) q)).foldl
      (fun x t => x ^^^ zobrist.pieceKeys q t) 0)
    p (zobrist.pieceKeys p s) (List.range 12) (List.nodup_range 12)
    (List.mem_range.mpr hp) ?_ ?_
  · simp only [Function.update_same]
    exact keyFold_toggle _ (BB p) s hs
  · intro j _ hj
    simp only [Function.update_noteq hj]

/-- put_piece XORs exactly its key into the recomputed hash, on an empty
in-range square. -/
theorem compute_hash_put (b : Board) (p s : Nat) (hp : p < 12) (hs : s < 64)
    (hclear : (b.pieceBB p).testBit s = false) :
    (b.put_piece p s).compute_hash = b.compute_hash ^^^ zobrist.pieceKeys p s := by
  simp only [Board.put_piece, Board.compute_hash]
  rw [square_bb_eq s hs, lor_eq_xor_of_clear _ _ hclear]
  rw [pieceHash_toggle b.pieceBB p s hp hs]
  by_cases hep : b.epSquare ≠ NoSquare <;> by_cases hstm : b.sideToMove = Black <;>
    simp [hep, hstm, Nat.xor_assoc, Nat.xor_comm, xor_left_comm]

/-- remove_piece XORs exactly the removed piece's key into the recomputed
hash, on an in-range square holding a real piece. -/
theorem compute_hash_remove (b : Board) (s : Nat) (hs : s < 64)
    (hp : b.mailbox s < 12) :
    (b.remove_piece s).compute_hash
      = b.compute_hash ^^^ zobrist.pieceKeys (b.mailbox s) s := by
  simp only [Board.remove_piece, Board.compute_hash]
  rw [square_bb_eq s hs]
  rw [pieceHash_toggle b.pieceBB (b.mailbox s) s hp hs]
  by_cases hep : b.epSquare ≠ NoSquare <;> by_cases hstm : b.sideToMove = Black <;>
    simp [hep, hstm, Nat.xor_assoc, Nat.xor_comm, xor_left_comm]

/-- The incremental hash written by put_piece. -/
theorem put_piece_hash (b : Board) (p s : Nat) :
    (b.put_piece p s).hash = b.hash ^^^ zobrist.pieceKeys p s := rfl

/-- The incremental hash written by remove_piece. -/
theorem remove_piece_hash (b : Board) (s : Nat) :
    (b.remove_piece s).hash = b.hash ^^^ zobrist.pieceKeys (b.mailbox s) s := rfl

/-- The scalar fields put_piece leaves unchanged. -/
theorem put_piece_scalars (b : Board) (p s : Nat) :
    (b.put_piece p s).castling = b.castling ∧ (b.put_piece p s).epSquare = b.epSquare ∧
    (b.put_piece p s).sideToMove = b.sideToMove ∧
    (b.put_piece p s).halfmoveClock = b.halfmoveClock ∧
    (b.put_piece p s).fullmoveNumber = b.fullmoveNumber := ⟨rfl, rfl, rfl, rfl, rfl⟩

/-- The scalar fields remove_piece leaves unchanged. -/
theorem remove_piece_scalars (b : Board) (s : Nat) :
    (b.remove_piece s).castling = b.castling ∧ (b.remove_piece s).epSquare = b.epSquare ∧
    (b.remove_piece s).sideToMove = b.sideToMove ∧
    (b.remove_piece s).halfmoveClock = b.halfmoveClock ∧
    (b.remove_piece s).fullmoveNumber = b.fullmoveNumber := ⟨rfl, rfl, rfl, rfl, rfl⟩

/-- put_piece on an empty in-range square preserves the board-data agreement
invariants. -/
theorem put_piece_data (b : Board) (p s : Nat)
    (hagree : ∀ (q t : Nat), q < 12 → t < 64 → ((b.pieceBB q).testBit t = true ↔ b.mailbox t = q))
    (hbbLt : ∀ q : Nat, q < 12 → b.pieceBB q < 2 ^ 64)
    (hmailLt : ∀ t : Nat, t < 64 → b.mailbox t < 13)
    (hocc : ∀ (c t : Nat), c < 2 → t < 64 →
      ((b.occupancy c).testBit t = true ↔
        (b.mailbox t ≠ NoPiece ∧ piece_color (b.mailbox t) = c)))
    (hall : ∀ t : Nat, t < 64 → ((b.occupancy 2).testBit t = true ↔ b.mailbox t ≠ NoPiece))
    (hoccLt : ∀ c : Nat, c ≤ 2 → b.occupancy c < 2 ^ 64)
    (hp : p < 12) (hs : s < 64) (hempty : b.mailbox s = NoPiece) :
    (∀ (q t : Nat), q < 12 → t < 64 →
      (((b.put_piece p s).pieceBB q).testBit t = true ↔ (b.put_piece p s).mailbox t = q)) ∧
    (∀ q : Nat, q < 12 → (b.put_piece p s).pieceBB q < 2 ^ 64) ∧
    (∀ t : Nat, t < 64 → (b.put_piece p s).mailbox t < 13) ∧
    (∀ (c t : Nat), c < 2 → t < 64 →
      (((b.put_piece p s).occupancy c).testBit t = true ↔
        ((b.put_piece p s).mailbox t ≠ NoPiece ∧
          piece_color ((b.put_piece p s).mailbox t) = c))) ∧
    (∀ t : Nat, t < 64 →
      (((b.put_piece p s).occupancy 2).testBit t = true ↔
        (b.put_piece p s).mailbox t ≠ NoPiece)) ∧
    (∀ c : Nat, c ≤ 2 → (b.put_piece p s).occupancy c < 2 ^ 64) := by
  have hbb2 : (2 : Nat) ^ s < 2 ^ 64 := Nat.pow_lt_pow_right (by omega) hs
  have hpc6 : p / 6 < 2 := by omega
  have hpcLt : piece_color p < 2 := hpc6
  have hpc2 : (2 : Nat) ≠ piece_color p := (Nat.ne_of_lt hpcLt).symm
  have hpNo : (p : Nat) ≠ NoPiece := by show p ≠ 12; omega
  have hsq : square_bb s = 2 ^ s := square_bb_eq s hs
  refine ⟨?_, ?_, ?_, ?_, ?_, ?_⟩
  · intro q t hq ht
    show ((Function.update b.pieceBB p (b.pieceBB p ||| square_bb s) q).testBit t = true ↔
      Function.update b.mailbox s p t = q)
    by_cases hqp : q = p
    · rw [hqp, Function.update_same, Function.update_apply, hsq, Nat.testBit_lor,
        Nat.testBit_two_pow]
      by_cases hts : t = s
      · rw [if_pos hts, hts]
        simp
      · rw [if_neg hts, decide_eq_false (fun h => hts h.symm), Bool.or_false]
        exact hagree p t hp ht
    · rw [Function.update_noteq hqp, Function.update_apply]
      by_cases hts : t = s
      · rw [if_pos hts]
        constructor
        · intro hbit
          have h2 := (hagree q t hq ht).mp hbit
          rw [hts, hempty] at h2
          have hqNo : q ≠ 12 := by omega
          exact absurd h2.symm hqNo
        · intro hpq
          exact absurd hpq.symm hqp
      · rw [if_neg hts]
        exact hagree q t hq ht
  · intro q hq
    show Function.update b.pieceBB p (b.pieceBB p ||| square_bb s) q < 2 ^ 64
    by_cases hqp : q = p
    · rw [hqp, Function.update_same, hsq]
      exact Nat.or_lt_two_pow (hbbLt p hp) hbb2
    · rw [Function.update_noteq hqp]
      exact hbbLt q hq
  · intro t ht
    show Function.update b.mailbox s p t < 13
    rw [Function.update_apply]
    by_cases hts : t = s
    · rw [if_pos hts]
      have h13 : ∀ x : Nat, x < 12 → x < 13 := by omega
      exact h13 p hp
    · rw [if_neg hts]; exact hmailLt t ht
  · intro c t hc ht
    show ((Function.update (Function.update b.occupancy (piece_color p)
        (b.occupancy (piece_color p) ||| square_bb s)) 2
        ((Function.update b.occupancy (piece_color p)
          (b.occupancy (piece_color p) ||| square_bb s)) 2 ||| square_bb s) c).testBit t = true ↔
      (Function.update b.mailbox s p t ≠ NoPiece ∧
        piece_color (Function.update b.mailbox s p t) = c))
    have hc2 : c ≠ 2 := by omega
    rw [Function.update_noteq hc2, Function.update_apply, Function.update_apply]
    by_cases hcp : c = piece_color p
    · rw [if_pos hcp, hsq, Nat.testBit_lor, Nat.testBit_two_pow]
      by_cases hts : t = s
      · rw [if_pos hts]
        have hd : decide (s = t) = true := decide_eq_true hts.symm
        rw [hd, Bool.or_true]
        simp [hpNo, hcp]
      · rw [if_neg hts, decide_eq_false (fun h => hts h.symm), Bool.or_false]
        rw [hcp]
        exact hocc (piece_color p) t (by omega) ht
    · rw [if_neg hcp]
      by_cases hts : t = s
      · rw [if_pos hts]
        constructor
        · intro hbit
          have h2 := (hocc c t hc ht).mp hbit
          rw [hts, hempty] at h2
          exact absurd rfl h2.1
        · rintro ⟨-, hcol⟩
          exact absurd hcol.symm hcp
      · rw [if_neg hts]
        exact hocc c t hc ht
  · intro t ht
    show ((Function.update (Function.update b.occupancy (piece_color p)
        (b.occupancy (piece_color p) ||| square_bb s)) 2
        ((Function.update b.occupancy (piece_color p)
          (b.occupancy (piece_color p) ||| square_bb s)) 2 ||| square_bb s) 2).testBit t = true ↔
      Function.update b.mailbox s p t ≠ NoPiece)
    rw [Function.update_same, Function.update_noteq hpc2, Function.update_apply, hsq,
      Nat.testBit_lor, Nat.testBit_two_pow]
    by_cases hts : t = s
    · rw [if_pos hts, decide_eq_true hts.symm, Bool.or_true]
      simp [hpNo]
    · rw [if_neg hts, decide_eq_false (fun h => hts h.symm), Bool.or_false]
      exact hall t ht
  · intro c hc
    show Function.update (Function.update b.occupancy (piece_color p)
        (b.occupancy (piece_color p) ||| square_bb s)) 2
        ((Function.update b.occupancy (piece_color p)
          (b.occupancy (piece_color p) ||| square_bb s)) 2 ||| square_bb s) c < 2 ^ 64
    have hbnd : ∀ x, x < 2 ^ 64 → x ||| square_bb s < 2 ^ 64 := fun x hx => by
      rw [hsq]; exact Nat.or_lt_two_pow hx hbb2
    by_cases hc2 : c = 2
    · rw [hc2, Function.update_same, Function.update_noteq hpc2]
      exact hbnd _ (hoccLt 2 (by omega))
    · rw [Function.update_noteq hc2, Function.update_apply]
      by_cases hcp : c = piece_color p
      · rw [if_pos hcp]
        exact hbnd _ (hoccLt _ (by omega))
      · rw [if_neg hcp]
        exact hoccLt c hc

/-- remove_piece on an in-range square holding a real piece preserves the
board-data agreement invariants. -/
theorem remove_piece_data (b : Board) (s : Nat)
    (hagree : ∀ (q t : Nat), q < 12 → t < 64 → ((b.pieceBB q).testBit t = true ↔ b.mailbox t = q))
    (hbbLt : ∀ q : Nat, q < 12 → b.pieceBB q < 2 ^ 64)
    (hmailLt : ∀ t : Nat, t < 64 → b.mailbox t < 13)
    (hocc : ∀ (c t : Nat), c < 2 → t < 64 →
      ((b.occupancy c).testBit t = true ↔
        (b.mailbox t ≠ NoPiece ∧ piece_color (b.mailbox t) = c)))
    (hall : ∀ t : Nat, t < 64 → ((b.occupancy 2).testBit t = true ↔ b.mailbox t ≠ NoPiece))
    (hoccLt : ∀ c : Nat, c ≤ 2 → b.occupancy c < 2 ^ 64)
    (hs : s < 64) (hfull : (b.mailbox s : Nat) < 12) :
    (∀ (q t : Nat), q < 12 → t < 64 →
      (((b.remove_piece s).pieceBB q).testBit t = true ↔ (b.remove_piece s).mailbox t = q)) ∧
    (∀ q : Nat, q < 12 → (b.remove_piece s).pieceBB q < 2 ^ 64) ∧
    (∀ t : Nat, t < 64 → (b.remove_piece s).mailbox t < 13) ∧
    (∀ (c t : Nat), c < 2 → t < 64 →
      (((b.remove_piece s).occupancy c).testBit t = true ↔
        ((b.remove_piece s).mailbox t ≠ NoPiece ∧
          piece_color ((b.remove_piece s).mailbox t) = c))) ∧
    (∀ t : Nat, t < 64 →
      (((b.remove_piece s).occupancy 2).testBit t = true ↔
        (b.remove_piece s).mailbox t ≠ NoPiece)) ∧
    (∀ c : Nat, c ≤ 2 → (b.remove_piece s).occupancy c < 2 ^ 64) := by
  have hbb2 : (2 : Nat) ^ s < 2 ^ 64 := Nat.pow_lt_pow_right (by omega) hs
  have harith : ∀ x : Nat, x < 12 → x / 6 < 2 ∧ ¬(x = 12) := by omega
  have hp0 : (b.mailbox s : Nat) / 6 < 2 := (harith _ hfull).1
  have hpcLt : piece_color (b.mailbox s) < 2 := hp0
  have hpc2 : (2 : Nat) ≠ piece_color (b.mailbox s) := (Nat.ne_of_lt hpcLt).symm
  have hpNoN : ¬((b.mailbox s : Nat) = 12) := (harith _ hfull).2
  have hpNo : b.mailbox s ≠ NoPiece := hpNoN
  have hsq : square_bb s = 2 ^ s := square_bb_eq s hs
  have hbitset : (b.pieceBB (b.mailbox s)).testBit s = true :=
    (hagree (b.mailbox s) s hfull hs).mpr rfl
  refine ⟨?_, ?_, ?_, ?_, ?_, ?_⟩
  · intro q t hq ht
    show ((Function.update b.pieceBB (b.mailbox s) (b.pieceBB (b.mailbox s) ^^^ square_bb s)
        q).testBit t = true ↔ Function.update b.mailbox s NoPiece t = q)
    by_cases hqp : q = b.mailbox s
    · rw [hqp, Function.update_same, Function.update_apply, hsq, Nat.testBit_xor,
        Nat.testBit_two_pow]
      by_cases hts : t = s
      · rw [if_pos hts, hts, decide_eq_true (rfl : s = s), hbitset]
        simp [Ne.symm hpNo]
      · rw [if_neg hts, decide_eq_false (fun h => hts h.symm), Bool.xor_false]
        exact hagree (b.mailbox s) t hfull ht
    · rw [Function.update_noteq hqp, Function.update_apply]
      by_cases hts : t = s
      · rw [if_pos hts]
        constructor
        · intro hbit
          have h2 := (hagree q t hq ht).mp hbit
          rw [hts] at h2
          exact absurd h2.symm hqp
        · intro hNq
          have hqNo : q ≠ 12 := by omega
          exact absurd hNq.symm hqNo
      · rw [if_neg hts]
        exact hagree q t hq ht
  · intro q hq
    show Function.update b.pieceBB (b.mailbox s) (b.pieceBB (b.mailbox s) ^^^ square_bb s) q
      < 2 ^ 64
    by_cases hqp : q = b.mailbox s
    · rw [hqp, Function.update_same, hsq]
      exact Nat.xor_lt_two_pow (hbbLt _ hfull) hbb2
    · rw [Function.update_noteq hqp]
      exact hbbLt q hq
  · intro t ht
    show Function.update b.mailbox s NoPiece t < 13
    rw [Function.update_apply]
    by_cases hts : t = s
    · rw [if_pos hts]; exact (by omega : (12 : Nat) < 13)
    · rw [if_neg hts]; exact hmailLt t ht
  · intro c t hc ht
    show ((Function.update (Function.update b.occupancy (piece_color (b.mailbox s))
        (b.occupancy (piece_color (b.mailbox s)) ^^^ square_bb s)) 2
        ((Function.update b.occupancy (piece_color (b.mailbox s))
          (b.occupancy (piece_color (b.mailbox s)) ^^^ square_bb s)) 2 ^^^ square_bb s)
        c).testBit t = true ↔
      (Function.update b.mailbox s NoPiece t ≠ NoPiece ∧
        piece_color (Function.update b.mailbox s NoPiece t) = c))
    have hc2 : c ≠ 2 := by omega
    rw [Function.update_noteq hc2, Function.update_apply, Function.update_apply]
    by_cases hcp : c = piece_color (b.mailbox s)
    · rw [if_pos hcp, hsq, Nat.testBit_xor, Nat.testBit_two_pow]
      by_cases hts : t = s
      · rw [if_pos hts, decide_eq_true hts.symm]
        have hoccbit : (b.occupancy c).testBit s = true := by
          rw [hcp]
          exact (hocc (piece_color (b.mailbox s)) s (by omega) hs).mpr ⟨hpNo, rfl⟩
        rw [hts, ← hcp, hoccbit]
        simp
      · rw [if_neg hts, decide_eq_false (fun h => hts h.symm), Bool.xor_false, ← hcp]
        exact hocc c t hc ht
    · rw [if_neg hcp]
      by_cases hts : t = s
      · rw [if_pos hts]
        constructor
        · intro hbit
          have h2 := (hocc c t hc ht).mp hbit
          rw [hts] at h2
          exact absurd h2.2.symm hcp
        · rintro ⟨hcon, -⟩
          exact absurd rfl hcon
      · rw [if_neg hts]
        exact hocc c t hc ht
  · intro t ht
    show ((Function.update (Function.update b.occupancy (piece_color (b.mailbox s))
        (b.occupancy (piece_color (b.mailbox s)) ^^^ square_bb s)) 2
        ((Function.update b.occupancy (piece_color (b.mailbox s))
          (b.occupancy (piece_color (b.mailbox s)) ^^^ square_bb s)) 2 ^^^ square_bb s)
        2).testBit t = true ↔
      Function.update b.mailbox s NoPiece t ≠ NoPiece)
    rw [Function.update_same, Function.update_noteq hpc2, Function.update_apply, hsq,
      Nat.testBit_xor, Nat.testBit_two_pow]
    by_cases hts : t = s
    · rw [if_pos hts, decide_eq_true hts.symm, hts, (hall s hs).mpr hpNo]
      simp
    · rw [if_neg hts, decide_eq_false (fun h => hts h.symm), Bool.xor_false]
      exact hall t ht
  · intro c hc
    show Function.update (Function.update b.occupancy (piece_color (b.mailbox s))
        (b.occupancy (piece_color (b.mailbox s)) ^^^ square_bb s)) 2
        ((Function.update b.occupancy (piece_color (b.mailbox s))
          (b.occupancy (piece_color (b.mailbox s)) ^^^ square_bb s)) 2 ^^^ square_bb s) c
      < 2 ^ 64
    have hbnd : ∀ x, x < 2 ^ 64 → x ^^^ square_bb s < 2 ^ 64 := fun x hx => by
      rw [hsq]; exact Nat.xor_lt_two_pow hx hbb2
    by_cases hc2 : c = 2
    · rw [hc2, Function.update_same, Function.update_noteq hpc2]
      exact hbnd _ (hoccLt 2 (by omega))
    · rw [Function.update_noteq hc2, Function.update_apply]
      by_cases hcp : c = piece_color (b.mailbox s)
      · rw [if_pos hcp]
        exact hbnd _ (hoccLt _ (by omega))
      · rw [if_neg hcp]
        exact hoccLt c hc

/-- Bits of a 64-bit left shift. -/
theorem testBit_shl64 (x n j : Nat) :
    (shl64 x n).testBit j
      = (decide (j < 64) && (decide (n ≤ j) && x.testBit (j - n))) := by
  unfold shl64
  rw [Nat.testBit_mod_two_pow, Nat.testBit_shiftLeft]

/-- Bits of the 64-bit complement. -/
theorem testBit_bnot64 (x j : Nat) :
    (bnot64 x).testBit j = (decide (j < 64) != x.testBit j) := by
  unfold bnot64 MASK64
  rw [Nat.testBit_xor, Nat.testBit_two_pow_sub_one]

/-- Bits of a rank mask. -/
theorem testBit_RankMask (r j : Nat) :
    (RankMask r).testBit j
      = (decide (j < 64) && (decide (8 * r ≤ j) && decide (j - 8 * r < 8))) := by
  unfold RankMask
  rw [testBit_shl64]
  congr 1
  congr 1
  show Nat.testBit 0xFF (j - 8 * r) = decide (j - 8 * r < 8)
  have h : (0xFF : Nat) = 2 ^ 8 - 1 := by norm_num
  rw [h, Nat.testBit_two_pow_sub_one]

/-- Bits of the a-file pattern below index 64. -/
theorem testBit_fileA (k : Nat) (hk : k < 64) :
    Nat.testBit 0x0101010101010101 k = decide (k % 8 = 0) := by
  revert hk
  revert k
  decide

/-- The a-file pattern has no bits at 64 and above. -/
theorem testBit_fileA_hi (k : Nat) (hk : 64 ≤ k) :
    Nat.testBit 0x0101010101010101 k = false := by
  apply Nat.testBit_eq_false_of_lt
  calc (0x0101010101010101 : Nat) < 2 ^ 64 := by norm_num
    _ ≤ 2 ^ k := Nat.pow_le_pow_right (by omega) hk

/-- Bits of a file mask. -/
theorem testBit_FileMask (f j : Nat) (hf : f < 8) :
    (FileMask f).testBit j = decide (j < 64 ∧ j % 8 = f) := by
  unfold FileMask
  rw [testBit_shl64]
  by_cases hj : j < 64
  · rw [decide_eq_true hj, Bool.true_and]
    by_cases hfj : f ≤ j
    · rw [decide_eq_true hfj, Bool.true_and, testBit_fileA _ (by omega)]
      have harith : ((j - f) % 8 = 0) ↔ (j < 64 ∧ j % 8 = f) := by
        constructor
        · intro h; exact ⟨hj, by omega⟩
        · intro h; omega
      by_cases hm : (j - f) % 8 = 0
      · rw [decide_eq_true hm, decide_eq_true (harith.mp hm)]
      · rw [decide_eq_false hm, decide_eq_false (fun hc => hm (harith.mpr hc))]
    · rw [decide_eq_false hfj, Bool.false_and]
      have : ¬(j < 64 ∧ j % 8 = f) := by
        rintro ⟨-, hc⟩; omega
      rw [decide_eq_false this]
  · rw [decide_eq_false hj, Bool.false_and]
    have : ¬(j < 64 ∧ j % 8 = f) := by rintro ⟨hc, -⟩; exact hj hc
    rw [decide_eq_false this]

/-- Bits of a single-square bitboard on the board. -/
theorem testBit_square_bb (s j : Nat) (hs : s < 64) :
    (square_bb s).testBit j = decide (j = s) := by
  rw [square_bb_eq s hs, Nat.testBit_two_pow]
  by_cases h : s = j
  · rw [decide_eq_true h, decide_eq_true h.symm]
  · rw [decide_eq_false h, decide_eq_false (fun hc => h hc.symm)]

/-- square_bb of an off-board index is empty. -/
theorem square_bb_hi (s : Nat) (hs : 64 ≤ s) : square_bb s = 0 := by
  unfold square_bb shl64
  rw [Nat.shiftLeft_eq, one_mul]
  exact Nat.mod_eq_zero_of_dvd (pow_dvd_pow 2 hs)

/-- The mailbox written by remove_piece. -/
theorem remove_piece_mailbox (b : Board) (sq s : Square) :
    (b.remove_piece sq).mailbox s = if s = sq then NoPiece else b.mailbox s := by
  simp [Board.remove_piece, Function.update_apply]

/-- put_piece on an empty in-range square preserves DataInv. -/
theorem DataInv_put (b : Board) (p s : Nat) (hD : DataInv b)
    (hp : p < 12) (hs : s < 64) (hempty : b.mailbox s = NoPiece) :
    DataInv (b.put_piece p s) := by
  obtain ⟨h1, h2, h3, h4, h5, h6⟩ := hD
  exact put_piece_data b p s h1 h2 h3 h4 h5 h6 hp hs hempty

/-- remove_piece of a real piece on an in-range square preserves DataInv. -/
theorem DataInv_remove (b : Board) (s : Nat) (hD : DataInv b)
    (hs : s < 64) (hfull : (b.mailbox s : Nat) < 12) :
    DataInv (b.remove_piece s) := by
  obtain ⟨h1, h2, h3, h4, h5, h6⟩ := hD
  exact remove_piece_data b s h1 h2 h3 h4 h5 h6 hs hfull

/-- put_piece shifts hash and recomputed hash by the same key: any fixed
XOR-difference between them is preserved. -/
theorem hashRel_put (b : Board) (p s K : Nat)
    (hp : p < 12) (hs : s < 64) (hclear : (b.pieceBB p).testBit s = false)
    (hh : b.hash = b.compute_hash ^^^ K) :
    (b.put_piece p s).hash = (b.put_piece p s).compute_hash ^^^ K := by
  rw [put_piece_hash, compute_hash_put b p s hp hs hclear, hh]
  simp [Nat.xor_assoc, Nat.xor_comm, xor_left_comm, Nat.xor_cancel_left, Nat.xor_self, Nat.xor_zero, Nat.zero_xor, Nat.xor_cancel_right]

/-- remove_piece shifts hash and recomputed hash by the same key: any fixed
XOR-difference between them is preserved. -/
theorem hashRel_remove (b : Board) (s K : Nat)
    (hs : s < 64) (hfull : (b.mailbox s : Nat) < 12)
    (hh : b.hash = b.compute_hash ^^^ K) :
    (b.remove_piece s).hash = (b.remove_piece s).compute_hash ^^^ K := by
  rw [remove_piece_hash, compute_hash_remove b s hs hfull, hh]
  simp [Nat.xor_assoc, Nat.xor_comm, xor_left_comm, Nat.xor_cancel_left, Nat.xor_self, Nat.xor_zero, Nat.zero_xor, Nat.xor_cancel_right]

/-- compute_hash decomposed into its four XOR components. -/
theorem compute_hash_eq (b : Board) :
    b.compute_hash
      = pieceHash b ^^^ zobrist.castlingKeys b.castling
        ^^^ (if b.epSquare ≠ NoSquare then zobrist.enPassantKeys (square_file b.epSquare) else 0)
        ^^^ (if b.sideToMove = Black then zobrist.sideKey else 0) := by
  show (let h0 := pieceHash b
    let h1 := h0 ^^^ zobrist.castlingKeys b.castling
    let h2 := if b.epSquare ≠ NoSquare then
        h1 ^^^ zobrist.enPassantKeys (square_file b.epSquare) else h1
    if b.sideToMove = Black then h2 ^^^ zobrist.sideKey else h2) = _
  by_cases hep : b.epSquare ≠ NoSquare <;> by_cases hstm : b.sideToMove = Black <;>
    simp [hep, hstm, Nat.xor_assoc]


/-- make_move on an en-passant move, staged. -/
theorem make_move_ep_eq (b : Board) (m : Move) (hmt : move_type m = MoveTypeEnPassant) :
    b.make_move m
      = finishMove b
          (setClock ((((hashOutCE b).remove_piece
              (make_square (square_file (move_to m)) (square_rank (move_from m)))).remove_piece
              (move_from m)).put_piece (b.mailbox (move_from m)) (move_to m)) 0) m := by
  unfold Board.make_move
  dsimp only
  rw [if_pos hmt]
  rfl

/-- make_move on a castling move, staged. -/
theorem make_move_castle_eq (b : Board) (m : Move)
    (hne : ¬(move_type m = MoveTypeEnPassant)) (hmt : move_type m = MoveTypeCastling) :
    b.make_move m
      = finishMove b
          (setClock
            (Board.put_piece
              (Board.remove_piece
                (((hashOutCE b).remove_piece (move_from m)).put_piece
                  (b.mailbox (move_from m)) (move_to m))
                (if move_from m < move_to m then make_square 7 (square_rank (move_from m))
                 else make_square 0 (square_rank (move_from m))))
              ((((hashOutCE b).remove_piece (move_from m)).put_piece
                  (b.mailbox (move_from m)) (move_to m)).mailbox
                (if move_from m < move_to m then make_square 7 (square_rank (move_from m))
                 else make_square 0 (square_rank (move_from m))))
              (if move_from m < move_to m then make_square 5 (square_rank (move_from m))
               else make_square 3 (square_rank (move_from m))))
            (b.halfmoveClock + 1)) m := by
  unfold Board.make_move
  dsimp only
  rw [if_neg hne, if_pos hmt]
  by_cases hks : move_from m < move_to m
  · simp only [if_pos hks, decide_eq_true hks, eq_self_iff_true, if_true]
    rfl
  · simp only [if_neg hks, decide_eq_false hks, Bool.false_eq_true, if_false]
    rfl

/-- make_move on a promotion with a capture, staged. -/
theorem make_move_promoCap_eq (b : Board) (m : Move)
    (hne : ¬(move_type m = MoveTypeEnPassant)) (hne2 : ¬(move_type m = MoveTypeCastling))
    (hmt : move_type m = MoveTypePromotion)
    (hcap : b.mailbox (move_to m) ≠ NoPiece) :
    b.make_move m
      = finishMove b
          (setClock
            ((((hashOutCE b).remove_piece (move_to m)).remove_piece (move_from m)).put_piece
              (make_piece b.sideToMove (promotion_type m)) (move_to m)) 0) m := by
  unfold Board.make_move
  dsimp only
  rw [if_neg hne, if_neg hne2, if_pos hmt, if_pos hcap]
  rfl

/-- make_move on a promotion without a capture, staged. -/
theorem make_move_promoQuiet_eq (b : Board) (m : Move)
    (hne : ¬(move_type m = MoveTypeEnPassant)) (hne2 : ¬(move_type m = MoveTypeCastling))
    (hmt : move_type m = MoveTypePromotion)
    (hcap : ¬(b.mailbox (move_to m) ≠ NoPiece)) :
    b.make_move m
      = finishMove b
          (setClock
            (((hashOutCE b).remove_piece (move_from m)).put_piece
              (make_piece b.sideToMove (promotion_type m)) (move_to m)) 0) m := by
  unfold Board.make_move
  dsimp only
  rw [if_neg hne, if_neg hne2, if_pos hmt, if_neg hcap]
  rfl

/-- make_move on a normal capture, staged. -/
theorem make_move_capture_eq (b : Board) (m : Move)
    (hne : ¬(move_type m = MoveTypeEnPassant)) (hne2 : ¬(move_type m = MoveTypeCastling))
    (hne3 : ¬(move_type m = MoveTypePromotion))
    (hcap : b.mailbox (move_to m) ≠ NoPiece) :
    b.make_move m
      = finishMove b
          (setClock
            ((((hashOutCE b).remove_piece (move_to m)).remove_piece (move_from m)).put_piece
              (b.mailbox (move_from m)) (move_to m)) 0) m := by
  unfold Board.make_move
  dsimp only
  rw [if_neg hne, if_neg hne2, if_neg hne3, if_pos hcap]
  rfl

/-- make_move on a quiet pawn move, staged: a double push sets the en-passant
square. -/
theorem make_move_pawnQuiet_eq (b : Board) (m : Move)
    (hne : ¬(move_type m = MoveTypeEnPassant)) (hne2 : ¬(move_type m = MoveTypeCastling))
    (hne3 : ¬(move_type m = MoveTypePromotion))
    (hcap : ¬(b.mailbox (move_to m) ≠ NoPiece))
    (hpt : piece_type (b.mailbox (move_from m)) = Pawn) :
    b.make_move m
      = finishMove b
          (setClockEp
            (((hashOutCE b).remove_piece (move_from m)).put_piece
              (b.mailbox (move_from m)) (move_to m)) 0
            (if move_to m = move_from m + 16 ∨ move_from m = move_to m + 16 then
              (move_from m + move_to m) / 2
             else NoSquare)) m := by
  unfold Board.make_move
  dsimp only
  rw [if_neg hne, if_neg hne2, if_neg hne3, if_neg hcap, if_pos hpt]
  rfl

/-- make_move on a quiet non-pawn move, staged. -/
theorem make_move_quiet_eq (b : Board) (m : Move)
    (hne : ¬(move_type m = MoveTypeEnPassant)) (hne2 : ¬(move_type m = MoveTypeCastling))
    (hne3 : ¬(move_type m = MoveTypePromotion))
    (hcap : ¬(b.mailbox (move_to m) ≠ NoPiece))
    (hpt : ¬(piece_type (b.mailbox (move_from m)) = Pawn)) :
    b.make_move m
      = finishMove b
          (setClock
            (((hashOutCE b).remove_piece (move_from m)).put_piece
              (b.mailbox (move_from m)) (move_to m))
            (b.halfmoveClock + 1)) m := by
  unfold Board.make_move
  dsimp only
  rw [if_neg hne, if_neg hne2, if_neg hne3, if_neg hcap, if_neg hpt]
  rfl



/-- hashOutCE changes only the hash and the en-passant square. -/
theorem hashOutCE_fields (b : Board) :
    (hashOutCE b).pieceBB = b.pieceBB ∧ (hashOutCE b).occupancy = b.occupancy ∧
    (hashOutCE b).mailbox = b.mailbox ∧ (hashOutCE b).sideToMove = b.sideToMove ∧
    (hashOutCE b).castling = b.castling ∧ (hashOutCE b).epSquare = NoSquare ∧
    (hashOutCE b).halfmoveClock = b.halfmoveClock ∧
    (hashOutCE b).fullmoveNumber = b.fullmoveNumber :=
  ⟨rfl, rfl, rfl, rfl, rfl, rfl, rfl, rfl⟩

/-- DataInv passes through hashOutCE. -/
theorem DataInv_hashOutCE (b : Board) (h : DataInv b) : DataInv (hashOutCE b) := h

/-- DataInv passes through setClock. -/
theorem DataInv_setClock (b : Board) (n : Nat) (h : DataInv b) : DataInv (setClock b n) := h

/-- DataInv passes through setClockEp. -/
theorem DataInv_setClockEp (b : Board) (n : Nat) (e : Square) (h : DataInv b) :
    DataInv (setClockEp b n e) := h

/-- DataInv passes through finishMove. -/
theorem DataInv_finishMove (b0 b2 : Board) (m : Move) (h : DataInv b2) :
    DataInv (finishMove b0 b2 m) := h

/-- On a well-hashed board, hashOutCE leaves the hash off from a full
recomputation by exactly the castling key. -/
theorem hashRel_hashOutCE (b : Board) (hh : b.hash = b.compute_hash) :
    (hashOutCE b).hash
      = (hashOutCE b).compute_hash ^^^ zobrist.castlingKeys b.castling := by
  have hch : (hashOutCE b).compute_hash
      = pieceHash b ^^^ zobrist.castlingKeys b.castling
        ^^^ (if b.sideToMove = Black then zobrist.sideKey else 0) := by
    rw [compute_hash_eq]
    show pieceHash (hashOutCE b) ^^^ zobrist.castlingKeys b.castling
        ^^^ (if (NoSquare : Nat) ≠ NoSquare then
          zobrist.enPassantKeys (square_file (hashOutCE b).epSquare) else 0)
        ^^^ (if b.sideToMove = Black then zobrist.sideKey else 0) = _
    rw [if_neg (by simp)]
    have hph : pieceHash (hashOutCE b) = pieceHash b := rfl
    rw [hph, Nat.xor_zero]
  rw [hch]
  show (if b.epSquare ≠ NoSquare then
      b.hash ^^^ zobrist.castlingKeys b.castling
        ^^^ zobrist.enPassantKeys (square_file b.epSquare)
    else b.hash ^^^ zobrist.castlingKeys b.castling) = _
  rw [hh, compute_hash_eq]
  by_cases hep : b.epSquare ≠ NoSquare
  · rw [if_pos hep, if_pos hep]
    simp [Nat.xor_assoc, Nat.xor_comm, xor_left_comm, Nat.xor_cancel_left, Nat.xor_self, Nat.xor_zero, Nat.zero_xor, Nat.xor_cancel_right]
  · rw [if_neg hep, if_neg hep]
    simp [Nat.xor_assoc, Nat.xor_comm, xor_left_comm, Nat.xor_cancel_left, Nat.xor_self, Nat.xor_zero, Nat.zero_xor, Nat.xor_cancel_right]

/-- setClock preserves the hash-to-recomputation relation. -/
theorem hashRel_setClock (b : Board) (n K : Nat) (hh : b.hash = b.compute_hash ^^^ K) :
    (setClock b n).hash = (setClock b n).compute_hash ^^^ K := hh

/-- compute_hash after setClockEp on a board with no en-passant square. -/
theorem compute_hash_setClockEp (b : Board) (n : Nat) (e : Square)
    (hep : b.epSquare = NoSquare) :
    (setClockEp b n e).compute_hash
      = b.compute_hash ^^^ (if e ≠ NoSquare then
          zobrist.enPassantKeys (square_file e) else 0) := by
  rw [compute_hash_eq, compute_hash_eq]
  have h1 : pieceHash (setClockEp b n e) = pieceHash b := rfl
  have h2 : (setClockEp b n e).castling = b.castling := rfl
  have h3 : (setClockEp b n e).epSquare = e := rfl
  have h4 : (setClockEp b n e).sideToMove = b.sideToMove := rfl
  rw [h1, h2, h3, h4, hep]
  rw [if_neg (show ¬((NoSquare : Nat) ≠ NoSquare) by simp)]
  simp [Nat.xor_assoc, Nat.xor_comm, xor_left_comm, Nat.xor_cancel_left, Nat.xor_self, Nat.xor_zero, Nat.zero_xor, Nat.xor_cancel_right]

/-- setClockEp preserves the hash relation, re-expressed with the new
en-passant term. -/
theorem hashRel_setClockEp (b : Board) (n : Nat) (e : Square) (K : Nat)
    (hep : b.epSquare = NoSquare) (hh : b.hash = b.compute_hash ^^^ K) :
    (setClockEp b n e).hash
      = (setClockEp b n e).compute_hash ^^^ K
        ^^^ (if e ≠ NoSquare then zobrist.enPassantKeys (square_file e) else 0) := by
  have h0 : (setClockEp b n e).hash = b.hash := rfl
  rw [h0, compute_hash_setClockEp b n e hep, hh]
  simp [Nat.xor_assoc, Nat.xor_comm, xor_left_comm, Nat.xor_cancel_left, Nat.xor_self, Nat.xor_zero, Nat.zero_xor, Nat.xor_cancel_right]

/-- The scalar fields of finishMove. -/
theorem finishMove_fields (b0 b2 : Board) (m : Move) :
    (finishMove b0 b2 m).pieceBB = b2.pieceBB ∧
    (finishMove b0 b2 m).occupancy = b2.occupancy ∧
    (finishMove b0 b2 m).mailbox = b2.mailbox ∧
    (finishMove b0 b2 m).sideToMove = compl b0.sideToMove ∧
    (finishMove b0 b2 m).castling
      = b0.castling &&& CastlingUpdate (move_from m) &&& CastlingUpdate (move_to m) ∧
    (finishMove b0 b2 m).epSquare = b2.epSquare :=
  ⟨rfl, rfl, rfl, rfl, rfl, rfl⟩

/-- The color complement is always 0 or 1. -/
theorem compl_lt2 (u : Nat) : (compl u : Nat) < 2 := by
  show 1 - u < 2
  omega

/-- The hash assembled by finishMove is the full recomputation of the
resulting board, given the op-chain hash relation. -/
theorem finishMove_hashOK (b0 b2 : Board) (m : Move)
    (hus : b0.sideToMove < 2) (hstm2 : b2.sideToMove = b0.sideToMove)
    (hcast2 : b2.castling = b0.castling)
    (hh2 : b2.hash = b2.compute_hash ^^^ zobrist.castlingKeys b0.castling
      ^^^ (if b2.epSquare ≠ NoSquare then
        zobrist.enPassantKeys (square_file b2.epSquare) else 0)) :
    (finishMove b0 b2 m).hash = (finishMove b0 b2 m).compute_hash := by
  have hch : (finishMove b0 b2 m).compute_hash
      = pieceHash b2
        ^^^ zobrist.castlingKeys
          (b0.castling &&& CastlingUpdate (move_from m) &&& CastlingUpdate (move_to m))
        ^^^ (if b2.epSquare ≠ NoSquare then
          zobrist.enPassantKeys (square_file b2.epSquare) else 0)
        ^^^ (if (compl b0.sideToMove : Nat) = Black then zobrist.sideKey else 0) := by
    rw [compute_hash_eq]
    rfl
  have hlhs : (finishMove b0 b2 m).hash
      = b2.hash ^^^ zobrist.sideKey
        ^^^ zobrist.castlingKeys
          (b0.castling &&& CastlingUpdate (move_from m) &&& CastlingUpdate (move_to m))
        ^^^ (if b2.epSquare ≠ NoSquare then
          zobrist.enPassantKeys (square_file b2.epSquare) else 0) := by
    show (if b2.epSquare ≠ NoSquare then
        b2.hash ^^^ zobrist.sideKey
          ^^^ zobrist.castlingKeys
            (b0.castling &&& CastlingUpdate (move_from m) &&& CastlingUpdate (move_to m))
          ^^^ zobrist.enPassantKeys (square_file b2.epSquare)
      else
        b2.hash ^^^ zobrist.sideKey
          ^^^ zobrist.castlingKeys
            (b0.castling &&& CastlingUpdate (move_from m) &&& CastlingUpdate (move_to m))) = _
    by_cases hep : b2.epSquare ≠ NoSquare
    · rw [if_pos hep, if_pos hep]
    · rw [if_neg hep, if_neg hep, Nat.xor_zero]
  rw [hch, hlhs, hh2, compute_hash_eq, hstm2, hcast2]
  have hcases : b0.sideToMove = 0 ∨ b0.sideToMove = 1 := by
    have h : ∀ x : Nat, x < 2 → x = 0 ∨ x = 1 := by omega
    exact h _ hus
  rcases hcases with hw | hbk
  · rw [hw]
    rw [if_neg (show ¬((0 : Nat) = Black) by decide),
      if_pos (show (compl 0 : Nat) = Black by decide)]
    simp [Nat.xor_assoc, Nat.xor_comm, xor_left_comm, Nat.xor_cancel_left, Nat.xor_self, Nat.xor_zero, Nat.zero_xor, Nat.xor_cancel_right]
  · rw [hbk]
    rw [if_pos (show (1 : Nat) = Black by decide),
      if_neg (show ¬((compl 1 : Nat) = Black) by decide)]
    simp [Nat.xor_assoc, Nat.xor_comm, xor_left_comm, Nat.xor_cancel_left, Nat.xor_self, Nat.xor_zero, Nat.zero_xor, Nat.xor_cancel_right]



/-- A single-bit mask test is a testBit. -/
theorem land_pow_ne_zero (x k : Nat) : (x &&& 2 ^ k ≠ 0) ↔ x.testBit k := by
  rw [Nat.and_two_pow]
  cases h : x.testBit k
  · simp
  · simp only [Bool.toNat_true, one_mul, iff_true]
    exact (Nat.two_pow_pos k).ne'

/-- White kingside bit as a bit test. -/
theorem land_WKS (x : Nat) : (x &&& WhiteKingSide ≠ 0) ↔ x.testBit 0 :=
  land_pow_ne_zero x 0

/-- White queenside bit as a bit test. -/
theorem land_WQS (x : Nat) : (x &&& WhiteQueenSide ≠ 0) ↔ x.testBit 1 :=
  land_pow_ne_zero x 1

/-- Black kingside bit as a bit test. -/
theorem land_BKS (x : Nat) : (x &&& BlackKingSide ≠ 0) ↔ x.testBit 2 :=
  land_pow_ne_zero x 2

/-- Black queenside bit as a bit test. -/
theorem land_BQS (x : Nat) : (x &&& BlackQueenSide ≠ 0) ↔ x.testBit 3 :=
  land_pow_ne_zero x 3

/-- Bits of the intersected castling rights. -/
theorem nc_testBit (cast f t k : Nat) :
    (cast &&& CastlingUpdate f &&& CastlingUpdate t).testBit k
      = (cast.testBit k && ((CastlingUpdate f).testBit k && (CastlingUpdate t).testBit k)) := by
  rw [Nat.testBit_land, Nat.testBit_land, Bool.and_assoc]

/-- A surviving White-kingside castling bit means the square avoided E1 and
H1. -/
theorem CU_bit0 (s : Nat) (h : (CastlingUpdate s).testBit 0 = true) :
    s ≠ E1 ∧ s ≠ H1 := by
  unfold CastlingUpdate at h
  split_ifs at h with h1 h2 h3 h4 h5 h6
  · subst h1; exact ⟨by decide, by decide⟩
  · exact absurd h (by decide)
  · exact absurd h (by decide)
  · subst h4; exact ⟨by decide, by decide⟩
  · subst h5; exact ⟨by decide, by decide⟩
  · subst h6; exact ⟨by decide, by decide⟩
  · exact ⟨h2, h3⟩

/-- A surviving White-queenside castling bit means the square avoided E1 and
A1. -/
theorem CU_bit1 (s : Nat) (h : (CastlingUpdate s).testBit 1 = true) :
    s ≠ E1 ∧ s ≠ A1 := by
  unfold CastlingUpdate at h
  split_ifs at h with h1 h2 h3 h4 h5 h6
  · exact absurd h (by decide)
  · exact absurd h (by decide)
  · subst h3; exact ⟨by decide, by decide⟩
  · subst h4; exact ⟨by decide, by decide⟩
  · subst h5; exact ⟨by decide, by decide⟩
  · subst h6; exact ⟨by decide, by decide⟩
  · exact ⟨h2, h1⟩

/-- A surviving Black-kingside castling bit means the square avoided E8 and
H8. -/
theorem CU_bit2 (s : Nat) (h : (CastlingUpdate s).testBit 2 = true) :
    s ≠ E8 ∧ s ≠ H8 := by
  unfold CastlingUpdate at h
  split_ifs at h with h1 h2 h3 h4 h5 h6
  · subst h1; exact ⟨by decide, by decide⟩
  · subst h2; exact ⟨by decide, by decide⟩
  · subst h3; exact ⟨by decide, by decide⟩
  · subst h4; exact ⟨by decide, by decide⟩
  · exact absurd h (by decide)
  · exact absurd h (by decide)
  · exact ⟨h5, h6⟩

/-- A surviving Black-queenside castling bit means the square avoided E8 and
A8. -/
theorem CU_bit3 (s : Nat) (h : (CastlingUpdate s).testBit 3 = true) :
    s ≠ E8 ∧ s ≠ A8 := by
  unfold CastlingUpdate at h
  split_ifs at h with h1 h2 h3 h4 h5 h6
  · subst h1; exact ⟨by decide, by decide⟩
  · subst h2; exact ⟨by decide, by decide⟩
  · subst h3; exact ⟨by decide, by decide⟩
  · exact absurd h (by decide)
  · exact absurd h (by decide)
  · subst h6; exact ⟨by decide, by decide⟩
  · exact ⟨h5, h4⟩

/-- A board with no en-passant square satisfies the en-passant invariant. -/
theorem EpOK_of_none (c : Board) (h : c.epSquare = NoSquare) : EpOK c := by
  intro hc
  exact absurd h hc

/-- The castling invariant after finishMove, given that the touched squares
avoid the home squares of every surviving castling right. -/
theorem CrOK_finish (b0 b2 : Board) (m : Move) (hcr : CrOK b0)
    (h1 : b0.castling &&& WhiteKingSide ≠ 0 → move_from m ≠ E1 → move_to m ≠ E1 →
      move_from m ≠ H1 → move_to m ≠ H1 →
      b2.mailbox E1 = b0.mailbox E1 ∧ b2.mailbox H1 = b0.mailbox H1)
    (h2 : b0.castling &&& WhiteQueenSide ≠ 0 → move_from m ≠ E1 → move_to m ≠ E1 →
      move_from m ≠ A1 → move_to m ≠ A1 →
      b2.mailbox E1 = b0.mailbox E1 ∧ b2.mailbox A1 = b0.mailbox A1)
    (h3 : b0.castling &&& BlackKingSide ≠ 0 → move_from m ≠ E8 → move_to m ≠ E8 →
      move_from m ≠ H8 → move_to m ≠ H8 →
      b2.mailbox E8 = b0.mailbox E8 ∧ b2.mailbox H8 = b0.mailbox H8)
    (h4 : b0.castling &&& BlackQueenSide ≠ 0 → move_from m ≠ E8 → move_to m ≠ E8 →
      move_from m ≠ A8 → move_to m ≠ A8 →
      b2.mailbox E8 = b0.mailbox E8 ∧ b2.mailbox A8 = b0.mailbox A8) :
    CrOK (finishMove b0 b2 m) := by
  unfold CrOK
  have hm : (finishMove b0 b2 m).mailbox = b2.mailbox := rfl
  have hc : (finishMove b0 b2 m).castling
      = b0.castling &&& CastlingUpdate (move_from m) &&& CastlingUpdate (move_to m) := rfl
  rw [hm, hc]
  refine ⟨?_, ?_, ?_, ?_⟩
  · intro hbit
    have hb := (land_WKS _).mp hbit
    rw [nc_testBit] at hb
    have hb1 := Bool.and_eq_true_iff.mp hb
    have hb2 := Bool.and_eq_true_iff.mp hb1.2
    have hcb := hb1.1
    have hfb := hb2.1
    have htb := hb2.2
    have hf := CU_bit0 _ hfb
    have ht := CU_bit0 _ htb
    have hmb := h1 ((land_WKS _).mpr hcb) hf.1 ht.1 hf.2 ht.2
    rw [hmb.1, hmb.2]
    exact hcr.1 ((land_WKS _).mpr hcb)
  · intro hbit
    have hb := (land_WQS _).mp hbit
    rw [nc_testBit] at hb
    have hb1 := Bool.and_eq_true_iff.mp hb
    have hb2 := Bool.and_eq_true_iff.mp hb1.2
    have hcb := hb1.1
    have hfb := hb2.1
    have htb := hb2.2
    have hf := CU_bit1 _ hfb
    have ht := CU_bit1 _ htb
    have hmb := h2 ((land_WQS _).mpr hcb) hf.1 ht.1 hf.2 ht.2
    rw [hmb.1, hmb.2]
    exact hcr.2.1 ((land_WQS _).mpr hcb)
  · intro hbit
    have hb := (land_BKS _).mp hbit
    rw [nc_testBit] at hb
    have hb1 := Bool.and_eq_true_iff.mp hb
    have hb2 := Bool.and_eq_true_iff.mp hb1.2
    have hcb := hb1.1
    have hfb := hb2.1
    have htb := hb2.2
    have hf := CU_bit2 _ hfb
    have ht := CU_bit2 _ htb
    have hmb := h3 ((land_BKS _).mpr hcb) hf.1 ht.1 hf.2 ht.2
    rw [hmb.1, hmb.2]
    exact hcr.2.2.1 ((land_BKS _).mpr hcb)
  · intro hbit
    have hb := (land_BQS _).mp hbit
    rw [nc_testBit] at hb
    have hb1 := Bool.and_eq_true_iff.mp hb
    have hb2 := Bool.and_eq_true_iff.mp hb1.2
    have hcb := hb1.1
    have hfb := hb2.1
    have htb := hb2.2
    have hf := CU_bit3 _ hfb
    have ht := CU_bit3 _ htb
    have hmb := h4 ((land_BQS _).mpr hcb) hf.1 ht.1 hf.2 ht.2
    rw [hmb.1, hmb.2]
    exact hcr.2.2.2 ((land_BQS _).mpr hcb)



/-- Decoded from-squares are on the board. -/
theorem move_from_lt (m : Move) : (move_from m : Nat) < 64 := Nat.mod_lt m (by omega)

/-- Decoded to-squares are on the board. -/
theorem move_to_lt (m : Move) : (move_to m : Nat) < 64 := Nat.mod_lt _ (by omega)

/-- On an agreeing board an empty square has no piece-bitboard bit. -/
theorem bit_clear_of_empty (b : Board) (hD : DataInv b) (p s : Nat)
    (hp : p < 12) (hs : s < 64) (hempty : b.mailbox s = NoPiece) :
    (b.pieceBB p).testBit s = false := by
  cases hbit : (b.pieceBB p).testBit s
  · rfl
  · exfalso
    have h2 := (hD.1 p s hp hs).mp hbit
    rw [hempty] at h2
    have h3 : (12 : Nat) = p := h2
    omega

/-- The mailbox after setClock. -/
theorem setClock_mailbox (b : Board) (n : Nat) : (setClock b n).mailbox = b.mailbox := rfl

/-- The mailbox after setClockEp. -/
theorem setClockEp_mailbox (b : Board) (n : Nat) (e : Square) :
    (setClockEp b n e).mailbox = b.mailbox := rfl

/-- Step theorem, quiet non-pawn branch. -/
theorem make_move_ok_quiet (b : Board) (m : Move)
    (hD : DataInv b) (hstm : b.sideToMove < 2) (hcr : CrOK b)
    (hh : b.hash = b.compute_hash)
    (hne : ¬(move_type m = MoveTypeEnPassant)) (hne2 : ¬(move_type m = MoveTypeCastling))
    (hne3 : ¬(move_type m = MoveTypePromotion))
    (hcap : ¬(b.mailbox (move_to m) ≠ NoPiece))
    (hpt : ¬(piece_type (b.mailbox (move_from m)) = Pawn))
    (hmov : (b.mailbox (move_from m) : Nat) < 12)
    (hft : move_from m ≠ move_to m) :
    BoardOK (b.make_move m) := by
  rw [make_move_quiet_eq b m hne hne2 hne3 hcap hpt]
  have hflt := move_from_lt m
  have htlt := move_to_lt m
  have hD0 : DataInv (hashOutCE b) := DataInv_hashOutCE b hD
  have hh0 : (hashOutCE b).hash
      = (hashOutCE b).compute_hash ^^^ zobrist.castlingKeys b.castling :=
    hashRel_hashOutCE b hh
  have hD1 : DataInv ((hashOutCE b).remove_piece (move_from m)) :=
    DataInv_remove _ _ hD0 hflt hmov
  have hh1 : ((hashOutCE b).remove_piece (move_from m)).hash
      = ((hashOutCE b).remove_piece (move_from m)).compute_hash
        ^^^ zobrist.castlingKeys b.castling :=
    hashRel_remove _ _ _ hflt hmov hh0
  have hm1 : ∀ s : Nat, ((hashOutCE b).remove_piece (move_from m)).mailbox s
      = if s = move_from m then NoPiece else b.mailbox s :=
    fun s => remove_piece_mailbox (hashOutCE b) (move_from m) s
  have hmt1 : ((hashOutCE b).remove_piece (move_from m)).mailbox (move_to m) = NoPiece := by
    rw [hm1, if_neg (fun hc => hft hc.symm)]
    exact not_not.mp hcap
  have hclear : (((hashOutCE b).remove_piece (move_from m)).pieceBB
      (b.mailbox (move_from m))).testBit (move_to m) = false :=
    bit_clear_of_empty _ hD1 _ _ hmov htlt hmt1
  have hD2 : DataInv (((hashOutCE b).remove_piece (move_from m)).put_piece
      (b.mailbox (move_from m)) (move_to m)) :=
    DataInv_put _ _ _ hD1 hmov htlt hmt1
  have hh2 : (((hashOutCE b).remove_piece (move_from m)).put_piece
      (b.mailbox (move_from m)) (move_to m)).hash
      = (((hashOutCE b).remove_piece (move_from m)).put_piece
          (b.mailbox (move_from m)) (move_to m)).compute_hash
        ^^^ zobrist.castlingKeys b.castling :=
    hashRel_put _ _ _ _ hmov htlt hclear hh1
  have hm2 : ∀ s : Nat, (((hashOutCE b).remove_piece (move_from m)).put_piece
      (b.mailbox (move_from m)) (move_to m)).mailbox s
      = if s = move_to m then b.mailbox (move_from m)
        else if s = move_from m then NoPiece else b.mailbox s := by
    intro s
    rw [put_piece_mailbox, hm1]
  set c2 : Board := setClock (((hashOutCE b).remove_piece (move_from m)).put_piece
      (b.mailbox (move_from m)) (move_to m)) (b.halfmoveClock + 1) with hc2
  have hm2c : ∀ s : Nat, c2.mailbox s
      = if s = move_to m then b.mailbox (move_from m)
        else if s = move_from m then NoPiece else b.mailbox s := fun s => hm2 s
  unfold BoardOK
  refine ⟨DataInv_finishMove _ _ _ (DataInv_setClock _ _ hD2), ?_, ?_, ?_, ?_⟩
  · show (compl b.sideToMove : Nat) < 2
    exact compl_lt2 _
  · exact EpOK_of_none _ rfl
  · refine CrOK_finish b c2 m hcr ?_ ?_ ?_ ?_
    all_goals
      intro _ hf1 ht1 hf2 ht2
      rw [hm2c, hm2c,
        if_neg (fun hc => ht1 hc.symm), if_neg (fun hc => hf1 hc.symm),
        if_neg (fun hc => ht2 hc.symm), if_neg (fun hc => hf2 hc.symm)]
      exact ⟨rfl, rfl⟩
  · refine finishMove_hashOK b c2 m hstm rfl rfl ?_
    have hepc : c2.epSquare = NoSquare := rfl
    rw [hepc, if_neg (show ¬((NoSquare : Nat) ≠ NoSquare) by simp), Nat.xor_zero]
    exact hh2



/-- Step theorem, normal capture branch. -/
theorem make_move_ok_capture (b : Board) (m : Move)
    (hD : DataInv b) (hstm : b.sideToMove < 2) (hcr : CrOK b)
    (hh : b.hash = b.compute_hash)
    (hne : ¬(move_type m = MoveTypeEnPassant)) (hne2 : ¬(move_type m = MoveTypeCastling))
    (hne3 : ¬(move_type m = MoveTypePromotion))
    (hcap : b.mailbox (move_to m) ≠ NoPiece)
    (hmov : (b.mailbox (move_from m) : Nat) < 12)
    (hft : move_from m ≠ move_to m) :
    BoardOK (b.make_move m) := by
  rw [make_move_capture_eq b m hne hne2 hne3 hcap]
  have hflt := move_from_lt m
  have htlt := move_to_lt m
  have hcapLt : (b.mailbox (move_to m) : Nat) < 12 := by
    have h13 : (b.mailbox (move_to m) : Nat) < 13 := hD.2.2.1 (move_to m) htlt
    have hne12 : ¬((b.mailbox (move_to m) : Nat) = 12) := hcap
    have harith : ∀ x : Nat, x < 13 → ¬(x = 12) → x < 12 := by omega
    exact harith _ h13 hne12
  have hD0 : DataInv (hashOutCE b) := DataInv_hashOutCE b hD
  have hh0 : (hashOutCE b).hash
      = (hashOutCE b).compute_hash ^^^ zobrist.castlingKeys b.castling :=
    hashRel_hashOutCE b hh
  have hD1 : DataInv ((hashOutCE b).remove_piece (move_to m)) :=
    DataInv_remove _ _ hD0 htlt hcapLt
  have hh1 : ((hashOutCE b).remove_piece (move_to m)).hash
      = ((hashOutCE b).remove_piece (move_to m)).compute_hash
        ^^^ zobrist.castlingKeys b.castling :=
    hashRel_remove _ _ _ htlt hcapLt hh0
  have hm1 : ∀ s : Nat, ((hashOutCE b).remove_piece (move_to m)).mailbox s
      = if s = move_to m then NoPiece else b.mailbox s :=
    fun s => remove_piece_mailbox (hashOutCE b) (move_to m) s
  have hmf1 : ((hashOutCE b).remove_piece (move_to m)).mailbox (move_from m)
      = b.mailbox (move_from m) := by
    rw [hm1, if_neg hft]
  have hmf1lt : (((hashOutCE b).remove_piece (move_to m)).mailbox (move_from m) : Nat) < 12 := by
    rw [hmf1]; exact hmov
  have hD2 : DataInv (((hashOutCE b).remove_piece (move_to m)).remove_piece (move_from m)) :=
    DataInv_remove _ _ hD1 hflt hmf1lt
  have hh2 : (((hashOutCE b).remove_piece (move_to m)).remove_piece (move_from m)).hash
      = (((hashOutCE b).remove_piece (move_to m)).remove_piece (move_from m)).compute_hash
        ^^^ zobrist.castlingKeys b.castling :=
    hashRel_remove _ _ _ hflt hmf1lt hh1
  have hm2 : ∀ s : Nat,
      (((hashOutCE b).remove_piece (move_to m)).remove_piece (move_from m)).mailbox s
      = if s = move_from m then NoPiece else if s = move_to m then NoPiece
        else b.mailbox s := by
    intro s
    rw [remove_piece_mailbox, hm1]
  have hmt2 : (((hashOutCE b).remove_piece (move_to m)).remove_piece
      (move_from m)).mailbox (move_to m) = NoPiece := by
    rw [hm2, if_neg (fun hc => hft hc.symm), if_pos rfl]
  have hclear : ((((hashOutCE b).remove_piece (move_to m)).remove_piece
      (move_from m)).pieceBB (b.mailbox (move_from m))).testBit (move_to m) = false :=
    bit_clear_of_empty _ hD2 _ _ hmov htlt hmt2
  have hD3 : DataInv ((((hashOutCE b).remove_piece (move_to m)).remove_piece
      (move_from m)).put_piece (b.mailbox (move_from m)) (move_to m)) :=
    DataInv_put _ _ _ hD2 hmov htlt hmt2
  have hh3 : ((((hashOutCE b).remove_piece (move_to m)).remove_piece
      (move_from m)).put_piece (b.mailbox (move_from m)) (move_to m)).hash
      = ((((hashOutCE b).remove_piece (move_to m)).remove_piece
          (move_from m)).put_piece (b.mailbox (move_from m)) (move_to m)).compute_hash
        ^^^ zobrist.castlingKeys b.castling :=
    hashRel_put _ _ _ _ hmov htlt hclear hh2
  have hm3 : ∀ s : Nat, ((((hashOutCE b).remove_piece (move_to m)).remove_piece
      (move_from m)).put_piece (b.mailbox (move_from m)) (move_to m)).mailbox s
      = if s = move_to m then b.mailbox (move_from m)
        else if s = move_from m then NoPiece
        else if s = move_to m then NoPiece else b.mailbox s := by
    intro s
    rw [put_piece_mailbox, hm2]
  set c2 : Board := setClock ((((hashOutCE b).remove_piece (move_to m)).remove_piece
      (move_from m)).put_piece (b.mailbox (move_from m)) (move_to m)) 0 with hc2
  have hm3c : ∀ s : Nat, c2.mailbox s
      = if s = move_to m then b.mailbox (move_from m)
        else if s = move_from m then NoPiece
        else if s = move_to m then NoPiece else b.mailbox s := fun s => hm3 s
  unfold BoardOK
  refine ⟨DataInv_finishMove _ _ _ (DataInv_setClock _ _ hD3), ?_, ?_, ?_, ?_⟩
  · show (compl b.sideToMove : Nat) < 2
    exact compl_lt2 _
  · exact EpOK_of_none _ rfl
  · refine CrOK_finish b c2 m hcr ?_ ?_ ?_ ?_
    all_goals
      intro _ hf1 ht1 hf2 ht2
      rw [hm3c, hm3c,
        if_neg (fun hc => ht1 hc.symm), if_neg (fun hc => hf1 hc.symm),
        if_neg (fun hc => ht1 hc.symm), if_neg (fun hc => ht2 hc.symm),
        if_neg (fun hc => hf2 hc.symm), if_neg (fun hc => ht2 hc.symm)]
      exact ⟨rfl, rfl⟩
  · refine finishMove_hashOK b c2 m hstm rfl rfl ?_
    have hepc : c2.epSquare = NoSquare := rfl
    rw [hepc, if_neg (show ¬((NoSquare : Nat) ≠ NoSquare) by simp), Nat.xor_zero]
    exact hh3

/-- A promotion piece is a real piece of the side to move. -/
theorem promo_lt (b : Board) (m : Move) (hstm : b.sideToMove < 2) :
    (make_piece b.sideToMove (promotion_type m) : Nat) < 12 := by
  show b.sideToMove * 6 + (Knight + m / 16384 % 4) < 12
  have h4 : m / 16384 % 4 < 4 := Nat.mod_lt _ (by omega)
  have harith : ∀ u x : Nat, u < 2 → x < 4 → u * 6 + (1 + x) < 12 := by omega
  exact harith _ _ hstm h4

/-- Step theorem, promotion-with-capture branch. -/
theorem make_move_ok_promoCap (b : Board) (m : Move)
    (hD : DataInv b) (hstm : b.sideToMove < 2) (hcr : CrOK b)
    (hh : b.hash = b.compute_hash)
    (hne : ¬(move_type m = MoveTypeEnPassant)) (hne2 : ¬(move_type m = MoveTypeCastling))
    (hmt : move_type m = MoveTypePromotion)
    (hcap : b.mailbox (move_to m) ≠ NoPiece)
    (hmov : (b.mailbox (move_from m) : Nat) < 12)
    (hft : move_from m ≠ move_to m) :
    BoardOK (b.make_move m) := by
  rw [make_move_promoCap_eq b m hne hne2 hmt hcap]
  have hflt := move_from_lt m
  have htlt := move_to_lt m
  have hplt := promo_lt b m hstm
  have hcapLt : (b.mailbox (move_to m) : Nat) < 12 := by
    have h13 : (b.mailbox (move_to m) : Nat) < 13 := hD.2.2.1 (move_to m) htlt
    have hne12 : ¬((b.mailbox (move_to m) : Nat) = 12) := hcap
    have harith : ∀ x : Nat, x < 13 → ¬(x = 12) → x < 12 := by omega
    exact harith _ h13 hne12
  have hD0 : DataInv (hashOutCE b) := DataInv_hashOutCE b hD
  have hh0 : (hashOutCE b).hash
      = (hashOutCE b).compute_hash ^^^ zobrist.castlingKeys b.castling :=
    hashRel_hashOutCE b hh
  have hD1 : DataInv ((hashOutCE b).remove_piece (move_to m)) :=
    DataInv_remove _ _ hD0 htlt hcapLt
  have hh1 : ((hashOutCE b).remove_piece (move_to m)).hash
      = ((hashOutCE b).remove_piece (move_to m)).compute_hash
        ^^^ zobrist.castlingKeys b.castling :=
    hashRel_remove _ _ _ htlt hcapLt hh0
  have hm1 : ∀ s : Nat, ((hashOutCE b).remove_piece (move_to m)).mailbox s
      = if s = move_to m then NoPiece else b.mailbox s :=
    fun s => remove_piece_mailbox (hashOutCE b) (move_to m) s
  have hmf1lt : (((hashOutCE b).remove_piece (move_to m)).mailbox (move_from m) : Nat) < 12 := by
    rw [hm1, if_neg hft]; exact hmov
  have hD2 : DataInv (((hashOutCE b).remove_piece (move_to m)).remove_piece (move_from m)) :=
    DataInv_remove _ _ hD1 hflt hmf1lt
  have hh2 : (((hashOutCE b).remove_piece (move_to m)).remove_piece (move_from m)).hash
      = (((hashOutCE b).remove_piece (move_to m)).remove_piece (move_from m)).compute_hash
        ^^^ zobrist.castlingKeys b.castling :=
    hashRel_remove _ _ _ hflt hmf1lt hh1
  have hm2 : ∀ s : Nat,
      (((hashOutCE b).remove_piece (move_to m)).remove_piece (move_from m)).mailbox s
      = if s = move_from m then NoPiece else if s = move_to m then NoPiece
        else b.mailbox s := by
    intro s
    rw [remove_piece_mailbox, hm1]
  have hmt2 : (((hashOutCE b).remove_piece (move_to m)).remove_piece
      (move_from m)).mailbox (move_to m) = NoPiece := by
    rw [hm2, if_neg (fun hc => hft hc.symm), if_pos rfl]
  have hclear : ((((hashOutCE b).remove_piece (move_to m)).remove_piece
      (move_from m)).pieceBB (make_piece b.sideToMove (promotion_type m))).testBit
      (move_to m) = false :=
    bit_clear_of_empty _ hD2 _ _ hplt htlt hmt2
  have hD3 : DataInv ((((hashOutCE b).remove_piece (move_to m)).remove_piece
      (move_from m)).put_piece (make_piece b.sideToMove (promotion_type m)) (move_to m)) :=
    DataInv_put _ _ _ hD2 hplt htlt hmt2
  have hh3 : ((((hashOutCE b).remove_piece (move_to m)).remove_piece
      (move_from m)).put_piece (make_piece b.sideToMove (promotion_type m)) (move_to m)).hash
      = ((((hashOutCE b).remove_piece (move_to m)).remove_piece
          (move_from m)).put_piece (make_piece b.sideToMove (promotion_type m))
          (move_to m)).compute_hash
        ^^^ zobrist.castlingKeys b.castling :=
    hashRel_put _ _ _ _ hplt htlt hclear hh2
  have hm3 : ∀ s : Nat, ((((hashOutCE b).remove_piece (move_to m)).remove_piece
      (move_from m)).put_piece (make_piece b.sideToMove (promotion_type m))
      (move_to m)).mailbox s
      = if s = move_to m then make_piece b.sideToMove (promotion_type m)
        else if s = move_from m then NoPiece
        else if s = move_to m then NoPiece else b.mailbox s := by
    intro s
    rw [put_piece_mailbox, hm2]
  set c2 : Board := setClock ((((hashOutCE b).remove_piece (move_to m)).remove_piece
      (move_from m)).put_piece (make_piece b.sideToMove (promotion_type m)) (move_to m)) 0
    with hc2
  have hm3c : ∀ s : Nat, c2.mailbox s
      = if s = move_to m then make_piece b.sideToMove (promotion_type m)
        else if s = move_from m then NoPiece
        else if s = move_to m then NoPiece else b.mailbox s := fun s => hm3 s
  unfold BoardOK
  refine ⟨DataInv_finishMove _ _ _ (DataInv_setClock _ _ hD3), ?_, ?_, ?_, ?_⟩
  · show (compl b.sideToMove : Nat) < 2
    exact compl_lt2 _
  · exact EpOK_of_none _ rfl
  · refine CrOK_finish b c2 m hcr ?_ ?_ ?_ ?_
    all_goals
      intro _ hf1 ht1 hf2 ht2
      rw [hm3c, hm3c,
        if_neg (fun hc => ht1 hc.symm), if_neg (fun hc => hf1 hc.symm),
        if_neg (fun hc => ht1 hc.symm), if_neg (fun hc => ht2 hc.symm),
        if_neg (fun hc => hf2 hc.symm), if_neg (fun hc => ht2 hc.symm)]
      exact ⟨rfl, rfl⟩
  · refine finishMove_hashOK b c2 m hstm rfl rfl ?_
    have hepc : c2.epSquare = NoSquare := rfl
    rw [hepc, if_neg (show ¬((NoSquare : Nat) ≠ NoSquare) by simp), Nat.xor_zero]
    exact hh3

/-- Step theorem, promotion-without-capture branch. -/
theorem make_move_ok_promoQuiet (b : Board) (m : Move)
    (hD : DataInv b) (hstm : b.sideToMove < 2) (hcr : CrOK b)
    (hh : b.hash = b.compute_hash)
    (hne : ¬(move_type m = MoveTypeEnPassant)) (hne2 : ¬(move_type m = MoveTypeCastling))
    (hmt : move_type m = MoveTypePromotion)
    (hcap : ¬(b.mailbox (move_to m) ≠ NoPiece))
    (hmov : (b.mailbox (move_from m) : Nat) < 12)
    (hft : move_from m ≠ move_to m) :
    BoardOK (b.make_move m) := by
  rw [make_move_promoQuiet_eq b m hne hne2 hmt hcap]
  have hflt := move_from_lt m
  have htlt := move_to_lt m
  have hplt := promo_lt b m hstm
  have hD0 : DataInv (hashOutCE b) := DataInv_hashOutCE b hD
  have hh0 : (hashOutCE b).hash
      = (hashOutCE b).compute_hash ^^^ zobrist.castlingKeys b.castling :=
    hashRel_hashOutCE b hh
  have hD1 : DataInv ((hashOutCE b).remove_piece (move_from m)) :=
    DataInv_remove _ _ hD0 hflt hmov
  have hh1 : ((hashOutCE b).remove_piece (move_from m)).hash
      = ((hashOutCE b).remove_piece (move_from m)).compute_hash
        ^^^ zobrist.castlingKeys b.castling :=
    hashRel_remove _ _ _ hflt hmov hh0
  have hm1 : ∀ s : Nat, ((hashOutCE b).remove_piece (move_from m)).mailbox s
      = if s = move_from m then NoPiece else b.mailbox s :=
    fun s => remove_piece_mailbox (hashOutCE b) (move_from m) s
  have hmt1 : ((hashOutCE b).remove_piece (move_from m)).mailbox (move_to m) = NoPiece := by
    rw [hm1, if_neg (fun hc => hft hc.symm)]
    exact not_not.mp hcap
  have hclear : (((hashOutCE b).remove_piece (move_from m)).pieceBB
      (make_piece b.sideToMove (promotion_type m))).testBit (move_to m) = false :=
    bit_clear_of_empty _ hD1 _ _ hplt htlt hmt1
  have hD2 : DataInv (((hashOutCE b).remove_piece (move_from m)).put_piece
      (make_piece b.sideToMove (promotion_type m)) (move_to m)) :=
    DataInv_put _ _ _ hD1 hplt htlt hmt1
  have hh2 : (((hashOutCE b).remove_piece (move_from m)).put_piece
      (make_piece b.sideToMove (promotion_type m)) (move_to m)).hash
      = (((hashOutCE b).remove_piece (move_from m)).put_piece
          (make_piece b.sideToMove (promotion_type m)) (move_to m)).compute_hash
        ^^^ zobrist.castlingKeys b.castling :=
    hashRel_put _ _ _ _ hplt htlt hclear hh1
  have hm2 : ∀ s : Nat, (((hashOutCE b).remove_piece (move_from m)).put_piece
      (make_piece b.sideToMove (promotion_type m)) (move_to m)).mailbox s
      = if s = move_to m then make_piece b.sideToMove (promotion_type m)
        else if s = move_from m then NoPiece else b.mailbox s := by
    intro s
    rw [put_piece_mailbox, hm1]
  set c2 : Board := setClock (((hashOutCE b).remove_piece (move_from m)).put_piece
      (make_piece b.sideToMove (promotion_type m)) (move_to m)) 0 with hc2
  have hm2c : ∀ s : Nat, c2.mailbox s
      = if s = move_to m then make_piece b.sideToMove (promotion_type m)
        else if s = move_from m then NoPiece else b.mailbox s := fun s => hm2 s
  unfold BoardOK
  refine ⟨DataInv_finishMove _ _ _ (DataInv_setClock _ _ hD2), ?_, ?_, ?_, ?_⟩
  · show (compl b.sideToMove : Nat) < 2
    exact compl_lt2 _
  · exact EpOK_of_none _ rfl
  · refine CrOK_finish b c2 m hcr ?_ ?_ ?_ ?_
    all_goals
      intro _ hf1 ht1 hf2 ht2
      rw [hm2c, hm2c,
        if_neg (fun hc => ht1 hc.symm), if_neg (fun hc => hf1 hc.symm),
        if_neg (fun hc => ht2 hc.symm), if_neg (fun hc => hf2 hc.symm)]
      exact ⟨rfl, rfl⟩
  · refine finishMove_hashOK b c2 m hstm rfl rfl ?_
    have hepc : c2.epSquare = NoSquare := rfl
    rw [hepc, if_neg (show ¬((NoSquare : Nat) ≠ NoSquare) by simp), Nat.xor_zero]
    exact hh2



/-- Step theorem, quiet pawn branch (single or double push). -/
theorem make_move_ok_pawnQuiet (b : Board) (m : Move)
    (hD : DataInv b) (hstm : b.sideToMove < 2) (hcr : CrOK b)
    (hh : b.hash = b.compute_hash)
    (hne : ¬(move_type m = MoveTypeEnPassant)) (hne2 : ¬(move_type m = MoveTypeCastling))
    (hne3 : ¬(move_type m = MoveTypePromotion))
    (hcap : ¬(b.mailbox (move_to m) ≠ NoPiece))
    (hpt : piece_type (b.mailbox (move_from m)) = Pawn)
    (hmov : (b.mailbox (move_from m) : Nat) < 12)
    (hft : move_from m ≠ move_to m)
    (hdcl : (move_to m = move_from m + 16 ∨ move_from m = move_to m + 16) →
      b.mailbox (move_from m) = make_piece b.sideToMove Pawn ∧
      b.mailbox ((move_from m + move_to m) / 2) = NoPiece ∧
      (b.sideToMove = White → move_to m = move_from m + 16 ∧ square_rank (move_from m) = 1) ∧
      (b.sideToMove = Black → move_from m = move_to m + 16 ∧ square_rank (move_from m) = 6)) :
    BoardOK (b.make_move m) := by
  rw [make_move_pawnQuiet_eq b m hne hne2 hne3 hcap hpt]
  have hflt := move_from_lt m
  have htlt := move_to_lt m
  have hD0 : DataInv (hashOutCE b) := DataInv_hashOutCE b hD
  have hh0 : (hashOutCE b).hash
      = (hashOutCE b).compute_hash ^^^ zobrist.castlingKeys b.castling :=
    hashRel_hashOutCE b hh
  have hD1 : DataInv ((hashOutCE b).remove_piece (move_from m)) :=
    DataInv_remove _ _ hD0 hflt hmov
  have hh1 : ((hashOutCE b).remove_piece (move_from m)).hash
      = ((hashOutCE b).remove_piece (move_from m)).compute_hash
        ^^^ zobrist.castlingKeys b.castling :=
    hashRel_remove _ _ _ hflt hmov hh0
  have hm1 : ∀ s : Nat, ((hashOutCE b).remove_piece (move_from m)).mailbox s
      = if s = move_from m then NoPiece else b.mailbox s :=
    fun s => remove_piece_mailbox (hashOutCE b) (move_from m) s
  have hmt1 : ((hashOutCE b).remove_piece (move_from m)).mailbox (move_to m) = NoPiece := by
    rw [hm1, if_neg (fun hc => hft hc.symm)]
    exact not_not.mp hcap
  have hclear : (((hashOutCE b).remove_piece (move_from m)).pieceBB
      (b.mailbox (move_from m))).testBit (move_to m) = false :=
    bit_clear_of_empty _ hD1 _ _ hmov htlt hmt1
  have hD2 : DataInv (((hashOutCE b).remove_piece (move_from m)).put_piece
      (b.mailbox (move_from m)) (move_to m)) :=
    DataInv_put _ _ _ hD1 hmov htlt hmt1
  have hh2 : (((hashOutCE b).remove_piece (move_from m)).put_piece
      (b.mailbox (move_from m)) (move_to m)).hash
      = (((hashOutCE b).remove_piece (move_from m)).put_piece
          (b.mailbox (move_from m)) (move_to m)).compute_hash
        ^^^ zobrist.castlingKeys b.castling :=
    hashRel_put _ _ _ _ hmov htlt hclear hh1
  have hm2 : ∀ s : Nat, (((hashOutCE b).remove_piece (move_from m)).put_piece
      (b.mailbox (move_from m)) (move_to m)).mailbox s
      = if s = move_to m then b.mailbox (move_from m)
        else if s = move_from m then NoPiece else b.mailbox s := by
    intro s
    rw [put_piece_mailbox, hm1]
  set c2 : Board := setClockEp (((hashOutCE b).remove_piece (move_from m)).put_piece
      (b.mailbox (move_from m)) (move_to m)) 0
      (if move_to m = move_from m + 16 ∨ move_from m = move_to m + 16 then
        (move_from m + move_to m) / 2 else NoSquare) with hc2
  have hm2c : ∀ s : Nat, c2.mailbox s
      = if s = move_to m then b.mailbox (move_from m)
        else if s = move_from m then NoPiece else b.mailbox s := fun s => hm2 s
  have hepc : c2.epSquare
      = (if move_to m = move_from m + 16 ∨ move_from m = move_to m + 16 then
          (move_from m + move_to m) / 2 else NoSquare) := rfl
  unfold BoardOK
  refine ⟨DataInv_finishMove _ _ _ (DataInv_setClockEp _ _ _ hD2), ?_, ?_, ?_, ?_⟩
  · show (compl b.sideToMove : Nat) < 2
    exact compl_lt2 _
  · -- the en-passant invariant of the new position
    intro hepne
    have hepf : (finishMove b c2 m).epSquare = c2.epSquare := rfl
    have hstmf : (finishMove b c2 m).sideToMove = compl b.sideToMove := rfl
    have hmailf : (finishMove b c2 m).mailbox = c2.mailbox := rfl
    rw [hepf, hepc] at hepne ⊢
    by_cases hdbl : move_to m = move_from m + 16 ∨ move_from m = move_to m + 16
    · obtain ⟨hmovP, hmid, hW, hB⟩ := hdcl hdbl
      rw [if_pos hdbl] at hepne ⊢
      rw [hstmf, hmailf]
      rcases (show b.sideToMove = 0 ∨ b.sideToMove = 1 from by
        have h : ∀ x : Nat, x < 2 → x = 0 ∨ x = 1 := by omega
        exact h _ hstm) with hus | hus
      · obtain ⟨ht16, hrank⟩ := hW hus
        have hrankN : (move_from m : Nat) / 8 = 1 := hrank
        have hE : (move_from m + move_to m) / 2 = move_from m + 8 := by
          rw [ht16]
          have harith : ∀ F : Nat, (F + (F + 16)) / 2 = F + 8 := by omega
          exact harith _
        rw [hE, hus]
        constructor
        · intro hc
          exact absurd hc (by decide)
        · intro _
          have harith : ∀ F : Nat, F / 8 = 1 →
              (F + 8) / 8 = 2 ∧ ¬(F + 8 = F + 16) ∧ ¬(F + 8 = F) := by omega
        
          have hfacts := harith (move_from m) hrankN
          refine ⟨?_, ?_, ?_⟩
          · show (move_from m + 8) / 8 = 2
            exact hfacts.1
          · rw [hm2c, ht16, if_neg hfacts.2.1, if_neg hfacts.2.2]
            rw [hE] at hmid
            exact hmid
          · rw [hm2c]
            have h8 : move_from m + 8 + 8 = move_to m := by
              rw [ht16]
            rw [h8, if_pos rfl, hmovP, hus]
            rfl
      · obtain ⟨ht16, hrank⟩ := hB hus
        have hrankN : (move_from m : Nat) / 8 = 6 := hrank
        have hE : (move_from m + move_to m) / 2 = move_to m + 8 := by
          rw [ht16]
          have harith : ∀ T : Nat, (T + 16 + T) / 2 = T + 8 := by omega
          exact harith _
        rw [hE, hus]
        constructor
        · intro _
          have harith : ∀ F T : Nat, F / 8 = 6 → F = T + 16 →
              (T + 8) / 8 = 5 ∧ ¬(T + 8 = T) ∧ ¬(T + 8 = F) ∧ T + 8 - 8 = T := by omega
          have hfacts := harith (move_from m) (move_to m) hrankN ht16
          refine ⟨?_, ?_, ?_⟩
          · show (move_to m + 8) / 8 = 5
            exact hfacts.1
          · rw [hm2c, if_neg hfacts.2.1, if_neg hfacts.2.2.1]
            rw [hE] at hmid
            exact hmid
          · rw [hfacts.2.2.2, hm2c, if_pos rfl, hmovP, hus]
            rfl
        · intro hc
          exact absurd hc (by decide)
    · rw [if_neg hdbl] at hepne
      exact absurd rfl hepne
  · refine CrOK_finish b c2 m hcr ?_ ?_ ?_ ?_
    all_goals
      intro _ hf1 ht1 hf2 ht2
      rw [hm2c, hm2c,
        if_neg (fun hc => ht1 hc.symm), if_neg (fun hc => hf1 hc.symm),
        if_neg (fun hc => ht2 hc.symm), if_neg (fun hc => hf2 hc.symm)]
      exact ⟨rfl, rfl⟩
  · refine finishMove_hashOK b c2 m hstm rfl rfl ?_
    have hhep := hashRel_setClockEp (((hashOutCE b).remove_piece (move_from m)).put_piece
        (b.mailbox (move_from m)) (move_to m)) 0
        (if move_to m = move_from m + 16 ∨ move_from m = move_to m + 16 then
          (move_from m + move_to m) / 2 else NoSquare)
        (zobrist.castlingKeys b.castling) rfl hh2
    rw [hepc]
    exact hhep



/-- The en-passant capture square never holds a castling king or rook. -/
theorem capSq_ne_royal (b : Board) (capSq s : Nat) (hstm : b.sideToMove < 2)
    (hcapP : b.mailbox capSq = make_piece (compl b.sideToMove) Pawn)
    (hroyal : b.mailbox s = WhiteKing ∨ b.mailbox s = WhiteRook ∨
      b.mailbox s = BlackKing ∨ b.mailbox s = BlackRook) :
    s ≠ capSq := by
  intro hc
  rw [hc, hcapP] at hroyal
  have harith : ∀ u : Nat, u < 2 →
      ¬((1 - u) * 6 + 0 = 5 ∨ (1 - u) * 6 + 0 = 3 ∨
        (1 - u) * 6 + 0 = 11 ∨ (1 - u) * 6 + 0 = 9) := by omega
  exact harith _ hstm hroyal

/-- Step theorem, en-passant branch. -/
theorem make_move_ok_ep (b : Board) (m : Move)
    (hD : DataInv b) (hstm : b.sideToMove < 2) (hcr : CrOK b)
    (hh : b.hash = b.compute_hash)
    (hmt : move_type m = MoveTypeEnPassant)
    (hempT : b.mailbox (move_to m) = NoPiece)
    (hmovF : b.mailbox (move_from m) = make_piece b.sideToMove Pawn)
    (hcapP : b.mailbox (make_square (square_file (move_to m)) (square_rank (move_from m)))
      = make_piece (compl b.sideToMove) Pawn)
    (hfcap : move_from m
      ≠ make_square (square_file (move_to m)) (square_rank (move_from m))) :
    BoardOK (b.make_move m) := by
  rw [make_move_ep_eq b m hmt]
  have hflt := move_from_lt m
  have htlt := move_to_lt m
  have hcsLt : (make_square (square_file (move_to m)) (square_rank (move_from m)) : Nat)
      < 64 := by
    refine make_square_lt64 _ _ (Nat.mod_lt _ (by omega)) ?_
    show move_from m / 8 < 8
    have harith : ∀ F : Nat, F < 64 → F / 8 < 8 := by omega
    exact harith _ hflt
  have hcapLt : (b.mailbox (make_square (square_file (move_to m))
      (square_rank (move_from m))) : Nat) < 12 := by
    rw [hcapP]
    have harith : ∀ u : Nat, u < 2 → (1 - u) * 6 + 0 < 12 := by omega
    exact harith _ hstm
  have hmovLt : (b.mailbox (move_from m) : Nat) < 12 := by
    rw [hmovF]
    have harith : ∀ u : Nat, u < 2 → u * 6 + 0 < 12 := by omega
    exact harith _ hstm
  have hD0 : DataInv (hashOutCE b) := DataInv_hashOutCE b hD
  have hh0 : (hashOutCE b).hash
      = (hashOutCE b).compute_hash ^^^ zobrist.castlingKeys b.castling :=
    hashRel_hashOutCE b hh
  have hD1 : DataInv ((hashOutCE b).remove_piece
      (make_square (square_file (move_to m)) (square_rank (move_from m)))) :=
    DataInv_remove _ _ hD0 hcsLt hcapLt
  have hh1 : ((hashOutCE b).remove_piece
      (make_square (square_file (move_to m)) (square_rank (move_from m)))).hash
      = ((hashOutCE b).remove_piece
          (make_square (square_file (move_to m)) (square_rank (move_from m)))).compute_hash
        ^^^ zobrist.castlingKeys b.castling :=
    hashRel_remove _ _ _ hcsLt hcapLt hh0
  have hm1 : ∀ s : Nat, ((hashOutCE b).remove_piece
      (make_square (square_file (move_to m)) (square_rank (move_from m)))).mailbox s
      = if s = make_square (square_file (move_to m)) (square_rank (move_from m))
        then NoPiece else b.mailbox s :=
    fun s => remove_piece_mailbox _ _ s
  have hmf1lt : (((hashOutCE b).remove_piece
      (make_square (square_file (move_to m)) (square_rank (move_from m)))).mailbox
      (move_from m) : Nat) < 12 := by
    rw [hm1, if_neg hfcap]; exact hmovLt
  have hD2 : DataInv (((hashOutCE b).remove_piece
      (make_square (square_file (move_to m)) (square_rank (move_from m)))).remove_piece
      (move_from m)) :=
    DataInv_remove _ _ hD1 hflt hmf1lt
  have hh2 : (((hashOutCE b).remove_piece
      (make_square (square_file (move_to m)) (square_rank (move_from m)))).remove_piece
      (move_from m)).hash
      = (((hashOutCE b).remove_piece
          (make_square (square_file (move_to m)) (square_rank (move_from m)))).remove_piece
          (move_from m)).compute_hash
        ^^^ zobrist.castlingKeys b.castling :=
    hashRel_remove _ _ _ hflt hmf1lt hh1
  have hm2 : ∀ s : Nat, (((hashOutCE b).remove_piece
      (make_square (square_file (move_to m)) (square_rank (move_from m)))).remove_piece
      (move_from m)).mailbox s
      = if s = move_from m then NoPiece
        else if s = make_square (square_file (move_to m)) (square_rank (move_from m))
        then NoPiece else b.mailbox s := by
    intro s
    rw [remove_piece_mailbox, hm1]
  have hmt2 : (((hashOutCE b).remove_piece
      (make_square (square_file (move_to m)) (square_rank (move_from m)))).remove_piece
      (move_from m)).mailbox (move_to m) = NoPiece := by
    rw [hm2]
    by_cases h1 : (move_to m : Nat) = move_from m
    · rw [if_pos h1]
    · rw [if_neg h1]
      by_cases h2 : (move_to m : Nat)
          = make_square (square_file (move_to m)) (square_rank (move_from m))
      · rw [if_pos h2]
      · rw [if_neg h2]; exact hempT
  have hclear : ((((hashOutCE b).remove_piece
      (make_square (square_file (move_to m)) (square_rank (move_from m)))).remove_piece
      (move_from m)).pieceBB (b.mailbox (move_from m))).testBit (move_to m) = false :=
    bit_clear_of_empty _ hD2 _ _ hmovLt htlt hmt2
  have hD3 : DataInv ((((hashOutCE b).remove_piece
      (make_square (square_file (move_to m)) (square_rank (move_from m)))).remove_piece
      (move_from m)).put_piece (b.mailbox (move_from m)) (move_to m)) :=
    DataInv_put _ _ _ hD2 hmovLt htlt hmt2
  have hh3 : ((((hashOutCE b).remove_piece
      (make_square (square_file (move_to m)) (square_rank (move_from m)))).remove_piece
      (move_from m)).put_piece (b.mailbox (move_from m)) (move_to m)).hash
      = ((((hashOutCE b).remove_piece
          (make_square (square_file (move_to m)) (square_rank (move_from m)))).remove_piece
          (move_from m)).put_piece (b.mailbox (move_from m)) (move_to m)).compute_hash
        ^^^ zobrist.castlingKeys b.castling :=
    hashRel_put _ _ _ _ hmovLt htlt hclear hh2
  have hm3 : ∀ s : Nat, ((((hashOutCE b).remove_piece
      (make_square (square_file (move_to m)) (square_rank (move_from m)))).remove_piece
      (move_from m)).put_piece (b.mailbox (move_from m)) (move_to m)).mailbox s
      = if s = move_to m then b.mailbox (move_from m)
        else if s = move_from m then NoPiece
        else if s = make_square (square_file (move_to m)) (square_rank (move_from m))
        then NoPiece else b.mailbox s := by
    intro s
    rw [put_piece_mailbox, hm2]
  set c2 : Board := setClock ((((hashOutCE b).remove_piece
      (make_square (square_file (move_to m)) (square_rank (move_from m)))).remove_piece
      (move_from m)).put_piece (b.mailbox (move_from m)) (move_to m)) 0 with hc2
  have hm3c : ∀ s : Nat, c2.mailbox s
      = if s = move_to m then b.mailbox (move_from m)
        else if s = move_from m then NoPiece
        else if s = make_square (square_file (move_to m)) (square_rank (move_from m))
        then NoPiece else b.mailbox s := fun s => hm3 s
  unfold BoardOK
  refine ⟨DataInv_finishMove _ _ _ (DataInv_setClock _ _ hD3), ?_, ?_, ?_, ?_⟩
  · show (compl b.sideToMove : Nat) < 2
    exact compl_lt2 _
  · exact EpOK_of_none _ rfl
  · refine CrOK_finish b c2 m hcr ?_ ?_ ?_ ?_
    · intro hcast hf1 ht1 hf2 ht2
      have hr1 := (hcr.1 hcast).1
      have hr2 := (hcr.1 hcast).2
      rw [hm3c, hm3c,
        if_neg (fun hc => ht1 hc.symm), if_neg (fun hc => hf1 hc.symm),
        if_neg (capSq_ne_royal b _ E1 hstm hcapP (Or.inl hr1)),
        if_neg (fun hc => ht2 hc.symm), if_neg (fun hc => hf2 hc.symm),
        if_neg (capSq_ne_royal b _ H1 hstm hcapP (Or.inr (Or.inl hr2)))]
      exact ⟨rfl, rfl⟩
    · intro hcast hf1 ht1 hf2 ht2
      have hr1 := (hcr.2.1 hcast).1
      have hr2 := (hcr.2.1 hcast).2
      rw [hm3c, hm3c,
        if_neg (fun hc => ht1 hc.symm), if_neg (fun hc => hf1 hc.symm),
        if_neg (capSq_ne_royal b _ E1 hstm hcapP (Or.inl hr1)),
        if_neg (fun hc => ht2 hc.symm), if_neg (fun hc => hf2 hc.symm),
        if_neg (capSq_ne_royal b _ A1 hstm hcapP (Or.inr (Or.inl hr2)))]
      exact ⟨rfl, rfl⟩
    · intro hcast hf1 ht1 hf2 ht2
      have hr1 := (hcr.2.2.1 hcast).1
      have hr2 := (hcr.2.2.1 hcast).2
      rw [hm3c, hm3c,
        if_neg (fun hc => ht1 hc.symm), if_neg (fun hc => hf1 hc.symm),
        if_neg (capSq_ne_royal b _ E8 hstm hcapP (Or.inr (Or.inr (Or.inl hr1)))),
        if_neg (fun hc => ht2 hc.symm), if_neg (fun hc => hf2 hc.symm),
        if_neg (capSq_ne_royal b _ H8 hstm hcapP (Or.inr (Or.inr (Or.inr hr2))))]
      exact ⟨rfl, rfl⟩
    · intro hcast hf1 ht1 hf2 ht2
      have hr1 := (hcr.2.2.2 hcast).1
      have hr2 := (hcr.2.2.2 hcast).2
      rw [hm3c, hm3c,
        if_neg (fun hc => ht1 hc.symm), if_neg (fun hc => hf1 hc.symm),
        if_neg (capSq_ne_royal b _ E8 hstm hcapP (Or.inr (Or.inr (Or.inl hr1)))),
        if_neg (fun hc => ht2 hc.symm), if_neg (fun hc => hf2 hc.symm),
        if_neg (capSq_ne_royal b _ A8 hstm hcapP (Or.inr (Or.inr (Or.inr hr2))))]
      exact ⟨rfl, rfl⟩
  · refine finishMove_hashOK b c2 m hstm rfl rfl ?_
    have hepc : c2.epSquare = NoSquare := rfl
    rw [hepc, if_neg (show ¬((NoSquare : Nat) ≠ NoSquare) by simp), Nat.xor_zero]
    exact hh3



/-- Step theorem, White kingside castle. -/
theorem make_move_ok_castleWK (b : Board) (m : Move)
    (hD : DataInv b) (hstm : b.sideToMove < 2) (hcr : CrOK b)
    (hh : b.hash = b.compute_hash)
    (hne : ¬(move_type m = MoveTypeEnPassant)) (hmt : move_type m = MoveTypeCastling)
    (hfE : move_from m = E1) (htG : move_to m = G1)
    (hk : b.mailbox E1 = WhiteKing) (hr : b.mailbox H1 = WhiteRook)
    (he5 : b.mailbox F1 = NoPiece) (he6 : b.mailbox G1 = NoPiece) :
    BoardOK (b.make_move m) := by
  rw [make_move_castle_eq b m hne hmt, hfE, htG]
  rw [if_pos (show (E1 : Nat) < G1 by decide), if_pos (show (E1 : Nat) < G1 by decide)]
  rw [show make_square 7 (square_rank E1) = H1 from by decide,
    show make_square 5 (square_rank E1) = F1 from by decide, hk]
  have hrookv : (((hashOutCE b).remove_piece E1).put_piece WhiteKing G1).mailbox H1
      = WhiteRook := by
    rw [put_piece_mailbox, if_neg (by decide), remove_piece_mailbox, if_neg (by decide)]
    exact hr
  rw [hrookv]
  have hD0 : DataInv (hashOutCE b) := DataInv_hashOutCE b hD
  have hh0 : (hashOutCE b).hash
      = (hashOutCE b).compute_hash ^^^ zobrist.castlingKeys b.castling :=
    hashRel_hashOutCE b hh
  have hkLt : ((hashOutCE b).mailbox E1 : Nat) < 12 := by
    show (b.mailbox E1 : Nat) < 12
    rw [hk]; decide
  have hD1 : DataInv ((hashOutCE b).remove_piece E1) :=
    DataInv_remove _ _ hD0 (by decide) hkLt
  have hh1 : ((hashOutCE b).remove_piece E1).hash
      = ((hashOutCE b).remove_piece E1).compute_hash
        ^^^ zobrist.castlingKeys b.castling :=
    hashRel_remove _ _ _ (by decide) hkLt hh0
  have hm1 : ∀ s : Nat, ((hashOutCE b).remove_piece E1).mailbox s
      = if s = E1 then NoPiece else b.mailbox s :=
    fun s => remove_piece_mailbox _ _ s
  have hmG : ((hashOutCE b).remove_piece E1).mailbox G1 = NoPiece := by
    rw [hm1, if_neg (by decide)]; exact he6
  have hclear1 : (((hashOutCE b).remove_piece E1).pieceBB WhiteKing).testBit G1 = false :=
    bit_clear_of_empty _ hD1 _ _ (by decide) (by decide) hmG
  have hD2 : DataInv (((hashOutCE b).remove_piece E1).put_piece WhiteKing G1) :=
    DataInv_put _ _ _ hD1 (by decide) (by decide) hmG
  have hh2 : (((hashOutCE b).remove_piece E1).put_piece WhiteKing G1).hash
      = (((hashOutCE b).remove_piece E1).put_piece WhiteKing G1).compute_hash
        ^^^ zobrist.castlingKeys b.castling :=
    hashRel_put _ _ _ _ (by decide) (by decide) hclear1 hh1
  have hm2 : ∀ s : Nat, (((hashOutCE b).remove_piece E1).put_piece WhiteKing G1).mailbox s
      = if s = G1 then WhiteKing else if s = E1 then NoPiece else b.mailbox s := by
    intro s; rw [put_piece_mailbox, hm1]
  have hmHLt : ((((hashOutCE b).remove_piece E1).put_piece WhiteKing G1).mailbox H1
      : Nat) < 12 := by
    rw [hrookv]; decide
  have hD3 : DataInv ((((hashOutCE b).remove_piece E1).put_piece
      WhiteKing G1).remove_piece H1) :=
    DataInv_remove _ _ hD2 (by decide) hmHLt
  have hh3 : ((((hashOutCE b).remove_piece E1).put_piece WhiteKing G1).remove_piece H1).hash
      = ((((hashOutCE b).remove_piece E1).put_piece
          WhiteKing G1).remove_piece H1).compute_hash
        ^^^ zobrist.castlingKeys b.castling :=
    hashRel_remove _ _ _ (by decide) hmHLt hh2
  have hm3 : ∀ s : Nat, ((((hashOutCE b).remove_piece E1).put_piece
      WhiteKing G1).remove_piece H1).mailbox s
      = if s = H1 then NoPiece else if s = G1 then WhiteKing
        else if s = E1 then NoPiece else b.mailbox s := by
    intro s; rw [remove_piece_mailbox, hm2]
  have hmF : ((((hashOutCE b).remove_piece E1).put_piece
      WhiteKing G1).remove_piece H1).mailbox F1 = NoPiece := by
    rw [hm3, if_neg (by decide), if_neg (by decide), if_neg (by decide)]
    exact he5
  have hclear2 : (((((hashOutCE b).remove_piece E1).put_piece
      WhiteKing G1).remove_piece H1).pieceBB WhiteRook).testBit F1 = false :=
    bit_clear_of_empty _ hD3 _ _ (by decide) (by decide) hmF
  have hD4 : DataInv (((((hashOutCE b).remove_piece E1).put_piece
      WhiteKing G1).remove_piece H1).put_piece WhiteRook F1) :=
    DataInv_put _ _ _ hD3 (by decide) (by decide) hmF
  have hh4 : (((((hashOutCE b).remove_piece E1).put_piece
      WhiteKing G1).remove_piece H1).put_piece WhiteRook F1).hash
      = (((((hashOutCE b).remove_piece E1).put_piece
          WhiteKing G1).remove_piece H1).put_piece WhiteRook F1).compute_hash
        ^^^ zobrist.castlingKeys b.castling :=
    hashRel_put _ _ _ _ (by decide) (by decide) hclear2 hh3
  have hm4 : ∀ s : Nat, (((((hashOutCE b).remove_piece E1).put_piece
      WhiteKing G1).remove_piece H1).put_piece WhiteRook F1).mailbox s
      = if s = F1 then WhiteRook else if s = H1 then NoPiece
        else if s = G1 then WhiteKing
        else if s = E1 then NoPiece else b.mailbox s := by
    intro s; rw [put_piece_mailbox, hm3]
  set c2 : Board := setClock (((((hashOutCE b).remove_piece E1).put_piece
      WhiteKing G1).remove_piece H1).put_piece WhiteRook F1) (b.halfmoveClock + 1) with hc2
  have hm4c : ∀ s : Nat, c2.mailbox s
      = if s = F1 then WhiteRook else if s = H1 then NoPiece
        else if s = G1 then WhiteKing
        else if s = E1 then NoPiece else b.mailbox s := fun s => hm4 s
  unfold BoardOK
  refine ⟨DataInv_finishMove _ _ _ (DataInv_setClock _ _ hD4), ?_, ?_, ?_, ?_⟩
  · show (compl b.sideToMove : Nat) < 2
    exact compl_lt2 _
  · exact EpOK_of_none _ rfl
  · refine CrOK_finish b c2 m hcr ?_ ?_ ?_ ?_
    · intro _ hf1 _ _ _
      exact absurd hfE hf1
    · intro _ hf1 _ _ _
      exact absurd hfE hf1
    · intro _ _ _ _ _
      rw [hm4c, hm4c, if_neg (by decide), if_neg (by decide), if_neg (by decide),
        if_neg (by decide), if_neg (by decide), if_neg (by decide), if_neg (by decide),
        if_neg (by decide)]
      exact ⟨rfl, rfl⟩
    · intro _ _ _ _ _
      rw [hm4c, hm4c, if_neg (by decide), if_neg (by decide), if_neg (by decide),
        if_neg (by decide), if_neg (by decide), if_neg (by decide), if_neg (by decide),
        if_neg (by decide)]
      exact ⟨rfl, rfl⟩
  · refine finishMove_hashOK b c2 m hstm rfl rfl ?_
    have hepc : c2.epSquare = NoSquare := rfl
    rw [hepc, if_neg (show ¬((NoSquare : Nat) ≠ NoSquare) by simp), Nat.xor_zero]
    exact hh4



/-- Step theorem, White queenside castle. -/
theorem make_move_ok_castleWQ (b : Board) (m : Move)
    (hD : DataInv b) (hstm : b.sideToMove < 2) (hcr : CrOK b)
    (hh : b.hash = b.compute_hash)
    (hne : ¬(move_type m = MoveTypeEnPassant)) (hmt : move_type m = MoveTypeCastling)
    (hfE : move_from m = E1) (htG : move_to m = C1)
    (hk : b.mailbox E1 = WhiteKing) (hr : b.mailbox A1 = WhiteRook)
    (he5 : b.mailbox D1 = NoPiece) (he6 : b.mailbox C1 = NoPiece) :
    BoardOK (b.make_move m) := by
  rw [make_move_castle_eq b m hne hmt, hfE, htG]
  rw [if_neg (show ¬((E1 : Nat) < C1) by decide), if_neg (show ¬((E1 : Nat) < C1) by decide)]
  rw [show make_square 0 (square_rank E1) = A1 from by decide,
    show make_square 3 (square_rank E1) = D1 from by decide, hk]
  have hrookv : (((hashOutCE b).remove_piece E1).put_piece WhiteKing C1).mailbox A1
      = WhiteRook := by
    rw [put_piece_mailbox, if_neg (by decide), remove_piece_mailbox, if_neg (by decide)]
    exact hr
  rw [hrookv]
  have hD0 : DataInv (hashOutCE b) := DataInv_hashOutCE b hD
  have hh0 : (hashOutCE b).hash
      = (hashOutCE b).compute_hash ^^^ zobrist.castlingKeys b.castling :=
    hashRel_hashOutCE b hh
  have hkLt : ((hashOutCE b).mailbox E1 : Nat) < 12 := by
    show (b.mailbox E1 : Nat) < 12
    rw [hk]; decide
  have hD1 : DataInv ((hashOutCE b).remove_piece E1) :=
    DataInv_remove _ _ hD0 (by decide) hkLt
  have hh1 : ((hashOutCE b).remove_piece E1).hash
      = ((hashOutCE b).remove_piece E1).compute_hash
        ^^^ zobrist.castlingKeys b.castling :=
    hashRel_remove _ _ _ (by decide) hkLt hh0
  have hm1 : ∀ s : Nat, ((hashOutCE b).remove_piece E1).mailbox s
      = if s = E1 then NoPiece else b.mailbox s :=
    fun s => remove_piece_mailbox _ _ s
  have hmG : ((hashOutCE b).remove_piece E1).mailbox C1 = NoPiece := by
    rw [hm1, if_neg (by decide)]; exact he6
  have hclear1 : (((hashOutCE b).remove_piece E1).pieceBB WhiteKing).testBit C1 = false :=
    bit_clear_of_empty _ hD1 _ _ (by decide) (by decide) hmG
  have hD2 : DataInv (((hashOutCE b).remove_piece E1).put_piece WhiteKing C1) :=
    DataInv_put _ _ _ hD1 (by decide) (by decide) hmG
  have hh2 : (((hashOutCE b).remove_piece E1).put_piece WhiteKing C1).hash
      = (((hashOutCE b).remove_piece E1).put_piece WhiteKing C1).compute_hash
        ^^^ zobrist.castlingKeys b.castling :=
    hashRel_put _ _ _ _ (by decide) (by decide) hclear1 hh1
  have hm2 : ∀ s : Nat, (((hashOutCE b).remove_piece E1).put_piece WhiteKing C1).mailbox s
      = if s = C1 then WhiteKing else if s = E1 then NoPiece else b.mailbox s := by
    intro s; rw [put_piece_mailbox, hm1]
  have hmHLt : ((((hashOutCE b).remove_piece E1).put_piece WhiteKing C1).mailbox A1
      : Nat) < 12 := by
    rw [hrookv]; decide
  have hD3 : DataInv ((((hashOutCE b).remove_piece E1).put_piece
      WhiteKing C1).remove_piece A1) :=
    DataInv_remove _ _ hD2 (by decide) hmHLt
  have hh3 : ((((hashOutCE b).remove_piece E1).put_piece WhiteKing C1).remove_piece A1).hash
      = ((((hashOutCE b).remove_piece E1).put_piece
          WhiteKing C1).remove_piece A1).compute_hash
        ^^^ zobrist.castlingKeys b.castling :=
    hashRel_remove _ _ _ (by decide) hmHLt hh2
  have hm3 : ∀ s : Nat, ((((hashOutCE b).remove_piece E1).put_piece
      WhiteKing C1).remove_piece A1).mailbox s
      = if s = A1 then NoPiece else if s = C1 then WhiteKing
        else if s = E1 then NoPiece else b.mailbox s := by
    intro s; rw [remove_piece_mailbox, hm2]
  have hmF : ((((hashOutCE b).remove_piece E1).put_piece
      WhiteKing C1).remove_piece A1).mailbox D1 = NoPiece := by
    rw [hm3, if_neg (by decide), if_neg (by decide), if_neg (by decide)]
    exact he5
  have hclear2 : (((((hashOutCE b).remove_piece E1).put_piece
      WhiteKing C1).remove_piece A1).pieceBB WhiteRook).testBit D1 = false :=
    bit_clear_of_empty _ hD3 _ _ (by decide) (by decide) hmF
  have hD4 : DataInv (((((hashOutCE b).remove_piece E1).put_piece
      WhiteKing C1).remove_piece A1).put_piece WhiteRook D1) :=
    DataInv_put _ _ _ hD3 (by decide) (by decide) hmF
  have hh4 : (((((hashOutCE b).remove_piece E1).put_piece
      WhiteKing C1).remove_piece A1).put_piece WhiteRook D1).hash
      = (((((hashOutCE b).remove_piece E1).put_piece
          WhiteKing C1).remove_piece A1).put_piece WhiteRook D1).compute_hash
        ^^^ zobrist.castlingKeys b.castling :=
    hashRel_put _ _ _ _ (by decide) (by decide) hclear2 hh3
  have hm4 : ∀ s : Nat, (((((hashOutCE b).remove_piece E1).put_piece
      WhiteKing C1).remove_piece A1).put_piece WhiteRook D1).mailbox s
      = if s = D1 then WhiteRook else if s = A1 then NoPiece
        else if s = C1 then WhiteKing
        else if s = E1 then NoPiece else b.mailbox s := by
    intro s; rw [put_piece_mailbox, hm3]
  set c2 : Board := setClock (((((hashOutCE b).remove_piece E1).put_piece
      WhiteKing C1).remove_piece A1).put_piece WhiteRook D1) (b.halfmoveClock + 1) with hc2
  have hm4c : ∀ s : Nat, c2.mailbox s
      = if s = D1 then WhiteRook else if s = A1 then NoPiece
        else if s = C1 then WhiteKing
        else if s = E1 then NoPiece else b.mailbox s := fun s => hm4 s
  unfold BoardOK
  refine ⟨DataInv_finishMove _ _ _ (DataInv_setClock _ _ hD4), ?_, ?_, ?_, ?_⟩
  · show (compl b.sideToMove : Nat) < 2
    exact compl_lt2 _
  · exact EpOK_of_none _ rfl
  · refine CrOK_finish b c2 m hcr ?_ ?_ ?_ ?_
    · intro _ hf1 _ _ _
      exact absurd hfE hf1
    · intro _ hf1 _ _ _
      exact absurd hfE hf1
    · intro _ _ _ _ _
      rw [hm4c, hm4c, if_neg (by decide), if_neg (by decide), if_neg (by decide),
        if_neg (by decide), if_neg (by decide), if_neg (by decide), if_neg (by decide),
        if_neg (by decide)]
      exact ⟨rfl, rfl⟩
    · intro _ _ _ _ _
      rw [hm4c, hm4c, if_neg (by decide), if_neg (by decide), if_neg (by decide),
        if_neg (by decide), if_neg (by decide), if_neg (by decide), if_neg (by decide),
        if_neg (by decide)]
      exact ⟨rfl, rfl⟩
  · refine finishMove_hashOK b c2 m hstm rfl rfl ?_
    have hepc : c2.epSquare = NoSquare := rfl
    rw [hepc, if_neg (show ¬((NoSquare : Nat) ≠ NoSquare) by simp), Nat.xor_zero]
    exact hh4


/-- Step theorem, Black kingside castle. -/
theorem make_move_ok_castleBK (b : Board) (m : Move)
    (hD : DataInv b) (hstm : b.sideToMove < 2) (hcr : CrOK b)
    (hh : b.hash = b.compute_hash)
    (hne : ¬(move_type m = MoveTypeEnPassant)) (hmt : move_type m = MoveTypeCastling)
    (hfE : move_from m = E8) (htG : move_to m = G8)
    (hk : b.mailbox E8 = BlackKing) (hr : b.mailbox H8 = BlackRook)
    (he5 : b.mailbox F8 = NoPiece) (he6 : b.mailbox G8 = NoPiece) :
    BoardOK (b.make_move m) := by
  rw [make_move_castle_eq b m hne hmt, hfE, htG]
  rw [if_pos (show (E8 : Nat) < G8 by decide), if_pos (show (E8 : Nat) < G8 by decide)]
  rw [show make_square 7 (square_rank E8) = H8 from by decide,
    show make_square 5 (square_rank E8) = F8 from by decide, hk]
  have hrookv : (((hashOutCE b).remove_piece E8).put_piece BlackKing G8).mailbox H8
      = BlackRook := by
    rw [put_piece_mailbox, if_neg (by decide), remove_piece_mailbox, if_neg (by decide)]
    exact hr
  rw [hrookv]
  have hD0 : DataInv (hashOutCE b) := DataInv_hashOutCE b hD
  have hh0 : (hashOutCE b).hash
      = (hashOutCE b).compute_hash ^^^ zobrist.castlingKeys b.castling :=
    hashRel_hashOutCE b hh
  have hkLt : ((hashOutCE b).mailbox E8 : Nat) < 12 := by
    show (b.mailbox E8 : Nat) < 12
    rw [hk]; decide
  have hD1 : DataInv ((hashOutCE b).remove_piece E8) :=
    DataInv_remove _ _ hD0 (by decide) hkLt
  have hh1 : ((hashOutCE b).remove_piece E8).hash
      = ((hashOutCE b).remove_piece E8).compute_hash
        ^^^ zobrist.castlingKeys b.castling :=
    hashRel_remove _ _ _ (by decide) hkLt hh0
  have hm1 : ∀ s : Nat, ((hashOutCE b).remove_piece E8).mailbox s
      = if s = E8 then NoPiece else b.mailbox s :=
    fun s => remove_piece_mailbox _ _ s
  have hmG : ((hashOutCE b).remove_piece E8).mailbox G8 = NoPiece := by
    rw [hm1, if_neg (by decide)]; exact he6
  have hclear1 : (((hashOutCE b).remove_piece E8).pieceBB BlackKing).testBit G8 = false :=
    bit_clear_of_empty _ hD1 _ _ (by decide) (by decide) hmG
  have hD2 : DataInv (((hashOutCE b).remove_piece E8).put_piece BlackKing G8) :=
    DataInv_put _ _ _ hD1 (by decide) (by decide) hmG
  have hh2 : (((hashOutCE b).remove_piece E8).put_piece BlackKing G8).hash
      = (((hashOutCE b).remove_piece E8).put_piece BlackKing G8).compute_hash
        ^^^ zobrist.castlingKeys b.castling :=
    hashRel_put _ _ _ _ (by decide) (by decide) hclear1 hh1
  have hm2 : ∀ s : Nat, (((hashOutCE b).remove_piece E8).put_piece BlackKing G8).mailbox s
      = if s = G8 then BlackKing else if s = E8 then NoPiece else b.mailbox s := by
    intro s; rw [put_piece_mailbox, hm1]
  have hmHLt : ((((hashOutCE b).remove_piece E8).put_piece BlackKing G8).mailbox H8
      : Nat) < 12 := by
    rw [hrookv]; decide
  have hD3 : DataInv ((((hashOutCE b).remove_piece E8).put_piece
      BlackKing G8).remove_piece H8) :=
    DataInv_remove _ _ hD2 (by decide) hmHLt
  have hh3 : ((((hashOutCE b).remove_piece E8).put_piece BlackKing G8).remove_piece H8).hash
      = ((((hashOutCE b).remove_piece E8).put_piece
          BlackKing G8).remove_piece H8).compute_hash
        ^^^ zobrist.castlingKeys b.castling :=
    hashRel_remove _ _ _ (by decide) hmHLt hh2
  have hm3 : ∀ s : Nat, ((((hashOutCE b).remove_piece E8).put_piece
      BlackKing G8).remove_piece H8).mailbox s
      = if s = H8 then NoPiece else if s = G8 then BlackKing
        else if s = E8 then NoPiece else b.mailbox s := by
    intro s; rw [remove_piece_mailbox, hm2]
  have hmF : ((((hashOutCE b).remove_piece E8).put_piece
      BlackKing G8).remove_piece H8).mailbox F8 = NoPiece := by
    rw [hm3, if_neg (by decide), if_neg (by decide), if_neg (by decide)]
    exact he5
  have hclear2 : (((((hashOutCE b).remove_piece E8).put_piece
      BlackKing G8).remove_piece H8).pieceBB BlackRook).testBit F8 = false :=
    bit_clear_of_empty _ hD3 _ _ (by decide) (by decide) hmF
  have hD4 : DataInv (((((hashOutCE b).remove_piece E8).put_piece
      BlackKing G8).remove_piece H8).put_piece BlackRook F8) :=
    DataInv_put _ _ _ hD3 (by decide) (by decide) hmF
  have hh4 : (((((hashOutCE b).remove_piece E8).put_piece
      BlackKing G8).remove_piece H8).put_piece BlackRook F8).hash
      = (((((hashOutCE b).remove_piece E8).put_piece
          BlackKing G8).remove_piece H8).put_piece BlackRook F8).compute_hash
        ^^^ zobrist.castlingKeys b.castling :=
    hashRel_put _ _ _ _ (by decide) (by decide) hclear2 hh3
  have hm4 : ∀ s : Nat, (((((hashOutCE b).remove_piece E8).put_piece
      BlackKing G8).remove_piece H8).put_piece BlackRook F8).mailbox s
      = if s = F8 then BlackRook else if s = H8 then NoPiece
        else if s = G8 then BlackKing
        else if s = E8 then NoPiece else b.mailbox s := by
    intro s; rw [put_piece_mailbox, hm3]
  set c2 : Board := setClock (((((hashOutCE b).remove_piece E8).put_piece
      BlackKing G8).remove_piece H8).put_piece BlackRook F8) (b.halfmoveClock + 1) with hc2
  have hm4c : ∀ s : Nat, c2.mailbox s
      = if s = F8 then BlackRook else if s = H8 then NoPiece
        else if s = G8 then BlackKing
        else if s = E8 then NoPiece else b.mailbox s := fun s => hm4 s
  unfold BoardOK
  refine ⟨DataInv_finishMove _ _ _ (DataInv_setClock _ _ hD4), ?_, ?_, ?_, ?_⟩
  · show (compl b.sideToMove : Nat) < 2
    exact compl_lt2 _
  · exact EpOK_of_none _ rfl
  · refine CrOK_finish b c2 m hcr ?_ ?_ ?_ ?_
    · intro _ _ _ _ _
      rw [hm4c, hm4c, if_neg (by decide), if_neg (by decide), if_neg (by decide),
        if_neg (by decide), if_neg (by decide), if_neg (by decide), if_neg (by decide),
        if_neg (by decide)]
      exact ⟨rfl, rfl⟩
    · intro _ _ _ _ _
      rw [hm4c, hm4c, if_neg (by decide), if_neg (by decide), if_neg (by decide),
        if_neg (by decide), if_neg (by decide), if_neg (by decide), if_neg (by decide),
        if_neg (by decide)]
      exact ⟨rfl, rfl⟩
    · intro _ hf1 _ _ _
      exact absurd hfE hf1
    · intro _ hf1 _ _ _
      exact absurd hfE hf1
  · refine finishMove_hashOK b c2 m hstm rfl rfl ?_
    have hepc : c2.epSquare = NoSquare := rfl
    rw [hepc, if_neg (show ¬((NoSquare : Nat) ≠ NoSquare) by simp), Nat.xor_zero]
    exact hh4


/-- Step theorem, Black queenside castle. -/
theorem make_move_ok_castleBQ (b : Board) (m : Move)
    (hD : DataInv b) (hstm : b.sideToMove < 2) (hcr : CrOK b)
    (hh : b.hash = b.compute_hash)
    (hne : ¬(move_type m = MoveTypeEnPassant)) (hmt : move_type m = MoveTypeCastling)
    (hfE : move_from m = E8) (htG : move_to m = C8)
    (hk : b.mailbox E8 = BlackKing) (hr : b.mailbox A8 = BlackRook)
    (he5 : b.mailbox D8 = NoPiece) (he6 : b.mailbox C8 = NoPiece) :
    BoardOK (b.make_move m) := by
  rw [make_move_castle_eq b m hne hmt, hfE, htG]
  rw [if_neg (show ¬((E8 : Nat) < C8) by decide), if_neg (show ¬((E8 : Nat) < C8) by decide)]
  rw [show make_square 0 (square_rank E8) = A8 from by decide,
    show make_square 3 (square_rank E8) = D8 from by decide, hk]
  have hrookv : (((hashOutCE b).remove_piece E8).put_piece BlackKing C8).mailbox A8
      = BlackRook := by
    rw [put_piece_mailbox, if_neg (by decide), remove_piece_mailbox, if_neg (by decide)]
    exact hr
  rw [hrookv]
  have hD0 : DataInv (hashOutCE b) := DataInv_hashOutCE b hD
  have hh0 : (hashOutCE b).hash
      = (hashOutCE b).compute_hash ^^^ zobrist.castlingKeys b.castling :=
    hashRel_hashOutCE b hh
  have hkLt : ((hashOutCE b).mailbox E8 : Nat) < 12 := by
    show (b.mailbox E8 : Nat) < 12
    rw [hk]; decide
  have hD1 : DataInv ((hashOutCE b).remove_piece E8) :=
    DataInv_remove _ _ hD0 (by decide) hkLt
  have hh1 : ((hashOutCE b).remove_piece E8).hash
      = ((hashOutCE b).remove_piece E8).compute_hash
        ^^^ zobrist.castlingKeys b.castling :=
    hashRel_remove _ _ _ (by decide) hkLt hh0
  have hm1 : ∀ s : Nat, ((hashOutCE b).remove_piece E8).mailbox s
      = if s = E8 then NoPiece else b.mailbox s :=
    fun s => remove_piece_mailbox _ _ s
  have hmG : ((hashOutCE b).remove_piece E8).mailbox C8 = NoPiece := by
    rw [hm1, if_neg (by decide)]; exact he6
  have hclear1 : (((hashOutCE b).remove_piece E8).pieceBB BlackKing).testBit C8 = false :=
    bit_clear_of_empty _ hD1 _ _ (by decide) (by decide) hmG
  have hD2 : DataInv (((hashOutCE b).remove_piece E8).put_piece BlackKing C8) :=
    DataInv_put _ _ _ hD1 (by decide) (by decide) hmG
  have hh2 : (((hashOutCE b).remove_piece E8).put_piece BlackKing C8).hash
      = (((hashOutCE b).remove_piece E8).put_piece BlackKing C8).compute_hash
        ^^^ zobrist.castlingKeys b.castling :=
    hashRel_put _ _ _ _ (by decide) (by decide) hclear1 hh1
  have hm2 : ∀ s : Nat, (((hashOutCE b).remove_piece E8).put_piece BlackKing C8).mailbox s
      = if s = C8 then BlackKing else if s = E8 then NoPiece else b.mailbox s := by
    intro s; rw [put_piece_mailbox, hm1]
  have hmHLt : ((((hashOutCE b).remove_piece E8).put_piece BlackKing C8).mailbox A8
      : Nat) < 12 := by
    rw [hrookv]; decide
  have hD3 : DataInv ((((hashOutCE b).remove_piece E8).put_piece
      BlackKing C8).remove_piece A8) :=
    DataInv_remove _ _ hD2 (by decide) hmHLt
  have hh3 : ((((hashOutCE b).remove_piece E8).put_piece BlackKing C8).remove_piece A8).hash
      = ((((hashOutCE b).remove_piece E8).put_piece
          BlackKing C8).remove_piece A8).compute_hash
        ^^^ zobrist.castlingKeys b.castling :=
    hashRel_remove _ _ _ (by decide) hmHLt hh2
  have hm3 : ∀ s : Nat, ((((hashOutCE b).remove_piece E8).put_piece
      BlackKing C8).remove_piece A8).mailbox s
      = if s = A8 then NoPiece else if s = C8 then BlackKing
        else if s = E8 then NoPiece else b.mailbox s := by
    intro s; rw [remove_piece_mailbox, hm2]
  have hmF : ((((hashOutCE b).remove_piece E8).put_piece
      BlackKing C8).remove_piece A8).mailbox D8 = NoPiece := by
    rw [hm3, if_neg (by decide), if_neg (by decide), if_neg (by decide)]
    exact he5
  have hclear2 : (((((hashOutCE b).remove_piece E8).put_piece
      BlackKing C8).remove_piece A8).pieceBB BlackRook).testBit D8 = false :=
    bit_clear_of_empty _ hD3 _ _ (by decide) (by decide) hmF
  have hD4 : DataInv (((((hashOutCE b).remove_piece E8).put_piece
      BlackKing C8).remove_piece A8).put_piece BlackRook D8) :=
    DataInv_put _ _ _ hD3 (by decide) (by decide) hmF
  have hh4 : (((((hashOutCE b).remove_piece E8).put_piece
      BlackKing C8).remove_piece A8).put_piece BlackRook D8).hash
      = (((((hashOutCE b).remove_piece E8).put_piece
          BlackKing C8).remove_piece A8).put_piece BlackRook D8).compute_hash
        ^^^ zobrist.castlingKeys b.castling :=
    hashRel_put _ _ _ _ (by decide) (by decide) hclear2 hh3
  have hm4 : ∀ s : Nat, (((((hashOutCE b).remove_piece E8).put_piece
      BlackKing C8).remove_piece A8).put_piece BlackRook D8).mailbox s
      = if s = D8 then BlackRook else if s = A8 then NoPiece
        else if s = C8 then BlackKing
        else if s = E8 then NoPiece else b.mailbox s := by
    intro s; rw [put_piece_mailbox, hm3]
  set c2 : Board := setClock (((((hashOutCE b).remove_piece E8).put_piece
      BlackKing C8).remove_piece A8).put_piece BlackRook D8) (b.halfmoveClock + 1) with hc2
  have hm4c : ∀ s : Nat, c2.mailbox s
      = if s = D8 then BlackRook else if s = A8 then NoPiece
        else if s = C8 then BlackKing
        else if s = E8 then NoPiece else b.mailbox s := fun s => hm4 s
  unfold BoardOK
  refine ⟨DataInv_finishMove _ _ _ (DataInv_setClock _ _ hD4), ?_, ?_, ?_, ?_⟩
  · show (compl b.sideToMove : Nat) < 2
    exact compl_lt2 _
  · exact EpOK_of_none _ rfl
  · refine CrOK_finish b c2 m hcr ?_ ?_ ?_ ?_
    · intro _ _ _ _ _
      rw [hm4c, hm4c, if_neg (by decide), if_neg (by decide), if_neg (by decide),
        if_neg (by decide), if_neg (by decide), if_neg (by decide), if_neg (by decide),
        if_neg (by decide)]
      exact ⟨rfl, rfl⟩
    · intro _ _ _ _ _
      rw [hm4c, hm4c, if_neg (by decide), if_neg (by decide), if_neg (by decide),
        if_neg (by decide), if_neg (by decide), if_neg (by decide), if_neg (by decide),
        if_neg (by decide)]
      exact ⟨rfl, rfl⟩
    · intro _ hf1 _ _ _
      exact absurd hfE hf1
    · intro _ hf1 _ _ _
      exact absurd hfE hf1
  · refine finishMove_hashOK b c2 m hstm rfl rfl ?_
    have hepc : c2.epSquare = NoSquare := rfl
    rw [hepc, if_neg (show ¬((NoSquare : Nat) ≠ NoSquare) by simp), Nat.xor_zero]
    exact hh4




/-- The step theorem: make_move preserves board well-formedness, and with it
the hash invariant, on any move satisfying its preconditions. -/
theorem make_move_BoardOK (b : Board) (m : Move) (hOK : BoardOK b) (hpre : MovePre b m) :
    BoardOK (b.make_move m) := by
  obtain ⟨hD, hstm, hep, hcr, hh⟩ := hOK
  unfold MovePre at hpre
  by_cases hmtEP : move_type m = MoveTypeEnPassant
  · rw [if_pos hmtEP] at hpre
    obtain ⟨heplt, ht, hempT, hmovF, hcapP, hfcap⟩ := hpre
    exact make_move_ok_ep b m hD hstm hcr hh hmtEP hempT hmovF hcapP hfcap
  · rw [if_neg hmtEP] at hpre
    by_cases hmtC : move_type m = MoveTypeCastling
    · rw [if_pos hmtC] at hpre
      rcases hpre with h | h | h | h
      · obtain ⟨hfE, htT, hk, hr, h5, h6⟩ := h
        exact make_move_ok_castleWK b m hD hstm hcr hh hmtEP hmtC hfE htT hk hr h5 h6
      · obtain ⟨hfE, htT, hk, hr, hc, hd⟩ := h
        exact make_move_ok_castleWQ b m hD hstm hcr hh hmtEP hmtC hfE htT hk hr hd hc
      · obtain ⟨hfE, htT, hk, hr, h5, h6⟩ := h
        exact make_move_ok_castleBK b m hD hstm hcr hh hmtEP hmtC hfE htT hk hr h5 h6
      · obtain ⟨hfE, htT, hk, hr, hc, hd⟩ := h
        exact make_move_ok_castleBQ b m hD hstm hcr hh hmtEP hmtC hfE htT hk hr hd hc
    · rw [if_neg hmtC] at hpre
      obtain ⟨hmov, hft, hdcl0⟩ := hpre
      by_cases hmtP : move_type m = MoveTypePromotion
      · by_cases hcap : b.mailbox (move_to m) ≠ NoPiece
        · exact make_move_ok_promoCap b m hD hstm hcr hh hmtEP hmtC hmtP hcap hmov hft
        · exact make_move_ok_promoQuiet b m hD hstm hcr hh hmtEP hmtC hmtP hcap hmov hft
      · have hmtN : move_type m = MoveTypeNormal := by
          have h4 : move_type m < 4 := Nat.mod_lt _ (by omega)
          have harith : ∀ x : Nat, x < 4 → ¬(x = 2) → ¬(x = 3) → ¬(x = 1) → x = 0 := by
            omega
          exact harith _ h4 hmtEP hmtC hmtP
        by_cases hcap : b.mailbox (move_to m) ≠ NoPiece
        · exact make_move_ok_capture b m hD hstm hcr hh hmtEP hmtC hmtP hcap hmov hft
        · by_cases hpt : piece_type (b.mailbox (move_from m)) = Pawn
          · exact make_move_ok_pawnQuiet b m hD hstm hcr hh hmtEP hmtC hmtP hcap hpt
              hmov hft (fun hdbl => hdcl0 hmtN hpt hdbl)
          · exact make_move_ok_quiet b m hD hstm hcr hh hmtEP hmtC hmtP hcap hpt hmov hft

/-- Decoding the from-square of a packed move. -/
theorem move_from_mk (f t mt : Nat) (hf : f < 64) : move_from (mkMove f t mt) = f := by
  show (f + 64 * t + 4096 * mt) % 64 = f
  omega

/-- Decoding the to-square of a packed move. -/
theorem move_to_mk (f t mt : Nat) (hf : f < 64) (ht : t < 64) :
    move_to (mkMove f t mt) = t := by
  show (f + 64 * t + 4096 * mt) / 64 % 64 = t
  omega

/-- Decoding the type of a packed move. -/
theorem move_type_mk (f t mt : Nat) (hf : f < 64) (ht : t < 64) (hmt : mt < 4) :
    move_type (mkMove f t mt) = mt := by
  show (f + 64 * t + 4096 * mt) / 4096 % 4 = mt
  omega

/-- Decoding the from-square of a packed promotion. -/
theorem promo_from (f t pt : Nat) (hf : f < 64) : move_from (make_promotion f t pt) = f := by
  show (f + 64 * t + 4096 * MoveTypePromotion + 16384 * (pt - Knight)) % 64 = f
  show (f + 64 * t + 4096 * 1 + 16384 * (pt - 1)) % 64 = f
  omega

/-- Decoding the to-square of a packed promotion. -/
theorem promo_to (f t pt : Nat) (hf : f < 64) (ht : t < 64) :
    move_to (make_promotion f t pt) = t := by
  show (f + 64 * t + 4096 * 1 + 16384 * (pt - 1)) / 64 % 64 = t
  omega

/-- The type of a packed promotion. -/
theorem promo_type (f t pt : Nat) (hf : f < 64) (ht : t < 64) :
    move_type (make_promotion f t pt) = MoveTypePromotion := by
  show (f + 64 * t + 4096 * 1 + 16384 * (pt - 1)) / 4096 % 4 = 1
  omega

/-- Membership in an append-style foldr. -/
theorem mem_foldr_append {α : Type} (g : α → List Move) (l : List α) (m : Move) :
    m ∈ l.foldr (fun f acc => g f ++ acc) [] ↔ ∃ f ∈ l, m ∈ g f := by
  induction l with
  | nil => simp
  | cons x t ih =>
    simp only [List.foldr_cons, List.mem_append, ih, List.mem_cons]
    constructor
    · rintro (h | ⟨f, hf, hm⟩)
      · exact ⟨x, Or.inl rfl, h⟩
      · exact ⟨f, Or.inr hf, hm⟩
    · rintro ⟨f, hf | hf, hm⟩
      · exact Or.inl (hf ▸ hm)
      · exact Or.inr ⟨f, hf, hm⟩

/-- Membership in a promotion-block foldr. -/
theorem mem_promoFoldr (F : Nat → Nat) (l : List Nat) (m : Move) :
    m ∈ l.foldr (fun t acc => make_promotion (F t) t Queen :: make_promotion (F t) t Rook ::
        make_promotion (F t) t Bishop :: make_promotion (F t) t Knight :: acc) [] ↔
      ∃ t ∈ l, m = make_promotion (F t) t Queen ∨ m = make_promotion (F t) t Rook ∨
        m = make_promotion (F t) t Bishop ∨ m = make_promotion (F t) t Knight := by
  induction l with
  | nil => simp
  | cons x tl ih =>
    simp only [List.foldr_cons, List.mem_cons, ih]
    constructor
    · rintro (h | h | h | h | ⟨t, ht, h⟩)
      · exact ⟨x, Or.inl rfl, Or.inl h⟩
      · exact ⟨x, Or.inl rfl, Or.inr (Or.inl h)⟩
      · exact ⟨x, Or.inl rfl, Or.inr (Or.inr (Or.inl h))⟩
      · exact ⟨x, Or.inl rfl, Or.inr (Or.inr (Or.inr h))⟩
      · exact ⟨t, Or.inr ht, h⟩
    · rintro ⟨t, ht | ht, h⟩
      · subst ht
        rcases h with h | h | h | h
        · exact Or.inl h
        · exact Or.inr (Or.inl h)
        · exact Or.inr (Or.inr (Or.inl h))
        · exact Or.inr (Or.inr (Or.inr (Or.inl h)))
      · exact Or.inr (Or.inr (Or.inr (Or.inr ⟨t, ht, h⟩)))





/-- Conjunction of bits under bitwise and. -/
theorem land_bit (x y t : Nat) (h : (x &&& y).testBit t = true) :
    x.testBit t = true ∧ y.testBit t = true := by
  rw [Nat.testBit_land] at h
  exact ⟨(Bool.and_eq_true_iff.mp h).1, (Bool.and_eq_true_iff.mp h).2⟩

/-- A set bit of a shifted word. -/
theorem shl64_bit (x n t : Nat) (h : (shl64 x n).testBit t = true) :
    t < 64 ∧ n ≤ t ∧ x.testBit (t - n) = true := by
  rw [testBit_shl64] at h
  have h1 := (Bool.and_eq_true_iff.mp h).1
  have h2 := Bool.and_eq_true_iff.mp (Bool.and_eq_true_iff.mp h).2
  exact ⟨of_decide_eq_true h1, of_decide_eq_true h2.1, h2.2⟩

/-- A set bit under a 64-bit complement is a clear bit. -/
theorem bnot64_bit_false (x t : Nat) (ht : t < 64) (h : (bnot64 x).testBit t = true) :
    x.testBit t = false := by
  rw [testBit_bnot64, decide_eq_true ht] at h
  cases hx : x.testBit t
  · rfl
  · rw [hx] at h
    exact absurd h (by decide)

/-- A set bit of a rank mask. -/
theorem RankMask_bit (r t : Nat) (h : (RankMask r).testBit t = true) :
    t < 64 ∧ 8 * r ≤ t ∧ t - 8 * r < 8 := by
  rw [testBit_RankMask] at h
  have h1 := (Bool.and_eq_true_iff.mp h).1
  have h2 := Bool.and_eq_true_iff.mp (Bool.and_eq_true_iff.mp h).2
  exact ⟨of_decide_eq_true h1, of_decide_eq_true h2.1, of_decide_eq_true h2.2⟩

/-- A set bit of a file mask. -/
theorem FileMask_bit (f t : Nat) (hf : f < 8) (h : (FileMask f).testBit t = true) :
    t < 64 ∧ t % 8 = f := by
  rw [testBit_FileMask f t hf] at h
  exact of_decide_eq_true h

/-- A pawn-bitboard bit pins the mailbox to that side's pawn. -/
theorem mailbox_of_pawnbit (b : Board) (hD : DataInv b) (us f : Nat)
    (hus : us < 2) (hf : f < 64)
    (hbit : (b.byColorType us Pawn).testBit f = true) :
    b.mailbox f = make_piece us Pawn := by
  have hql : us * 6 + 0 < 12 := by
    have harith : ∀ u : Nat, u < 2 → u * 6 + 0 < 12 := by omega
    exact harith _ hus
  exact (hD.1 (us * 6 + 0) f hql hf).mp hbit

/-- A clear all-occupancy bit means an empty mailbox square. -/
theorem empty_of_all_clear (b : Board) (hD : DataInv b) (s : Nat) (hs : s < 64)
    (h : (b.all_pieces).testBit s = false) : b.mailbox s = NoPiece := by
  by_contra hc
  have hbit := (hD.2.2.2.2.1 s hs).mpr hc
  have h2 : (b.occupancy 2).testBit s = false := h
  rw [h2] at hbit
  exact Bool.noConfusion hbit

/-- A piece of the side to move puts its occupancy bit. -/
theorem own_bit_of_piece (b : Board) (hD : DataInv b) (us q s : Nat)
    (hus : us < 2) (hq : q < 12) (hs : s < 64) (hqc : q / 6 = us)
    (hmail : b.mailbox s = q) : (b.byColor us).testBit s = true := by
  refine (hD.2.2.2.1 us s hus hs).mpr ⟨?_, ?_⟩
  · rw [hmail]
    have harith : ∀ x : Nat, x < 12 → ¬(x = 12) := by omega
    exact harith _ hq
  · rw [hmail]
    exact hqc

/-- MovePre for a plain normal move that is no double push. -/
theorem MovePre_normal (b : Board) (f t : Nat) (hf : f < 64) (ht : t < 64)
    (hmail : (b.mailbox f : Nat) < 12) (hft : ¬(f = t))
    (hnd : ¬(t = f + 16 ∨ f = t + 16)) :
    MovePre b (mkMove f t MoveTypeNormal) := by
  simp only [MovePre]
  rw [move_type_mk f t MoveTypeNormal hf ht (by decide)]
  rw [if_neg (by decide), if_neg (by decide)]
  rw [move_from_mk f t MoveTypeNormal hf, move_to_mk f t MoveTypeNormal hf ht]
  exact ⟨hmail, hft, fun _ _ hdbl => absurd hdbl hnd⟩

/-- MovePre for a double pawn push. -/
theorem MovePre_double (b : Board) (f t : Nat) (hf : f < 64) (ht : t < 64)
    (hmail : (b.mailbox f : Nat) < 12) (hft : ¬(f = t))
    (hfacts : b.mailbox f = make_piece b.sideToMove Pawn ∧
      b.mailbox ((f + t) / 2) = NoPiece ∧
      (b.sideToMove = White → t = f + 16 ∧ square_rank f = 1) ∧
      (b.sideToMove = Black → f = t + 16 ∧ square_rank f = 6)) :
    MovePre b (mkMove f t MoveTypeNormal) := by
  simp only [MovePre]
  rw [move_type_mk f t MoveTypeNormal hf ht (by decide)]
  rw [if_neg (by decide), if_neg (by decide)]
  rw [move_from_mk f t MoveTypeNormal hf, move_to_mk f t MoveTypeNormal hf ht]
  exact ⟨hmail, hft, fun _ _ _ => hfacts⟩

/-- MovePre for a promotion move. -/
theorem MovePre_promo (b : Board) (f t pt : Nat) (hf : f < 64) (ht : t < 64)
    (hmail : (b.mailbox f : Nat) < 12) (hft : ¬(f = t)) :
    MovePre b (make_promotion f t pt) := by
  simp only [MovePre]
  rw [promo_type f t pt hf ht]
  rw [if_neg (by decide), if_neg (by decide)]
  rw [promo_from f t pt hf, promo_to f t pt hf ht]
  exact ⟨hmail, hft, fun hc => absurd hc (by decide)⟩



/-- Every White pawn move generated satisfies the move preconditions. -/
theorem pawn_moves_pre_white (b : Board) (m : Move)
    (hD : DataInv b) (hepo : EpOK b) (hus : b.sideToMove = 0)
    (hm : m ∈ generate_pawn_moves b) : MovePre b m := by
  simp only [generate_pawn_moves, hus, White, compl, Nat.sub_zero, Nat.sub_self,
    reduceIte, List.mem_append] at hm
  rcases hm with ((((((h1 | h2) | h3) | h4) | h5) | h6) | h7) | h8
  · -- single pushes
    obtain ⟨t, htmem, hmEq⟩ := List.mem_map.mp h1
    obtain ⟨ht64, hbit⟩ := mem_bbList.mp htmem
    obtain ⟨hb1, hb2⟩ := land_bit _ _ _ hbit
    obtain ⟨hb3, hb4⟩ := land_bit _ _ _ hb1
    obtain ⟨_, h8t, hPbit⟩ := shl64_bit _ _ _ hb3
    subst hmEq
    have harith : ∀ T : Nat, T < 64 → 8 ≤ T → T - 8 < 64 ∧ ¬(T - 8 = T) ∧
        ¬(T = T - 8 + 16 ∨ T - 8 = T + 16) := by omega
    obtain ⟨hf64, hfne, hnd⟩ := harith t ht64 h8t
    refine MovePre_normal b (t - 8) t hf64 ht64 ?_ hfne hnd
    rw [mailbox_of_pawnbit b hD 0 (t - 8) (by decide) hf64 hPbit]
    decide
  · -- push promotions
    obtain ⟨t, htmem, hcase⟩ := (mem_promoFoldr (fun x => x - 8) _ m).mp h2
    obtain ⟨ht64, hbit⟩ := mem_bbList.mp htmem
    obtain ⟨hb1, _⟩ := land_bit _ _ _ hbit
    obtain ⟨hb3, _⟩ := land_bit _ _ _ hb1
    obtain ⟨_, h8t, hPbit⟩ := shl64_bit _ _ _ hb3
    have harith : ∀ T : Nat, T < 64 → 8 ≤ T → T - 8 < 64 ∧ ¬(T - 8 = T) := by omega
    obtain ⟨hf64, hfne⟩ := harith t ht64 h8t
    have hmail : (b.mailbox (t - 8) : Nat) < 12 := by
      rw [mailbox_of_pawnbit b hD 0 (t - 8) (by decide) hf64 hPbit]
      decide
    rcases hcase with h | h | h | h <;> rw [h] <;>
      exact MovePre_promo b (t - 8) t _ hf64 ht64 hmail hfne
  · -- double pushes
    obtain ⟨t, htmem, hmEq⟩ := List.mem_map.mp h3
    obtain ⟨ht64, hbit⟩ := mem_bbList.mp htmem
    obtain ⟨hb1, hb2⟩ := land_bit _ _ _ hbit
    obtain ⟨_, h8t, hbmid⟩ := shl64_bit _ _ _ hb1
    obtain ⟨hbsp, hbr2⟩ := land_bit _ _ _ hbmid
    obtain ⟨hbsh, hbna⟩ := land_bit _ _ _ hbsp
    obtain ⟨hm64, h8t8, hPbit⟩ := shl64_bit _ _ _ hbsh
    obtain ⟨_, hr2a, hr2b⟩ := RankMask_bit 2 (t - 8) hbr2
    subst hmEq
    have harith : ∀ T : Nat, T < 64 → 8 ≤ T → 8 ≤ T - 8 → 8 * 2 ≤ T - 8 →
        T - 8 - 8 * 2 < 8 →
        T - 16 < 64 ∧ ¬(T - 16 = T) ∧ (T - 16 + T) / 2 = T - 8 ∧ T = T - 16 + 16 ∧
        (T - 16) / 8 = 1 ∧ T - 8 - 8 = T - 16 ∧ T - 8 < 64 := by omega
    obtain ⟨hf64, hfne, hmid, ht16, hrank, hsub, hm64b⟩ := harith t ht64 h8t h8t8 hr2a hr2b
    rw [hsub] at hPbit
    have hmailf : b.mailbox (t - 16) = make_piece 0 Pawn :=
      mailbox_of_pawnbit b hD 0 (t - 16) (by decide) hf64 hPbit
    have hmailmid : b.mailbox (t - 8) = NoPiece :=
      empty_of_all_clear b hD (t - 8) hm64b (bnot64_bit_false _ _ hm64b hbna)
    refine MovePre_double b (t - 16) t hf64 ht64 (by rw [hmailf]; decide) hfne
      ⟨?_, ?_, ?_, ?_⟩
    · rw [hus]
      exact hmailf
    · rw [hmid]
      exact hmailmid
    · intro _
      exact ⟨ht16, hrank⟩
    · intro hc
      rw [hus] at hc
      exact absurd hc (by decide)
  · -- left captures
    obtain ⟨t, htmem, hmEq⟩ := List.mem_map.mp h4
    obtain ⟨ht64, hbit⟩ := mem_bbList.mp htmem
    obtain ⟨hb1, _⟩ := land_bit _ _ _ hbit
    obtain ⟨hb3, _⟩ := land_bit _ _ _ hb1
    obtain ⟨_, h7t, hPF⟩ := shl64_bit _ _ _ hb3
    obtain ⟨hPbit, _⟩ := land_bit _ _ _ hPF
    subst hmEq
    have harith : ∀ T : Nat, T < 64 → 7 ≤ T → T - 7 < 64 ∧ ¬(T - 7 = T) ∧
        ¬(T = T - 7 + 16 ∨ T - 7 = T + 16) := by omega
    obtain ⟨hf64, hfne, hnd⟩ := harith t ht64 h7t
    refine MovePre_normal b (t - 7) t hf64 ht64 ?_ hfne hnd
    rw [mailbox_of_pawnbit b hD 0 (t - 7) (by decide) hf64 hPbit]
    decide
  · -- left capture promotions
    obtain ⟨t, htmem, hcase⟩ := (mem_promoFoldr (fun x => x - 7) _ m).mp h5
    obtain ⟨ht64, hbit⟩ := mem_bbList.mp htmem
    obtain ⟨hb1, _⟩ := land_bit _ _ _ hbit
    obtain ⟨hb3, _⟩ := land_bit _ _ _ hb1
    obtain ⟨_, h7t, hPF⟩ := shl64_bit _ _ _ hb3
    obtain ⟨hPbit, _⟩ := land_bit _ _ _ hPF
    have harith : ∀ T : Nat, T < 64 → 7 ≤ T → T - 7 < 64 ∧ ¬(T - 7 = T) := by omega
    obtain ⟨hf64, hfne⟩ := harith t ht64 h7t
    have hmail : (b.mailbox (t - 7) : Nat) < 12 := by
      rw [mailbox_of_pawnbit b hD 0 (t - 7) (by decide) hf64 hPbit]
      decide
    rcases hcase with h | h | h | h <;> rw [h] <;>
      exact MovePre_promo b (t - 7) t _ hf64 ht64 hmail hfne
  · -- right captures
    obtain ⟨t, htmem, hmEq⟩ := List.mem_map.mp h6
    obtain ⟨ht64, hbit⟩ := mem_bbList.mp htmem
    obtain ⟨hb1, _⟩ := land_bit _ _ _ hbit
    obtain ⟨hb3, _⟩ := land_bit _ _ _ hb1
    obtain ⟨_, h9t, hPF⟩ := shl64_bit _ _ _ hb3
    obtain ⟨hPbit, _⟩ := land_bit _ _ _ hPF
    subst hmEq
    have harith : ∀ T : Nat, T < 64 → 9 ≤ T → T - 9 < 64 ∧ ¬(T - 9 = T) ∧
        ¬(T = T - 9 + 16 ∨ T - 9 = T + 16) := by omega
    obtain ⟨hf64, hfne, hnd⟩ := harith t ht64 h9t
    refine MovePre_normal b (t - 9) t hf64 ht64 ?_ hfne hnd
    rw [mailbox_of_pawnbit b hD 0 (t - 9) (by decide) hf64 hPbit]
    decide
  · -- right capture promotions
    obtain ⟨t, htmem, hcase⟩ := (mem_promoFoldr (fun x => x - 9) _ m).mp h7
    obtain ⟨ht64, hbit⟩ := mem_bbList.mp htmem
    obtain ⟨hb1, _⟩ := land_bit _ _ _ hbit
    obtain ⟨hb3, _⟩ := land_bit _ _ _ hb1
    obtain ⟨_, h9t, hPF⟩ := shl64_bit _ _ _ hb3
    obtain ⟨hPbit, _⟩ := land_bit _ _ _ hPF
    have harith : ∀ T : Nat, T < 64 → 9 ≤ T → T - 9 < 64 ∧ ¬(T - 9 = T) := by omega
    obtain ⟨hf64, hfne⟩ := harith t ht64 h9t
    have hmail : (b.mailbox (t - 9) : Nat) < 12 := by
      rw [mailbox_of_pawnbit b hD 0 (t - 9) (by decide) hf64 hPbit]
      decide
    rcases hcase with h | h | h | h <;> rw [h] <;>
      exact MovePre_promo b (t - 9) t _ hf64 ht64 hmail hfne
  · -- en passant
    by_cases hepn : b.epSquare ≠ NoSquare
    · rw [if_pos hepn] at h8
      obtain ⟨hrank5, hempE, hpawnE⟩ := (hepo hepn).1 hus
      have he64 : (b.epSquare : Nat) < 64 := by
        have harith : ∀ E : Nat, E / 8 = 5 → E < 64 := by omega
        exact harith _ hrank5
      obtain ⟨f, hfmem, hmEq⟩ := List.mem_map.mp h8
      obtain ⟨hf64, hbit⟩ := mem_bbList.mp hfmem
      obtain ⟨hatt, hPbit⟩ := land_bit _ _ _ hbit
      simp only [attacks.pawn_attacks, White] at hatt
      rw [if_neg (show ¬((1 : Nat) = 0) by decide)] at hatt
      rw [Nat.testBit_lor, Nat.testBit_shiftRight, Nat.testBit_shiftRight] at hatt
      subst hmEq
      simp only [MovePre]
      rw [move_type_mk f b.epSquare MoveTypeEnPassant hf64 he64 (by decide)]
      rw [if_pos rfl]
      rw [move_from_mk f b.epSquare MoveTypeEnPassant hf64,
        move_to_mk f b.epSquare MoveTypeEnPassant hf64 he64]
      have hmailF : b.mailbox f = make_piece b.sideToMove Pawn := by
        rw [hus]
        exact mailbox_of_pawnbit b hD 0 f (by decide) hf64 hPbit
      rcases Bool.or_eq_true_iff.mp hatt with hcase | hcase
      · obtain ⟨hsq, hnf7⟩ := land_bit _ _ _ hcase
        rw [testBit_square_bb _ _ he64] at hsq
        have h7f : 7 + f = b.epSquare := of_decide_eq_true hsq
        have hlt : 7 + f < 64 := by rw [h7f]; exact he64
        have hf7 : ¬((b.epSquare : Nat) % 8 = 7) := by
          intro hc
          have hfm := bnot64_bit_false _ _ hlt hnf7
          rw [testBit_FileMask 7 _ (by decide)] at hfm
          rw [decide_eq_false_iff_not] at hfm
          exact hfm ⟨hlt, by rw [h7f]; exact hc⟩
        have harith : ∀ E F : Nat, E / 8 = 5 → ¬(E % 8 = 7) → 7 + F = E →
            (F / 8) * 8 + E % 8 = E - 8 ∧ ¬(F = E - 8) := by omega
        obtain ⟨hcs0, hfne⟩ := harith b.epSquare f hrank5 hf7 h7f
        have hcs : make_square (square_file b.epSquare) (square_rank f)
            = b.epSquare - 8 := by
          show (f / 8) * 8 + (b.epSquare : Nat) % 8 = b.epSquare - 8
          exact hcs0
        rw [hcs]
        refine ⟨he64, rfl, hempE, hmailF, ?_, hfne⟩
        rw [hus]
        exact hpawnE
      · obtain ⟨hsq, hnf0⟩ := land_bit _ _ _ hcase
        rw [testBit_square_bb _ _ he64] at hsq
        have h9f : 9 + f = b.epSquare := of_decide_eq_true hsq
        have hlt : 9 + f < 64 := by rw [h9f]; exact he64
        have hf0 : ¬((b.epSquare : Nat) % 8 = 0) := by
          intro hc
          have hfm := bnot64_bit_false _ _ hlt hnf0
          rw [testBit_FileMask 0 _ (by decide)] at hfm
          rw [decide_eq_false_iff_not] at hfm
          exact hfm ⟨hlt, by rw [h9f]; exact hc⟩
        have harith : ∀ E F : Nat, E / 8 = 5 → ¬(E % 8 = 0) → 9 + F = E →
            (F / 8) * 8 + E % 8 = E - 8 ∧ ¬(F = E - 8) := by omega
        obtain ⟨hcs0, hfne⟩ := harith b.epSquare f hrank5 hf0 h9f
        have hcs : make_square (square_file b.epSquare) (square_rank f)
            = b.epSquare - 8 := by
          show (f / 8) * 8 + (b.epSquare : Nat) % 8 = b.epSquare - 8
          exact hcs0
        rw [hcs]
        refine ⟨he64, rfl, hempE, hmailF, ?_, hfne⟩
        rw [hus]
        exact hpawnE
    · rw [if_neg hepn] at h8
      exact absurd h8 (List.not_mem_nil m)



/-- A set bit of a 64-bit word lies below 64. -/
theorem bit_lt64 (x t : Nat) (hx : x < 2 ^ 64) (h : x.testBit t = true) : t < 64 := by
  by_contra hc
  rw [Nat.testBit_eq_false_of_lt
    (lt_of_lt_of_le hx (Nat.pow_le_pow_right (by omega) (by omega)))] at h
  exact Bool.noConfusion h

/-- The Black pawn bitboard bound. -/
theorem blackPawnLt (b : Board) (hD : DataInv b) : b.byColorType 1 Pawn < 2 ^ 64 :=
  hD.2.1 6 (by decide)

/-- Every Black pawn move generated satisfies the move preconditions. -/
theorem pawn_moves_pre_black (b : Board) (m : Move)
    (hD : DataInv b) (hepo : EpOK b) (hus : b.sideToMove = 1)
    (hm : m ∈ generate_pawn_moves b) : MovePre b m := by
  simp only [generate_pawn_moves, hus, White, compl, Nat.sub_self,
    show ((1 : Nat) = 0) = False from by simp, if_false, ite_false,
    List.mem_append] at hm
  rcases hm with ((((((h1 | h2) | h3) | h4) | h5) | h6) | h7) | h8
  · -- single pushes
    obtain ⟨t, htmem, hmEq⟩ := List.mem_map.mp h1
    obtain ⟨ht64, hbit⟩ := mem_bbList.mp htmem
    obtain ⟨hb1, hb2⟩ := land_bit _ _ _ hbit
    obtain ⟨hb3, hb4⟩ := land_bit _ _ _ hb1
    rw [Nat.testBit_shiftRight] at hb3
    rw [show 8 + t = t + 8 from Nat.add_comm 8 t] at hb3
    have hf64 : t + 8 < 64 := bit_lt64 _ _ (blackPawnLt b hD) hb3
    subst hmEq
    have harith : ∀ T : Nat, T + 8 < 64 → ¬(T + 8 = T) ∧
        ¬(T = T + 8 + 16 ∨ T + 8 = T + 16) := by omega
    obtain ⟨hfne, hnd⟩ := harith t hf64
    refine MovePre_normal b (t + 8) t hf64 ht64 ?_ hfne hnd
    rw [mailbox_of_pawnbit b hD 1 (t + 8) (by decide) hf64 hb3]
    decide
  · -- push promotions
    obtain ⟨t, htmem, hcase⟩ := (mem_promoFoldr (fun x => x + 8) _ m).mp h2
    obtain ⟨ht64, hbit⟩ := mem_bbList.mp htmem
    obtain ⟨hb1, _⟩ := land_bit _ _ _ hbit
    obtain ⟨hb3, _⟩ := land_bit _ _ _ hb1
    rw [Nat.testBit_shiftRight] at hb3
    rw [show 8 + t = t + 8 from Nat.add_comm 8 t] at hb3
    have hf64 : t + 8 < 64 := bit_lt64 _ _ (blackPawnLt b hD) hb3
    have hfne : ¬(t + 8 = t) := by omega
    have hmail : (b.mailbox (t + 8) : Nat) < 12 := by
      rw [mailbox_of_pawnbit b hD 1 (t + 8) (by decide) hf64 hb3]
      decide
    rcases hcase with h | h | h | h <;> rw [h] <;>
      exact MovePre_promo b (t + 8) t _ hf64 ht64 hmail hfne
  · -- double pushes
    obtain ⟨t, htmem, hmEq⟩ := List.mem_map.mp h3
    obtain ⟨ht64, hbit⟩ := mem_bbList.mp htmem
    obtain ⟨hb1, hb2⟩ := land_bit _ _ _ hbit
    rw [Nat.testBit_shiftRight] at hb1
    obtain ⟨hbsp, hbr5⟩ := land_bit _ _ _ hb1
    obtain ⟨hbsh, hbna⟩ := land_bit _ _ _ hbsp
    rw [Nat.testBit_shiftRight] at hbsh
    rw [show 8 + (8 + t) = t + 16 from by
      have h : ∀ x : Nat, 8 + (8 + x) = x + 16 := by omega
      exact h t] at hbsh
    have hf64 : t + 16 < 64 := bit_lt64 _ _ (blackPawnLt b hD) hbsh
    obtain ⟨_, hr5a, hr5b⟩ := RankMask_bit 5 (8 + t) hbr5
    subst hmEq
    have harith : ∀ T : Nat, T + 16 < 64 → 8 * 5 ≤ 8 + T → 8 + T - 8 * 5 < 8 →
        ¬(T + 16 = T) ∧ (T + 16 + T) / 2 = T + 8 ∧ (T + 16) / 8 = 6 ∧
        8 + T = T + 8 ∧ T + 8 < 64 := by omega
    obtain ⟨hfne, hmid, hrank, hcomm, hm64b⟩ := harith t hf64 hr5a hr5b
    rw [hcomm] at hbna
    have hmailf : b.mailbox (t + 16) = make_piece 1 Pawn :=
      mailbox_of_pawnbit b hD 1 (t + 16) (by decide) hf64 hbsh
    have hmailmid : b.mailbox (t + 8) = NoPiece :=
      empty_of_all_clear b hD (t + 8) hm64b (bnot64_bit_false _ _ hm64b hbna)
    refine MovePre_double b (t + 16) t hf64 ht64 (by rw [hmailf]; decide) hfne
      ⟨?_, ?_, ?_, ?_⟩
    · rw [hus]
      exact hmailf
    · rw [hmid]
      exact hmailmid
    · intro hc
      rw [hus] at hc
      exact absurd hc (by decide)
    · intro _
      exact ⟨rfl, hrank⟩
  · -- left captures
    obtain ⟨t, htmem, hmEq⟩ := List.mem_map.mp h4
    obtain ⟨ht64, hbit⟩ := mem_bbList.mp htmem
    obtain ⟨hb1, _⟩ := land_bit _ _ _ hbit
    obtain ⟨hb3, _⟩ := land_bit _ _ _ hb1
    rw [Nat.testBit_shiftRight] at hb3
    obtain ⟨hPbit, _⟩ := land_bit _ _ _ hb3
    rw [show 7 + t = t + 7 from Nat.add_comm 7 t] at hPbit
    have hf64 : t + 7 < 64 := bit_lt64 _ _ (blackPawnLt b hD) hPbit
    subst hmEq
    have harith : ∀ T : Nat, T + 7 < 64 → ¬(T + 7 = T) ∧
        ¬(T = T + 7 + 16 ∨ T + 7 = T + 16) := by omega
    obtain ⟨hfne, hnd⟩ := harith t hf64
    refine MovePre_normal b (t + 7) t hf64 ht64 ?_ hfne hnd
    rw [mailbox_of_pawnbit b hD 1 (t + 7) (by decide) hf64 hPbit]
    decide
  · -- left capture promotions
    obtain ⟨t, htmem, hcase⟩ := (mem_promoFoldr (fun x => x + 7) _ m).mp h5
    obtain ⟨ht64, hbit⟩ := mem_bbList.mp htmem
    obtain ⟨hb1, _⟩ := land_bit _ _ _ hbit
    obtain ⟨hb3, _⟩ := land_bit _ _ _ hb1
    rw [Nat.testBit_shiftRight] at hb3
    obtain ⟨hPbit, _⟩ := land_bit _ _ _ hb3
    rw [show 7 + t = t + 7 from Nat.add_comm 7 t] at hPbit
    have hf64 : t + 7 < 64 := bit_lt64 _ _ (blackPawnLt b hD) hPbit
    have hfne : ¬(t + 7 = t) := by omega
    have hmail : (b.mailbox (t + 7) : Nat) < 12 := by
      rw [mailbox_of_pawnbit b hD 1 (t + 7) (by decide) hf64 hPbit]
      decide
    rcases hcase with h | h | h | h <;> rw [h] <;>
      exact MovePre_promo b (t + 7) t _ hf64 ht64 hmail hfne
  · -- right captures
    obtain ⟨t, htmem, hmEq⟩ := List.mem_map.mp h6
    obtain ⟨ht64, hbit⟩ := mem_bbList.mp htmem
    obtain ⟨hb1, _⟩ := land_bit _ _ _ hbit
    obtain ⟨hb3, _⟩ := land_bit _ _ _ hb1
    rw [Nat.testBit_shiftRight] at hb3
    obtain ⟨hPbit, _⟩ := land_bit _ _ _ hb3
    rw [show 9 + t = t + 9 from Nat.add_comm 9 t] at hPbit
    have hf64 : t + 9 < 64 := bit_lt64 _ _ (blackPawnLt b hD) hPbit
    subst hmEq
    have harith : ∀ T : Nat, T + 9 < 64 → ¬(T + 9 = T) ∧
        ¬(T = T + 9 + 16 ∨ T + 9 = T + 16) := by omega
    obtain ⟨hfne, hnd⟩ := harith t hf64
    refine MovePre_normal b (t + 9) t hf64 ht64 ?_ hfne hnd
    rw [mailbox_of_pawnbit b hD 1 (t + 9) (by decide) hf64 hPbit]
    decide
  · -- right capture promotions
    obtain ⟨t, htmem, hcase⟩ := (mem_promoFoldr (fun x => x + 9) _ m).mp h7
    obtain ⟨ht64, hbit⟩ := mem_bbList.mp htmem
    obtain ⟨hb1, _⟩ := land_bit _ _ _ hbit
    obtain ⟨hb3, _⟩ := land_bit _ _ _ hb1
    rw [Nat.testBit_shiftRight] at hb3
    obtain ⟨hPbit, _⟩ := land_bit _ _ _ hb3
    rw [show 9 + t = t + 9 from Nat.add_comm 9 t] at hPbit
    have hf64 : t + 9 < 64 := bit_lt64 _ _ (blackPawnLt b hD) hPbit
    have hfne : ¬(t + 9 = t) := by omega
    have hmail : (b.mailbox (t + 9) : Nat) < 12 := by
      rw [mailbox_of_pawnbit b hD 1 (t + 9) (by decide) hf64 hPbit]
      decide
    rcases hcase with h | h | h | h <;> rw [h] <;>
      exact MovePre_promo b (t + 9) t _ hf64 ht64 hmail hfne
  · -- en passant
    by_cases hepn : b.epSquare ≠ NoSquare
    · rw [if_pos hepn] at h8
      obtain ⟨hrank2, hempE, hpawnE⟩ := (hepo hepn).2 hus
      have he64 : (b.epSquare : Nat) < 64 := by
        have harith : ∀ E : Nat, E / 8 = 2 → E < 64 := by omega
        exact harith _ hrank2
      obtain ⟨f, hfmem, hmEq⟩ := List.mem_map.mp h8
      obtain ⟨hf64, hbit⟩ := mem_bbList.mp hfmem
      obtain ⟨hatt, hPbit⟩ := land_bit _ _ _ hbit
      simp only [attacks.pawn_attacks, White, if_true] at hatt
      rw [Nat.testBit_lor] at hatt
      subst hmEq
      simp only [MovePre]
      rw [move_type_mk f b.epSquare MoveTypeEnPassant hf64 he64 (by decide)]
      rw [if_pos rfl]
      rw [move_from_mk f b.epSquare MoveTypeEnPassant hf64,
        move_to_mk f b.epSquare MoveTypeEnPassant hf64 he64]
      have hmailF : b.mailbox f = make_piece b.sideToMove Pawn := by
        rw [hus]
        exact mailbox_of_pawnbit b hD 1 f (by decide) hf64 hPbit
      rcases Bool.or_eq_true_iff.mp hatt with hcase | hcase
      · obtain ⟨_, h7f, hsqf⟩ := shl64_bit _ _ _ hcase
        obtain ⟨hsq, hnf0⟩ := land_bit _ _ _ hsqf
        rw [testBit_square_bb _ _ he64] at hsq
        have h7e : f - 7 = b.epSquare := of_decide_eq_true hsq
        have hf0 : ¬((b.epSquare : Nat) % 8 = 0) := by
          intro hc
          have hfm := bnot64_bit_false _ _ (by omega) hnf0
          rw [testBit_FileMask 0 _ (by decide)] at hfm
          rw [decide_eq_false_iff_not] at hfm
          exact hfm ⟨by omega, by rw [h7e]; exact hc⟩
        have harith : ∀ E F : Nat, E / 8 = 2 → ¬(E % 8 = 0) → 7 ≤ F → F - 7 = E →
            (F / 8) * 8 + E % 8 = E + 8 ∧ ¬(F = E + 8) := by omega
        obtain ⟨hcs0, hfne⟩ := harith b.epSquare f hrank2 hf0 h7f h7e
        have hcs : make_square (square_file b.epSquare) (square_rank f)
            = b.epSquare + 8 := by
          show (f / 8) * 8 + (b.epSquare : Nat) % 8 = b.epSquare + 8
          exact hcs0
        rw [hcs]
        refine ⟨he64, rfl, hempE, hmailF, ?_, hfne⟩
        rw [hus]
        exact hpawnE
      · obtain ⟨_, h9f, hsqf⟩ := shl64_bit _ _ _ hcase
        obtain ⟨hsq, hnf7⟩ := land_bit _ _ _ hsqf
        rw [testBit_square_bb _ _ he64] at hsq
        have h9e : f - 9 = b.epSquare := of_decide_eq_true hsq
        have hf7 : ¬((b.epSquare : Nat) % 8 = 7) := by
          intro hc
          have hfm := bnot64_bit_false _ _ (by omega) hnf7
          rw [testBit_FileMask 7 _ (by decide)] at hfm
          rw [decide_eq_false_iff_not] at hfm
          exact hfm ⟨by omega, by rw [h9e]; exact hc⟩
        have harith : ∀ E F : Nat, E / 8 = 2 → ¬(E % 8 = 7) → 9 ≤ F → F - 9 = E →
            (F / 8) * 8 + E % 8 = E + 8 ∧ ¬(F = E + 8) := by omega
        obtain ⟨hcs0, hfne⟩ := harith b.epSquare f hrank2 hf7 h9f h9e
        have hcs : make_square (square_file b.epSquare) (square_rank f)
            = b.epSquare + 8 := by
          show (f / 8) * 8 + (b.epSquare : Nat) % 8 = b.epSquare + 8
          exact hcs0
        rw [hcs]
        refine ⟨he64, rfl, hempE, hmailF, ?_, hfne⟩
        rw [hus]
        exact hpawnE
    · rw [if_neg hepn] at h8
      exact absurd h8 (List.not_mem_nil m)



/-- A piece-bitboard bit pins the mailbox to that piece. -/
theorem mailbox_of_piecebit (b : Board) (hD : DataInv b) (us pt f : Nat)
    (hus : us < 2) (hpt : pt < 6) (hf : f < 64)
    (hbit : (b.byColorType us pt).testBit f = true) :
    b.mailbox f = make_piece us pt := by
  have hql : us * 6 + pt < 12 := by
    have harith : ∀ u p : Nat, u < 2 → p < 6 → u * 6 + p < 12 := by omega
    exact harith _ _ hus hpt
  exact (hD.1 (us * 6 + pt) f hql hf).mp hbit

/-- A clear own-occupancy bit separates the target from the moving piece. -/
theorem ne_of_own (b : Board) (hD : DataInv b) (f t q : Nat) (hus : b.sideToMove < 2)
    (hf : f < 64) (ht : t < 64) (hq : q < 12) (hqc : q / 6 = b.sideToMove)
    (hmail : b.mailbox f = q)
    (hnot : (bnot64 (b.byColor b.sideToMove)).testBit t = true) : ¬(f = t) := by
  intro hc
  have hown := own_bit_of_piece b hD b.sideToMove q f hus hq hf hqc hmail
  rw [hc] at hown
  rw [bnot64_bit_false _ _ ht hnot] at hown
  exact Bool.noConfusion hown

/-- MovePre for a normal move of a non-pawn. -/
theorem MovePre_normal2 (b : Board) (f t : Nat) (hf : f < 64) (ht : t < 64)
    (hmail : (b.mailbox f : Nat) < 12) (hft : ¬(f = t))
    (hnp : ¬(piece_type (b.mailbox f) = Pawn)) :
    MovePre b (mkMove f t MoveTypeNormal) := by
  simp only [MovePre]
  rw [move_type_mk f t MoveTypeNormal hf ht (by decide)]
  rw [if_neg (by decide), if_neg (by decide)]
  rw [move_from_mk f t MoveTypeNormal hf, move_to_mk f t MoveTypeNormal hf ht]
  exact ⟨hmail, hft, fun _ hpt _ => absurd hpt hnp⟩

/-- A masked-out word has its mask bits clear. -/
theorem all_clear_of_land_zero (x mask s : Nat) (h : x &&& mask = 0)
    (hbit : mask.testBit s = true) : x.testBit s = false := by
  cases hx : x.testBit s
  · rfl
  · exfalso
    have hb : (x &&& mask).testBit s = true := by
      rw [Nat.testBit_land, hx, hbit]
      rfl
    rw [h, Nat.zero_testBit] at hb
    exact Bool.noConfusion hb

/-- The shared argument for the sliding and leaping piece families. -/
theorem piece_family_pre (b : Board) (f t pt : Nat)
    (hD : DataInv b) (hstm : b.sideToMove < 2)
    (hpt0 : ¬(pt = 0)) (hpt : pt < 6) (hf : f < 64) (ht : t < 64)
    (hfbit : (b.byColorType b.sideToMove pt).testBit f = true)
    (hnot : (bnot64 (b.byColor b.sideToMove)).testBit t = true) :
    MovePre b (mkMove f t MoveTypeNormal) := by
  have hmailf := mailbox_of_piecebit b hD b.sideToMove pt f hstm hpt hf hfbit
  have hqlt : (make_piece b.sideToMove pt : Nat) < 12 := by
    have harith : ∀ u p : Nat, u < 2 → p < 6 → u * 6 + p < 12 := by omega
    exact harith _ _ hstm hpt
  have hqc : (make_piece b.sideToMove pt : Nat) / 6 = b.sideToMove := by
    have harith : ∀ u p : Nat, u < 2 → p < 6 → (u * 6 + p) / 6 = u := by omega
    exact harith _ _ hstm hpt
  refine MovePre_normal2 b f t hf ht ?_ ?_ ?_
  · rw [hmailf]
    exact hqlt
  · exact ne_of_own b hD f t (make_piece b.sideToMove pt) hstm hf ht hqlt hqc hmailf hnot
  · rw [hmailf]
    show ¬((b.sideToMove * 6 + pt) % 6 = 0)
    have harith : ∀ u p : Nat, u < 2 → p < 6 → ¬(p = 0) → ¬((u * 6 + p) % 6 = 0) := by
      omega
    exact harith _ _ hstm hpt hpt0

/-- Every generated piece move satisfies the move preconditions. -/
theorem piece_moves_pre (b : Board) (m : Move)
    (hD : DataInv b) (hstm : b.sideToMove < 2) (hcr : CrOK b)
    (hm : m ∈ generate_piece_moves b) : MovePre b m := by
  simp only [generate_piece_moves, List.mem_append] at hm
  rcases hm with ((((hN | hB) | hR) | hQ) | hK) | hC
  · -- knights
    obtain ⟨f, hfmem, hmmem⟩ := (mem_foldr_append
      (fun f => List.map (mkMove f)
        (bbList (attacks.knight_attacks f &&& bnot64 (b.byColor b.sideToMove)))) _ m).mp hN
    obtain ⟨hf64, hfbit⟩ := mem_bbList.mp hfmem
    obtain ⟨t, htmem, hmEq⟩ := List.mem_map.mp hmmem
    obtain ⟨ht64, htbit⟩ := mem_bbList.mp htmem
    obtain ⟨_, hnot⟩ := land_bit _ _ _ htbit
    subst hmEq
    exact piece_family_pre b f t 1 hD hstm (by decide) (by decide) hf64 ht64 hfbit hnot
  · -- bishops
    obtain ⟨f, hfmem, hmmem⟩ := (mem_foldr_append
      (fun f => List.map (mkMove f)
        (bbList (attacks.bishop_attacks f b.all_pieces &&&
          bnot64 (b.byColor b.sideToMove)))) _ m).mp hB
    obtain ⟨hf64, hfbit⟩ := mem_bbList.mp hfmem
    obtain ⟨t, htmem, hmEq⟩ := List.mem_map.mp hmmem
    obtain ⟨ht64, htbit⟩ := mem_bbList.mp htmem
    obtain ⟨_, hnot⟩ := land_bit _ _ _ htbit
    subst hmEq
    exact piece_family_pre b f t 2 hD hstm (by decide) (by decide) hf64 ht64 hfbit hnot
  · -- rooks
    obtain ⟨f, hfmem, hmmem⟩ := (mem_foldr_append
      (fun f => List.map (mkMove f)
        (bbList (attacks.rook_attacks f b.all_pieces &&&
          bnot64 (b.byColor b.sideToMove)))) _ m).mp hR
    obtain ⟨hf64, hfbit⟩ := mem_bbList.mp hfmem
    obtain ⟨t, htmem, hmEq⟩ := List.mem_map.mp hmmem
    obtain ⟨ht64, htbit⟩ := mem_bbList.mp htmem
    obtain ⟨_, hnot⟩ := land_bit _ _ _ htbit
    subst hmEq
    exact piece_family_pre b f t 3 hD hstm (by decide) (by decide) hf64 ht64 hfbit hnot
  · -- queens
    obtain ⟨f, hfmem, hmmem⟩ := (mem_foldr_append
      (fun f => List.map (mkMove f)
        (bbList (attacks.queen_attacks f b.all_pieces &&&
          bnot64 (b.byColor b.sideToMove)))) _ m).mp hQ
    obtain ⟨hf64, hfbit⟩ := mem_bbList.mp hfmem
    obtain ⟨t, htmem, hmEq⟩ := List.mem_map.mp hmmem
    obtain ⟨ht64, htbit⟩ := mem_bbList.mp htmem
    obtain ⟨_, hnot⟩ := land_bit _ _ _ htbit
    subst hmEq
    exact piece_family_pre b f t 4 hD hstm (by decide) (by decide) hf64 ht64 hfbit hnot
  · -- king moves
    by_cases hkbb : b.byColorType b.sideToMove King = 0
    · rw [hkbb, show lsb 0 = 64 from rfl,
        show attacks.king_attacks 64 = 0 from by decide,
        Nat.zero_and, show bbList 0 = [] from by decide, List.map_nil] at hK
      exact absurd hK (List.not_mem_nil m)
    · have hkLt : b.byColorType b.sideToMove King < 2 ^ 64 := by
        refine hD.2.1 (b.sideToMove * 6 + 5) ?_
        have harith : ∀ u : Nat, u < 2 → u * 6 + 5 < 12 := by omega
        exact harith _ hstm
      have hkbit := testBit_lsb hkbb hkLt
      have hk64 := lsb_lt_64 hkbb hkLt
      obtain ⟨t, htmem, hmEq⟩ := List.mem_map.mp hK
      obtain ⟨ht64, htbit⟩ := mem_bbList.mp htmem
      obtain ⟨_, hnot⟩ := land_bit _ _ _ htbit
      subst hmEq
      exact piece_family_pre b (lsb (b.byColorType b.sideToMove King)) t 5 hD hstm
        (by decide) (by decide) hk64 ht64 hkbit hnot
  · -- castling
    rcases (show b.sideToMove = 0 ∨ b.sideToMove = 1 from by
      have h : ∀ x : Nat, x < 2 → x = 0 ∨ x = 1 := by omega
      exact h _ hstm) with hus | hus
    · rw [if_pos (show b.sideToMove = White from hus)] at hC
      rcases List.mem_append.mp hC with h | h
      · split_ifs at h with hcnd
        · rw [List.mem_singleton.mp h]
          simp only [MovePre]
          rw [move_type_mk E1 G1 MoveTypeCastling (by decide) (by decide) (by decide)]
          rw [if_neg (by decide), if_pos rfl]
          rw [move_from_mk E1 G1 MoveTypeCastling (by decide),
            move_to_mk E1 G1 MoveTypeCastling (by decide) (by decide)]
          refine Or.inl ⟨rfl, rfl, (hcr.1 hcnd.1).1, (hcr.1 hcnd.1).2, ?_, ?_⟩
          · exact empty_of_all_clear b hD F1 (by decide)
              (all_clear_of_land_zero _ _ _ hcnd.2.1 (by decide))
          · exact empty_of_all_clear b hD G1 (by decide)
              (all_clear_of_land_zero _ _ _ hcnd.2.1 (by decide))
        · exact absurd h (List.not_mem_nil m)
      · split_ifs at h with hcnd
        · rw [List.mem_singleton.mp h]
          simp only [MovePre]
          rw [move_type_mk E1 C1 MoveTypeCastling (by decide) (by decide) (by decide)]
          rw [if_neg (by decide), if_pos rfl]
          rw [move_from_mk E1 C1 MoveTypeCastling (by decide),
            move_to_mk E1 C1 MoveTypeCastling (by decide) (by decide)]
          refine Or.inr (Or.inl ⟨rfl, rfl, (hcr.2.1 hcnd.1).1, (hcr.2.1 hcnd.1).2, ?_, ?_⟩)
          · exact empty_of_all_clear b hD C1 (by decide)
              (all_clear_of_land_zero _ _ _ hcnd.2.1 (by decide))
          · exact empty_of_all_clear b hD D1 (by decide)
              (all_clear_of_land_zero _ _ _ hcnd.2.1 (by decide))
        · exact absurd h (List.not_mem_nil m)
    · rw [if_neg (show ¬(b.sideToMove = White) from by rw [hus]; decide)] at hC
      rcases List.mem_append.mp hC with h | h
      · split_ifs at h with hcnd
        · rw [List.mem_singleton.mp h]
          simp only [MovePre]
          rw [move_type_mk E8 G8 MoveTypeCastling (by decide) (by decide) (by decide)]
          rw [if_neg (by decide), if_pos rfl]
          rw [move_from_mk E8 G8 MoveTypeCastling (by decide),
            move_to_mk E8 G8 MoveTypeCastling (by decide) (by decide)]
          refine Or.inr (Or.inr (Or.inl
            ⟨rfl, rfl, (hcr.2.2.1 hcnd.1).1, (hcr.2.2.1 hcnd.1).2, ?_, ?_⟩))
          · exact empty_of_all_clear b hD F8 (by decide)
              (all_clear_of_land_zero _ _ _ hcnd.2.1 (by decide))
          · exact empty_of_all_clear b hD G8 (by decide)
              (all_clear_of_land_zero _ _ _ hcnd.2.1 (by decide))
        · exact absurd h (List.not_mem_nil m)
      · split_ifs at h with hcnd
        · rw [List.mem_singleton.mp h]
          simp only [MovePre]
          rw [move_type_mk E8 C8 MoveTypeCastling (by decide) (by decide) (by decide)]
          rw [if_neg (by decide), if_pos rfl]
          rw [move_from_mk E8 C8 MoveTypeCastling (by decide),
            move_to_mk E8 C8 MoveTypeCastling (by decide) (by decide)]
          refine Or.inr (Or.inr (Or.inr
            ⟨rfl, rfl, (hcr.2.2.2 hcnd.1).1, (hcr.2.2.2 hcnd.1).2, ?_, ?_⟩))
          · exact empty_of_all_clear b hD C8 (by decide)
              (all_clear_of_land_zero _ _ _ hcnd.2.1 (by decide))
          · exact empty_of_all_clear b hD D8 (by decide)
              (all_clear_of_land_zero _ _ _ hcnd.2.1 (by decide))
        · exact absurd h (List.not_mem_nil m)

/-- Every legal generated move satisfies the move preconditions. -/
theorem generate_legal_pre (b : Board) (m : Move)
    (hD : DataInv b) (hstm : b.sideToMove < 2) (hepo : EpOK b) (hcr : CrOK b)
    (hm : m ∈ generate_legal b) : MovePre b m := by
  have hpseudo : m ∈ generate_pawn_moves b ++ generate_piece_moves b := by
    have h := List.mem_filter.mp hm
    exact h.1
  rcases List.mem_append.mp hpseudo with h | h
  · rcases (show b.sideToMove = 0 ∨ b.sideToMove = 1 from by
      have hx : ∀ x : Nat, x < 2 → x = 0 ∨ x = 1 := by omega
      exact hx _ hstm) with hus | hus
    · exact pawn_moves_pre_white b m hD hepo hus h
    · exact pawn_moves_pre_black b m hD hepo hus h
  · exact piece_moves_pre b m hD hstm hcr h

/-- The piece fold of a board with empty bitboards. -/
theorem pieceHash_empty : Board.empty.hash = pieceHash Board.empty := by decide

/-- DataInv holds on the cleared board. -/
theorem DataInv_empty : DataInv Board.empty := by
  refine ⟨?_, ?_, ?_, ?_, ?_, ?_⟩
  · intro q t hq ht
    show (0 : Nat).testBit t = true ↔ (12 : Nat) = q
    rw [Nat.zero_testBit]
    constructor
    · intro hc
      exact Bool.noConfusion hc
    · intro hc
      omega
  · intro q _
    show (0 : Nat) < 2 ^ 64
    exact Nat.two_pow_pos 64
  · intro t _
    show (12 : Nat) < 13
    omega
  · intro c t _ _
    show (0 : Nat).testBit t = true ↔ ((12 : Nat) ≠ 12 ∧ piece_color 12 = c)
    rw [Nat.zero_testBit]
    constructor
    · intro hc
      exact Bool.noConfusion hc
    · rintro ⟨hc, -⟩
      exact absurd rfl hc
  · intro t _
    show (0 : Nat).testBit t = true ↔ ((12 : Nat) ≠ 12)
    rw [Nat.zero_testBit]
    constructor
    · intro hc
      exact Bool.noConfusion hc
    · intro hc
      exact absurd rfl hc
  · intro c _
    show (0 : Nat) < 2 ^ 64
    exact Nat.two_pow_pos 64

/-- put_piece XORs its key into the piece fold. -/
theorem pieceHash_put (c : Board) (p s : Nat) (hp : p < 12) (hs : s < 64)
    (hclear : (c.pieceBB p).testBit s = false) :
    pieceHash (c.put_piece p s) = pieceHash c ^^^ zobrist.pieceKeys p s := by
  show (List.range 12).foldl
      (fun h q => (bbList (Function.update c.pieceBB p (c.pieceBB p ||| square_bb s)
        q)).foldl (fun h2 u => h2 ^^^ zobrist.pieceKeys q u) h) 0 = _
  rw [square_bb_eq s hs, lor_eq_xor_of_clear _ _ hclear]
  exact pieceHash_toggle c.pieceBB p s hp hs

/-- The hash written by put_piece stays equal to the piece fold. -/
theorem phRel_put (c : Board) (p s : Nat) (hp : p < 12) (hs : s < 64)
    (hclear : (c.pieceBB p).testBit s = false) (hh : c.hash = pieceHash c) :
    (c.put_piece p s).hash = pieceHash (c.put_piece p s) := by
  rw [put_piece_hash, pieceHash_put c p s hp hs hclear, hh]

/-- The per-rank placement fold keeps the data invariants and the piece-fold
hash, given the squares it writes start empty. -/
theorem fold_files_inv (g : Board) (hgm : ∀ s : Nat, s < 64 → g.mailbox s < 13)
    (rk : Nat) (hrk : rk < 8) :
    ∀ (n f0 : Nat) (c : Board), f0 + n ≤ 8 →
      DataInv c → c.hash = pieceHash c →
      (∀ f2 : Nat, f0 ≤ f2 → f2 < 8 → c.mailbox (make_square f2 rk) = NoPiece) →
      DataInv ((List.range' f0 n).foldl
        (fun cc f =>
          if g.mailbox (make_square f rk) ≠ NoPiece then
            cc.put_piece (g.mailbox (make_square f rk)) (make_square f rk)
          else cc) c) ∧
      ((List.range' f0 n).foldl
        (fun cc f =>
          if g.mailbox (make_square f rk) ≠ NoPiece then
            cc.put_piece (g.mailbox (make_square f rk)) (make_square f rk)
          else cc) c).hash
        = pieceHash ((List.range' f0 n).foldl
          (fun cc f =>
            if g.mailbox (make_square f rk) ≠ NoPiece then
              cc.put_piece (g.mailbox (make_square f rk)) (make_square f rk)
            else cc) c) := by
  intro n
  induction n with
  | zero =>
    intro f0 c _ hD hh _
    rw [show List.range' f0 0 = [] from rfl, List.foldl_nil]
    exact ⟨hD, hh⟩
  | succ n ih =>
    intro f0 c hle hD hh hemp
    rw [List.range'_succ, List.foldl_cons]
    have hsq : (make_square f0 rk : Nat) < 64 := make_square_lt64 f0 rk (by omega) hrk
    by_cases hnp : g.mailbox (make_square f0 rk) = NoPiece
    · rw [if_neg (by simpa using hnp)]
      exact ih (f0 + 1) c (by omega) hD hh (fun f2 h1 h2 => hemp f2 (by omega) h2)
    · rw [if_pos hnp]
      have hp12 : (g.mailbox (make_square f0 rk) : Nat) < 12 := by
        have h13 := hgm _ hsq
        have harith : ∀ x : Nat, x < 13 → ¬(x = 12) → x < 12 := by omega
        exact harith _ h13 hnp
      have hempty : c.mailbox (make_square f0 rk) = NoPiece := hemp f0 (by omega) (by omega)
      have hclear : (c.pieceBB (g.mailbox (make_square f0 rk))).testBit
          (make_square f0 rk) = false :=
        bit_clear_of_empty c hD _ _ hp12 hsq hempty
      refine ih (f0 + 1) _ (by omega) (DataInv_put c _ _ hD hp12 hsq hempty)
        (phRel_put c _ _ hp12 hsq hclear hh) ?_
      intro f2 h1 h2
      rw [put_piece_mailbox]
      rw [if_neg ?hne]
      · exact hemp f2 (by omega) h2
      · show ¬((make_square f2 rk : Nat) = make_square f0 rk)
        show ¬(rk * 8 + f2 = rk * 8 + f0)
        omega

/-- The whole placement fold keeps the data invariants and the piece-fold
hash starting from an empty prefix of the board. -/
theorem fold_ranks_inv (g : Board) (hgm : ∀ s : Nat, s < 64 → g.mailbox s < 13) :
    ∀ (r : Nat), r < 8 → ∀ (c : Board),
      DataInv c → c.hash = pieceHash c →
      (∀ s : Nat, s < (r + 1) * 8 → c.mailbox s = NoPiece) →
      DataInv (((List.range (r + 1)).reverse).foldl
        (fun bb rk => (List.range' 0 8).foldl
          (fun cc f =>
            if g.mailbox (make_square f rk) ≠ NoPiece then
              cc.put_piece (g.mailbox (make_square f rk)) (make_square f rk)
            else cc) bb) c) ∧
      (((List.range (r + 1)).reverse).foldl
        (fun bb rk => (List.range' 0 8).foldl
          (fun cc f =>
            if g.mailbox (make_square f rk) ≠ NoPiece then
              cc.put_piece (g.mailbox (make_square f rk)) (make_square f rk)
            else cc) bb) c).hash
        = pieceHash (((List.range (r + 1)).reverse).foldl
          (fun bb rk => (List.range' 0 8).foldl
            (fun cc f =>
              if g.mailbox (make_square f rk) ≠ NoPiece then
                cc.put_piece (g.mailbox (make_square f rk)) (make_square f rk)
              else cc) bb) c) := by
  intro r
  induction r with
  | zero =>
    intro _ c hD hh hemp
    rw [show (List.range 1).reverse = [0] from rfl]
    simp only [List.foldl_cons, List.foldl_nil]
    exact fold_files_inv g hgm 0 (by omega) 8 0 c (by omega) hD hh
      (fun f2 _ h2 => hemp (make_square f2 0)
        (by show 0 * 8 + f2 < (0 + 1) * 8; omega))
  | succ r ihr =>
    intro hr8 c hD hh hemp
    rw [List.range_succ, List.reverse_append, List.reverse_singleton]
    simp only [List.singleton_append, List.foldl_cons]
    have hfirst := fold_files_inv g hgm (r + 1) (by omega) 8 0 c (by omega) hD hh
      (fun f2 _ h2 => hemp (make_square f2 (r + 1))
        (by show (r + 1) * 8 + f2 < (r + 1 + 1) * 8; omega))
    refine ihr (by omega) _ hfirst.1 hfirst.2 ?_
    intro s hs
    rw [fold_files_mailbox]
    rw [if_neg ?hc]
    · exact hemp s (by omega)
    · rintro ⟨h1, -, -⟩
      omega


/-- DataInv depends only on the three board-representation fields. -/
theorem DataInv_congr (x y : Board) (h1 : x.pieceBB = y.pieceBB)
    (h2 : x.occupancy = y.occupancy) (h3 : x.mailbox = y.mailbox)
    (hD : DataInv y) : DataInv x := by
  unfold DataInv
  rw [h1, h2, h3]
  exact hD

/-- The hash field assembled by set_fen matches a full recomputation. -/
theorem hashOK_of_parts (x bp : Board) (stmv castv epv : Nat)
    (hpb : x.pieceBB = bp.pieceBB)
    (hstm : x.sideToMove = stmv) (hcast : x.castling = castv) (hep : x.epSquare = epv)
    (hhash : x.hash = (if stmv = Black then
        (if epv ≠ NoSquare then
          bp.hash ^^^ zobrist.castlingKeys castv ^^^ zobrist.enPassantKeys (square_file epv)
         else bp.hash ^^^ zobrist.castlingKeys castv) ^^^ zobrist.sideKey
      else (if epv ≠ NoSquare then
          bp.hash ^^^ zobrist.castlingKeys castv ^^^ zobrist.enPassantKeys (square_file epv)
         else bp.hash ^^^ zobrist.castlingKeys castv)))
    (hph : bp.hash = pieceHash bp) :
    x.hash = x.compute_hash := by
  have hphx : pieceHash x = pieceHash bp := by
    unfold pieceHash
    rw [hpb]
  rw [compute_hash_eq, hhash, hstm, hcast, hep, hph, hphx]
  by_cases h1 : (epv : Nat) ≠ NoSquare <;> by_cases h2 : (stmv : Nat) = Black <;>
    simp [h1, h2, Nat.xor_assoc, Nat.xor_comm, xor_left_comm, Nat.xor_cancel_left,
      Nat.xor_self, Nat.xor_zero, Nat.zero_xor, Nat.xor_cancel_right]

set_option maxHeartbeats 2000000 in
/-- Loading a FEN printed from a chess-valid position produces a well-formed
board: the claim-C1 base case. -/
theorem set_fen_BoardOK (b0 : Board) (s : String)
    (h : ∃ g : Board, GoodBoard g ∧ g.to_fen = s) :
    BoardOK (b0.set_fen s) := by
  obtain ⟨g, ⟨hmail13, hstm2, hcast16, hepOK64, hepo, hcrok⟩, rfl⟩ := h
  have hcf := castle_facts g.castling hcast16
  have hepWS : ∀ c ∈ (if g.epSquare = NoSquare then ['-']
      else [Char.ofNat (97 + square_file g.epSquare),
            Char.ofNat (49 + square_rank g.epSquare)]), isWS c = false := by
    rcases hepOK64 with hns | hlt
    · rw [if_pos hns]
      intro c hc
      have hcd : c = '-' := by simpa using hc
      rw [hcd]
      decide
    · have hne : ¬(g.epSquare = NoSquare) := by
        intro hh2
        rw [hh2] at hlt
        exact absurd hlt (by decide)
      rw [if_neg hne]
      exact (ep_facts g.epSquare hlt).1
  have htoks := to_fen_tokens g (fenPlacementGo_noWS g 7 (by omega))
    (fenPlacementGo_ne_nil g 7 (by omega)) hcf.2.1 hcf.1 hepWS
  -- the parsed board and the parsed scalar fields
  have hmb : (b0.set_fen g.to_fen).mailbox
      = (parsePlacementChars (fenPlacementGo g 7) 7 0 Board.empty).mailbox := by
    simp only [Board.set_fen, htoks, readTok]
  have hpbb : (b0.set_fen g.to_fen).pieceBB
      = (parsePlacementChars (fenPlacementGo g 7) 7 0 Board.empty).pieceBB := by
    simp only [Board.set_fen, htoks, readTok]
  have hocc : (b0.set_fen g.to_fen).occupancy
      = (parsePlacementChars (fenPlacementGo g 7) 7 0 Board.empty).occupancy := by
    simp only [Board.set_fen, htoks, readTok]
  have hstm : (b0.set_fen g.to_fen).sideToMove
      = (if [if g.sideToMove = White then 'w' else 'b'] = ['b'] then Black else White) := by
    simp only [Board.set_fen, htoks, readTok]
  have hstmg : (b0.set_fen g.to_fen).sideToMove = g.sideToMove := by
    rw [hstm]
    rcases (show g.sideToMove = 0 ∨ g.sideToMove = 1 from by
      have hx : ∀ x : Nat, x < 2 → x = 0 ∨ x = 1 := by omega
      exact hx _ hstm2) with hu | hu
    · rw [hu, if_pos (show (0 : Nat) = White from rfl), if_neg (by decide)]
      rfl
    · rw [hu, if_neg (show ¬((1 : Nat) = White) by decide), if_pos rfl]
      rfl
  have hcastl : (b0.set_fen g.to_fen).castling = g.castling := by
    simp only [Board.set_fen, htoks, readTok]
    exact hcf.2.2
  have hepEq : (b0.set_fen g.to_fen).epSquare = g.epSquare := by
    simp only [Board.set_fen, htoks, readTok]
    rcases hepOK64 with hns | hlt
    · rw [if_pos hns, if_neg (by simp)]
      exact hns.symm
    · have hne : ¬(g.epSquare = NoSquare) := by
        intro hh2
        rw [hh2] at hlt
        exact absurd hlt (by decide)
      rw [if_neg hne]
      rw [if_pos ⟨(ep_facts g.epSquare hlt).2.1, by simp⟩]
      exact (ep_facts g.epSquare hlt).2.2
  -- the parsed placement board characterization
  have hb0 : parsePlacementChars (fenPlacementGo g 7) 7 0 Board.empty
      = ((List.range 8).reverse).foldl
          (fun bb rk => (List.range' 0 8).foldl
            (fun cc f =>
              if g.mailbox (make_square f rk) ≠ NoPiece then
                cc.put_piece (g.mailbox (make_square f rk)) (make_square f rk)
              else cc) bb) Board.empty := by
    have h := parse_placement g hmail13 7 (by omega) Board.empty []
    rw [List.append_nil, Nat.cast_ofNat] at h
    rw [h]
    rfl
  have hinv := fold_ranks_inv g hmail13 7 (by omega) Board.empty DataInv_empty
    pieceHash_empty (fun s _ => rfl)
  rw [← hb0] at hinv
  -- mailbox agreement with the source position
  have hmail64 : ∀ sq : Nat, sq < 64 → (b0.set_fen g.to_fen).mailbox sq = g.mailbox sq := by
    intro sq hsq
    rw [hmb, hb0]
    rw [fold_ranks_mailbox g 7 (by omega) Board.empty sq]
    by_cases hnp : g.mailbox sq = NoPiece
    · rw [if_neg (fun hc => hc.2 hnp)]
      exact hnp.symm
    · rw [if_pos ⟨by omega, hnp⟩]
  refine ⟨?_, ?_, ?_, ?_, ?_⟩
  · exact DataInv_congr _ _ hpbb hocc hmb hinv.1
  · rw [hstmg]
    exact hstm2
  · -- en-passant invariant transported from the source position
    intro hne
    rw [hepEq] at hne
    have hg := hepo hne
    have he64 : (g.epSquare : Nat) < 64 := by
      rcases hepOK64 with hns | hlt
      · exact absurd hns hne
      · exact hlt
    constructor
    · intro hw
      rw [hstmg] at hw
      obtain ⟨hr, hm1, hm2⟩ := hg.1 hw
      have he8 : (g.epSquare : Nat) - 8 < 64 := by
        have harith : ∀ E : Nat, E < 64 → E - 8 < 64 := by omega
        exact harith _ he64
      refine ⟨by rw [hepEq]; exact hr, ?_, ?_⟩
      · rw [hepEq, hmail64 g.epSquare he64]
        exact hm1
      · rw [hepEq, hmail64 (g.epSquare - 8) he8]
        exact hm2
    · intro hbk
      rw [hstmg] at hbk
      obtain ⟨hr, hm1, hm2⟩ := hg.2 hbk
      have harith : ∀ E : Nat, E / 8 = 2 → E + 8 < 64 := by omega
      have he8 : (g.epSquare : Nat) + 8 < 64 := harith _ hr
      refine ⟨by rw [hepEq]; exact hr, ?_, ?_⟩
      · rw [hepEq, hmail64 g.epSquare he64]
        exact hm1
      · rw [hepEq, hmail64 (g.epSquare + 8) he8]
        exact hm2
  · -- castling invariant transported from the source position
    refine ⟨?_, ?_, ?_, ?_⟩
    · intro hbit
      rw [hcastl] at hbit
      rw [hmail64 E1 (by decide), hmail64 H1 (by decide)]
      exact hcrok.1 hbit
    · intro hbit
      rw [hcastl] at hbit
      rw [hmail64 E1 (by decide), hmail64 A1 (by decide)]
      exact hcrok.2.1 hbit
    · intro hbit
      rw [hcastl] at hbit
      rw [hmail64 E8 (by decide), hmail64 H8 (by decide)]
      exact hcrok.2.2.1 hbit
    · intro hbit
      rw [hcastl] at hbit
      rw [hmail64 E8 (by decide), hmail64 A8 (by decide)]
      exact hcrok.2.2.2 hbit
  · -- incremental hash equals the recomputation
    refine hashOK_of_parts (b0.set_fen g.to_fen)
      (parsePlacementChars (fenPlacementGo g 7) 7 0 Board.empty) _ _ _ hpbb hstm hcastl
      hepEq ?_ hinv.2
    simp only [Board.set_fen, htoks, readTok]
    rw [hcf.2.2]
    rcases hepOK64 with hns | hlt
    · rw [if_pos hns,
        if_neg (show ¬((['-'] : List Char) ≠ ['-'] ∧ (['-'] : List Char).length = 2) by simp),
        hns]
    · have hne : ¬(g.epSquare = NoSquare) := by
        intro hh2
        rw [hh2] at hlt
        exact absurd hlt (by decide)
      rw [if_neg hne,
        if_pos (show ([Char.ofNat (97 + square_file g.epSquare),
              Char.ofNat (49 + square_rank g.epSquare)] ≠ ['-'] ∧
            [Char.ofNat (97 + square_file g.epSquare),
              Char.ofNat (49 + square_rank g.epSquare)].length = 2)
          from ⟨(ep_facts g.epSquare hlt).2.1, by simp⟩),
        (ep_facts g.epSquare hlt).2.2]

/-- Playing out a legal move sequence from a well-formed board keeps the
board well-formed: the inductive step of claim C1. -/
theorem playMoves_BoardOK (ms : List Move) :
    ∀ b : Board, BoardOK b → LegalSeq b ms → BoardOK (playMoves b ms) := by
  induction ms with
  | nil => intro b hOK _; exact hOK
  | cons m ms ih =>
    intro b hOK hls
    obtain ⟨hm, hrest⟩ := hls
    exact ih (b.make_move m)
      (make_move_BoardOK b m hOK
        (generate_legal_pre b m hOK.1 hOK.2.1 hOK.2.2.1 hOK.2.2.2.1 hm))
      hrest

/-- C1: loading a valid FEN (one printed from a chess-valid position) with
set_fen and then applying any sequence of legal moves with make_move leaves
the incrementally maintained Zobrist hash equal to a full recomputation by
compute_hash. -/
theorem C1_zobrist_incremental (b0 : Board) (fen : String) (ms : List Move)
    (hfen : ∃ g : Board, GoodBoard g ∧ g.to_fen = fen)
    (hms : LegalSeq (b0.set_fen fen) ms) :
    (playMoves (b0.set_fen fen) ms).hash
      = (playMoves (b0.set_fen fen) ms).compute_hash :=
  (playMoves_BoardOK ms (b0.set_fen fen) (set_fen_BoardOK b0 fen hfen) hms).2.2.2.2

/-- Witness for C1 at the start position FEN with the empty move list. -/
theorem C1_zobrist_incremental_witness :
    (∃ g : Board, GoodBoard g ∧ g.to_fen = StartFEN) ∧
    LegalSeq (Board.empty.set_fen StartFEN) [] ∧
    (playMoves (Board.empty.set_fen StartFEN) []).hash
      = (playMoves (Board.empty.set_fen StartFEN) []).compute_hash :=
  ⟨⟨Board.empty.set_fen StartFEN,
      ⟨by decide, by decide, by decide, by decide,
        fun h => absurd (by decide) h, by
          refine ⟨?_, ?_, ?_, ?_⟩ <;> · intro h; exact ⟨by decide, by decide⟩⟩,
      by decide⟩,
    trivial,
    C1_zobrist_incremental Board.empty StartFEN []
      ⟨Board.empty.set_fen StartFEN,
        ⟨by decide, by decide, by decide, by decide,
          fun h => absurd (by decide) h, by
            refine ⟨?_, ?_, ?_, ?_⟩ <;> · intro h; exact ⟨by decide, by decide⟩⟩,
        by decide⟩
      trivial⟩

/-- Setting a bit by OR after clearing it by XOR is the identity on a word
with the bit set. -/
theorem xor_or_cancel (v s : Nat) (hv : v.testBit s = true) :
    (v ^^^ 2 ^ s) ||| 2 ^ s = v := by
  apply Nat.eq_of_testBit_eq
  intro j
  rw [Nat.testBit_or, Nat.testBit_xor, Nat.testBit_two_pow]
  by_cases hj : s = j
  · subst hj
    simp [hv]
  · simp [hj]

/-- Clearing a bit by XOR after setting it by OR is the identity on a word
with the bit clear. -/
theorem or_xor_cancel (v s : Nat) (hv : v.testBit s = false) :
    (v ||| 2 ^ s) ^^^ 2 ^ s = v := by
  apply Nat.eq_of_testBit_eq
  intro j
  rw [Nat.testBit_xor, Nat.testBit_or, Nat.testBit_two_pow]
  by_cases hj : s = j
  · subst hj
    simp [hv]
  · simp [hj]

/-- Boards agreeing in every field are equal. -/
theorem board_eq_of_fields (x y : Board)
    (h1 : x.pieceBB = y.pieceBB) (h2 : x.occupancy = y.occupancy)
    (h3 : x.mailbox = y.mailbox) (h4 : x.sideToMove = y.sideToMove)
    (h5 : x.castling = y.castling) (h6 : x.epSquare = y.epSquare)
    (h7 : x.halfmoveClock = y.halfmoveClock)
    (h8 : x.fullmoveNumber = y.fullmoveNumber) (h9 : x.hash = y.hash) : x = y := by
  cases x
  cases y
  dsimp only at h1 h2 h3 h4 h5 h6 h7 h8 h9
  subst h1 h2 h3 h4 h5 h6 h7 h8 h9
  rfl

/-- DataEq is transitive. -/
theorem DataEq_trans (x y z : Board) (h : DataEq x y) (g : DataEq y z) : DataEq x z :=
  ⟨h.1.trans g.1, h.2.1.trans g.2.1, h.2.2.trans g.2.2⟩

/-- put_piece respects DataEq. -/
theorem put_piece_DataEq (x y : Board) (p s : Nat) (h : DataEq x y) :
    DataEq (x.put_piece p s) (y.put_piece p s) := by
  obtain ⟨h1, h2, h3⟩ := h
  simp only [Board.put_piece]
  exact ⟨by rw [h1], by rw [h2], by rw [h3]⟩

/-- remove_piece respects DataEq. -/
theorem remove_piece_DataEq (x y : Board) (s : Nat) (h : DataEq x y) :
    DataEq (x.remove_piece s) (y.remove_piece s) := by
  obtain ⟨h1, h2, h3⟩ := h
  simp only [Board.remove_piece]
  exact ⟨by rw [h1, h3], by rw [h2, h3], by rw [h3]⟩

/-- remove_piece written out explicitly once the removed piece is known. -/
theorem remove_piece_explicit (x : Board) (s p : Nat) (hmb : x.mailbox s = p) :
    x.remove_piece s
      = { x with
          pieceBB := Function.update x.pieceBB p (x.pieceBB p ^^^ square_bb s)
          occupancy := Function.update
            (Function.update x.occupancy (piece_color p)
              (x.occupancy (piece_color p) ^^^ square_bb s)) 2
            ((Function.update x.occupancy (piece_color p)
              (x.occupancy (piece_color p) ^^^ square_bb s)) 2 ^^^ square_bb s)
          mailbox := Function.update x.mailbox s NoPiece
          hash := x.hash ^^^ zobrist.pieceKeys p s } := by
  subst hmb
  rfl

/-- The occupancy double update of remove followed by that of put cancels. -/
theorem update_occ_cancel_rp (O : Nat → Bitboard) (c B : Nat) (hc : ¬(c = 2))
    (hvc : (O c ^^^ B) ||| B = O c) (hv2 : (O 2 ^^^ B) ||| B = O 2) :
    (let R1 := Function.update O c (O c ^^^ B)
     let R2 := Function.update R1 2 (R1 2 ^^^ B)
     let P1 := Function.update R2 c (R2 c ||| B)
     Function.update P1 2 (P1 2 ||| B)) = O := by
  have hc' : (2 : Nat) ≠ c := fun h => hc h.symm
  dsimp only
  rw [Function.update_noteq hc', Function.update_noteq hc, Function.update_same,
    hvc, Function.update_noteq hc', Function.update_same, hv2]
  funext i
  by_cases hi2 : i = 2
  · subst hi2
    rw [Function.update_same]
  · rw [Function.update_noteq hi2]
    by_cases hic : i = c
    · subst hic
      rw [Function.update_same]
    · rw [Function.update_noteq hic, Function.update_noteq hi2, Function.update_noteq hic]

/-- The occupancy double update of put followed by that of remove cancels. -/
theorem update_occ_cancel_pr (O : Nat → Bitboard) (c B : Nat) (hc : ¬(c = 2))
    (hvc : (O c ||| B) ^^^ B = O c) (hv2 : (O 2 ||| B) ^^^ B = O 2) :
    (let R1 := Function.update O c (O c ||| B)
     let R2 := Function.update R1 2 (R1 2 ||| B)
     let P1 := Function.update R2 c (R2 c ^^^ B)
     Function.update P1 2 (P1 2 ^^^ B)) = O := by
  have hc' : (2 : Nat) ≠ c := fun h => hc h.symm
  dsimp only
  rw [Function.update_noteq hc', Function.update_noteq hc, Function.update_same,
    hvc, Function.update_noteq hc', Function.update_same, hv2]
  funext i
  by_cases hi2 : i = 2
  · subst hi2
    rw [Function.update_same]
  · rw [Function.update_noteq hi2]
    by_cases hic : i = c
    · subst hic
      rw [Function.update_same]
    · rw [Function.update_noteq hic, Function.update_noteq hi2, Function.update_noteq hic]

/-- Removing a piece and putting it back restores the placement data. -/
theorem remove_put_cancel (x : Board) (p s : Nat) (hD : DataInv x)
    (hs : s < 64) (hp : (p : Nat) < 12) (hmb : x.mailbox s = p) :
    DataEq ((x.remove_piece s).put_piece p s) x := by
  obtain ⟨h1, h2, h3, h4, h5, h6⟩ := hD
  have hc2 : (piece_color p : Nat) < 2 := by
    have harith : ∀ q : Nat, q < 12 → q / 6 < 2 := by omega
    exact harith p hp
  have hcne2 : ¬((piece_color p : Nat) = 2) := by
    have harith : ∀ q : Nat, q < 2 → ¬(q = 2) := by omega
    exact harith _ hc2
  have hpne : (p : Nat) ≠ NoPiece := by
    have harith : ∀ q : Nat, q < 12 → ¬(q = 12) := by omega
    exact harith p hp
  have hbb : (x.pieceBB p).testBit s = true := (h1 p s hp hs).mpr hmb
  have hoccc : (x.occupancy (piece_color p)).testBit s = true := by
    refine (h4 (piece_color p) s hc2 hs).mpr ⟨?_, ?_⟩
    · rw [hmb]; exact hpne
    · rw [hmb]
  have hocc2 : (x.occupancy 2).testBit s = true := by
    refine (h5 s hs).mpr ?_
    rw [hmb]
    exact hpne
  rw [remove_piece_explicit x s p hmb]
  simp only [Board.put_piece, square_bb_eq s hs]
  refine ⟨?_, ?_, ?_⟩
  · show Function.update (Function.update x.pieceBB p (x.pieceBB p ^^^ 2 ^ s)) p
        ((Function.update x.pieceBB p (x.pieceBB p ^^^ 2 ^ s)) p ||| 2 ^ s) = x.pieceBB
    rw [Function.update_same, Function.update_idem, xor_or_cancel _ _ hbb,
      Function.update_eq_self]
  · exact update_occ_cancel_rp x.occupancy (piece_color p) (2 ^ s) hcne2
      (xor_or_cancel _ _ hoccc) (xor_or_cancel _ _ hocc2)
  · show Function.update (Function.update x.mailbox s NoPiece) s p = x.mailbox
    rw [Function.update_idem, ← hmb, Function.update_eq_self]

/-- Putting a piece on an empty square and removing it again restores the
placement data. -/
theorem put_remove_cancel (x : Board) (p s : Nat) (hD : DataInv x)
    (hs : s < 64) (hp : (p : Nat) < 12) (hmb : x.mailbox s = NoPiece) :
    DataEq ((x.put_piece p s).remove_piece s) x := by
  have hbb : (x.pieceBB p).testBit s = false := bit_clear_of_empty x hD p s hp hs hmb
  obtain ⟨h1, h2, h3, h4, h5, h6⟩ := hD
  have hc2 : (piece_color p : Nat) < 2 := by
    have harith : ∀ q : Nat, q < 12 → q / 6 < 2 := by omega
    exact harith p hp
  have hcne2 : ¬((piece_color p : Nat) = 2) := by
    have harith : ∀ q : Nat, q < 2 → ¬(q = 2) := by omega
    exact harith _ hc2
  have hoccc : (x.occupancy (piece_color p)).testBit s = false := by
    cases hbit : (x.occupancy (piece_color p)).testBit s
    · rfl
    · exact absurd (((h4 (piece_color p) s hc2 hs).mp hbit).1) (by rw [hmb]; simp)
  have hocc2 : (x.occupancy 2).testBit s = false := by
    cases hbit : (x.occupancy 2).testBit s
    · rfl
    · exact absurd ((h5 s hs).mp hbit) (by rw [hmb]; simp)
  have hmb2 : (x.put_piece p s).mailbox s = p := by
    rw [put_piece_mailbox, if_pos rfl]
  rw [remove_piece_explicit (x.put_piece p s) s p hmb2]
  simp only [Board.put_piece, square_bb_eq s hs]
  refine ⟨?_, ?_, ?_⟩
  · show Function.update (Function.update x.pieceBB p (x.pieceBB p ||| 2 ^ s)) p
        ((Function.update x.pieceBB p (x.pieceBB p ||| 2 ^ s)) p ^^^ 2 ^ s) = x.pieceBB
    rw [Function.update_same, Function.update_idem, or_xor_cancel _ _ hbb,
      Function.update_eq_self]
  · exact update_occ_cancel_pr x.occupancy (piece_color p) (2 ^ s) hcne2
      (or_xor_cancel _ _ hoccc) (or_xor_cancel _ _ hocc2)
  · show Function.update (Function.update x.mailbox s p) s NoPiece = x.mailbox
    rw [Function.update_idem, ← hmb, Function.update_eq_self]

/-- The undo record filled by make_move_undo: the made board and the
restored scalar fields. -/
theorem make_move_undo_fields (b : Board) (m : Move) :
    (b.make_move_undo m).1 = b.make_move m ∧
    (b.make_move_undo m).2.moved = b.mailbox (move_from m) ∧
    (b.make_move_undo m).2.sideToMove = b.sideToMove ∧
    (b.make_move_undo m).2.castling = b.castling ∧
    (b.make_move_undo m).2.epSquare = b.epSquare ∧
    (b.make_move_undo m).2.halfmoveClock = b.halfmoveClock ∧
    (b.make_move_undo m).2.fullmoveNumber = b.fullmoveNumber ∧
    (b.make_move_undo m).2.hash = b.hash :=
  ⟨rfl, rfl, rfl, rfl, rfl, rfl, rfl, rfl⟩

/-- The captured piece recorded for a move that is not en passant. -/
theorem make_move_undo_captured (b : Board) (m : Move)
    (hmt : ¬(move_type m = MoveTypeEnPassant)) :
    (b.make_move_undo m).2.captured = b.mailbox (move_to m) ∧
    (b.make_move_undo m).2.capturedSquare = move_to m := by
  unfold Board.make_move_undo
  dsimp only
  rw [if_neg hmt]
  exact ⟨rfl, rfl⟩

/-- The captured piece recorded for an en-passant move. -/
theorem make_move_undo_captured_ep (b : Board) (m : Move)
    (hmt : move_type m = MoveTypeEnPassant) :
    (b.make_move_undo m).2.captured
      = b.mailbox (make_square (square_file (move_to m)) (square_rank (move_from m))) ∧
    (b.make_move_undo m).2.capturedSquare
      = make_square (square_file (move_to m)) (square_rank (move_from m)) := by
  unfold Board.make_move_undo
  dsimp only
  rw [if_pos hmt]
  exact ⟨rfl, rfl⟩

/-- unmake_move on a non-castling move, staged. -/
theorem unmake_move_nonCastle_eq (b : Board) (m : Move) (u : UndoInfo)
    (hmt : ¬(move_type m = MoveTypeCastling)) :
    b.unmake_move m u
      = restoreMeta
          (if u.captured ≠ NoPiece then
            ((b.remove_piece (move_to m)).put_piece u.moved (move_from m)).put_piece
              u.captured u.capturedSquare
          else ((b.remove_piece (move_to m)).put_piece u.moved (move_from m))) u := by
  unfold Board.unmake_move
  dsimp only
  rw [if_neg hmt]
  by_cases hc : u.captured ≠ NoPiece
  · rw [if_pos hc]
    rfl
  · rw [if_neg hc]
    rfl

/-- unmake_move on a kingside castling move, staged. -/
theorem unmake_move_castleK_eq (b : Board) (m : Move) (u : UndoInfo)
    (hmt : move_type m = MoveTypeCastling) (hks : move_from m < move_to m) :
    b.unmake_move m u
      = restoreMeta
          ((((b.remove_piece (make_square 5 (square_rank (move_from m)))).put_piece
              (b.mailbox (make_square 5 (square_rank (move_from m))))
              (make_square 7 (square_rank (move_from m)))).remove_piece
              (move_to m)).put_piece u.moved (move_from m)) u := by
  unfold Board.unmake_move
  dsimp only
  rw [if_pos hmt]
  simp only [decide_eq_true hks, if_true]
  rfl

/-- unmake_move on a queenside castling move, staged. -/
theorem unmake_move_castleQ_eq (b : Board) (m : Move) (u : UndoInfo)
    (hmt : move_type m = MoveTypeCastling) (hks : ¬(move_from m < move_to m)) :
    b.unmake_move m u
      = restoreMeta
          ((((b.remove_piece (make_square 3 (square_rank (move_from m)))).put_piece
              (b.mailbox (make_square 3 (square_rank (move_from m))))
              (make_square 0 (square_rank (move_from m)))).remove_piece
              (move_to m)).put_piece u.moved (move_from m)) u := by
  unfold Board.unmake_move
  dsimp only
  rw [if_pos hmt]
  simp only [decide_eq_false hks, Bool.false_eq_true, if_false]
  rfl

/-- restoreMeta of a board with b's placement data and scalar fields taken
from an undo record holding b's scalar state is b itself. -/
theorem restoreMeta_restores (b z : Board) (u : UndoInfo)
    (hd : DataEq z b)
    (h4 : u.sideToMove = b.sideToMove) (h5 : u.castling = b.castling)
    (h6 : u.epSquare = b.epSquare) (h7 : u.halfmoveClock = b.halfmoveClock)
    (h8 : u.fullmoveNumber = b.fullmoveNumber) (h9 : u.hash = b.hash) :
    restoreMeta z u = b :=
  board_eq_of_fields _ b hd.1 hd.2.1 hd.2.2 h4 h5 h6 h7 h8 h9

/-- Undoing the quiet-move piece updates restores the placement data. -/
theorem unmake_data_quiet (b b2 : Board) (f t P : Nat) (hD : DataInv b)
    (hf : f < 64) (ht : t < 64) (hP : (P : Nat) < 12)
    (hmf : (b.mailbox f : Nat) < 12) (hne : ¬(t = f))
    (hempty : b.mailbox t = NoPiece)
    (hb2 : DataEq b2 (((hashOutCE b).remove_piece f).put_piece P t)) :
    DataEq ((b2.remove_piece t).put_piece (b.mailbox f) f) b := by
  have hXD : DataInv (hashOutCE b) := DataInv_hashOutCE b hD
  have hXm : (hashOutCE b).mailbox = b.mailbox := (hashOutCE_fields b).2.2.1
  have hD1 : DataInv ((hashOutCE b).remove_piece f) :=
    DataInv_remove _ f hXD hf (by rw [hXm]; exact hmf)
  have hm1t : ((hashOutCE b).remove_piece f).mailbox t = NoPiece := by
    rw [remove_piece_mailbox, if_neg hne, hXm]
    exact hempty
  have step1 : DataEq ((((hashOutCE b).remove_piece f).put_piece P t).remove_piece t)
      ((hashOutCE b).remove_piece f) :=
    put_remove_cancel _ P t hD1 ht hP hm1t
  have step2 : DataEq (((hashOutCE b).remove_piece f).put_piece (b.mailbox f) f)
      (hashOutCE b) :=
    remove_put_cancel (hashOutCE b) (b.mailbox f) f hXD hf hmf (by rw [hXm])
  have c1 := remove_piece_DataEq _ _ t hb2
  have c2 := DataEq_trans _ _ _ c1 step1
  have c3 := put_piece_DataEq _ _ (b.mailbox f) f c2
  have c4 := DataEq_trans _ _ _ c3 step2
  exact DataEq_trans _ _ _ c4 ⟨rfl, rfl, rfl⟩

/-- Undoing the capture-move piece updates restores the placement data. -/
theorem unmake_data_capture (b b2 : Board) (f t P : Nat) (hD : DataInv b)
    (hf : f < 64) (ht : t < 64) (hP : (P : Nat) < 12)
    (hmf : (b.mailbox f : Nat) < 12) (hmt : (b.mailbox t : Nat) < 12)
    (hne : ¬(f = t))
    (hb2 : DataEq b2 ((((hashOutCE b).remove_piece t).remove_piece f).put_piece P t)) :
    DataEq (((b2.remove_piece t).put_piece (b.mailbox f) f).put_piece (b.mailbox t) t) b := by
  have hXD : DataInv (hashOutCE b) := DataInv_hashOutCE b hD
  have hXm : (hashOutCE b).mailbox = b.mailbox := (hashOutCE_fields b).2.2.1
  have hD1 : DataInv ((hashOutCE b).remove_piece t) :=
    DataInv_remove _ t hXD ht (by rw [hXm]; exact hmt)
  have hm1f : ((hashOutCE b).remove_piece t).mailbox f = b.mailbox f := by
    rw [remove_piece_mailbox, if_neg hne, hXm]
  have hD2 : DataInv (((hashOutCE b).remove_piece t).remove_piece f) :=
    DataInv_remove _ f hD1 hf (by rw [hm1f]; exact hmf)
  have hm2t : (((hashOutCE b).remove_piece t).remove_piece f).mailbox t = NoPiece := by
    rw [remove_piece_mailbox, if_neg (fun h => hne h.symm), remove_piece_mailbox, if_pos rfl]
  have step1 : DataEq
      (((((hashOutCE b).remove_piece t).remove_piece f).put_piece P t).remove_piece t)
      (((hashOutCE b).remove_piece t).remove_piece f) :=
    put_remove_cancel _ P t hD2 ht hP hm2t
  have step2 : DataEq ((((hashOutCE b).remove_piece t).remove_piece f).put_piece
        (b.mailbox f) f)
      ((hashOutCE b).remove_piece t) :=
    remove_put_cancel _ (b.mailbox f) f hD1 hf hmf hm1f
  have step3 : DataEq (((hashOutCE b).remove_piece t).put_piece (b.mailbox t) t)
      (hashOutCE b) :=
    remove_put_cancel _ (b.mailbox t) t hXD ht hmt (by rw [hXm])
  have c1 := remove_piece_DataEq _ _ t hb2
  have c2 := DataEq_trans _ _ _ c1 step1
  have c3 := put_piece_DataEq _ _ (b.mailbox f) f c2
  have c4 := DataEq_trans _ _ _ c3 step2
  have c5 := put_piece_DataEq _ _ (b.mailbox t) t c4
  have c6 := DataEq_trans _ _ _ c5 step3
  exact DataEq_trans _ _ _ c6 ⟨rfl, rfl, rfl⟩

/-- Undoing the en-passant piece updates restores the placement data. -/
theorem unmake_data_ep (b b2 : Board) (f t cs : Nat) (hD : DataInv b)
    (hf : f < 64) (ht : t < 64) (hcs : cs < 64)
    (hmf : (b.mailbox f : Nat) < 12) (hmcs : (b.mailbox cs : Nat) < 12)
    (hemptyT : b.mailbox t = NoPiece)
    (htf : ¬(t = f)) (htcs : ¬(t = cs)) (hfcs : ¬(f = cs))
    (hb2 : DataEq b2 ((((hashOutCE b).remove_piece cs).remove_piece f).put_piece
      (b.mailbox f) t)) :
    DataEq (((b2.remove_piece t).put_piece (b.mailbox f) f).put_piece (b.mailbox cs) cs)
      b := by
  have hXD : DataInv (hashOutCE b) := DataInv_hashOutCE b hD
  have hXm : (hashOutCE b).mailbox = b.mailbox := (hashOutCE_fields b).2.2.1
  have hD1 : DataInv ((hashOutCE b).remove_piece cs) :=
    DataInv_remove _ cs hXD hcs (by rw [hXm]; exact hmcs)
  have hm1f : ((hashOutCE b).remove_piece cs).mailbox f = b.mailbox f := by
    rw [remove_piece_mailbox, if_neg hfcs, hXm]
  have hD2 : DataInv (((hashOutCE b).remove_piece cs).remove_piece f) :=
    DataInv_remove _ f hD1 hf (by rw [hm1f]; exact hmf)
  have hm2t : (((hashOutCE b).remove_piece cs).remove_piece f).mailbox t = NoPiece := by
    rw [remove_piece_mailbox, if_neg htf, remove_piece_mailbox, if_neg htcs, hXm]
    exact hemptyT
  have step1 : DataEq
      (((((hashOutCE b).remove_piece cs).remove_piece f).put_piece (b.mailbox f) t).remove_piece t)
      (((hashOutCE b).remove_piece cs).remove_piece f) :=
    put_remove_cancel _ (b.mailbox f) t hD2 ht hmf hm2t
  have step2 : DataEq ((((hashOutCE b).remove_piece cs).remove_piece f).put_piece
        (b.mailbox f) f)
      ((hashOutCE b).remove_piece cs) :=
    remove_put_cancel _ (b.mailbox f) f hD1 hf hmf hm1f
  have step3 : DataEq (((hashOutCE b).remove_piece cs).put_piece (b.mailbox cs) cs)
      (hashOutCE b) :=
    remove_put_cancel _ (b.mailbox cs) cs hXD hcs hmcs (by rw [hXm])
  have c1 := remove_piece_DataEq _ _ t hb2
  have c2 := DataEq_trans _ _ _ c1 step1
  have c3 := put_piece_DataEq _ _ (b.mailbox f) f c2
  have c4 := DataEq_trans _ _ _ c3 step2
  have c5 := put_piece_DataEq _ _ (b.mailbox cs) cs c4
  have c6 := DataEq_trans _ _ _ c5 step3
  exact DataEq_trans _ _ _ c6 ⟨rfl, rfl, rfl⟩

/-- Undoing the castling piece updates restores the placement data. -/
theorem unmake_data_castle (b b2 : Board) (f t rf rt : Nat) (hD : DataInv b)
    (hf : f < 64) (ht : t < 64) (hrf : rf < 64) (hrt : rt < 64)
    (hking : (b.mailbox f : Nat) < 12) (hrook : (b.mailbox rf : Nat) < 12)
    (hemptyT : b.mailbox t = NoPiece) (hemptyRT : b.mailbox rt = NoPiece)
    (htf : ¬(t = f)) (hrff : ¬(rf = f)) (hrft : ¬(rf = t))
    (hrtf : ¬(rt = f)) (hrtt : ¬(rt = t)) (hrtrf : ¬(rt = rf))
    (hb2 : DataEq b2 (((((hashOutCE b).remove_piece f).put_piece (b.mailbox f) t).remove_piece
      rf).put_piece (b.mailbox rf) rt)) :
    DataEq ((((b2.remove_piece rt).put_piece (b.mailbox rf) rf).remove_piece t).put_piece
      (b.mailbox f) f) b := by
  have hXD : DataInv (hashOutCE b) := DataInv_hashOutCE b hD
  have hXm : (hashOutCE b).mailbox = b.mailbox := (hashOutCE_fields b).2.2.1
  have hD0 : DataInv ((hashOutCE b).remove_piece f) :=
    DataInv_remove _ f hXD hf (by rw [hXm]; exact hking)
  have hm0t : ((hashOutCE b).remove_piece f).mailbox t = NoPiece := by
    rw [remove_piece_mailbox, if_neg htf, hXm]
    exact hemptyT
  have hD1 : DataInv (((hashOutCE b).remove_piece f).put_piece (b.mailbox f) t) :=
    DataInv_put _ (b.mailbox f) t hD0 hking ht hm0t
  have hm1rf : (((hashOutCE b).remove_piece f).put_piece (b.mailbox f) t).mailbox rf
      = b.mailbox rf := by
    rw [put_piece_mailbox, if_neg hrft, remove_piece_mailbox, if_neg hrff, hXm]
  have hD2 : DataInv ((((hashOutCE b).remove_piece f).put_piece (b.mailbox f) t).remove_piece
      rf) :=
    DataInv_remove _ rf hD1 hrf (by rw [hm1rf]; exact hrook)
  have hm2rt : ((((hashOutCE b).remove_piece f).put_piece (b.mailbox f) t).remove_piece
      rf).mailbox rt = NoPiece := by
    rw [remove_piece_mailbox, if_neg hrtrf, put_piece_mailbox, if_neg hrtt,
      remove_piece_mailbox, if_neg hrtf, hXm]
    exact hemptyRT
  have step1 : DataEq
      ((((((hashOutCE b).remove_piece f).put_piece (b.mailbox f) t).remove_piece
        rf).put_piece (b.mailbox rf) rt).remove_piece rt)
      ((((hashOutCE b).remove_piece f).put_piece (b.mailbox f) t).remove_piece rf) :=
    put_remove_cancel _ (b.mailbox rf) rt hD2 hrt hrook hm2rt
  have step2 : DataEq (((((hashOutCE b).remove_piece f).put_piece (b.mailbox f)
        t).remove_piece rf).put_piece (b.mailbox rf) rf)
      (((hashOutCE b).remove_piece f).put_piece (b.mailbox f) t) :=
    remove_put_cancel _ (b.mailbox rf) rf hD1 hrf hrook hm1rf
  have step3 : DataEq ((((hashOutCE b).remove_piece f).put_piece (b.mailbox f)
        t).remove_piece t)
      ((hashOutCE b).remove_piece f) :=
    put_remove_cancel _ (b.mailbox f) t hD0 ht hking hm0t
  have step4 : DataEq (((hashOutCE b).remove_piece f).put_piece (b.mailbox f) f)
      (hashOutCE b) :=
    remove_put_cancel _ (b.mailbox f) f hXD hf hking (by rw [hXm])
  have c1 := remove_piece_DataEq _ _ rt hb2
  have c2 := DataEq_trans _ _ _ c1 step1
  have c3 := put_piece_DataEq _ _ (b.mailbox rf) rf c2
  have c4 := DataEq_trans _ _ _ c3 step2
  have c5 := remove_piece_DataEq _ _ t c4
  have c6 := DataEq_trans _ _ _ c5 step3
  have c7 := put_piece_DataEq _ _ (b.mailbox f) f c6
  have c8 := DataEq_trans _ _ _ c7 step4
  exact DataEq_trans _ _ _ c8 ⟨rfl, rfl, rfl⟩

/-- Making any move satisfying the per-move preconditions and then unmaking
it with the undo record restores the original board. -/
theorem make_unmake_eq (b : Board) (m : Move) (hD : DataInv b)
    (hstm : b.sideToMove < 2) (hpre : MovePre b m) :
    (b.make_move m).unmake_move m (b.make_move_undo m).2 = b := by
  have hufields := make_move_undo_fields b m
  by_cases hmtEP : move_type m = MoveTypeEnPassant
  · have hmtC : ¬(move_type m = MoveTypeCastling) := by rw [hmtEP]; decide
    unfold MovePre at hpre
    rw [if_pos hmtEP] at hpre
    obtain ⟨heplt, htEp, hempT, hmovF, hcapP, hfcap⟩ := hpre
    have hcapinfo := make_move_undo_captured_ep b m hmtEP
    rw [unmake_move_nonCastle_eq (b.make_move m) m _ hmtC, hcapinfo.1, hcapinfo.2,
      hufields.2.1]
    have hstmP : (make_piece b.sideToMove Pawn : Nat) < 12 := by
      have harith : ∀ u : Nat, u < 2 → u * 6 + 0 < 12 := by omega
      exact harith _ hstm
    have hcplP : (make_piece (compl b.sideToMove) Pawn : Nat) < 12 := by
      have harith : ∀ u : Nat, u < 2 → u * 6 + 0 < 12 := by omega
      exact harith _ (compl_lt2 b.sideToMove)
    have hmf : (b.mailbox (move_from m) : Nat) < 12 := by rw [hmovF]; exact hstmP
    have hmcs : (b.mailbox (make_square (square_file (move_to m))
        (square_rank (move_from m))) : Nat) < 12 := by rw [hcapP]; exact hcplP
    have hcsne : b.mailbox (make_square (square_file (move_to m))
        (square_rank (move_from m))) ≠ NoPiece := by
      have harith : ∀ q : Nat, q < 12 → ¬(q = 12) := by omega
      exact harith _ hmcs
    rw [if_pos hcsne]
    have hcs64 : (make_square (square_file (move_to m)) (square_rank (move_from m)) : Nat)
        < 64 := by
      have harith : ∀ F T : Nat, F < 64 → T < 64 → T / 8 * 8 + F % 8 < 64 := by omega
      exact harith _ _ (move_to_lt m) (move_from_lt m)
    have htf : ¬((move_to m : Nat) = move_from m) := by
      intro hq
      rw [← hq] at hmovF
      rw [hempT] at hmovF
      have harith : ∀ u : Nat, u < 2 → ¬((12 : Nat) = u * 6 + 0) := by omega
      exact harith _ hstm hmovF
    have htcs : ¬((move_to m : Nat) = make_square (square_file (move_to m))
        (square_rank (move_from m))) := by
      intro hq
      rw [← hq] at hcapP
      rw [hempT] at hcapP
      have harith : ∀ u : Nat, u < 2 → ¬((12 : Nat) = u * 6 + 0) := by omega
      exact harith _ (compl_lt2 b.sideToMove) hcapP
    have hb2 : DataEq (b.make_move m)
        ((((hashOutCE b).remove_piece (make_square (square_file (move_to m))
          (square_rank (move_from m)))).remove_piece (move_from m)).put_piece
          (b.mailbox (move_from m)) (move_to m)) := by
      rw [make_move_ep_eq b m hmtEP]
      exact ⟨rfl, rfl, rfl⟩
    refine restoreMeta_restores b _ _ ?_ hufields.2.2.1 hufields.2.2.2.1
      hufields.2.2.2.2.1 hufields.2.2.2.2.2.1 hufields.2.2.2.2.2.2.1
      hufields.2.2.2.2.2.2.2
    exact unmake_data_ep b (b.make_move m) (move_from m) (move_to m)
      (make_square (square_file (move_to m)) (square_rank (move_from m))) hD
      (move_from_lt m) (move_to_lt m) hcs64 hmf hmcs hempT htf htcs hfcap hb2
  by_cases hmtC : move_type m = MoveTypeCastling
  · unfold MovePre at hpre
    rw [if_neg hmtEP, if_pos hmtC] at hpre
    rcases hpre with ⟨hfE, htE, hkE, hrE, hemp1, hemp2⟩ | ⟨hfE, htE, hkE, hrE, hemp1, hemp2⟩
      | ⟨hfE, htE, hkE, hrE, hemp1, hemp2⟩ | ⟨hfE, htE, hkE, hrE, hemp1, hemp2⟩
    · -- white kingside: E1-G1, rook H1-F1
      have hks : (move_from m : Nat) < move_to m := by rw [hfE, htE]; decide
      have hmk := make_move_castle_eq b m hmtEP hmtC
      simp only [if_pos hks] at hmk
      rw [hfE, htE] at hmk
      rw [show (make_square 7 (square_rank E1) : Nat) = H1 by decide,
        show (make_square 5 (square_rank E1) : Nat) = F1 by decide] at hmk
      have hrval : (((hashOutCE b).remove_piece E1).put_piece (b.mailbox E1) G1).mailbox H1
          = b.mailbox H1 := by
        rw [put_piece_mailbox, if_neg (show ¬((H1 : Nat) = G1) by decide),
          remove_piece_mailbox, if_neg (show ¬((H1 : Nat) = E1) by decide),
          (hashOutCE_fields b).2.2.1]
      rw [hrval] at hmk
      have hb2 : DataEq (b.make_move m)
          (((((hashOutCE b).remove_piece E1).put_piece (b.mailbox E1) G1).remove_piece
            H1).put_piece (b.mailbox H1) F1) := by
        rw [hmk]
        exact ⟨rfl, rfl, rfl⟩
      rw [unmake_move_castleK_eq (b.make_move m) m _ hmtC hks, hufields.2.1, hfE, htE]
      rw [show (make_square 5 (square_rank E1) : Nat) = F1 by decide,
        show (make_square 7 (square_rank E1) : Nat) = H1 by decide]
      have hrookv : (b.make_move m).mailbox F1 = b.mailbox H1 := by
        rw [hb2.2.2, put_piece_mailbox, if_pos rfl]
      rw [hrookv]
      have hkING : (b.mailbox E1 : Nat) < 12 := by rw [hkE]; decide
      have hrOOK : (b.mailbox H1 : Nat) < 12 := by rw [hrE]; decide
      refine restoreMeta_restores b _ _ ?_ hufields.2.2.1 hufields.2.2.2.1
        hufields.2.2.2.2.1 hufields.2.2.2.2.2.1 hufields.2.2.2.2.2.2.1
        hufields.2.2.2.2.2.2.2
      exact unmake_data_castle b (b.make_move m) E1 G1 H1 F1 hD (by decide) (by decide)
        (by decide) (by decide) hkING hrOOK hemp2 hemp1 (by decide) (by decide)
        (by decide) (by decide) (by decide) (by decide) hb2
    · -- white queenside: E1-C1, rook A1-D1
      have hks : ¬((move_from m : Nat) < move_to m) := by rw [hfE, htE]; decide
      have hmk := make_move_castle_eq b m hmtEP hmtC
      simp only [if_neg hks] at hmk
      rw [hfE, htE] at hmk
      rw [show (make_square 0 (square_rank E1) : Nat) = A1 by decide,
        show (make_square 3 (square_rank E1) : Nat) = D1 by decide] at hmk
      have hrval : (((hashOutCE b).remove_piece E1).put_piece (b.mailbox E1) C1).mailbox A1
          = b.mailbox A1 := by
        rw [put_piece_mailbox, if_neg (show ¬((A1 : Nat) = C1) by decide),
          remove_piece_mailbox, if_neg (show ¬((A1 : Nat) = E1) by decide),
          (hashOutCE_fields b).2.2.1]
      rw [hrval] at hmk
      have hb2 : DataEq (b.make_move m)
          (((((hashOutCE b).remove_piece E1).put_piece (b.mailbox E1) C1).remove_piece
            A1).put_piece (b.mailbox A1) D1) := by
        rw [hmk]
        exact ⟨rfl, rfl, rfl⟩
      rw [unmake_move_castleQ_eq (b.make_move m) m _ hmtC hks, hufields.2.1, hfE, htE]
      rw [show (make_square 3 (square_rank E1) : Nat) = D1 by decide,
        show (make_square 0 (square_rank E1) : Nat) = A1 by decide]
      have hrookv : (b.make_move m).mailbox D1 = b.mailbox A1 := by
        rw [hb2.2.2, put_piece_mailbox, if_pos rfl]
      rw [hrookv]
      have hkING : (b.mailbox E1 : Nat) < 12 := by rw [hkE]; decide
      have hrOOK : (b.mailbox A1 : Nat) < 12 := by rw [hrE]; decide
      refine restoreMeta_restores b _ _ ?_ hufields.2.2.1 hufields.2.2.2.1
        hufields.2.2.2.2.1 hufields.2.2.2.2.2.1 hufields.2.2.2.2.2.2.1
        hufields.2.2.2.2.2.2.2
      exact unmake_data_castle b (b.make_move m) E1 C1 A1 D1 hD (by decide) (by decide)
        (by decide) (by decide) hkING hrOOK hemp1 hemp2 (by decide) (by decide)
        (by decide) (by decide) (by decide) (by decide) hb2
    · -- black kingside: E8-G8, rook H8-F8
      have hks : (move_from m : Nat) < move_to m := by rw [hfE, htE]; decide
      have hmk := make_move_castle_eq b m hmtEP hmtC
      simp only [if_pos hks] at hmk
      rw [hfE, htE] at hmk
      rw [show (make_square 7 (square_rank E8) : Nat) = H8 by decide,
        show (make_square 5 (square_rank E8) : Nat) = F8 by decide] at hmk
      have hrval : (((hashOutCE b).remove_piece E8).put_piece (b.mailbox E8) G8).mailbox H8
          = b.mailbox H8 := by
        rw [put_piece_mailbox, if_neg (show ¬((H8 : Nat) = G8) by decide),
          remove_piece_mailbox, if_neg (show ¬((H8 : Nat) = E8) by decide),
          (hashOutCE_fields b).2.2.1]
      rw [hrval] at hmk
      have hb2 : DataEq (b.make_move m)
          (((((hashOutCE b).remove_piece E8).put_piece (b.mailbox E8) G8).remove_piece
            H8).put_piece (b.mailbox H8) F8) := by
        rw [hmk]
        exact ⟨rfl, rfl, rfl⟩
      rw [unmake_move_castleK_eq (b.make_move m) m _ hmtC hks, hufields.2.1, hfE, htE]
      rw [show (make_square 5 (square_rank E8) : Nat) = F8 by decide,
        show (make_square 7 (square_rank E8) : Nat) = H8 by decide]
      have hrookv : (b.make_move m).mailbox F8 = b.mailbox H8 := by
        rw [hb2.2.2, put_piece_mailbox, if_pos rfl]
      rw [hrookv]
      have hkING : (b.mailbox E8 : Nat) < 12 := by rw [hkE]; decide
      have hrOOK : (b.mailbox H8 : Nat) < 12 := by rw [hrE]; decide
      refine restoreMeta_restores b _ _ ?_ hufields.2.2.1 hufields.2.2.2.1
        hufields.2.2.2.2.1 hufields.2.2.2.2.2.1 hufields.2.2.2.2.2.2.1
        hufields.2.2.2.2.2.2.2
      exact unmake_data_castle b (b.make_move m) E8 G8 H8 F8 hD (by decide) (by decide)
        (by decide) (by decide) hkING hrOOK hemp2 hemp1 (by decide) (by decide)
        (by decide) (by decide) (by decide) (by decide) hb2
    · -- black queenside: E8-C8, rook A8-D8
      have hks : ¬((move_from m : Nat) < move_to m) := by rw [hfE, htE]; decide
      have hmk := make_move_castle_eq b m hmtEP hmtC
      simp only [if_neg hks] at hmk
      rw [hfE, htE] at hmk
      rw [show (make_square 0 (square_rank E8) : Nat) = A8 by decide,
        show (make_square 3 (square_rank E8) : Nat) = D8 by decide] at hmk
      have hrval : (((hashOutCE b).remove_piece E8).put_piece (b.mailbox E8) C8).mailbox A8
          = b.mailbox A8 := by
        rw [put_piece_mailbox, if_neg (show ¬((A8 : Nat) = C8) by decide),
          remove_piece_mailbox, if_neg (show ¬((A8 : Nat) = E8) by decide),
          (hashOutCE_fields b).2.2.1]
      rw [hrval] at hmk
      have hb2 : DataEq (b.make_move m)
          (((((hashOutCE b).remove_piece E8).put_piece (b.mailbox E8) C8).remove_piece
            A8).put_piece (b.mailbox A8) D8) := by
        rw [hmk]
        exact ⟨rfl, rfl, rfl⟩
      rw [unmake_move_castleQ_eq (b.make_move m) m _ hmtC hks, hufields.2.1, hfE, htE]
      rw [show (make_square 3 (square_rank E8) : Nat) = D8 by decide,
        show (make_square 0 (square_rank E8) : Nat) = A8 by decide]
      have hrookv : (b.make_move m).mailbox D8 = b.mailbox A8 := by
        rw [hb2.2.2, put_piece_mailbox, if_pos rfl]
      rw [hrookv]
      have hkING : (b.mailbox E8 : Nat) < 12 := by rw [hkE]; decide
      have hrOOK : (b.mailbox A8 : Nat) < 12 := by rw [hrE]; decide
      refine restoreMeta_restores b _ _ ?_ hufields.2.2.1 hufields.2.2.2.1
        hufields.2.2.2.2.1 hufields.2.2.2.2.2.1 hufields.2.2.2.2.2.2.1
        hufields.2.2.2.2.2.2.2
      exact unmake_data_castle b (b.make_move m) E8 C8 A8 D8 hD (by decide) (by decide)
        (by decide) (by decide) hkING hrOOK hemp1 hemp2 (by decide) (by decide)
        (by decide) (by decide) (by decide) (by decide) hb2
  -- normal and promotion moves
  unfold MovePre at hpre
  rw [if_neg hmtEP, if_neg hmtC] at hpre
  obtain ⟨hmf, hft, hnorm⟩ := hpre
  have hcapinfo := make_move_undo_captured b m hmtEP
  rw [unmake_move_nonCastle_eq (b.make_move m) m _ hmtC, hcapinfo.1, hcapinfo.2,
    hufields.2.1]
  by_cases hcap : b.mailbox (move_to m) ≠ NoPiece
  · rw [if_pos hcap]
    have hmt12 : (b.mailbox (move_to m) : Nat) < 12 := by
      have h13 := hD.2.2.1 (move_to m) (move_to_lt m)
      have harith : ∀ q : Nat, q < 13 → ¬(q = 12) → q < 12 := by omega
      exact harith _ h13 hcap
    by_cases hmtP : move_type m = MoveTypePromotion
    · have hb2 : DataEq (b.make_move m)
          ((((hashOutCE b).remove_piece (move_to m)).remove_piece (move_from m)).put_piece
            (make_piece b.sideToMove (promotion_type m)) (move_to m)) := by
        rw [make_move_promoCap_eq b m hmtEP hmtC hmtP hcap]
        exact ⟨rfl, rfl, rfl⟩
      refine restoreMeta_restores b _ _ ?_ hufields.2.2.1 hufields.2.2.2.1
        hufields.2.2.2.2.1 hufields.2.2.2.2.2.1 hufields.2.2.2.2.2.2.1
        hufields.2.2.2.2.2.2.2
      exact unmake_data_capture b (b.make_move m) (move_from m) (move_to m)
        (make_piece b.sideToMove (promotion_type m)) hD (move_from_lt m) (move_to_lt m)
        (promo_lt b m hstm) hmf hmt12 hft hb2
    · have hb2 : DataEq (b.make_move m)
          ((((hashOutCE b).remove_piece (move_to m)).remove_piece (move_from m)).put_piece
            (b.mailbox (move_from m)) (move_to m)) := by
        rw [make_move_capture_eq b m hmtEP hmtC hmtP hcap]
        exact ⟨rfl, rfl, rfl⟩
      refine restoreMeta_restores b _ _ ?_ hufields.2.2.1 hufields.2.2.2.1
        hufields.2.2.2.2.1 hufields.2.2.2.2.2.1 hufields.2.2.2.2.2.2.1
        hufields.2.2.2.2.2.2.2
      exact unmake_data_capture b (b.make_move m) (move_from m) (move_to m)
        (b.mailbox (move_from m)) hD (move_from_lt m) (move_to_lt m)
        hmf hmf hmt12 hft hb2
  · rw [if_neg hcap]
    have hempty : b.mailbox (move_to m) = NoPiece := not_not.mp hcap
    have hne : ¬((move_to m : Nat) = move_from m) := fun h => hft h.symm
    by_cases hmtP : move_type m = MoveTypePromotion
    · have hb2 : DataEq (b.make_move m)
          (((hashOutCE b).remove_piece (move_from m)).put_piece
            (make_piece b.sideToMove (promotion_type m)) (move_to m)) := by
        rw [make_move_promoQuiet_eq b m hmtEP hmtC hmtP hcap]
        exact ⟨rfl, rfl, rfl⟩
      refine restoreMeta_restores b _ _ ?_ hufields.2.2.1 hufields.2.2.2.1
        hufields.2.2.2.2.1 hufields.2.2.2.2.2.1 hufields.2.2.2.2.2.2.1
        hufields.2.2.2.2.2.2.2
      exact unmake_data_quiet b (b.make_move m) (move_from m) (move_to m)
        (make_piece b.sideToMove (promotion_type m)) hD (move_from_lt m) (move_to_lt m)
        (promo_lt b m hstm) hmf hne hempty hb2
    · have hb2 : DataEq (b.make_move m)
          (((hashOutCE b).remove_piece (move_from m)).put_piece
            (b.mailbox (move_from m)) (move_to m)) := by
        by_cases hpt : piece_type (b.mailbox (move_from m)) = Pawn
        · rw [make_move_pawnQuiet_eq b m hmtEP hmtC hmtP hcap hpt]
          exact ⟨rfl, rfl, rfl⟩
        · rw [make_move_quiet_eq b m hmtEP hmtC hmtP hcap hpt]
          exact ⟨rfl, rfl, rfl⟩
      refine restoreMeta_restores b _ _ ?_ hufields.2.2.1 hufields.2.2.2.1
        hufields.2.2.2.2.1 hufields.2.2.2.2.2.1 hufields.2.2.2.2.2.2.1
        hufields.2.2.2.2.2.2.2
      exact unmake_data_quiet b (b.make_move m) (move_from m) (move_to m)
        (b.mailbox (move_from m)) hD (move_from_lt m) (move_to_lt m)
        hmf hmf hne hempty hb2

/-- C2: making a legal move with make_move(m, undo) and then calling
unmake_move(m, undo) restores the original board bit-identically, hence in
particular the same FEN string and the same Zobrist hash. -/
theorem C2_make_unmake (b : Board) (m : Move) (hOK : BoardOK b)
    (hm : m ∈ generate_legal b) :
    ((b.make_move_undo m).1.unmake_move m (b.make_move_undo m).2) = b ∧
    ((b.make_move_undo m).1.unmake_move m (b.make_move_undo m).2).to_fen = b.to_fen ∧
    ((b.make_move_undo m).1.unmake_move m (b.make_move_undo m).2).hash = b.hash := by
  obtain ⟨hD, hstm, hepo, hcr, hh⟩ := hOK
  have hpre := generate_legal_pre b m hD hstm hepo hcr hm
  have hmain : ((b.make_move_undo m).1.unmake_move m (b.make_move_undo m).2) = b := by
    rw [(make_move_undo_fields b m).1]
    exact make_unmake_eq b m hD hstm hpre
  exact ⟨hmain, by rw [hmain], by rw [hmain]⟩

/-- Witness for C2: the pawn push a2a3 from the start position. -/
theorem C2_make_unmake_witness :
    BoardOK (Board.empty.set_fen StartFEN) ∧
    (1032 : Move) ∈ generate_legal (Board.empty.set_fen StartFEN) ∧
    ((Board.empty.set_fen StartFEN).make_move_undo 1032).1.unmake_move 1032
        ((Board.empty.set_fen StartFEN).make_move_undo 1032).2
      = Board.empty.set_fen StartFEN := by
  have hOK : BoardOK (Board.empty.set_fen StartFEN) :=
    set_fen_BoardOK Board.empty StartFEN
      ⟨Board.empty.set_fen StartFEN,
        ⟨by decide, by decide, by decide, by decide,
          fun h => absurd (by decide) h, by
            refine ⟨?_, ?_, ?_, ?_⟩ <;> · intro h; exact ⟨by decide, by decide⟩⟩,
        by decide⟩
  have hm : (1032 : Move) ∈ generate_legal (Board.empty.set_fen StartFEN) := by decide
  exact ⟨hOK, hm, (C2_make_unmake _ 1032 hOK hm).1⟩

/-- isThreefoldRepetition reads only the repetition stack of the state. -/
theorem isThreefold_state_congr {b : Board} {st1 st2 : SearchState} {rep : Nat}
    (h : st1.repetitionHistory = st2.repetitionHistory) :
    isThreefoldRepetition b st1 rep = isThreefoldRepetition b st2 rep := by
  simp only [isThreefoldRepetition, h]

/-- With an empty repetition stack there is never a threefold repetition. -/
theorem isThreefold_nil {b : Board} {st : SearchState} {rep : Nat}
    (h : st.repetitionHistory = []) : isThreefoldRepetition b st rep = false := by
  simp [isThreefoldRepetition, h]

/-! ## Claim C5: the 50-move draw in negamax

In the code, terminal detection runs before the 50-move check: a position with
no legal moves returns the mate or stalemate score even when the halfmove
clock has reached 100, so the draw does not take precedence over terminal
detection; the claim holds only for positions that still have a legal move. -/

/-- C5 counterexample: a checkmate position with halfmove clock 100.  The
claim says negamax returns 0 on every such 50-move-draw position; the code
returns the mate score -MATE_SCORE instead. -/
theorem C5_fifty_move_rule_counterexample :
    (Board.empty.set_fen "7k/6Q1/6K1/8/8/8/8/8 b - - 100 1").halfmoveClock ≥ 100 ∧
    (negamax 1 (fun _ _ => 1) (Board.empty.set_fen "7k/6Q1/6K1/8/8/8/8/8 b - - 100 1")
        3 (-200000) 200000 (SearchState.initial (TranspositionTable.fresh 0)) 0 0 true).1 =
      -MATE_SCORE ∧
    (-MATE_SCORE : Int) ≠ 0 := by
  refine ⟨by decide, ?_, by decide⟩
  have hmoves : (generate_legal (Board.empty.set_fen "7k/6Q1/6K1/8/8/8/8/8 b - - 100 1")).length
      = 0 := by decide
  have hchk : in_check (Board.empty.set_fen "7k/6Q1/6K1/8/8/8/8/8 b - - 100 1") = true := by
    decide
  rw [negamax]
  simp [SearchState.initial, TranspositionTable.fresh, isThreefold_nil, hmoves, hchk]

/-- C5 amended.  With the search not stopped, at a halfmove clock of at least
100 negamax returns 0 whenever the position still has a legal move (both on
the repetition path and on the 50-move path); when there is no legal move,
terminal detection takes precedence and a position in check returns the mate
score -MATE_SCORE + ply rather than 0. -/
theorem C5_fifty_move_rule_amended (fuel : Nat) (lmr : Nat → Nat → Int) (b : Board)
    (depth alpha beta : Int) (st : SearchState) (ply repIndex : Nat) (allowNull : Bool)
    (hst : st.stopped = false) (hhm : b.halfmoveClock ≥ 100) (hfuel : 1 ≤ fuel) :
    (generate_legal b ≠ [] →
      (negamax fuel lmr b depth alpha beta st ply repIndex allowNull).1 = 0) ∧
    (generate_legal b = [] → in_check b = true →
      isThreefoldRepetition b st repIndex = false →
      (negamax fuel lmr b depth alpha beta st ply repIndex allowNull).1 =
        -MATE_SCORE + ply) := by
  obtain ⟨f, rfl⟩ : ∃ f, fuel = f + 1 := ⟨fuel - 1, by omega⟩
  have hdraw : is_draw_by_fifty_move_rule b = true := by
    simp [is_draw_by_fifty_move_rule, hhm]
  have hcongr : ∀ n : Nat, isThreefoldRepetition b { st with stopped := false, nodes := n }
      repIndex = isThreefoldRepetition b st repIndex := fun n => isThreefold_state_congr rfl
  constructor
  · intro hmoves
    rw [negamax]
    simp only [hst, Bool.false_eq_true, if_false]
    rw [hcongr]
    by_cases hrep3 : isThreefoldRepetition b st repIndex
    · simp [hrep3]
    · have hlen : ¬((generate_legal b).length = 0) := by
        simpa [List.length_eq_zero] using hmoves
      simp [hrep3, hlen, hdraw]
  · intro hmoves hchk hrep
    rw [negamax]
    simp only [hst, Bool.false_eq_true, if_false]
    rw [hcongr]
    have hlen : (generate_legal b).length = 0 := by simp [hmoves]
    simp [hrep, hlen, hchk]

/-- Witness for the amended C5 at the checkmate board with halfmove clock 100. -/
theorem C5_fifty_move_rule_amended_witness :
    (SearchState.initial (TranspositionTable.fresh 0)).stopped = false ∧
    (Board.empty.set_fen "7k/6Q1/6K1/8/8/8/8/8 b - - 100 1").halfmoveClock ≥ 100 ∧
    generate_legal (Board.empty.set_fen "7k/6Q1/6K1/8/8/8/8/8 b - - 100 1") = [] ∧
    in_check (Board.empty.set_fen "7k/6Q1/6K1/8/8/8/8/8 b - - 100 1") = true ∧
    (negamax 2 (fun _ _ => 1) (Board.empty.set_fen "7k/6Q1/6K1/8/8/8/8/8 b - - 100 1")
        3 (-200000) 200000 (SearchState.initial (TranspositionTable.fresh 0)) 5 0 true).1 =
      -MATE_SCORE + 5 :=
  ⟨rfl, by decide, by decide, by decide,
    (C5_fifty_move_rule_amended 2 (fun _ _ => 1)
        (Board.empty.set_fen "7k/6Q1/6K1/8/8/8/8/8 b - - 100 1")
        3 (-200000) 200000 (SearchState.initial (TranspositionTable.fresh 0)) 5 0 true
        rfl (by decide) (by decide)).2 (by decide) (by decide) (by decide)⟩

/-! ## Claim C6: quiescence stand-pat behavior

When not in check, the code returns beta as soon as the stand-pat evaluation
reaches beta (fail-hard), so with a window below the static evaluation the
returned value is beta, strictly below the evaluation: quiescence does not
always return at least stand-pat, only at least min(stand-pat, beta).  The
in-check clause of the claim (all evasions searched, no stand-pat, mate score
on no legal move) does hold. -/

/-- writeRep does not touch the stop flag. -/
theorem writeRep_stopped (st : SearchState) (idx h : Nat) :
    (writeRep st idx h).stopped = st.stopped := by
  unfold writeRep
  split <;> rfl

/-- Nothing in quiescence, qStep or qLoop sets the stop flag: with no time
limit and no external stop flag, checkTime never fires. -/
theorem q_stopped_invariant : ∀ fuel : Nat,
    (∀ b a β st ply rep,
      (quiescence fuel b a β st ply rep).2.stopped = st.stopped) ∧
    (∀ b qm a β st ply rep ic,
      (qStep fuel b qm a β st ply rep ic).2.stopped = st.stopped) ∧
    (∀ b ms i a β st ply rep ic,
      (qLoop fuel b ms i a β st ply rep ic).2.stopped = st.stopped) := by
  intro fuel
  induction fuel with
  | zero =>
    refine ⟨?_, ?_, ?_⟩
    · intro b a β st ply rep; rw [quiescence]
    · intro b qm a β st ply rep ic; rw [qStep]
    · intro b ms i a β st ply rep ic; rw [qLoop]
  | succ fuel ih =>
    obtain ⟨ihq, ihs, ihl⟩ := ih
    refine ⟨?_, ?_, ?_⟩
    · intro b a β st ply rep
      rw [quiescence]
      dsimp only
      split_ifs <;> simp [ihs]
    · intro b qm a β st ply rep ic
      rw [qStep]
      dsimp only
      split_ifs <;> simp [ihl]
    · intro b ms i a β st ply rep ic
      rw [qLoop]
      dsimp only
      split_ifs <;> simp [ihq, ihl, writeRep_stopped]

/-- The quiescence capture loop never returns less than min(alpha, beta) when
the search is not stopped. -/
theorem qLoop_ge : ∀ fuel : Nat, ∀ b ms i a β st ply rep ic,
    st.stopped = false → min a β ≤ (qLoop fuel b ms i a β st ply rep ic).1 := by
  intro fuel
  induction fuel with
  | zero =>
    intro b ms i a β st ply rep ic _
    rw [qLoop]
    exact min_le_left a β
  | succ fuel ih =>
    intro b ms i a β st ply rep ic hst
    have hinv := (q_stopped_invariant fuel).1
    rw [qLoop]
    dsimp only
    split_ifs with h1 h2 h3 h4 h5
    · exact min_le_left a β
    · exact ih b _ (i + 1) a β st ply rep ic hst
    · exfalso
      rw [hinv, writeRep_stopped, hst] at h3
      exact Bool.false_ne_true h3
    · exact min_le_right a β
    · refine le_trans (min_le_min (le_of_lt h5) (le_refl β)) ?_
      exact ih b _ (i + 1) _ β _ ply rep ic (by rw [hinv, writeRep_stopped]; exact hst)
    · exact ih b _ (i + 1) a β _ ply rep ic (by rw [hinv, writeRep_stopped]; exact hst)

/-- The entry stage of the quiescence loop never returns less than
min(alpha, beta) when not in check. -/
theorem qStep_ge : ∀ fuel : Nat, ∀ b qm a β st ply rep,
    st.stopped = false → min a β ≤ (qStep fuel b qm a β st ply rep false).1 := by
  intro fuel
  match fuel with
  | 0 =>
    intro b qm a β st ply rep _
    rw [qStep]
    exact min_le_left a β
  | fuel + 1 =>
    intro b qm a β st ply rep hst
    rw [qStep]
    by_cases hlen : qm.length = 0
    · simpa [hlen] using min_le_left a β
    · simpa [hlen] using qLoop_ge fuel b (qm.map fun m => (m, mvvLvaScore b m)) 0 a β st
        ply rep false hst

/-- C6 counterexample: with both kings alone and White to move (static
evaluation 0, not in check), searching the window (-20, -10) returns the
fail-hard beta value -10, strictly below the stand-pat evaluation, so
quiescence does not return at least the static evaluation. -/
theorem C6_quiescence_counterexample :
    in_check (Board.empty.set_fen "4k3/8/8/8/8/8/8/4K3 w - - 0 1") = false ∧
    ((-20 : Int) < -10) ∧
    evaluate (Board.empty.set_fen "4k3/8/8/8/8/8/8/4K3 w - - 0 1") = 0 ∧
    (quiescence 2 (Board.empty.set_fen "4k3/8/8/8/8/8/8/4K3 w - - 0 1") (-20) (-10)
      (SearchState.initial (TranspositionTable.fresh 0)) 0 0).1 = -10 ∧
    ¬(evaluate (Board.empty.set_fen "4k3/8/8/8/8/8/8/4K3 w - - 0 1") ≤
      (quiescence 2 (Board.empty.set_fen "4k3/8/8/8/8/8/8/4K3 w - - 0 1") (-20) (-10)
        (SearchState.initial (TranspositionTable.fresh 0)) 0 0).1) := by
  have hchk : in_check (Board.empty.set_fen "4k3/8/8/8/8/8/8/4K3 w - - 0 1") = false := by
    decide
  have hev : evaluate (Board.empty.set_fen "4k3/8/8/8/8/8/8/4K3 w - - 0 1") = 0 := by decide
  have hq : (quiescence 2 (Board.empty.set_fen "4k3/8/8/8/8/8/8/4K3 w - - 0 1") (-20) (-10)
      (SearchState.initial (TranspositionTable.fresh 0)) 0 0).1 = -10 := by
    rw [quiescence]
    simp [SearchState.initial, TranspositionTable.fresh, isThreefold_nil, hchk, hev]
  refine ⟨hchk, by decide, hev, hq, ?_⟩
  rw [hq, hev]
  decide

/-- C6 amended.  With the search not stopped and no repetition at the node:
when the side to move is not in check, quiescence returns at least
min(stand-pat, beta) — it returns exactly beta when the static evaluation
reaches beta, which can be strictly below the evaluation; when in check it
searches all legal evasions without stand-pat and returns the mate score
-MATE_SCORE + ply when there is none. -/
theorem C6_quiescence_amended (fuel : Nat) (b : Board) (alpha beta : Int)
    (st : SearchState) (ply repIndex : Nat) (hst : st.stopped = false)
    (hrep : isThreefoldRepetition b st repIndex = false) (hfuel : 1 ≤ fuel) :
    (in_check b = false →
      min (evaluate b) beta ≤ (quiescence fuel b alpha beta st ply repIndex).1) ∧
    (in_check b = true → generate_legal b = [] → 2 ≤ fuel →
      (quiescence fuel b alpha beta st ply repIndex).1 = -MATE_SCORE + ply) := by
  obtain ⟨f, rfl⟩ : ∃ f, fuel = f + 1 := ⟨fuel - 1, by omega⟩
  have hcongr : ∀ n : Nat, isThreefoldRepetition b { st with stopped := false, nodes := n }
      repIndex = isThreefoldRepetition b st repIndex := fun n => isThreefold_state_congr rfl
  constructor
  · intro hchk
    rw [quiescence]
    simp only [hst, Bool.false_eq_true, if_false]
    rw [hcongr]
    simp only [hrep, Bool.false_eq_true, if_false, hchk]
    by_cases hsp : evaluate b ≥ beta
    · simpa [hsp] using min_le_right (evaluate b) beta
    · simp only [hsp, if_false]
      have hstep := qStep_ge f b ((generate_legal b).filter (fun m => isCapture b m))
        (if evaluate b > alpha then evaluate b else alpha) beta
        { st with stopped := false, nodes := st.nodes + 1 } ply repIndex rfl
      refine le_trans ?_ hstep
      refine min_le_min ?_ (le_refl beta)
      by_cases hgt : evaluate b > alpha
      · simp [hgt]
      · simp [hgt]
        omega
  · intro hchk hmoves hf2
    obtain ⟨f0, rfl⟩ : ∃ f0, f = f0 + 1 := ⟨f - 1, by omega⟩
    rw [quiescence]
    simp only [hst, Bool.false_eq_true, if_false]
    rw [hcongr]
    simp only [hrep, Bool.false_eq_true, if_false, hchk]
    rw [qStep]
    simp [hmoves]

/-- Witness for the amended C6 at the bare-kings board with a full window. -/
theorem C6_quiescence_amended_witness :
    (SearchState.initial (TranspositionTable.fresh 0)).stopped = false ∧
    isThreefoldRepetition (Board.empty.set_fen "4k3/8/8/8/8/8/8/4K3 w - - 0 1")
      (SearchState.initial (TranspositionTable.fresh 0)) 0 = false ∧
    in_check (Board.empty.set_fen "4k3/8/8/8/8/8/8/4K3 w - - 0 1") = false ∧
    min (evaluate (Board.empty.set_fen "4k3/8/8/8/8/8/8/4K3 w - - 0 1")) 50 ≤
      (quiescence 3 (Board.empty.set_fen "4k3/8/8/8/8/8/8/4K3 w - - 0 1") (-50) 50
        (SearchState.initial (TranspositionTable.fresh 0)) 0 0).1 :=
  ⟨rfl, by decide, by decide,
    (C6_quiescence_amended 3 (Board.empty.set_fen "4k3/8/8/8/8/8/8/4K3 w - - 0 1")
      (-50) 50 (SearchState.initial (TranspositionTable.fresh 0)) 0 0 rfl (by decide)
      (by decide)).1 (by decide)⟩

/-! ## Claim C9: error handling of the position command

parsePosition performs no validation at all: a fen variant always calls
set_fen on whatever text was collected (set_fen starts from a cleared board,
so the prior state is wholly discarded even when the FEN is garbage), and a
move token that does not parse to a legal move is skipped individually while
the remaining tokens are still applied.  The command is never ignored and the
prior board state is not preserved. -/

/-- C9 counterexample: the command `position fen zzz` has an illegal FEN, yet
the board is not left unchanged: starting from the start position (rook on
a1), the resulting board has an empty a1 square, because set_fen is applied
unconditionally and clears the board before parsing. -/
theorem C9_position_error_handling_counterexample :
    (Board.empty.set_fen StartFEN).mailbox 0 = WhiteRook ∧
    (parsePosition (Board.empty.set_fen StartFEN)
        ["fen".data, "zzz".data]).mailbox 0 = NoPiece ∧
    parsePosition (Board.empty.set_fen StartFEN) ["fen".data, "zzz".data] ≠
      Board.empty.set_fen StartFEN := by
  refine ⟨by decide, by decide, fun h => ?_⟩
  exact absurd (congrArg (fun bd => bd.mailbox 0) h) (by decide)

/-- C9 amended.  The code does the opposite of ignoring a bad command: a move
token that does not parse to a legal move is skipped on its own while the
following tokens are still processed, and a `position fen` command applies
set_fen to the collected text unconditionally, so the result never depends on
the engine's prior board state (no validation, no state preservation). -/
theorem C9_position_error_handling_amended (b b2 : Board) (t : List Char)
    (rest toks : List (List Char)) (hbad : parseUCIMove b t = NullMove) :
    applyMoves b (t :: rest) = applyMoves b rest ∧
    parsePosition b ("fen".data :: toks) = parsePosition b2 ("fen".data :: toks) := by
  constructor
  · rw [applyMoves]
    simp [hbad]
  · rfl

/-- Witness for the amended C9: the unparseable move text zzzz and the
illegal FEN zzz, from the start position and from the empty board. -/
theorem C9_position_error_handling_amended_witness :
    parseUCIMove (Board.empty.set_fen StartFEN) "zzzz".data = NullMove ∧
    (applyMoves (Board.empty.set_fen StartFEN) ["zzzz".data, "e2e4".data] =
        applyMoves (Board.empty.set_fen StartFEN) ["e2e4".data] ∧
      parsePosition (Board.empty.set_fen StartFEN) ["fen".data, "zzz".data] =
        parsePosition Board.empty ["fen".data, "zzz".data]) :=
  ⟨by decide,
    C9_position_error_handling_amended (Board.empty.set_fen StartFEN) Board.empty
      "zzzz".data ["e2e4".data] ["zzz".data] (by decide)⟩

/-! ## Claim C10: side-to-move antisymmetry of the handcrafted evaluation

evaluate_handcrafted computes its tapered score from the piece bitboards and
occupancy alone (White's perspective) and uses the side to move only for the
final sign flip, so two boards with the same placement and opposite sides to
move evaluate to exactly negated values. -/

/-- C10: the handcrafted evaluator is antisymmetric in the side to move.  For
boards with identical piece placement (bitboards, occupancy, mailbox),
castling rights and en-passant square, one with White and one with Black to
move, the evaluations are exact negations: the score is computed from
placement alone and only its sign depends on the side to move. -/
theorem C10_eval_side_antisymmetry (b1 b2 : Board)
    (hBB : b1.pieceBB = b2.pieceBB) (hOcc : b1.occupancy = b2.occupancy)
    (hMail : b1.mailbox = b2.mailbox) (hCast : b1.castling = b2.castling)
    (hEp : b1.epSquare = b2.epSquare)
    (h1 : b1.sideToMove = White) (h2 : b2.sideToMove = Black) :
    evaluate_handcrafted b2 = -(evaluate_handcrafted b1) := by
  simp only [evaluate_handcrafted, evalPawns, evalMobility, evalPieces, evalKingSafety,
    Board.byColorType, Board.byColor, Board.all_pieces, hBB, hOcc, h1, h2]
  simp [White, Black]

/-- Witness for C10 at a rook-up position and its side-flipped twin. -/
theorem C10_eval_side_antisymmetry_witness :
    (Board.empty.set_fen "k7/8/8/8/8/8/8/K6R w - - 0 1").sideToMove = White ∧
    ({ Board.empty.set_fen "k7/8/8/8/8/8/8/K6R w - - 0 1" with
        sideToMove := Black } : Board).sideToMove = Black ∧
    evaluate_handcrafted ({ Board.empty.set_fen "k7/8/8/8/8/8/8/K6R w - - 0 1" with
        sideToMove := Black } : Board) =
      -(evaluate_handcrafted (Board.empty.set_fen "k7/8/8/8/8/8/8/K6R w - - 0 1")) :=
  ⟨by decide, rfl,
    C10_eval_side_antisymmetry (Board.empty.set_fen "k7/8/8/8/8/8/8/K6R w - - 0 1")
      ({ Board.empty.set_fen "k7/8/8/8/8/8/8/K6R w - - 0 1" with sideToMove := Black })
      rfl rfl rfl rfl rfl (by decide) rfl⟩

/-- Witness for the amended C8 at a 60 second clock with 1 second increment. -/
theorem C8_time_management_amended_witness :
    ((60000 : Int) > 0 ∨ (0 : Int) > 0) ∧
    computeTimeLimit 60000 0 1000 0 0 0 false White =
      max (min ((60000 : Int).tdiv 30 + ((1000 : Int) * 3).tdiv 4)
            (max (60000 - MOVE_OVERHEAD_MS) MIN_SEARCH_MS)) MIN_SEARCH_MS := by
  refine ⟨Or.inl (by decide), ?_⟩
  have h := C8_time_management_amended 60000 0 1000 0 0 White (Or.inl (by decide))
  simpa using h

end Panda
